import Mathlib

/-! # L-SMASH remuxer / timeline editor: scheduler and timescale reconciliation

A shallow embedding of the parts of `cli/remuxer.c` and `cli/timelineeditor.c`
that decide how samples are interleaved, how fragments and segments are cut and
how a track's timescale/timebase pair is derived, followed by theorems about
them.

Conventions of the embedding.

* C arrays are lists; a 1-based C access `a[n - 1]` is `at1 a n`, which is `none`
  for `n = 0` (the unsigned `n - 1` wraps far out of bounds) and past the end.
  An out-of-bounds access makes the enclosing operation `undef`.
* `uint32_t`/`uint64_t` values are natural numbers; every increment, decrement
  and subtraction that C performs on them is written with its wrap-around.
* The C type `double` is an abstract type `D` with the operations the code uses
  (`C_double`); nothing is assumed about them, so every general statement holds
  for any arithmetic on `double`.  `Frac` is an exact, executable instance.
* The container library (the `lsmash_*` functions) is a parameter `Engine`:
  the media timeline of every input track is a function of the sample number,
  and each writing call may succeed or fail depending on the calls made so far.
  The calls made are recorded, in order, in `events`.
-/

namespace LSmash

/-! ## Machine integers and arrays -/

/-- Range of `uint32_t`. -/
def U32 : Nat := 4294967296

/-- Range of `uint64_t`. -/
def U64 : Nat := 18446744073709551616

/-- The increment `++x` on a `uint32_t`. -/
def inc32 (x : Nat) : Nat := (x + 1) % U32

/-- The decrement `--x` on a `uint32_t`. -/
def dec32 (x : Nat) : Nat := (x + U32 - 1) % U32

/-- The sum `a + b` on `uint64_t`. -/
def add64 (a b : Nat) : Nat := (a + b) % U64

/-- The difference `a - b` on `uint64_t`. -/
def sub64 (a b : Nat) : Nat := (a + U64 - b % U64) % U64

/-- The C access `a[n - 1]` with an unsigned 1-based `n`. -/
def at1 {α : Type} (a : List α) (n : Nat) : Option α :=
  if n = 0 then none else a[n - 1]?

/-- The C store `a[n - 1] = x` with an unsigned 1-based `n`; it is only used
after `at1 a n` succeeded, and leaves the list unchanged otherwise. -/
def set1 {α : Type} (a : List α) (n : Nat) (x : α) : List α :=
  if n = 0 then a else a.set (n - 1) x

/-! ## The C type `double` -/

/-- The operations on `double` that the scheduler uses. -/
class C_double (D : Type) where
  /-- The conversion `(double)x` of an unsigned integer. -/
  ofU64 : Nat → D
  /-- The quotient `a / b`. -/
  div : D → D → D
  /-- The difference `a - b`. -/
  sub : D → D → D
  /-- The comparison `a <= b`. -/
  le : D → D → Bool
  /-- The comparison `a < b`. -/
  lt : D → D → Bool
  /-- The comparison `a != 0.0`. -/
  nonzero : D → Bool

/-- An exact fraction `num / den`: the operations on `double` without rounding,
used to run the model on concrete inputs.  What holds for every input is stated
over the class `C_double`, for every implementation of `double`; the IEEE 754
arithmetic is `B64`. -/
structure Frac where
  /-- Numerator. -/
  num : Int
  /-- Denominator. -/
  den : Nat
deriving DecidableEq

instance : C_double Frac where
  ofU64 n := ⟨(n : Int), 1⟩
  div a b := ⟨a.num * (b.den : Int) * Int.sign b.num, a.den * b.num.natAbs⟩
  sub a b := ⟨a.num * (b.den : Int) - b.num * (a.den : Int), a.den * b.den⟩
  le a b := decide (a.num * (b.den : Int) ≤ b.num * (a.den : Int))
  lt a b := decide (a.num * (b.den : Int) < b.num * (a.den : Int))
  nonzero a := decide (a.num ≠ 0)

/-! ## `timelineeditor.c`: greatest common divisor and media timebase -/

/-- The `while( 1 )` loop of `get_gcd` (timelineeditor.c:353-360); it is entered
with `b ≠ 0` and keeps `b ≠ 0`, so the first branch is never taken from
`get_gcd`. -/
def get_gcd_loop (a b : Nat) : Nat :=
  if hb : b = 0 then a
  else
    let c := a % b
    if c = 0 then b else get_gcd_loop b c
termination_by b
decreasing_by exact Nat.mod_lt _ (Nat.pos_of_ne_zero hb)

/-- The function `get_gcd` (timelineeditor.c:349-361). -/
def get_gcd (a b : Nat) : Nat :=
  if b = 0 then a else get_gcd_loop a b

/-- The function `get_lcm` (timelineeditor.c:363-368), on `uint64_t`. -/
def get_lcm (a b : Nat) : Nat :=
  if a = 0 then 0 else ((a / get_gcd a b) * b) % U64

/-- One entry of `lsmash_media_ts_list_t`. -/
structure lsmash_media_ts_t where
  /-- Decode timestamp. -/
  dts : Nat
  /-- Composition timestamp. -/
  cts : Nat
deriving DecidableEq

/-- The function `get_media_timebase` (timelineeditor.c:370-378); the list is the array
`timestamp[0 .. sample_count - 1]`, and reading `timestamp[0]` of an empty list
is out of bounds. -/
def get_media_timebase (ts_list : List lsmash_media_ts_t) : Option Nat :=
  match ts_list with
  | [] => none
  | t0 :: rest =>
    let timebase := rest.foldl (fun tb t => get_gcd tb t.cts) t0.cts
    some (ts_list.foldl (fun tb t => get_gcd tb t.dts) timebase)

/-- The reduction of `edit_media_timeline` (timelineeditor.c:739-742):
`reduce = get_gcd( timescale, timebase )`, then both are divided by it. -/
def reduce_timescale_timebase (timescale timebase : Nat) : Nat × Nat :=
  let reduce := get_gcd timescale timebase
  (timescale / reduce, timebase / reduce)

/-- Lines 719-744 of `edit_media_timeline` when neither `opt->media_timescale`
nor `opt->media_timebase` is given (native mode): the timebase is taken from the
timestamps, a zero timebase is an error, and the pair is reduced.  The result
is the pair `(timescale, timebase)`. -/
def native_timescale_timebase (orig_timescale : Nat)
    (ts_list : List lsmash_media_ts_t) : Option (Nat × Nat) :=
  match get_media_timebase ts_list with
  | none => none
  | some timebase =>
    if timebase = 0 then none
    else some (reduce_timescale_timebase orig_timescale timebase)

/-! ## `remuxer.c`: data model -/

/-- The fields of `lsmash_sample_t` that the remuxer reads or writes
(`prop.ra_flags` is flattened to `ra_flags`). -/
structure lsmash_sample_t where
  /-- Size of the sample data in bytes. -/
  length : Nat
  /-- Decode timestamp. -/
  dts : Nat
  /-- Composition timestamp. -/
  cts : Nat
  /-- Sample description index. -/
  index : Nat
  /-- Random access flags. -/
  ra_flags : Nat
deriving DecidableEq

/-- Modelled from the spec: the constant `ISOM_SAMPLE_RANDOM_ACCESS_FLAG_NONE`
of the container library header, the flag value of a sample that is not a
random-access point. -/
def ISOM_SAMPLE_RANDOM_ACCESS_FLAG_NONE : Nat := 0

/-- The fields of `output_track_t` used by the scheduler. -/
structure output_track_t where
  /-- Track identifier in the output movie. -/
  track_ID : Nat
  /-- Duration given to the last sample. -/
  last_sample_delta : Nat
  /-- Number of the next sample to be written, starting at 1. -/
  current_sample_number : Nat
  /-- Map from input description index (minus one) to output description index. -/
  summary_remap : List Nat
  /-- Amount subtracted from every timestamp so that the first DTS is 0. -/
  skip_dt_interval : Nat
  /-- The DTS of the last appended sample. -/
  last_sample_dts : Nat
deriving DecidableEq

/-- The fields of `output_movie_t`. -/
structure output_movie_t where
  /-- The array of output tracks. -/
  track : List output_track_t
  /-- Number of output tracks. -/
  num_tracks : Nat
  /-- The 1-based output cursor. -/
  current_track_number : Nat
deriving DecidableEq

/-- The fields of `input_track_t` used by the scheduler; `timescale` is
`media.param.timescale`. -/
structure input_track_t (D : Type) where
  /-- Whether the track is remuxed at all. -/
  active : Bool
  /-- The pending sample (`NULL` is `none`). -/
  sample : Option lsmash_sample_t
  /-- The DTS of the pending sample in seconds. -/
  dts : D
  /-- Set once the track has no more samples. -/
  reach_end_of_media_timeline : Bool
  /-- Track identifier in the input movie. -/
  track_ID : Nat
  /-- Number of the next sample to fetch. -/
  current_sample_number : Nat
  /-- Output description index of the samples of the current fragment. -/
  current_sample_index : Nat
  /-- Number of sample descriptions. -/
  num_summaries : Nat
  /-- Media timescale. -/
  timescale : Nat
deriving DecidableEq

/-- The fields of `input_movie_t`. -/
structure input_movie_t (D : Type) where
  /-- The array of input tracks. -/
  track : List (input_track_t D)
  /-- Number of input tracks. -/
  num_tracks : Nat
  /-- The 1-based cursor inside this movie. -/
  current_track_number : Nat
deriving DecidableEq

/-- A call made to the container library or one of the remuxer functions that
wrap it, as recorded in the order of execution. -/
inductive Event where
  /-- A message printed by `ERROR_MSG`. -/
  | error_message : Event
  /-- A successful `lsmash_append_sample` to the output track at the given
  1-based position of `out_movie->track`. -/
  | append_sample : Nat → lsmash_sample_t → Event
  /-- A failed `lsmash_append_sample`. -/
  | append_sample_failed : Nat → lsmash_sample_t → Event
  /-- A call of `lsmash_delete_sample`. -/
  | delete_sample : lsmash_sample_t → Event
  /-- A call `lsmash_flush_pooled_samples( root, track_ID, delta )` and whether
  it succeeded. -/
  | flush_pooled_samples : Nat → Nat → Bool → Event
  /-- Entry of `flush_movie_fragment`. -/
  | flush_movie_fragment : Event
  /-- Entry of `handle_segmentation`. -/
  | handle_segmentation : Event
  /-- A call of `switch_segment` with the current segment number and whether it
  succeeded. -/
  | switch_segment : Nat → Bool → Event
  /-- A call of `lsmash_create_fragment_movie` and whether it succeeded. -/
  | create_fragment_movie : Bool → Event
deriving DecidableEq

/-- The container library as seen by the scheduler.  Reading functions take the
input (the 1-based number of the input movie stands for `in->root`), the track
identifier and the sample number.  Writing functions take the calls made so far
and tell whether the call succeeds. -/
structure Engine where
  /-- The function `lsmash_get_sample_from_media_timeline`; `none` is `NULL`. -/
  get_sample_from_media_timeline : Nat → Nat → Nat → Option lsmash_sample_t
  /-- The function `lsmash_check_sample_existence_in_media_timeline`. -/
  check_sample_existence_in_media_timeline : Nat → Nat → Nat → Bool
  /-- The function `lsmash_get_sample_info_from_media_timeline`; `none` is a
  negative return value. -/
  get_sample_info_from_media_timeline : Nat → Nat → Nat → Option lsmash_sample_t
  /-- Whether `lsmash_append_sample` on the given track succeeds. -/
  append_sample : List Event → Nat → lsmash_sample_t → Bool
  /-- Whether `lsmash_flush_pooled_samples` with the given track and delta
  succeeds. -/
  flush_pooled_samples : List Event → Nat → Nat → Bool
  /-- Whether `switch_segment` with the given segment number succeeds. -/
  switch_segment : List Event → Nat → Bool
  /-- Whether `lsmash_create_fragment_movie` succeeds. -/
  create_fragment_movie : List Event → Bool

/-- The remuxer: `remuxer_t` together with the output and the inputs it points
to (`output->file.movie`, `output->file.current_subseg_number`,
`output->current_seg_number`, `input[i].file.movie`), and the record of the calls
made so far. -/
structure remuxer_t (D : Type) where
  /-- The input movies. -/
  input : List (input_movie_t D)
  /-- Number of input movies. -/
  num_input : Nat
  /-- The output movie. -/
  out_movie : output_movie_t
  /-- Number of sub-segments written into the current segment. -/
  current_subseg_number : Nat
  /-- Number of the next segment file. -/
  current_seg_number : Nat
  /-- The 1-based output track that drives fragmentation, 0 for none. -/
  frag_base_track : Nat
  /-- Sub-segments per segment, 0 for a single self-contained segment. -/
  subseg_per_seg : Nat
  /-- Minimum fragment duration in seconds, 0 for none. -/
  min_frag_duration : D
  /-- The calls made so far, oldest first. -/
  events : List Event
deriving DecidableEq

/-- The remuxer together with the local variables of `do_remux`
(remuxer.c:1501-1508). -/
structure State (D : Type) where
  /-- The remuxer. -/
  r : remuxer_t D
  /-- Largest DTS appended so far, in seconds. -/
  largest_dts : D
  /-- Reference time of the pending fragment, in seconds. -/
  frag_base_dts : D
  /-- The 1-based cursor over the input movies. -/
  input_movie_number : Nat
  /-- Number of samples skipped in a row. -/
  num_consecutive_sample_skip : Nat
  /-- Number of active input tracks that have not reached their end. -/
  num_active_input_tracks : Nat
  /-- Total size of the appended samples. -/
  total_media_size : Nat
  /-- Progress indicator position. -/
  progress_pos : Nat
  /-- Whether a fragment flush is pending (a `uint8_t` holding 0 or 1). -/
  pending_flush_fragments : Nat
deriving DecidableEq

/-- How one pass through the body of `while( 1 )` ends. -/
inductive Outcome (σ : Type) where
  /-- The body ran to its end or hit `continue`. -/
  | next : σ → Outcome σ
  /-- The body hit `break`. -/
  | brk : σ → Outcome σ
  /-- The body hit `return` with the given value. -/
  | ret : Int → σ → Outcome σ
  /-- An array was read out of bounds. -/
  | undef : Outcome σ

/-- The state carried by an outcome. -/
def Outcome.state? {σ : Type} : Outcome σ → Option σ
  | .next s => some s
  | .brk s => some s
  | .ret _ s => some s
  | .undef => none

/-! ## `remuxer.c`: segmentation -/

/-- Append calls to the record. -/
def remuxer_t.log {D : Type} (r : remuxer_t D) (es : List Event) : remuxer_t D :=
  { r with events := r.events ++ es }

/-- The function `handle_segmentation` (remuxer.c:1451-1470).  The result is
the return value and the remuxer afterwards. -/
def handle_segmentation {D : Type} (E : Engine) (r : remuxer_t D) : Int × remuxer_t D :=
  let r0 := r.log [Event.handle_segmentation]
  if r0.subseg_per_seg = 0 then (0, r0)
  else if r0.subseg_per_seg = r0.current_subseg_number ∨ r0.current_seg_number = 1 then
    if E.switch_segment r0.events r0.current_seg_number = false then
      (-1, r0.log [Event.switch_segment r0.current_seg_number false, Event.error_message])
    else
      let r1 := r0.log [Event.switch_segment r0.current_seg_number true]
      (0, { r1 with current_subseg_number := 1,
                    current_seg_number := inc32 r1.current_seg_number })
  else
    (0, { r0 with current_subseg_number := inc32 r0.current_subseg_number })

/-- The remuxer after `k` calls of `handle_segmentation`, none of which is
followed by anything else that touches the segment counters. -/
def handle_segmentation_calls {D : Type} (E : Engine) : Nat → remuxer_t D → remuxer_t D
  | 0, r => r
  | k + 1, r => (handle_segmentation E (handle_segmentation_calls E k r)).2

/-! ## `remuxer.c`: description index and timestamps of a fetched sample -/

/-- The clamping expression of `adapt_description_index` (remuxer.c:1474-1476). -/
def clamp_description_index (num_summaries index : Nat) : Nat :=
  if index > num_summaries then num_summaries
  else if index = 0 then 1
  else index

/-- The function `adapt_description_index` (remuxer.c:1472-1480).  The result
is the input track and the sample afterwards, or `none` when the remap table is
read out of bounds. -/
def adapt_description_index {D : Type} (out_track : output_track_t)
    (in_track : input_track_t D) (sample : lsmash_sample_t) :
    Option (input_track_t D × lsmash_sample_t) :=
  let index := clamp_description_index in_track.num_summaries sample.index
  match at1 out_track.summary_remap index with
  | none => none
  | some mapped =>
    let sample1 := { sample with index := mapped }
    if in_track.current_sample_index = 0 then
      some ({ in_track with current_sample_index := mapped }, sample1)
    else
      some (in_track, sample1)

/-- The inline mapping of the timeline editor (timelineeditor.c:1165-1168):
the new value of `sample->index`, or `none` when the remap table is read out of
bounds. -/
def timelineeditor_description_index (num_summaries : Nat) (summary_remap : List Nat)
    (index : Nat) : Option Nat :=
  let index1 := if index > num_summaries then num_summaries
                else if index = 0 then 1
                else index
  at1 summary_remap index1

/-- The function `adjust_timestamp` (remuxer.c:1482-1492).  The result is the
output track and the sample afterwards. -/
def adjust_timestamp (out_track : output_track_t) (sample : lsmash_sample_t) :
    output_track_t × lsmash_sample_t :=
  let out_track1 :=
    if out_track.current_sample_number = 1 then
      { out_track with skip_dt_interval := sample.dts }
    else out_track
  if out_track1.skip_dt_interval ≠ 0 then
    (out_track1, { sample with dts := sub64 sample.dts out_track1.skip_dt_interval,
                               cts := sub64 sample.cts out_track1.skip_dt_interval })
  else (out_track1, sample)

/-! ## `remuxer.c`: flushing a movie fragment -/

/-- How the loops of `flush_movie_fragment` stand: still running with the local
`out_current_track_number` and the calls made so far, left by `return` with an
error, or stopped by an out-of-bounds read. -/
inductive FlushLoop where
  /-- Still running. -/
  | run : Nat → List Event → FlushLoop
  /-- Left by `return ERROR_MSG( ... )`. -/
  | failed : List Event → FlushLoop
  /-- An array was read out of bounds. -/
  | undef : FlushLoop

/-- The inner loop of `flush_movie_fragment` (remuxer.c:1321-1341) over the
track numbers `js` of input movie `i`; its `break` ends this loop only. -/
def flush_movie_fragment_tracks {D : Type} (E : Engine) (r : remuxer_t D) (i : Nat)
    (in_movie : input_movie_t D) : List Nat → Nat → List Event → FlushLoop
  | [], k, ev => FlushLoop.run k ev
  | j :: js, k, ev =>
    match at1 in_movie.track j with
    | none => FlushLoop.undef
    | some in_track =>
      if in_track.active = false then
        flush_movie_fragment_tracks E r i in_movie js k ev
      else
        match at1 r.out_movie.track k with
        | none => FlushLoop.undef
        | some out_track =>
          if in_track.reach_end_of_media_timeline = false then
            match E.get_sample_info_from_media_timeline i in_track.track_ID
                    in_track.current_sample_number with
            | none => FlushLoop.failed (ev ++ [Event.error_message])
            | some sample =>
              let sample_dts := sub64 sample.dts out_track.skip_dt_interval
              let delta := sub64 sample_dts out_track.last_sample_dts
              if E.flush_pooled_samples ev out_track.track_ID delta = false then
                FlushLoop.failed
                  (ev ++ [Event.flush_pooled_samples out_track.track_ID delta false,
                          Event.error_message])
              else
                let ev1 := ev ++ [Event.flush_pooled_samples out_track.track_ID delta true]
                if inc32 k > r.out_movie.num_tracks then FlushLoop.run (inc32 k) ev1
                else flush_movie_fragment_tracks E r i in_movie js (inc32 k) ev1
          else
            if E.flush_pooled_samples ev out_track.track_ID out_track.last_sample_delta
                = false then
              FlushLoop.failed
                (ev ++ [Event.flush_pooled_samples out_track.track_ID
                          out_track.last_sample_delta false,
                        Event.error_message])
            else
              let ev1 := ev ++ [Event.flush_pooled_samples out_track.track_ID
                                  out_track.last_sample_delta true]
              if inc32 k > r.out_movie.num_tracks then FlushLoop.run (inc32 k) ev1
              else flush_movie_fragment_tracks E r i in_movie js (inc32 k) ev1

/-- The outer loop of `flush_movie_fragment` (remuxer.c:1317-1342) over the
input numbers `is`. -/
def flush_movie_fragment_inputs {D : Type} (E : Engine) (r : remuxer_t D) :
    List Nat → Nat → List Event → FlushLoop
  | [], k, ev => FlushLoop.run k ev
  | i :: is, k, ev =>
    match at1 r.input i with
    | none => FlushLoop.undef
    | some in_movie =>
      match flush_movie_fragment_tracks E r i in_movie
              (List.range' 1 in_movie.num_tracks) k ev with
      | FlushLoop.run k1 ev1 => flush_movie_fragment_inputs E r is k1 ev1
      | other => other

/-- The function `flush_movie_fragment` (remuxer.c:1311-1344).  The result is
the return value and the remuxer afterwards (only the record of calls changes),
or `none` after an out-of-bounds read.  The delta passed to
`lsmash_flush_pooled_samples` is recorded as the 64-bit value of the argument
expression. -/
def flush_movie_fragment {D : Type} (E : Engine) (r : remuxer_t D) :
    Option (Int × remuxer_t D) :=
  match flush_movie_fragment_inputs E r (List.range' 1 r.num_input) 1
          (r.events ++ [Event.flush_movie_fragment]) with
  | FlushLoop.run _ ev => some (0, { r with events := ev })
  | FlushLoop.failed ev => some (-1, { r with events := ev })
  | FlushLoop.undef => none

/-! ## `remuxer.c`: one pass through the loop of `do_remux` -/

section Scheduler

variable {D : Type} [C_double D]

/-- The pointer `in_movie = &inputs[input_movie_number - 1].file.movie`. -/
def cur_in_movie (s : State D) : Option (input_movie_t D) :=
  at1 s.r.input s.input_movie_number

/-- The pointer `out_track = &out_movie->track[ out_movie->current_track_number - 1 ]`. -/
def cur_out_track (s : State D) : Option output_track_t :=
  at1 s.r.out_movie.track s.r.out_movie.current_track_number

/-- The array of input movies after a store `*in_movie = f( *in_movie )` through
the pointer `in_movie` (the array is unchanged when the pointer is out of
bounds, which does not happen after the pointer was read). -/
def store_in_movie (s : State D) (f : input_movie_t D → input_movie_t D) :
    List (input_movie_t D) :=
  match cur_in_movie s with
  | none => s.r.input
  | some m => set1 s.r.input s.input_movie_number (f m)

/-- A store through the pointer `in_track`. -/
def set_in_track (s : State D) (t : input_track_t D) : State D :=
  let input1 :=
    store_in_movie s (fun m => { m with track := set1 m.track m.current_track_number t })
  { s with r := { s.r with input := input1 } }

/-- A store through the pointer `out_track`. -/
def set_out_track (s : State D) (o : output_track_t) : State D :=
  { s with r := { s.r with out_movie := { s.r.out_movie with
      track := set1 s.r.out_movie.track s.r.out_movie.current_track_number o } } }

/-- Record calls. -/
def State.log (s : State D) (es : List Event) : State D :=
  { s with r := s.r.log es }

/-- The value of `input_movie_number` after "Move the next track"
(remuxer.c:1517-1524): it is incremented when the track cursor of the current
movie `m` runs past `num_tracks`, and goes back to 1 when it exceeds
`num_input`. -/
def next_input_movie_number (s : State D) : Nat :=
  match cur_in_movie s with
  | none => s.input_movie_number
  | some m =>
    if inc32 m.current_track_number > m.num_tracks then
      (if inc32 s.input_movie_number > s.r.num_input then 1
       else inc32 s.input_movie_number)
    else
      (if s.input_movie_number > s.r.num_input then 1 else s.input_movie_number)

/-- The input part of "Move the next track" (remuxer.c:1517-1524, repeated at
1669-1676): `++current_track_number` of the current movie, which goes back to 1
together with `++input_movie_number` when it exceeds `num_tracks`. -/
def move_next_input (s : State D) : State D :=
  let input1 :=
    store_in_movie s (fun m =>
      if inc32 m.current_track_number > m.num_tracks then { m with current_track_number := 1 }
      else { m with current_track_number := inc32 m.current_track_number })
  { s with r := { s.r with input := input1 },
           input_movie_number := next_input_movie_number s }

/-- The output part of "Move the next track" (remuxer.c:1677-1678). -/
def move_next_output (s : State D) : State D :=
  let n := inc32 s.r.out_movie.current_track_number
  { s with r := { s.r with out_movie := { s.r.out_movie with
      current_track_number := if n > s.r.out_movie.num_tracks then 1 else n } } }

/-- Lines 1668-1678: both cursors move on. -/
def move_next (s : State D) : State D :=
  move_next_output (move_next_input s)

/-- The local `over_duration` (remuxer.c:1573-1579). -/
def over_duration (E : Engine) (s : State D) (in_track : input_track_t D) : Bool :=
  if C_double.nonzero s.r.min_frag_duration then
    match E.get_sample_info_from_media_timeline s.input_movie_number in_track.track_ID
            (inc32 in_track.current_sample_number) with
    | some info =>
      C_double.le s.r.min_frag_duration
        (C_double.sub
          (C_double.div (C_double.ofU64 info.dts) (C_double.ofU64 in_track.timescale))
          s.frag_base_dts)
    | none => true
  else true

/-- The fragment control of `do_remux` (remuxer.c:1569-1604), run when the
current track holds the pending sample `sample`. -/
def fragment_control (E : Engine) (s : State D) (in_track : input_track_t D)
    (sample : lsmash_sample_t) : Outcome (State D) :=
  if s.r.frag_base_track ≠ 0 then
    if s.pending_flush_fragments = 0 then
      if s.r.frag_base_track = s.r.out_movie.current_track_number
          ∧ sample.ra_flags ≠ ISOM_SAMPLE_RANDOM_ACCESS_FLAG_NONE
          ∧ over_duration E s in_track = true then
        Outcome.next { s with pending_flush_fragments := 1, frag_base_dts := in_track.dts }
      else Outcome.next s
    else if s.num_consecutive_sample_skip = s.num_active_input_tracks
              ∨ s.total_media_size = 0 then
      match flush_movie_fragment E s.r with
      | none => Outcome.undef
      | some (ret, r1) =>
        if ret < 0 then Outcome.brk { s with r := r1.log [Event.error_message] }
        else
          match handle_segmentation E r1 with
          | (ret2, r2) =>
            if ret2 < 0 then Outcome.brk { s with r := r2 }
            else if E.create_fragment_movie r2.events = false then
              Outcome.brk { s with r := r2.log [Event.create_fragment_movie false,
                                                 Event.error_message] }
            else
              Outcome.next { s with r := r2.log [Event.create_fragment_movie true],
                                    pending_flush_fragments := 0 }
    else Outcome.next s
  else Outcome.next s

/-- The local `need_new_fragment` (remuxer.c:1607). -/
def need_new_fragment (s : State D) (in_track : input_track_t D)
    (sample : lsmash_sample_t) : Bool :=
  decide (s.r.frag_base_track ≠ 0) && decide (sample.index ≠ in_track.current_sample_index)

/-- The local `append` (remuxer.c:1606-1627). -/
def append_condition (E : Engine) (s : State D) (in_track : input_track_t D)
    (sample : lsmash_sample_t) : Bool :=
  if s.pending_flush_fragments = 0 then
    (C_double.le in_track.dts s.largest_dts
      || decide (s.num_consecutive_sample_skip = s.num_active_input_tracks))
    && !need_new_fragment s in_track sample
  else if s.r.frag_base_track ≠ s.r.out_movie.current_track_number
            ∧ need_new_fragment s in_track sample = false then
    if sample.ra_flags = ISOM_SAMPLE_RANDOM_ACCESS_FLAG_NONE then true
    else
      match E.get_sample_info_from_media_timeline s.input_movie_number in_track.track_ID
              (inc32 in_track.current_sample_number) with
      | none => false
      | some info =>
        decide (info.ra_flags ≠ ISOM_SAMPLE_RANDOM_ACCESS_FLAG_NONE)
        && C_double.le
             (C_double.div (C_double.ofU64 info.dts) (C_double.ofU64 in_track.timescale))
             s.frag_base_dts
  else false

/-- The macro `LSMASH_MAX( a, b )`, that is `(a) > (b) ? (a) : (b)`. -/
def LSMASH_MAX (a b : D) : D :=
  if C_double.lt b a = true then a else b

/-- Lines 1628-1665: the pending sample is appended, dropped or skipped.  Runs
after the fragment control, with `in_track` the current input track (holding
`sample`). -/
def append_or_skip (E : Engine) (s : State D) (in_track : input_track_t D)
    (sample : lsmash_sample_t) : Outcome (State D) :=
  if append_condition E s in_track sample = true then
    if sample.index ≠ 0 then
      match cur_out_track s with
      | none => Outcome.undef
      | some out_track =>
        if E.append_sample s.r.events out_track.track_ID sample = false then
          Outcome.ret (-1)
            (s.log [Event.append_sample_failed s.r.out_movie.current_track_number sample,
                    Event.delete_sample sample, Event.error_message])
        else
          let s1 := s.log [Event.append_sample s.r.out_movie.current_track_number sample]
          let total := add64 s1.total_media_size sample.length
          let s2 := { s1 with
            largest_dts := LSMASH_MAX s1.largest_dts in_track.dts,
            num_consecutive_sample_skip := 0,
            total_media_size := total,
            progress_pos :=
              if total / 4194304 > s1.progress_pos then (total / 4194304) % U32
              else s1.progress_pos }
          let s3 := set_in_track s2 { in_track with
            sample := none,
            current_sample_number := inc32 in_track.current_sample_number,
            current_sample_index := sample.index }
          let s4 := set_out_track s3 { out_track with
            current_sample_number := inc32 out_track.current_sample_number,
            last_sample_dts := sample.dts }
          Outcome.next (move_next s4)
    else
      let s1 := s.log [Event.delete_sample sample]
      let s2 := set_in_track s1 { in_track with
        sample := none,
        current_sample_number := inc32 in_track.current_sample_number }
      Outcome.next (move_next s2)
  else
    Outcome.next (move_next { s with
      num_consecutive_sample_skip := inc32 s.num_consecutive_sample_skip })

/-- Lines 1566-1666: what is done with a pending sample. -/
def handle_pending_sample (E : Engine) (s : State D) (in_track : input_track_t D)
    (sample : lsmash_sample_t) : Outcome (State D) :=
  match fragment_control E s in_track sample with
  | Outcome.next s1 => append_or_skip E s1 in_track sample
  | other => other

/-- What lines 1530-1565 leave in the local `sample`. -/
inductive Fetched (D : Type) where
  /-- The local `sample` is not `NULL`: the state, the current input track and
  the sample it holds. -/
  | sample : State D → input_track_t D → lsmash_sample_t → Fetched D
  /-- The local `sample` is `NULL`: the loop is left, or the pass ends with
  "Move the next track". -/
  | no_sample : Outcome (State D) → Fetched D

/-- Lines 1530-1565: "Get a new sample data if the track doesn't hold any one."
With `NULL` in `sample` the pass is over: either by `break`, or, after a clean
end of the track with other tracks still running, by falling through to "Move
the next track". -/
def fetch_sample (E : Engine) (s : State D) (in_track : input_track_t D) : Fetched D :=
  match in_track.sample with
  | some sample => Fetched.sample s in_track sample
  | none =>
    match E.get_sample_from_media_timeline s.input_movie_number in_track.track_ID
            in_track.current_sample_number with
    | some sample0 =>
      match cur_out_track s with
      | none => Fetched.no_sample Outcome.undef
      | some out_track =>
        match adapt_description_index out_track in_track sample0 with
        | none => Fetched.no_sample Outcome.undef
        | some (in_track1, sample1) =>
          let in_track2 := { in_track1 with
            sample := some (adjust_timestamp out_track sample1).2,
            dts := C_double.div (C_double.ofU64 (adjust_timestamp out_track sample1).2.dts)
                     (C_double.ofU64 in_track1.timescale) }
          Fetched.sample
            (set_out_track (set_in_track s in_track2) (adjust_timestamp out_track sample1).1)
            in_track2 (adjust_timestamp out_track sample1).2
    | none =>
      if E.check_sample_existence_in_media_timeline s.input_movie_number
           in_track.track_ID in_track.current_sample_number = true then
        Fetched.no_sample (Outcome.brk (s.log [Event.error_message]))
      else
        match E.get_sample_info_from_media_timeline s.input_movie_number
                in_track.track_ID in_track.current_sample_number with
        | none =>
          let s1 := { set_in_track s { in_track with
              sample := none, reach_end_of_media_timeline := true } with
            num_active_input_tracks := dec32 s.num_active_input_tracks }
          if dec32 s.num_active_input_tracks = 0 then Fetched.no_sample (Outcome.brk s1)
          else Fetched.no_sample (Outcome.next (move_next s1))
        | some _ => Fetched.no_sample (Outcome.brk (s.log [Event.error_message]))

/-- One pass through the body of the `while( 1 )` loop of `do_remux`
(remuxer.c:1509-1679). -/
def step (E : Engine) (s : State D) : Outcome (State D) :=
  match cur_in_movie s with
  | none => Outcome.undef
  | some in_movie =>
    match at1 in_movie.track in_movie.current_track_number with
    | none => Outcome.undef
    | some in_track =>
      if in_track.active = false then Outcome.next (move_next_input s)
      else if in_track.reach_end_of_media_timeline = true then Outcome.next (move_next s)
      else
        match fetch_sample E s in_track with
        | Fetched.sample s1 in_track1 sample => handle_pending_sample E s1 in_track1 sample
        | Fetched.no_sample o => o

/-- The loop `while( 1 )` run for at most `n` passes: `next s` when the loop is
still running after `n` passes, otherwise the way it was left. -/
def run (E : Engine) : Nat → State D → Outcome (State D)
  | 0, s => Outcome.next s
  | n + 1, s =>
    match step E s with
    | Outcome.next s1 => run E n s1
    | other => other

/-- The loop after `do_remux` left its `while( 1 )` (remuxer.c:1680-1683), over
the 0-based indices `is`.  The result is the return value of `do_remux` and the
remuxer afterwards, or `none` after an out-of-bounds read. -/
def final_flush (E : Engine) : List Nat → remuxer_t D → Option (Int × remuxer_t D)
  | [], r => some (0, r)
  | i :: is, r =>
    match r.out_movie.track[i]? with
    | none => none
    | some o =>
      if E.flush_pooled_samples r.events o.track_ID o.last_sample_delta = false then
        some (-1, r.log [Event.flush_pooled_samples o.track_ID o.last_sample_delta false,
                         Event.error_message])
      else
        final_flush E is (r.log [Event.flush_pooled_samples o.track_ID o.last_sample_delta true])

/-- The state in which `do_remux` enters its loop (remuxer.c:1501-1508). -/
def initial_state (r : remuxer_t D) : State D :=
  { r := r,
    largest_dts := C_double.ofU64 0,
    frag_base_dts := C_double.ofU64 0,
    input_movie_number := 1,
    num_consecutive_sample_skip := 0,
    num_active_input_tracks := r.out_movie.num_tracks,
    total_media_size := 0,
    progress_pos := 0,
    pending_flush_fragments := if r.frag_base_track ≠ 0 then 1 else 0 }

/-- The function `do_remux` (remuxer.c:1494-1685) with at most `fuel` passes
through its loop.  The result is the return value and the remuxer afterwards;
`none` when the loop is still running after `fuel` passes or an array was read
out of bounds.  The call of `set_reference_chapter_track`, which does not touch
anything the scheduler reads, is left out. -/
def do_remux (E : Engine) (fuel : Nat) (r : remuxer_t D) : Option (Int × remuxer_t D) :=
  match run E fuel (initial_state r) with
  | Outcome.next _ => none
  | Outcome.undef => none
  | Outcome.ret v s => some (v, s.r)
  | Outcome.brk s => final_flush E (List.range s.r.out_movie.num_tracks) s.r

end Scheduler

/-! ## Notions used to state the properties of `do_remux` -/

/-- Whether a recorded call is one of the calls made only when a movie fragment
is flushed: `flush_movie_fragment`, `handle_segmentation` (with its
`switch_segment`) and `lsmash_create_fragment_movie`. -/
def Event.is_fragment_call : Event → Bool
  | Event.flush_movie_fragment => true
  | Event.handle_segmentation => true
  | Event.switch_segment _ _ => true
  | Event.create_fragment_movie _ => true
  | _ => false

/-- The input track at the 1-based position `j` of the 1-based input movie `i`. -/
def in_track_at {D : Type} (s : State D) (i j : Nat) : Option (input_track_t D) :=
  match at1 s.r.input i with
  | none => none
  | some m => at1 m.track j

/-- The samples appended to the output track at the 1-based position `k`, in the
order in which they were appended. -/
def appended (events : List Event) (k : Nat) : List lsmash_sample_t :=
  events.filterMap (fun e =>
    match e with
    | Event.append_sample k1 sample => if k1 = k then some sample else none
    | _ => none)

/-- The input track under the input cursor (the pointer `in_track`). -/
def cur_in_track {D : Type} (s : State D) : Option (input_track_t D) :=
  match at1 s.r.input s.input_movie_number with
  | none => none
  | some m => at1 m.track m.current_track_number

/-- The track number under the input cursor: `in_movie->current_track_number`
of the current input movie (0 when there is no such movie). -/
def cur_track_number {D : Type} (s : State D) : Nat :=
  match at1 s.r.input s.input_movie_number with
  | none => 0
  | some m => m.current_track_number

/-- Following the words of the specification: "every other active track has
been consecutively skipped", that is, the number of samples skipped in a row has
reached the number of the other tracks that are still running. -/
def every_other_track_skipped {D : Type} (s : State D) : Prop :=
  s.num_active_input_tracks - 1 ≤ s.num_consecutive_sample_skip

/-- The acceptance condition of the code without fragmentation: the DTS in
seconds of the pending sample is at most `largest_dts`, or the number of samples
skipped in a row equals the number of tracks that are still running. -/
def acceptance_condition {D : Type} [C_double D] (s : State D) (t : input_track_t D) : Prop :=
  C_double.le t.dts s.largest_dts = true
  ∨ s.num_consecutive_sample_skip = s.num_active_input_tracks

/-- No call in the list is a successful `lsmash_append_sample`. -/
def no_append (es : List Event) : Prop :=
  ∀ e ∈ es, ∀ k p, e ≠ Event.append_sample k p

/-! ## Concrete inputs used to run the model -/

/-- An engine whose media timelines are given as lists of samples (sample `n`
of track `track_ID` of input `root` is entry `n - 1` of `timeline root track_ID`),
whose sample data cannot be fetched where `unreadable` holds, and whose writing
calls all succeed. -/
def list_engine (timeline : Nat → Nat → List lsmash_sample_t)
    (unreadable : Nat → Nat → Nat → Bool) : Engine where
  get_sample_from_media_timeline root track_ID n :=
    if unreadable root track_ID n then none else at1 (timeline root track_ID) n
  check_sample_existence_in_media_timeline root track_ID n :=
    (at1 (timeline root track_ID) n).isSome
  get_sample_info_from_media_timeline root track_ID n := at1 (timeline root track_ID) n
  append_sample _ _ _ := true
  flush_pooled_samples _ _ _ := true
  switch_segment _ _ := true
  create_fragment_movie _ := true

/-- A sample of one byte with the given DTS (also its CTS), description index
and random access flags. -/
def mk_sample (dts index ra_flags : Nat) : lsmash_sample_t :=
  { length := 1, dts := dts, cts := dts, index := index, ra_flags := ra_flags }

/-- An input track as `get_movie` leaves it: active, nothing fetched, cursor at
sample 1; media timescale 1. -/
def fresh_input_track (track_ID num_summaries : Nat) : input_track_t Frac :=
  { active := true, sample := none, dts := ⟨0, 1⟩, reach_end_of_media_timeline := false,
    track_ID := track_ID, current_sample_number := 1, current_sample_index := 0,
    num_summaries := num_summaries, timescale := 1 }

/-- An output track as `prepare_output` leaves it. -/
def fresh_output_track (track_ID : Nat) (summary_remap : List Nat) : output_track_t :=
  { track_ID := track_ID, last_sample_delta := 1, current_sample_number := 1,
    summary_remap := summary_remap, skip_dt_interval := 0, last_sample_dts := 0 }

/-- A remuxer as `prepare_output` leaves it, for the given input movies and
output tracks. -/
def fresh_remuxer (inputs : List (List (input_track_t Frac))) (outputs : List output_track_t)
    (frag_base_track subseg_per_seg : Nat) (min_frag_duration : Frac) : remuxer_t Frac :=
  { input := inputs.map (fun ts =>
      { track := ts, num_tracks := ts.length, current_track_number := 1 }),
    num_input := inputs.length,
    out_movie := { track := outputs, num_tracks := outputs.length, current_track_number := 1 },
    current_subseg_number := 0,
    current_seg_number := 1,
    frag_base_track := frag_base_track,
    subseg_per_seg := subseg_per_seg,
    min_frag_duration := min_frag_duration,
    events := [] }

/-- One track of three samples, three sub-segments per segment. -/
def dash3_engine : Engine :=
  list_engine (fun _ _ => [mk_sample 0 1 1, mk_sample 10 1 1, mk_sample 20 1 1])
    (fun _ _ _ => false)

/-- The remuxer for `dash3_engine`. -/
def dash3_remuxer : remuxer_t Frac :=
  fresh_remuxer [[fresh_input_track 1 1]] [fresh_output_track 1 [1]] 1 3 ⟨0, 1⟩

/-- Two tracks of two samples each, DTS 0 and 10, one description each. -/
def two_track_engine : Engine :=
  list_engine (fun _ _ => [mk_sample 0 1 1, mk_sample 10 1 1]) (fun _ _ _ => false)

/-- The remuxer for `two_track_engine`: one input movie with two active tracks,
no fragmentation. -/
def two_track_remuxer : remuxer_t Frac :=
  fresh_remuxer [[fresh_input_track 1 1, fresh_input_track 2 1]]
    [fresh_output_track 1 [1], fresh_output_track 2 [1]] 0 0 ⟨0, 1⟩

/-- The state of the scheduler on `two_track_remuxer` after `n` passes (the
initial state once the loop has been left by an out-of-bounds read, which does
not happen here). -/
def two_track_state (n : Nat) : State Frac :=
  ((run two_track_engine n (initial_state two_track_remuxer)).state?).getD
    (initial_state two_track_remuxer)

/-- One track of two samples; the data of sample 2 cannot be fetched although
the sample exists. -/
def fetch_error_engine : Engine :=
  list_engine (fun _ _ => [mk_sample 0 1 1, mk_sample 10 1 1]) (fun _ _ n => n == 2)

/-- The remuxer for `fetch_error_engine`: one input movie with one track, no
fragmentation. -/
def fetch_error_remuxer : remuxer_t Frac :=
  fresh_remuxer [[fresh_input_track 1 1]] [fresh_output_track 1 [1]] 0 0 ⟨0, 1⟩

/-- One track (timescale 1) of four random-access samples with DTS 0, 10, 11
and 20 seconds. -/
def short_fragment_engine : Engine :=
  list_engine (fun _ _ => [mk_sample 0 1 1, mk_sample 10 1 1, mk_sample 11 1 1,
    mk_sample 20 1 1]) (fun _ _ _ => false)

/-- The remuxer for `short_fragment_engine`: fragment base track 1 and a
minimum fragment duration of 2 seconds. -/
def short_fragment_remuxer : remuxer_t Frac :=
  fresh_remuxer [[fresh_input_track 1 1]] [fresh_output_track 1 [1]] 1 0 ⟨2, 1⟩

/-- One track of three random-access samples, the second and third of which
use sample description 2 while the first uses description 1. -/
def stall_engine : Engine :=
  list_engine (fun _ _ => [mk_sample 0 1 1, mk_sample 10 2 1, mk_sample 20 2 1])
    (fun _ _ _ => false)

/-- The remuxer for `stall_engine`: one input movie with one track of two
descriptions, fragment base track 1. -/
def stall_remuxer : remuxer_t Frac :=
  fresh_remuxer [[fresh_input_track 1 2]] [fresh_output_track 1 [1, 2]] 1 0 ⟨0, 1⟩

/-- Two tracks whose second sample uses sample description 2; track 1 has two
samples (DTS 0, 10), track 2 has three (DTS 0, 10, 20). -/
def dropped_description_engine : Engine :=
  list_engine (fun _ track_ID =>
      if track_ID = 1 then [mk_sample 0 1 1, mk_sample 10 2 1]
      else [mk_sample 0 1 1, mk_sample 10 2 1, mk_sample 20 1 1])
    (fun _ _ _ => false)

/-- The remuxer for `dropped_description_engine`: one input movie with two
active tracks of two descriptions each, the second of which was not attached to
the output (`summary_remap[1] = 0`, remuxer.c:1263-1277), so that its samples
are dropped; no fragmentation. -/
def dropped_description_remuxer : remuxer_t Frac :=
  fresh_remuxer [[fresh_input_track 1 2, fresh_input_track 2 2]]
    [fresh_output_track 1 [1, 0], fresh_output_track 2 [1, 0]] 0 0 ⟨0, 1⟩

/-- The first track of `two_track_remuxer` when it holds its second sample
(DTS 10) as pending sample, the first one having been appended. -/
def two_track_holding : input_track_t Frac :=
  { fresh_input_track 1 1 with
    sample := some (mk_sample 10 1 1), dts := ⟨10, 1⟩,
    current_sample_number := 2, current_sample_index := 1 }

/-- The track of `stall_remuxer` when it holds its second sample (DTS 10,
description 2) as pending sample, the first one (description 1) having been
appended. -/
def stall_holding : input_track_t Frac :=
  { fresh_input_track 1 2 with
    sample := some (mk_sample 10 2 1), dts := ⟨10, 1⟩,
    current_sample_number := 2, current_sample_index := 1 }

/-- The output track of `stall_remuxer` after its first sample was appended. -/
def stall_output : output_track_t :=
  { fresh_output_track 1 [1, 2] with current_sample_number := 2 }

/-- A state of the scheduler on `stall_remuxer` in which the track holds its
second sample, the cursors are on the only track and one track is running; the
remaining fields are the arguments. -/
def stalled_state (subseg seg sps : Nat) (mfd : Frac) (events : List Event) (lg fbd : Frac)
    (skip total prog pend : Nat) : State Frac :=
  State.mk
    (remuxer_t.mk [input_movie_t.mk [stall_holding] 1 1] 1
      (output_movie_t.mk [stall_output] 1 1) subseg seg 1 sps mfd events)
    lg fbd 1 skip 1 total prog pend

/-- The states of the scheduler on `stall_remuxer` in which the track holds its
second sample and only the first sample has been appended. -/
def stalled (s : State Frac) : Prop :=
  ∃ subseg seg sps mfd events lg fbd skip total prog pend,
    s = stalled_state subseg seg sps mfd events lg fbd skip total prog pend
    ∧ appended events 1 = [mk_sample 0 1 1]

/-! ## Notions used to state and prove that appended DTS values increase -/

/-- The `active` flags of the input tracks, movie by movie. -/
def active_flags {D : Type} (input : List (input_movie_t D)) : List (List Bool) :=
  input.map (fun m => m.track.map (fun t => t.active))

/-- The number of active input tracks. -/
def count_active (sh : List (List Bool)) : Nat :=
  (sh.map (fun l => l.count true)).sum

/-- The number of active input tracks that come before track `b` of movie `a`
(both 0-based) in the order in which the scheduler visits the tracks. -/
def active_before0 (sh : List (List Bool)) (a b : Nat) : Nat :=
  ((sh.take a).map (fun l => l.count true)).sum + ((sh.getD a []).take b).count true

/-- The number of active input tracks that come before track `j` of movie `i`
(both 1-based). -/
def active_before (sh : List (List Bool)) (i j : Nat) : Nat :=
  active_before0 sh (i - 1) (j - 1)

/-- The remuxer as `get_movie` (remuxer.c:483-603) and `prepare_output`
(remuxer.c:1179-1303) leave it, as far as the scheduler depends on it: the
counts describe the arrays and stay below 2^32 - 1, every track cursor is 1, no
input track holds a sample and its `current_sample_number` is a `uint32_t` (it
is 1, or the starting point set by `set_starting_point`, for a track that was
read, and 0 for a track that `get_movie` could not read and left as
`lsmash_malloc_zero` made it, line 489), the output movie has one
track per active input track, each with `current_sample_number = 1` (the array
may be longer, see `exclude_invalid_output_track`; nothing is assumed about the
entries past `num_tracks`), and no call has been recorded. -/
def prepared {D : Type} (r : remuxer_t D) : Prop :=
  r.num_input = r.input.length
  ∧ r.input.length + 1 < U32
  ∧ (∀ m ∈ r.input, m.num_tracks = m.track.length ∧ m.track.length + 1 < U32
      ∧ m.current_track_number = 1
      ∧ ∀ t ∈ m.track, t.sample = none ∧ t.current_sample_number < U32)
  ∧ r.out_movie.num_tracks = count_active (active_flags r.input)
  ∧ r.out_movie.num_tracks ≤ r.out_movie.track.length
  ∧ r.out_movie.num_tracks + 1 < U32
  ∧ r.out_movie.current_track_number = 1
  ∧ (∀ o ∈ r.out_movie.track.take r.out_movie.num_tracks, o.current_sample_number = 1)
  ∧ r.events = []

/-- The media timelines served by the engine have strictly increasing DTS
values below 2^64, and sample numbers start at 1 (there is no sample 0). -/
def increasing_timelines (E : Engine) : Prop :=
  (∀ i tid, E.get_sample_from_media_timeline i tid 0 = none)
  ∧ (∀ i tid n sm, E.get_sample_from_media_timeline i tid n = some sm → sm.dts < U64)
  ∧ (∀ i tid a b sa sb, a < b →
      E.get_sample_from_media_timeline i tid a = some sa →
      E.get_sample_from_media_timeline i tid b = some sb → sa.dts < sb.dts)

/-- The DTS values of a list of samples are strictly increasing. -/
def dts_increasing (log : List lsmash_sample_t) : Prop :=
  log.Pairwise (fun a b => a.dts < b.dts)

/-- The input side of the scheduler is in order: with `sh` the `active` flags,
the counts describe the arrays and stay below 2^32 - 1, the input cursor is on
a movie, and the track cursor of every other movie is 1. -/
structure InputOk {D : Type} (sh : List (List Bool)) (s : State D) : Prop where
  flags : active_flags s.r.input = sh
  num_input : s.r.num_input = s.r.input.length
  input_lt : s.r.input.length + 1 < U32
  imn_pos : 1 ≤ s.input_movie_number
  imn_le : s.input_movie_number ≤ s.r.input.length
  tracks : ∀ i m, at1 s.r.input i = some m →
    m.num_tracks = m.track.length ∧ m.track.length + 1 < U32
    ∧ 1 ≤ m.current_track_number
    ∧ (i ≠ s.input_movie_number → m.current_track_number = 1)

/-- The cursors of the scheduler are synchronous: the output cursor stands on
the output track whose number is one more than the number of active input
tracks before the input cursor. -/
structure Synced {D : Type} (sh : List (List Bool)) (s : State D) : Prop where
  input : InputOk sh s
  out_num : s.r.out_movie.num_tracks = count_active sh
  out_lt : count_active sh + 1 < U32
  out_cur : s.r.out_movie.current_track_number
    = active_before sh s.input_movie_number (cur_track_number s) % count_active sh + 1

/-- What holds between an active input track `t` of input movie `i`, its output
track `o` and the samples `log` appended to `o` so far. -/
structure TrackOk {D : Type} (E : Engine) (i : Nat) (t : input_track_t D)
    (o : output_track_t) (log : List lsmash_sample_t) : Prop where
  in_lt : t.current_sample_number < U32
  out_le : t.current_sample_number ≠ 0 →
    1 ≤ o.current_sample_number ∧ o.current_sample_number ≤ t.current_sample_number
  wrapped : t.current_sample_number = 0 → t.sample = none
  fresh : o.current_sample_number = 1 → log = []
  ahead : (o.current_sample_number ≠ 1 ∨ t.sample ≠ none) → t.current_sample_number ≠ 0 →
    ∀ n sm, t.current_sample_number ≤ n →
      E.get_sample_from_media_timeline i t.track_ID n = some sm →
      o.skip_dt_interval ≤ sm.dts ∧ ∀ a ∈ log, a.dts + o.skip_dt_interval < sm.dts
  pending : ∀ p, t.sample = some p →
    ∃ sm, E.get_sample_from_media_timeline i t.track_ID t.current_sample_number = some sm
      ∧ p.dts + o.skip_dt_interval = sm.dts

/-- Every active input track has its output track, and `TrackOk` holds. -/
def TracksOk {D : Type} (E : Engine) (sh : List (List Bool)) (s : State D) : Prop :=
  ∀ i j t, in_track_at s i j = some t → t.active = true →
    ∃ o, at1 s.r.out_movie.track (active_before sh i j + 1) = some o
      ∧ TrackOk E i t o (appended s.r.events (active_before sh i j + 1))

/-- The invariant of the loop of `do_remux` behind the increasing DTS values. -/
structure Inv {D : Type} (E : Engine) (sh : List (List Bool)) (s : State D) : Prop where
  sync : Synced sh s
  tracks : TracksOk E sh s
  sorted : ∀ k, dts_increasing (appended s.r.events k)

/-- The state `s1` differs from `s` (as far as the invariant looks at it) by a
store of `t1` through `in_track`, a store of `o1` through `out_track` and the
recorded calls `new`. -/
structure Updated {D : Type} (s s1 : State D) (t1 : input_track_t D)
    (o1 : output_track_t) (new : List Event) : Prop where
  input : s1.r.input = (set_in_track s t1).r.input
  imn : s1.input_movie_number = s.input_movie_number
  num_input : s1.r.num_input = s.r.num_input
  out_num : s1.r.out_movie.num_tracks = s.r.out_movie.num_tracks
  out_cur : s1.r.out_movie.current_track_number = s.r.out_movie.current_track_number
  out_track : s1.r.out_movie.track
    = set1 s.r.out_movie.track s.r.out_movie.current_track_number o1
  events : s1.r.events = s.r.events ++ new

/-- The state `s1` differs from `s` (as far as the invariant looks at it) only
by the recorded calls `new`. -/
structure Logged {D : Type} (s s1 : State D) (new : List Event) : Prop where
  input : s1.r.input = s.r.input
  imn : s1.input_movie_number = s.input_movie_number
  num_input : s1.r.num_input = s.r.num_input
  out_movie : s1.r.out_movie = s.r.out_movie
  events : s1.r.events = s.r.events ++ new

/-! ## `timelineeditor.c`: DTS and CTS generation in `edit_media_timeline` -/

/-- What a function of the timeline editor that returns an `int` status leaves:
its results after `return 0`, an error return, or an out-of-bounds read (or a
division by zero). -/
inductive Ret (α : Type) where
  /-- The function returned 0. -/
  | ok : α → Ret α
  /-- The function returned an error. -/
  | error : Ret α
  /-- Undefined behaviour. -/
  | undef : Ret α
deriving DecidableEq

/-- The fields of `opt_t` (timelineeditor.c:101-111) that `edit_media_timeline`
and the edit list construction read. -/
structure opt_t where
  /-- The pinned media timescale, 0 when not given. -/
  media_timescale : Nat
  /-- The pinned media timebase, 0 when not given. -/
  media_timebase : Nat
  /-- Numerator of `--skip`. -/
  skip_duration_num : Nat
  /-- Denominator of `--skip`. -/
  skip_duration_den : Nat
  /-- Numerator of `--delay`. -/
  empty_delay_num : Nat
  /-- Denominator of `--delay`. -/
  empty_delay_den : Nat
  /-- The `int` set to 1 by `--dts-compression`. -/
  dts_compression : Nat
deriving DecidableEq

/-- Modelled from the spec: the library call
`lsmash_sort_timestamps_decoding_order` ("sort timestamps into decode order"):
the entries in the order of their DTS (entries with the same DTS keep their
order). -/
def lsmash_sort_timestamps_decoding_order (l : List lsmash_media_ts_t) :
    List lsmash_media_ts_t :=
  l.insertionSort (fun a b => a.dts ≤ b.dts)

/-- What lines 777-826 of `edit_media_timeline` leave behind. -/
structure timeline_t where
  /-- The array `ts_list.timestamp`. -/
  timestamp : List lsmash_media_ts_t
  /-- The array `timecode->ts`. -/
  ts : List Nat
  /-- The local `timescale`, stored as the media timescale of the track. -/
  timescale : Nat
  /-- The field `timecode->composition_delay`. -/
  composition_delay : Nat
  /-- The field `in_track->last_sample_delta`. -/
  last_sample_delta : Nat
  /-- The field `timecode->duration`. -/
  duration : Nat
deriving DecidableEq

/-- The local `dts_compression_multiplier` (timelineeditor.c:780), a `uint32_t`. -/
def dts_compression_multiplier (opt : opt_t) (sample_delay : Nat) : Nat :=
  (opt.dts_compression * (if opt.media_timescale = 0 then 1 else 0) * sample_delay + 1) % U32

/-- The multiplication of every `timecode->ts[i]` by the multiplier when it is
more than 1 (timelineeditor.c:783-785), on `uint64_t`. -/
def scale_ts (multiplier : Nat) (ts : List Nat) : List Nat :=
  if multiplier > 1 then ts.map (fun x => (x * multiplier) % U64) else ts

/-- The loop "Generate CTS" (timelineeditor.c:788-789):
`timestamp[i].cts = timecode->ts[i] + sample_delay_time` for every `i`. -/
def generate_cts (timestamp : List lsmash_media_ts_t) (ts : List Nat)
    (sample_delay_time : Nat) : List lsmash_media_ts_t :=
  List.zipWith (fun t x => { t with cts := add64 x sample_delay_time }) timestamp ts

/-- The state of the two DTS loops: the array `timestamp` and the rotating
buffer `prev_reordered_cts`. -/
structure DtsLoop where
  /-- The array `ts_list.timestamp`. -/
  timestamp : List lsmash_media_ts_t
  /-- The buffer `prev_reordered_cts`, of `sample_delay` entries. -/
  prev_reordered_cts : List Nat
deriving DecidableEq

/-- The value `timestamp[i].dts` gets in the first DTS loop
(timelineeditor.c:797-801). -/
def first_loop_dts (opt : opt_t) (sample_delay initial_delta : Nat) (ts : List Nat)
    (i : Nat) : Option Nat :=
  if opt.dts_compression = 0 then ts[i]?
  else
    let divisor := ((if opt.media_timescale ≠ 0 then 1 else 0) * sample_delay + 1) % U32
    if divisor = 0 then none else some (((i * initial_delta) % U64) / divisor)

/-- One pass of the first DTS loop (timelineeditor.c:795-809), for the index `i`. -/
def dts_first_step (opt : opt_t) (sample_delay initial_delta sample_delay_time : Nat)
    (ts : List Nat) (st : DtsLoop) (i : Nat) : Ret DtsLoop :=
  match first_loop_dts opt sample_delay initial_delta ts i, st.timestamp[i]?, ts[i]? with
  | some dts, some t, some x =>
    let timestamp1 := st.timestamp.set i { t with dts := dts }
    if opt.dts_compression ≠ 0 ∧ i ≠ 0
        ∧ (match st.timestamp[i - 1]? with
           | some p => decide (dts ≤ p.dts)
           | none => false) = true then
      Ret.error
    else if sample_delay = 0 then Ret.undef
    else
      Ret.ok { timestamp := timestamp1,
               prev_reordered_cts :=
                 st.prev_reordered_cts.set (i % sample_delay) (add64 x sample_delay_time) }
  | _, _, _ => Ret.undef

/-- One pass of the second DTS loop (timelineeditor.c:810-814), for the index `i`. -/
def dts_second_step (sample_delay sample_delay_time : Nat) (ts : List Nat)
    (st : DtsLoop) (i : Nat) : Ret DtsLoop :=
  if sample_delay = 0 then Ret.undef
  else
    match st.prev_reordered_cts[(i - sample_delay) % sample_delay]?, st.timestamp[i]?, ts[i]? with
    | some dts, some t, some x =>
      Ret.ok { timestamp := st.timestamp.set i { t with dts := dts },
               prev_reordered_cts :=
                 st.prev_reordered_cts.set (i % sample_delay) (add64 x sample_delay_time) }
    | _, _, _ => Ret.undef

/-- A `for` loop over the indices `is` whose body is `step`. -/
def for_loop {σ : Type} (step : σ → Nat → Ret σ) : List Nat → σ → Ret σ
  | [], st => Ret.ok st
  | i :: is, st =>
    match step st i with
    | Ret.ok st1 => for_loop step is st1
    | Ret.error => Ret.error
    | Ret.undef => Ret.undef

/-- Lines 820-826 of `edit_media_timeline`: the duration of the last sample and
of the track, from the array `timecode->ts` of `sample_count` entries. -/
def last_sample_delta_and_duration (sample_count : Nat) (ts : List Nat) :
    Option (Nat × Nat) :=
  if sample_count > 1 then
    match ts[sample_count - 1]?, ts[sample_count - 2]? with
    | some a, some b =>
      let last_sample_delta := (sub64 a b) % U32
      some (last_sample_delta, add64 a last_sample_delta)
    | _, _ => none
  else some (U32 - 1, U32 - 1)

/-- Lines 777-826 of `edit_media_timeline`: the generation of CTS and DTS from
the reconciled series `ts` (the array `timecode->ts`), where `timestamp` is the
array `ts_list.timestamp` as it stands on line 777 (in composition order when
`sample_delay` is not 0), `sample_count` is its length, `timescale` is the local
of that name and `composition_delay` the current value of
`timecode->composition_delay`.  On line 793 the buffer `prev_reordered_cts` is
allocated; its initial contents are never read and are taken as 0. -/
def edit_media_timeline_generate (opt : opt_t) (sample_delay timescale : Nat)
    (composition_delay : Nat) (ts : List Nat) (timestamp : List lsmash_media_ts_t) :
    Ret timeline_t :=
  let sample_count := timestamp.length
  if sample_delay ≠ 0 then
    let multiplier := dts_compression_multiplier opt sample_delay
    match ts[1]? with
    | none => Ret.undef
    | some initial_delta =>
      let timescale1 := (timescale * multiplier) % U32
      let ts1 := scale_ts multiplier ts
      match (if opt.dts_compression ≠ 0 then some 0 else ts1[sample_delay]?) with
      | none => Ret.undef
      | some sample_delay_time =>
        if ts1.length < sample_count then Ret.undef
        else
          let timestamp1 := lsmash_sort_timestamps_decoding_order
            (generate_cts timestamp ts1 sample_delay_time)
          let st0 : DtsLoop :=
            { timestamp := timestamp1,
              prev_reordered_cts := List.replicate sample_delay 0 }
          match for_loop (dts_first_step opt sample_delay initial_delta sample_delay_time ts1)
                  (List.range (sample_delay + 1)) st0 with
          | Ret.error => Ret.error
          | Ret.undef => Ret.undef
          | Ret.ok st1 =>
            match for_loop (dts_second_step sample_delay sample_delay_time ts1)
                    (List.range' (sample_delay + 1) (sample_count - (sample_delay + 1))) st1 with
            | Ret.error => Ret.error
            | Ret.undef => Ret.undef
            | Ret.ok st2 =>
              match last_sample_delta_and_duration sample_count ts1 with
              | none => Ret.undef
              | some (delta, duration) =>
                Ret.ok { timestamp := st2.timestamp, ts := ts1, timescale := timescale1,
                         composition_delay := sample_delay_time,
                         last_sample_delta := delta, duration := duration }
  else
    if ts.length < sample_count then Ret.undef
    else
      match last_sample_delta_and_duration sample_count ts with
      | none => Ret.undef
      | some (delta, duration) =>
        Ret.ok { timestamp := List.zipWith (fun (_ : lsmash_media_ts_t) x =>
                   ({ dts := x, cts := x } : lsmash_media_ts_t)) timestamp ts,
                 ts := ts, timescale := timescale,
                 composition_delay := composition_delay,
                 last_sample_delta := delta, duration := duration }

/-! ## Notions used to state the properties of the timeline editor -/

/-- The position in decode order of the sample `t` among the samples `T`: the
number of samples whose (original) DTS is smaller. -/
def decode_position (T : List lsmash_media_ts_t) (t : lsmash_media_ts_t) : Nat :=
  T.countP (fun u => decide (u.dts < t.dts))

/-- The meaning of a maximum composition delay of at most `D` for the samples
`T` listed in composition order: no sample's decode position exceeds its
composition position by more than `D`. -/
def delay_at_most (T : List lsmash_media_ts_t) (D : Nat) : Prop :=
  ∀ p ∈ T.enum, decode_position T p.2 ≤ p.1 + D

instance (T : List lsmash_media_ts_t) (D : Nat) : Decidable (delay_at_most T D) := by
  unfold delay_at_most
  infer_instance

/-- The invariant of the two DTS loops of `edit_media_timeline` before the pass
for index `i`, without DTS compression: the CTS values are those of `base`, the
DTS of every position `k < i` is `ts[k]` up to position `D` and
`ts[k - D] + sample_delay_time` beyond, and the rotating buffer holds
`ts[j] + sample_delay_time` for the last `D` indices `j`. -/
def dts_loop_inv (ts : List Nat) (sample_delay_time D : Nat) (base : List lsmash_media_ts_t)
    (i : Nat) (st : DtsLoop) : Prop :=
  st.timestamp.length = base.length
  ∧ st.prev_reordered_cts.length = D
  ∧ st.timestamp.map (fun t => t.cts) = base.map (fun t => t.cts)
  ∧ (∀ k t, k < i → st.timestamp[k]? = some t →
      (k ≤ D → ts[k]? = some t.dts)
      ∧ (D < k → ∃ x, ts[k - D]? = some x ∧ t.dts = add64 x sample_delay_time))
  ∧ (∀ j x, j < i → i ≤ j + D → ts[j]? = some x →
      st.prev_reordered_cts[j % D]? = some (add64 x sample_delay_time))

/-! ## Concrete inputs for the timeline editor -/

/-- The options of the timeline editor when none is given on the command line
(timelineeditor.c:931-941). -/
def default_opt : opt_t :=
  { media_timescale := 0, media_timebase := 0, skip_duration_num := 0,
    skip_duration_den := 1, empty_delay_num := 0, empty_delay_den := 1,
    dts_compression := 0 }

/-- Four samples decoded in the order I P B B, listed in composition order
(I B B P) with their original DTS and CTS: the two B samples are decoded one
position later than they are composed, so the maximum sample delay is 1. -/
def ipbb_timestamps : List lsmash_media_ts_t :=
  [⟨0, 1⟩, ⟨2, 2⟩, ⟨3, 3⟩, ⟨1, 4⟩]

/-! ## Concrete inputs: failures while a fragment is flushed -/

/-- Whether the first sample of `dash3_engine` has been appended. -/
def first_sample_appended (ev : List Event) : Bool :=
  ev.any (fun e => decide (e = Event.append_sample 1 (mk_sample 0 1 1)))

/-- The engine `dash3_engine` on which, once the first sample is written, every
`lsmash_flush_pooled_samples` issued inside `flush_movie_fragment` fails (the
call follows the entry of `flush_movie_fragment` in the record); every other
call succeeds. -/
def fragment_flush_failure_engine : Engine :=
  { dash3_engine with
    flush_pooled_samples := fun ev _ _ =>
      !(first_sample_appended ev && decide (ev.getLast? = some Event.flush_movie_fragment)) }

/-- The engine `dash3_engine` on which `switch_segment` fails once the first
sample is written: the second segment file cannot be opened. -/
def segment_failure_engine : Engine :=
  { dash3_engine with switch_segment := fun ev _ => !first_sample_appended ev }

/-- The remuxer for `segment_failure_engine`: as `dash3_remuxer`, with one
sub-segment per segment. -/
def segment_failure_remuxer : remuxer_t Frac :=
  fresh_remuxer [[fresh_input_track 1 1]] [fresh_output_track 1 [1]] 1 1 ⟨0, 1⟩

/-- The engine `dash3_engine` on which `lsmash_create_fragment_movie` fails once
the first sample is written. -/
def fragment_rejected_engine : Engine :=
  { dash3_engine with create_fragment_movie := fun ev => !first_sample_appended ev }

/-! ## The C type `double`: arithmetic used by the timeline editor -/

/-- The operations on `double` that the timeline editor uses besides those of
`C_double`. -/
class C_double_math (D : Type) extends C_double D where
  /-- The constant written `num / den` in decimal, such as `0.5` or `5e-6`, and
  the conversion of an `int` constant (`den = 1`). -/
  lit : Int → Nat → D
  /-- The sum `a + b`. -/
  add : D → D → D
  /-- The product `a * b`. -/
  mul : D → D → D
  /-- The function `round` of `math.h`: the nearest integer, halfway cases away
  from zero. -/
  round : D → D
  /-- The function `fabs` of `math.h`. -/
  fabs : D → D
  /-- The conversion `(uint64_t)a`, which drops the fractional part; `none`
  when the integral part is not a `uint64_t` (undefined behaviour). -/
  toU64 : D → Option Nat

/-- The function `round` on an exact fraction. -/
def Frac.round (a : Frac) : Frac :=
  if a.den = 0 then a
  else if 0 ≤ a.num then ⟨((2 * a.num.toNat + a.den) / (2 * a.den) : Nat), 1⟩
  else ⟨-(((2 * a.num.natAbs + a.den) / (2 * a.den) : Nat) : Int), 1⟩

/-- The conversion to `uint64_t` of an exact fraction. -/
def Frac.toU64 (a : Frac) : Option Nat :=
  if a.den = 0 then none
  else if a.num < 0 then (if a.num.natAbs < a.den then some 0 else none)
  else if a.num.toNat / a.den < U64 then some (a.num.toNat / a.den) else none

instance : C_double_math Frac where
  lit n d := ⟨n, d⟩
  add a b := ⟨a.num * (b.den : Int) + b.num * (a.den : Int), a.den * b.den⟩
  mul a b := ⟨a.num * b.num, a.den * b.den⟩
  round := Frac.round
  fabs a := ⟨(a.num.natAbs : Int), a.den⟩
  toU64 := Frac.toU64

/-! ## `timelineeditor.c`: the edit list written by `main` -/

/-- Modelled from the spec: the type `lsmash_edit_t` of the container library
header, an edit with its duration (a `uint64_t`, in movie timescale ticks), its
start time (an `int64_t`, in media timescale ticks) and its rate. -/
structure lsmash_edit_t where
  /-- The field `duration`. -/
  duration : Nat
  /-- The field `start_time`. -/
  start_time : Int
  /-- The field `rate`. -/
  rate : Int
deriving DecidableEq

/-- Modelled from the spec: the constant `ISOM_EDIT_MODE_EMPTY` of the container
library header, the start time that marks an empty edit. -/
def ISOM_EDIT_MODE_EMPTY : Int := -1

/-- Modelled from the spec: the constant `ISOM_EDIT_MODE_NORMAL` of the container
library header, the rate of normal playback (1.0 in 16.16 fixed point). -/
def ISOM_EDIT_MODE_NORMAL : Int := 65536

/-- The conversion of a `uint64_t` to `int64_t`. -/
def toI64 (x : Nat) : Int :=
  if x % U64 < U64 / 2 then ((x % U64 : Nat) : Int) else ((x % U64 : Nat) : Int) - (U64 : Int)

section EditList

variable {D : Type} [C_double_math D]

/-- The expression `(uint64_t)((double)((uint64_t)num * media_timescale) / den + 0.5)`
of timelineeditor.c:1213 and 1232, with `uint32_t` operands. -/
def rational_to_ticks (num media_timescale den : Nat) : Option Nat :=
  C_double_math.toU64
    (C_double_math.add
      (C_double.div (C_double.ofU64 ((num * media_timescale) % U64)) (C_double.ofU64 den))
      (C_double_math.lit 1 2 : D))

/-- The local `empty_delay` of timelineeditor.c:1213. -/
def total_empty_delay (timecode_empty_delay : Nat) (opt : opt_t) (media_timescale : Nat) :
    Option Nat :=
  match rational_to_ticks (D := D) opt.empty_delay_num media_timescale opt.empty_delay_den with
  | none => none
  | some d => some (add64 timecode_empty_delay d)

/-- The expression `((double)x / media_timescale) * movie_timescale` assigned to a
`uint64_t` (timelineeditor.c:1220, 1225 and 1229). -/
def to_movie_ticks (x media_timescale movie_timescale : Nat) : Option Nat :=
  C_double_math.toU64
    (C_double_math.mul
      (C_double.div (C_double.ofU64 x) (C_double.ofU64 media_timescale))
      (C_double.ofU64 movie_timescale : D))

/-- Lines 1213-1235 of `main` in timelineeditor.c: the edits passed to
`lsmash_create_explicit_timeline_map`, in the order of the calls, from
`timecode.empty_delay`, `timecode.duration` and `timecode.composition_delay`;
`none` when a conversion to `uint64_t` is undefined.  The library calls are
taken to succeed. -/
def edit_timeline_map (timecode_empty_delay timecode_duration timecode_composition_delay : Nat)
    (opt : opt_t) (movie_timescale media_timescale : Nat) : Option (List lsmash_edit_t) :=
  match total_empty_delay (D := D) timecode_empty_delay opt media_timescale with
  | none => none
  | some empty_delay =>
    let duration := add64 timecode_duration empty_delay
    match to_movie_ticks (D := D) duration media_timescale movie_timescale,
          rational_to_ticks (D := D) opt.skip_duration_num media_timescale
            opt.skip_duration_den with
    | some total, some skip =>
      let edit_start := toI64 (add64 timecode_composition_delay skip)
      if empty_delay ≠ 0 then
        match to_movie_ticks (D := D) empty_delay media_timescale movie_timescale with
        | none => none
        | some empty_duration =>
          some [{ duration := empty_duration, start_time := ISOM_EDIT_MODE_EMPTY,
                  rate := ISOM_EDIT_MODE_NORMAL },
                { duration := sub64 total empty_duration, start_time := edit_start,
                  rate := ISOM_EDIT_MODE_NORMAL }]
      else
        some [{ duration := total, start_time := edit_start, rate := ISOM_EDIT_MODE_NORMAL }]
    | _, _ => none

end EditList

/-- Following the words of the specification: a count of media timescale ticks
"converted by movie_timescale / media_timescale and rounded to the nearest tick
of the movie timescale" (halfway cases up). -/
def nearest_movie_tick (ticks movie_timescale media_timescale : Nat) : Nat :=
  (2 * ticks * movie_timescale + media_timescale) / (2 * media_timescale)

/-! ## The C type `double` as IEEE 754 binary64

The operations of `double` where the type is the binary64 format, every
operation is rounded to the nearest value with ties to the even significand,
and expressions are evaluated in that format (`FLT_EVAL_METHOD` 0). -/

/-- A value of the C type `double` in the IEEE 754 binary64 format: a finite
value `(-1)^neg * m * 2^e` with `m < 2^53`, `-1074 <= e <= 971` and `2^52 <= m`
unless `e = -1074` (so that every finite value but zero has one representation;
zero is written `m = 0`, `e = 0`), an infinity, or a NaN. -/
inductive B64 where
  /-- The finite value `(-1)^neg * m * 2^e`. -/
  | fin : Bool → Nat → Int → B64
  /-- Plus or minus infinity. -/
  | inf : Bool → B64
  /-- Not a number. -/
  | nan : B64
deriving DecidableEq

/-- The number of binary digits of `n`, counted in at most `fuel` steps. -/
def bit_length_steps : Nat → Nat → Nat
  | 0, _ => 0
  | fuel + 1, n => if n = 0 then 0 else bit_length_steps fuel (n / 2) + 1

/-- One step of the count of binary digits by halving the range: with `n` left
to count and `len` digits counted, `s` more digits are split off when `n` has
more than `s` digits. -/
def split_digits (acc : Nat × Nat) (s : Nat) : Nat × Nat :=
  if 2 ^ s ≤ acc.1 then (acc.1 / 2 ^ s, acc.2 + s) else acc

/-- The number of binary digits of `n` (0 for 0): below `2^512` the digits are
split off in blocks of 256, 128, ..., 1, and the last one is counted. -/
def bit_length (n : Nat) : Nat :=
  if n = 0 then 0
  else if n < 2 ^ 256 * 2 ^ 256 then
    ([256, 128, 64, 32, 16, 8, 4, 2, 1].foldl split_digits (n, 0)).2 + 1
  else bit_length_steps n n

/-- The power `2^k` for an integer `k >= 0`, and 1 for `k < 0`. -/
def pow2 (k : Int) : Nat := 2 ^ k.toNat

/-- The binary64 value nearest to `(-1)^neg * num / den` (`den` not 0), ties to
the even significand, as the default rounding mode gives it: the exponent `e`
is chosen so that `num / den / 2^e` lies in `[2^52, 2^53)`, or is -1074 for a
subnormal result; the scaled value is rounded to an integer; a result of
`2^1024` or more is an infinity. -/
def B64.ofRat (neg : Bool) (num den : Nat) : B64 :=
  if den = 0 then B64.nan
  else if num = 0 then B64.fin neg 0 0
  else
    let k : Int := (bit_length num : Int) - (bit_length den : Int)
    let L : Int := if den * pow2 k ≤ num * pow2 (-k) then k else k - 1
    let e : Int := max (L - 52) (-1074)
    let n1 := num * pow2 (-e)
    let d1 := den * pow2 e
    let m0 := n1 / d1
    let r := n1 % d1
    let m := if 2 * r > d1 ∨ (2 * r = d1 ∧ m0 % 2 = 1) then m0 + 1 else m0
    let m1 := if m = 2 ^ 53 then 2 ^ 52 else m
    let e1 : Int := if m = 2 ^ 53 then e + 1 else e
    if e1 > 971 then B64.inf neg
    else if m1 = 0 then B64.fin neg 0 0
    else B64.fin neg m1 e1

/-- The negation `-a`. -/
def B64.neg : B64 → B64
  | B64.fin s m e => B64.fin (!s) m e
  | B64.inf s => B64.inf (!s)
  | B64.nan => B64.nan

/-- The sum `a + b`, correctly rounded. -/
def B64.add : B64 → B64 → B64
  | B64.nan, _ => B64.nan
  | _, B64.nan => B64.nan
  | B64.inf s, B64.inf t => if s = t then B64.inf s else B64.nan
  | B64.inf s, B64.fin _ _ _ => B64.inf s
  | B64.fin _ _ _, B64.inf t => B64.inf t
  | B64.fin s m e, B64.fin t n f =>
    let e0 : Int := min e f
    let a : Int := (if s then -1 else 1) * ((m * pow2 (e - e0) : Nat) : Int)
    let b : Int := (if t then -1 else 1) * ((n * pow2 (f - e0) : Nat) : Int)
    let c : Int := a + b
    if c = 0 then B64.fin (s && t) 0 0
    else B64.ofRat (decide (c < 0)) (c.natAbs * pow2 e0) (pow2 (-e0))

/-- The product `a * b`, correctly rounded. -/
def B64.mul : B64 → B64 → B64
  | B64.nan, _ => B64.nan
  | _, B64.nan => B64.nan
  | B64.inf s, B64.inf t => B64.inf (xor s t)
  | B64.inf s, B64.fin t n _ => if n = 0 then B64.nan else B64.inf (xor s t)
  | B64.fin s m _, B64.inf t => if m = 0 then B64.nan else B64.inf (xor s t)
  | B64.fin s m e, B64.fin t n f =>
    if m = 0 ∨ n = 0 then B64.fin (xor s t) 0 0
    else B64.ofRat (xor s t) (m * n * pow2 (e + f)) (pow2 (-(e + f)))

/-- The quotient `a / b`, correctly rounded. -/
def B64.div : B64 → B64 → B64
  | B64.nan, _ => B64.nan
  | _, B64.nan => B64.nan
  | B64.inf _, B64.inf _ => B64.nan
  | B64.inf s, B64.fin t _ _ => B64.inf (xor s t)
  | B64.fin s _ _, B64.inf t => B64.fin (xor s t) 0 0
  | B64.fin s m e, B64.fin t n f =>
    if n = 0 then (if m = 0 then B64.nan else B64.inf (xor s t))
    else if m = 0 then B64.fin (xor s t) 0 0
    else B64.ofRat (xor s t) (m * pow2 (e - f)) (n * pow2 (f - e))

/-- The comparison `a < b`. -/
def B64.lt : B64 → B64 → Bool
  | B64.nan, _ => false
  | _, B64.nan => false
  | B64.inf s, B64.inf t => s && !t
  | B64.inf s, B64.fin _ _ _ => s
  | B64.fin _ _ _, B64.inf t => !t
  | B64.fin s m e, B64.fin t n f =>
    let e0 : Int := min e f
    let a : Int := (if s then -1 else 1) * ((m * pow2 (e - e0) : Nat) : Int)
    let b : Int := (if t then -1 else 1) * ((n * pow2 (f - e0) : Nat) : Int)
    decide (a < b)

/-- The comparison `a == b`. -/
def B64.eq : B64 → B64 → Bool
  | B64.nan, _ => false
  | _, B64.nan => false
  | B64.inf s, B64.inf t => s == t
  | B64.inf _, B64.fin _ _ _ => false
  | B64.fin _ _ _, B64.inf _ => false
  | B64.fin s m e, B64.fin t n f => (m == 0 && n == 0) || (s == t && m == n && e == f)

/-- The function `round` of `math.h`: the nearest integer, halfway cases away
from zero. -/
def B64.round : B64 → B64
  | B64.fin s m e =>
    if e ≥ 0 then B64.fin s m e
    else B64.ofRat s ((2 * m + pow2 (-e)) / (2 * pow2 (-e))) 1
  | a => a

/-- The conversion `(uint64_t)a`: the fractional part is dropped; the result is
undefined when the integral part is not a `uint64_t`. -/
def B64.toU64 : B64 → Option Nat
  | B64.fin s m e =>
    let t := m * pow2 e / pow2 (-e)
    if s then (if t = 0 then some 0 else none)
    else if t < U64 then some t else none
  | _ => none

instance : C_double B64 where
  ofU64 n := B64.ofRat false n 1
  div := B64.div
  sub a b := B64.add a (B64.neg b)
  le a b := B64.lt a b || B64.eq a b
  lt := B64.lt
  nonzero a := !(B64.eq a (B64.fin false 0 0))

instance : C_double_math B64 where
  lit n d := B64.ofRat (decide (n < 0)) n.natAbs d
  add := B64.add
  mul := B64.mul
  round := B64.round
  fabs a := match a with
    | B64.fin _ m e => B64.fin false m e
    | B64.inf _ => B64.inf false
    | B64.nan => B64.nan
  toU64 := B64.toU64

/-! ## `timelineeditor.c`: frame rate correction and `parse_timecode` -/

/-- The constant `UINT32_MAX`. -/
def UINT32_MAX : Nat := U32 - 1

/-- The constant `MATROSKA_TIMESCALE` (timelineeditor.c:398). -/
def MATROSKA_TIMESCALE : Nat := 1000000000

/-- The fields of `timecode_t` (timelineeditor.c:80-92) that `parse_timecode`
reads and writes. -/
structure timecode_t where
  /-- Whether the media timescale is to be derived (an `int` flag). -/
  auto_media_timescale : Nat
  /-- Whether the media timebase is to be derived (an `int` flag). -/
  auto_media_timebase : Nat
  /-- The media timescale. -/
  media_timescale : Nat
  /-- The media timebase. -/
  media_timebase : Nat
  /-- The delay of the first timecode, in media timescale ticks. -/
  empty_delay : Nat
  /-- The array `ts`. -/
  ts : List Nat
deriving DecidableEq

/-- A loop over the elements of a list whose body is `step`. -/
def for_each {σ α : Type} (step : σ → α → Ret σ) : List α → σ → Ret σ
  | [], st => Ret.ok st
  | a :: as, st =>
    match step st a with
    | Ret.ok st1 => for_each step as st1
    | Ret.error => Ret.error
    | Ret.undef => Ret.undef

section Timecode

variable {D : Type} [C_double_math D]

/-- The first loop of `sigexp10` (timelineeditor.c:384-388), for at most `fuel`
passes. -/
def sigexp10_small : Nat → D → D → Option (D × D)
  | 0, _, _ => none
  | fuel + 1, value, exponent =>
    if C_double.lt value (C_double_math.lit 1 1 : D) then
      sigexp10_small fuel (C_double_math.mul value (C_double_math.lit 10 1))
        (C_double.div exponent (C_double_math.lit 10 1))
    else some (value, exponent)

/-- The second loop of `sigexp10` (timelineeditor.c:389-393), for at most `fuel`
passes. -/
def sigexp10_large : Nat → D → D → Option (D × D)
  | 0, _, _ => none
  | fuel + 1, value, exponent =>
    if C_double.le (C_double_math.lit 10 1 : D) value then
      sigexp10_large fuel (C_double.div value (C_double_math.lit 10 1))
        (C_double_math.mul exponent (C_double_math.lit 10 1))
    else some (value, exponent)

/-- The function `sigexp10` (timelineeditor.c:380-395): the significand and the
power of ten of `value`; `none` when a loop is still running after `fuel`
passes. -/
def sigexp10 (fuel : Nat) (value : D) : Option (D × D) :=
  match sigexp10_small fuel value (C_double_math.lit 1 1) with
  | none => none
  | some (v, e) => sigexp10_large fuel v e

/-- The two assignments `fps_den = i * timecode->media_timebase` and
`fps_num = round( fps_den * fps_sig ) * exponent` (timelineeditor.c:409-410 and
646-647), as the pair `(fps_num, fps_den)`; `none` when the `int` counter has
overflowed or the conversion to `uint64_t` is undefined. -/
def fps_candidate (media_timebase : Nat) (fps_sig exponent : D) (i : Nat) :
    Option (Nat × Nat) :=
  if i ≥ 2147483648 then none
  else
    let fps_den := (i * media_timebase) % U64
    match C_double_math.toU64
            (C_double_math.mul
              (C_double_math.round (C_double_math.mul (C_double.ofU64 fps_den) fps_sig))
              exponent) with
    | none => none
    | some fps_num => some (fps_num, fps_den)

/-- The test `fabs( ((double)fps_num / fps_den) / exponent - fps_sig ) < DOUBLE_EPSILON`
(timelineeditor.c:414 and 649), with `DOUBLE_EPSILON` being `5e-6`. -/
def fps_matches (fps_num fps_den : Nat) (fps_sig exponent : D) : Bool :=
  C_double.lt
    (C_double_math.fabs
      (C_double.sub
        (C_double.div (C_double.div (C_double.ofU64 fps_num) (C_double.ofU64 fps_den))
          exponent)
        fps_sig))
    (C_double_math.lit 5 1000000 : D)

/-- The search loop of `correct_fps` (timelineeditor.c:407-417), from the
counter `i`, for at most `fuel` passes: `ok (fps_num, fps_den)` after `break`,
`error` after `return ERROR_MSG( ... )`. -/
def correct_fps_search (media_timebase : Nat) (fps_sig exponent : D) :
    Nat → Nat → Ret (Nat × Nat)
  | 0, _ => Ret.undef
  | fuel + 1, i =>
    match fps_candidate media_timebase fps_sig exponent i with
    | none => Ret.undef
    | some (fps_num, fps_den) =>
      if fps_num > UINT32_MAX then Ret.error
      else if fps_matches fps_num fps_den fps_sig exponent = true then
        Ret.ok (fps_num, fps_den)
      else correct_fps_search media_timebase fps_sig exponent fuel (i + 1)

/-- Lines 418-425 of `correct_fps`: the update of `timecode->media_timescale`
with the numerator found. -/
def correct_fps_timescale (timecode : timecode_t) (fps_num : Nat) : timecode_t :=
  if timecode.auto_media_timescale ≠ 0 then
    let media_timescale :=
      if timecode.media_timescale ≠ 0 then get_lcm timecode.media_timescale fps_num
      else fps_num
    if media_timescale > UINT32_MAX then
      { timecode with media_timescale := media_timescale, auto_media_timescale := 0 }
    else { timecode with media_timescale := media_timescale }
  else timecode

/-- The function `correct_fps` (timelineeditor.c:401-427).  `Ret.error` stands
for the return value of `ERROR_MSG`, which is -1 and which the callers
recognise by `< 0`; `Ret.ok` carries the corrected rate and the timecode. -/
def correct_fps (fuel : Nat) (fps : D) (timecode : timecode_t) : Ret (D × timecode_t) :=
  match sigexp10 fuel fps with
  | none => Ret.undef
  | some (fps_sig, exponent) =>
    match correct_fps_search timecode.media_timebase fps_sig exponent fuel 1 with
    | Ret.ok (fps_num, fps_den) =>
      Ret.ok (C_double.div (C_double.ofU64 fps_num) (C_double.ofU64 fps_den),
              correct_fps_timescale timecode fps_num)
    | Ret.error => Ret.error
    | Ret.undef => Ret.undef

/-- The numerator `fps_num` with which the search of `correct_fps` ends for the
rate `fps`, if it ends with `break`. -/
def corrected_numerator (fuel : Nat) (media_timebase : Nat) (fps : D) : Option Nat :=
  match sigexp10 fuel fps with
  | none => none
  | some (fps_sig, exponent) =>
    match correct_fps_search media_timebase fps_sig exponent fuel 1 with
    | Ret.ok (fps_num, _) => some fps_num
    | _ => none

/-- Successive calls of `correct_fps` for the rates `fps_list`, as long as none
of them returns an error. -/
def correct_fps_calls (fuel : Nat) (fps_list : List D) (timecode : timecode_t) :
    Ret timecode_t :=
  for_each (fun (tc : timecode_t) (fps : D) =>
    match correct_fps fuel fps tc with
    | Ret.ok (_, tc1) => Ret.ok tc1
    | Ret.error => Ret.error
    | Ret.undef => Ret.undef) fps_list timecode

/-- The expression `MATROSKA_TIMESCALE / fps_sig` rounded and divided by the
exponent (timelineeditor.c:438, 551 and 559), as a `double`. -/
def matroska_fps_den (fps_sig exponent : D) : D :=
  C_double.div
    (C_double_math.round
      (C_double.div (C_double_math.lit (MATROSKA_TIMESCALE : Int) 1) fps_sig))
    exponent

/-- One pass of the loop of `try_matroska_timescale` (timelineeditor.c:433-445). -/
def try_matroska_timescale_step (fuel : Nat) (fps_array : List D) (timecode : timecode_t)
    (i : Nat) : Ret timecode_t :=
  match fps_array[i]? with
  | none => Ret.undef
  | some fps =>
    match sigexp10 fuel fps with
    | none => Ret.undef
    | some (fps_sig, exponent) =>
      match C_double_math.toU64 (matroska_fps_den fps_sig exponent) with
      | none => Ret.undef
      | some fps_den =>
        let media_timebase :=
          if fps_den ≠ 0 ∧ timecode.media_timebase ≠ 0 then
            get_gcd timecode.media_timebase fps_den
          else fps_den
        if media_timebase > UINT32_MAX ∨ media_timebase = 0 then Ret.error
        else Ret.ok { timecode with media_timebase := media_timebase }

/-- The function `try_matroska_timescale` (timelineeditor.c:429-447). -/
def try_matroska_timescale (fuel : Nat) (fps_array : List D) (timecode : timecode_t)
    (num_loops : Nat) : Ret timecode_t :=
  for_loop (try_matroska_timescale_step fuel fps_array) (List.range num_loops)
    { timecode with media_timebase := 0, media_timescale := MATROSKA_TIMESCALE }

/-- The expression `((uint64_t)(x * ((double)timescale / timebase) + 0.5)) * timebase`
(timelineeditor.c:684 and 693). -/
def timecode_to_ticks (x : D) (timescale timebase : Nat) : Option Nat :=
  match C_double_math.toU64
          (C_double_math.add
            (C_double_math.mul x (C_double.div (C_double.ofU64 timescale)
              (C_double.ofU64 timebase)))
            (C_double_math.lit 1 2)) with
  | none => none
  | some q => some ((q * timebase) % U64)

/-- One pass of the loop that fills `timecode->ts` (timelineeditor.c:691-701),
where `ts` holds the entries written so far. -/
def generate_ts_step (timecode_array : List D) (delay_tc : D) (timescale timebase : Nat)
    (ts : List Nat) (i : Nat) : Ret (List Nat) :=
  match timecode_array[i]?, ts[i - 1]? with
  | some x, some prev =>
    match timecode_to_ticks (C_double.sub x delay_tc) timescale timebase with
    | none => Ret.undef
    | some t => if t ≤ prev then Ret.error else Ret.ok (ts ++ [t])
  | _, _ => Ret.undef

/-- Lines 669-673 of `parse_timecode`: the reduction of timebase and timescale,
or the check of a pinned timescale (lines 675-680). -/
def reduce_or_check (timecode : timecode_t) : Ret timecode_t :=
  if timecode.auto_media_timescale ≠ 0 ∨ timecode.auto_media_timebase ≠ 0 then
    let reduce := get_gcd timecode.media_timebase timecode.media_timescale
    if reduce = 0 then Ret.undef
    else Ret.ok { timecode with media_timebase := timecode.media_timebase / reduce,
                                media_timescale := timecode.media_timescale / reduce }
  else if timecode.media_timescale > UINT32_MAX ∨ timecode.media_timescale = 0 then Ret.error
  else Ret.ok timecode

/-- Lines 681-703 of `parse_timecode`: the timecodes (seconds) are converted to
the delay `timecode->empty_delay` and the array `timecode->ts`. -/
def parse_timecode_ts (tc1 : timecode_t) (sample_count : Nat) (timecode_array : List D) :
    Ret timecode_t :=
  let timescale := tc1.media_timescale % U32
  let timebase := tc1.media_timebase % U32
  match timecode_array[0]? with
  | none => Ret.undef
  | some delay_tc =>
    match timecode_to_ticks delay_tc timescale timebase with
    | none => Ret.undef
    | some empty_delay =>
      match for_loop (generate_ts_step timecode_array delay_tc timescale timebase)
              (List.range' 1 (sample_count - 1)) [0] with
      | Ret.error => Ret.error
      | Ret.undef => Ret.undef
      | Ret.ok ts => Ret.ok { tc1 with empty_delay := empty_delay, ts := ts }

/-- Lines 669-703 of `parse_timecode`, common to both timecode formats: the
timescale and timebase are settled and the timecodes are converted. -/
def parse_timecode_finish (timecode : timecode_t) (sample_count : Nat)
    (timecode_array : List D) : Ret timecode_t :=
  match reduce_or_check timecode with
  | Ret.error => Ret.error
  | Ret.undef => Ret.undef
  | Ret.ok tc1 => parse_timecode_ts tc1 sample_count timecode_array

/-- The common end of `parse_timecode` after the part that depends on the
timecode format, which may have returned an error. -/
def finish_after (r : Ret timecode_t) (sample_count : Nat) (timecode_array : List D) :
    Ret timecode_t :=
  match r with
  | Ret.ok tc1 => parse_timecode_finish tc1 sample_count timecode_array
  | Ret.error => Ret.error
  | Ret.undef => Ret.undef

/-! ### Timecode format v2 -/

/-- The state of the loop over the intervals (timelineeditor.c:635-662). -/
structure V2Loop (D : Type) where
  /-- The timecode. -/
  timecode : timecode_t
  /-- The entries of `fps_array` written so far. -/
  fps_array : List D

/-- The search loop of format v2 (timelineeditor.c:644-652), from the counter
`j`, for at most `fuel` passes; it is left by `break` in both cases, with
`(fps_num, fps_den)`. -/
def v2_search (media_timebase : Nat) (fps_sig exponent : D) : Nat → Nat → Option (Nat × Nat)
  | 0, _ => none
  | fuel + 1, j =>
    match fps_candidate media_timebase fps_sig exponent j with
    | none => none
    | some (fps_num, fps_den) =>
      if fps_num > UINT32_MAX ∨ fps_matches fps_num fps_den fps_sig exponent = true then
        some (fps_num, fps_den)
      else v2_search media_timebase fps_sig exponent fuel (j + 1)

/-- Lines 653-660 of `parse_timecode`: the update of `timecode->media_timescale`
with the numerator the search ended with. -/
def v2_timescale (timecode : timecode_t) (fps_num : Nat) : timecode_t :=
  let media_timescale :=
    if fps_num ≠ 0 ∧ timecode.media_timescale ≠ 0 then
      get_lcm timecode.media_timescale fps_num
    else fps_num
  if media_timescale > UINT32_MAX then
    { timecode with media_timescale := media_timescale, auto_media_timescale := 0 }
  else { timecode with media_timescale := media_timescale }

/-- The assignment `fps_array[i] = 1 / (timecode_array[i + 1] - timecode_array[i])`
(timelineeditor.c:637); `none` when the array is read out of bounds. -/
def interval_fps (timecode_array : List D) (i : Nat) : Option D :=
  match timecode_array[i + 1]?, timecode_array[i]? with
  | some b, some a => some (C_double.div (C_double_math.lit 1 1 : D) (C_double.sub b a))
  | _, _ => none

/-- One pass of the loop over the intervals (timelineeditor.c:635-662). -/
def v2_step (fuel : Nat) (timecode_array : List D) (st : V2Loop D) (i : Nat) :
    Ret (V2Loop D) :=
  match interval_fps timecode_array i with
  | some fps =>
    if st.timecode.auto_media_timescale ≠ 0 then
      match sigexp10 fuel fps with
      | none => Ret.undef
      | some (fps_sig, exponent) =>
        match v2_search st.timecode.media_timebase fps_sig exponent fuel 1 with
        | none => Ret.undef
        | some (fps_num, _) =>
          Ret.ok { timecode := v2_timescale st.timecode fps_num,
                   fps_array := st.fps_array ++ [fps] }
    else Ret.ok { timecode := st.timecode, fps_array := st.fps_array ++ [fps] }
  | none => Ret.undef

/-- Lines 663-665 of `parse_timecode`: the Matroska timescale is tried when the
timebase is automatic and automatic timescale generation has been given up. -/
def v2_fallback (fuel : Nat) (sample_count : Nat) (st : V2Loop D) : Ret timecode_t :=
  if st.timecode.auto_media_timebase ≠ 0 ∧ st.timecode.auto_media_timescale = 0 then
    try_matroska_timescale fuel st.fps_array st.timecode (dec32 sample_count)
  else Ret.ok st.timecode

/-- Lines 629-667 of `parse_timecode`: automatic generation of the media
timescale for format v2. -/
def v2_generate_timescale (fuel : Nat) (timecode : timecode_t) (sample_count : Nat)
    (timecode_array : List D) : Ret timecode_t :=
  if sample_count ≠ 1 ∧ timecode.auto_media_timescale ≠ 0 then
    match for_loop (v2_step fuel timecode_array) (List.range (dec32 sample_count))
            { timecode := timecode, fps_array := [] } with
    | Ret.ok st => v2_fallback fuel sample_count st
    | Ret.error => Ret.error
    | Ret.undef => Ret.undef
  else Ret.ok timecode

/-- The function `parse_timecode` for timecode format v2 from line 629 on,
where `timecode_array` holds the `sample_count` timecodes read from the file, in
seconds (lines 604-628 have checked that they are strictly increasing). -/
def parse_timecode_v2 (fuel : Nat) (timecode : timecode_t) (sample_count : Nat)
    (timecode_array : List D) : Ret timecode_t :=
  finish_after (v2_generate_timescale fuel timecode sample_count timecode_array)
    sample_count timecode_array

/-! ### Timecode format v1 -/

/-- A line `start,end,fps` of a timecode file of format v1. -/
structure sequence_t (D : Type) where
  /-- The first frame of the run. -/
  start : Int
  /-- The last frame of the run. -/
  end_ : Int
  /-- The frame rate of the run. -/
  fps : D

/-- The check of the runs (timelineeditor.c:483-501): whether no line makes
`parse_timecode` return an error. -/
def check_sequences : List (sequence_t D) → Int → Int → Bool
  | [], _, _ => true
  | l :: ls, prev_start, prev_end =>
    if l.start > l.end_ ∨ l.start ≤ prev_start ∨ l.end_ ≤ prev_end
        ∨ C_double.le l.fps (C_double_math.lit 0 1 : D) = true then false
    else check_sequences ls l.start l.end_

/-- The state of the loops over the runs. -/
structure V1Loop (D : Type) where
  /-- The timecode. -/
  timecode : timecode_t
  /-- The array `timecode_array`. -/
  timecode_array : List D
  /-- The counter `i`, a `uint32_t`. -/
  i : Nat
  /-- The entries of `fps_array` written so far. -/
  fps_array : List D

/-- The assignment `timecode_array[i + 1] = timecode_array[i] + 1 / fps`. -/
def next_timecode (fps : D) (timecode_array : List D) (i : Nat) : Ret (List D) :=
  match timecode_array[i]? with
  | none => Ret.undef
  | some x =>
    if i + 1 < timecode_array.length then
      Ret.ok (timecode_array.set (i + 1)
        (C_double_math.add x (C_double.div (C_double_math.lit 1 1) fps)))
    else Ret.undef

/-- The loops `for( ; i < hi; i++ ) timecode_array[i + 1] = timecode_array[i] + 1 / fps`
from `i = lo`. -/
def fill_timecodes (timecode_array : List D) (fps : D) (lo hi : Nat) : Ret (List D) :=
  for_loop (next_timecode fps) (List.range' lo (hi - lo)) timecode_array

/-- Where the loop `for( ; i < start && i < sample_count - 1; i++ )` leaves `i`
(`limit` is `sample_count - 1`). -/
def run_until_start (i : Nat) (start : Int) (limit : Nat) : Nat :=
  if (i : Int) < start ∧ i < limit then min start.toNat limit else i

/-- Where the loop `for( i = start; i <= end && i < sample_count - 1; i++ )`
leaves `i`, from the `uint32_t` value `i` of `start`. -/
def run_until_end (i : Nat) (end_ : Int) (limit : Nat) : Nat :=
  if (i : Int) ≤ end_ ∧ i < limit then min (end_ + 1).toNat limit else i

/-- One pass of the loop over the runs (timelineeditor.c:517-536) for the line
`l`; a pass is not made when `i < sample_count - 1` fails. -/
def v1_step (fuel : Nat) (limit : Nat) (corrected_assume_fps : D) (st : V1Loop D)
    (l : sequence_t D) : Ret (V1Loop D) :=
  if st.i < limit then
    let i1 := run_until_start st.i l.start limit
    match fill_timecodes st.timecode_array corrected_assume_fps st.i i1 with
    | Ret.error => Ret.error
    | Ret.undef => Ret.undef
    | Ret.ok array1 =>
      if i1 < limit then
        let fps_array :=
          if st.timecode.auto_media_timescale ≠ 0 ∨ st.timecode.auto_media_timebase ≠ 0 then
            st.fps_array ++ [l.fps]
          else st.fps_array
        match correct_fps fuel l.fps st.timecode with
        | Ret.error => Ret.error
        | Ret.undef => Ret.undef
        | Ret.ok (sequence_fps, tc1) =>
          if C_double.lt sequence_fps (C_double_math.lit 0 1 : D) then Ret.error
          else
            let i2 := (l.start % (U32 : Int)).toNat
            let i3 := run_until_end i2 l.end_ limit
            match fill_timecodes array1 sequence_fps i2 i3 with
            | Ret.error => Ret.error
            | Ret.undef => Ret.undef
            | Ret.ok array2 =>
              Ret.ok { timecode := tc1, timecode_array := array2, i := i3,
                       fps_array := fps_array }
      else Ret.ok { st with timecode_array := array1, i := i1 }
  else Ret.ok st

/-- The rate `MATROSKA_TIMESCALE / ( round( MATROSKA_TIMESCALE / fps_sig ) / exponent )`
(timelineeditor.c:550-551 and 558-559). -/
def matroska_fps (fuel : Nat) (fps : D) : Option D :=
  match sigexp10 fuel fps with
  | none => none
  | some (fps_sig, exponent) =>
    some (C_double.div (C_double_math.lit (MATROSKA_TIMESCALE : Int) 1)
      (matroska_fps_den fps_sig exponent))

/-- One pass of the loop over the runs after the Matroska timescale has been
taken (timelineeditor.c:552-564); the state is the array and the counter `i`. -/
def v1_matroska_step (fuel : Nat) (limit : Nat) (corrected_assume_fps : D)
    (st : List D × Nat) (l : sequence_t D) : Ret (List D × Nat) :=
  if st.2 < limit then
    match matroska_fps fuel l.fps with
    | none => Ret.undef
    | some sequence_fps =>
      let i1 := run_until_start st.2 l.start limit
      match fill_timecodes st.1 corrected_assume_fps st.2 i1 with
      | Ret.error => Ret.error
      | Ret.undef => Ret.undef
      | Ret.ok array1 =>
        let i2 := (l.start % (U32 : Int)).toNat
        let i3 := run_until_end i2 l.end_ limit
        match fill_timecodes array1 sequence_fps i2 i3 with
        | Ret.error => Ret.error
        | Ret.undef => Ret.undef
        | Ret.ok array2 => Ret.ok (array2, i3)
  else Ret.ok st

/-- Lines 541-567 of `parse_timecode`: with an automatic timebase and automatic
timescale generation given up, the Matroska timescale is tried and the
timecodes are generated again. -/
def v1_fallback (fuel : Nat) (limit : Nat) (assume_fps : D) (lines : List (sequence_t D))
    (st : V1Loop D) : Ret (timecode_t × List D) :=
  if st.timecode.auto_media_timebase ≠ 0 ∧ st.timecode.auto_media_timescale = 0 then
    match try_matroska_timescale fuel st.fps_array st.timecode st.fps_array.length with
    | Ret.error => Ret.error
    | Ret.undef => Ret.undef
    | Ret.ok tc1 =>
      match matroska_fps fuel assume_fps with
      | none => Ret.undef
      | some corrected_assume_fps =>
        match for_each (v1_matroska_step fuel limit corrected_assume_fps) lines
                (st.timecode_array, 0) with
        | Ret.error => Ret.error
        | Ret.undef => Ret.undef
        | Ret.ok (array1, i) =>
          match fill_timecodes array1 corrected_assume_fps i limit with
          | Ret.error => Ret.error
          | Ret.undef => Ret.undef
          | Ret.ok array2 => Ret.ok (tc1, array2)
  else Ret.ok (st.timecode, st.timecode_array)

/-- Lines 508-541 of `parse_timecode`: the assumed rate is corrected and the
timecodes are generated run by run, each run's rate being corrected by
`correct_fps`. -/
def v1_generate (fuel : Nat) (timecode : timecode_t) (sample_count : Nat) (assume_fps : D)
    (lines : List (sequence_t D)) : Ret (V1Loop D) :=
  match correct_fps fuel assume_fps timecode with
  | Ret.error => Ret.error
  | Ret.undef => Ret.undef
  | Ret.ok (corrected_assume_fps, tc1) =>
    if C_double.lt corrected_assume_fps (C_double_math.lit 0 1 : D) then Ret.error
    else if sample_count = 0 then Ret.undef
    else
      let limit := dec32 sample_count
      match for_each (v1_step fuel limit corrected_assume_fps) lines
              { timecode := tc1,
                timecode_array := List.replicate sample_count (C_double_math.lit 0 1),
                i := 0, fps_array := [] } with
      | Ret.error => Ret.error
      | Ret.undef => Ret.undef
      | Ret.ok st =>
        match fill_timecodes st.timecode_array corrected_assume_fps st.i limit with
        | Ret.error => Ret.error
        | Ret.undef => Ret.undef
        | Ret.ok array1 =>
          Ret.ok { st with
            timecode_array := array1,
            i := max st.i limit,
            fps_array :=
              if st.timecode.auto_media_timescale ≠ 0 ∨ st.timecode.auto_media_timebase ≠ 0 then
                st.fps_array ++ [assume_fps]
              else st.fps_array }

/-- The function `parse_timecode` for timecode format v1 from line 481 on, where
`assume_fps` is the assumed rate and `lines` are the runs read from the file.
The array `timecode_array` is allocated on line 511; its entries are written
before they are read and are taken as 0 at first. -/
def parse_timecode_v1 (fuel : Nat) (timecode : timecode_t) (sample_count : Nat)
    (assume_fps : D) (lines : List (sequence_t D)) : Ret timecode_t :=
  if C_double.le assume_fps (C_double_math.lit 0 1 : D) then Ret.error
  else if check_sequences lines (-1) (-1) = false then Ret.error
  else
    match v1_generate fuel timecode sample_count assume_fps lines with
    | Ret.error => Ret.error
    | Ret.undef => Ret.undef
    | Ret.ok st =>
      match v1_fallback fuel (dec32 sample_count) assume_fps lines st with
      | Ret.error => Ret.error
      | Ret.undef => Ret.undef
      | Ret.ok (tc1, timecode_array) => parse_timecode_finish tc1 sample_count timecode_array

end Timecode

/-! ## Concrete inputs: timecodes -/

/-- A timecode as `edit_media_timeline` hands it to `parse_timecode` when neither
the media timescale nor the media timebase is pinned, for a track whose
timebase is `3 * 2^30`. -/
def wide_timebase_timecode : timecode_t :=
  { auto_media_timescale := 1, auto_media_timebase := 1, media_timescale := 0,
    media_timebase := 3221225472, empty_delay := 0, ts := [] }

/-- The timecodes 0 s, 0.5 s and 1 s of a file of format v2. -/
def half_second_timecodes : List Frac := [⟨0, 1⟩, ⟨1, 2⟩, ⟨1, 1⟩]

/-! ## `remuxer.c`: the name of a media segment file -/

/-- The terminator of a C string. -/
def NUL : Char := Char.ofNat 0

/-- The character `.`. -/
def DOT : Char := Char.ofNat 46

/-- The character `/`. -/
def SLASH : Char := Char.ofNat 47

/-- The backslash. -/
def BACKSLASH : Char := Char.ofNat 92

/-- The character `_`. -/
def UNDERSCORE : Char := Char.ofNat 95

/-- The byte `name[i]` of the C string whose characters are `name`: the
terminator stands at index `strlen( name )`; `none` beyond it. -/
def c_str_at (name : List Char) (i : Nat) : Option Char :=
  if i = name.length then some NUL else name[i]?

/-- The test `*p != '.' && *p != '/' && *p != '\\'` negated: whether the scan of
`open_media_segment` stops at the character `c`. -/
def stops_scan (c : Char) : Bool :=
  c = DOT || c = SLASH || c = BACKSLASH

/-- The loop `while( p >= out_file->name && *p != '.' && *p != '/' && *p != '\\' ) --p`
(remuxer.c:1380-1381) entered with `p = out_file->name + i`: the offset of `p`
from `out_file->name` afterwards, -1 when the start of the name was passed;
`none` when a byte beyond the terminator is read. -/
def scan_back (name : List Char) : Nat → Option Int
  | 0 =>
    match c_str_at name 0 with
    | none => none
    | some c => if stops_scan c then some 0 else some (-1)
  | i + 1 =>
    match c_str_at name (i + 1) with
    | none => none
    | some c => if stops_scan c then some ((i + 1 : Nat) : Int) else scan_back name i

/-- Lines 1378-1385 of `open_media_segment`: the offset of `p` from
`out_file->name` where the extension starts (the length of the name when there
is none). -/
def extension_offset (name : List Char) : Option Nat :=
  match scan_back name name.length with
  | none => none
  | some p =>
    let p1 := if p < 0 then p + 1 else p
    match c_str_at name p1.toNat with
    | none => none
    | some c => if c ≠ DOT then some name.length else some p1.toNat

/-- The loop `for( uint32_t i = output->current_seg_number; i; i /= 10 ) ++suffix_length`
(remuxer.c:1387-1388), which makes at most 10 passes on a `uint32_t`. -/
def suffix_length_loop : Nat → Nat → Nat → Nat
  | 0, _, suffix_length => suffix_length
  | fuel + 1, i, suffix_length =>
    if i = 0 then suffix_length else suffix_length_loop fuel (i / 10) (suffix_length + 1)

/-- The characters that `sprintf( ..., "_%"PRIu32, n )` writes, the terminator
included: an underscore and the decimal digits of `n`. -/
def sprintf_suffix (n : Nat) : List Char :=
  UNDERSCORE :: Nat.toDigits 10 n ++ [NUL]

/-- A write of the bytes `data` into the buffer `buf` at the offset `off`
(`memcpy`, `sprintf`, or an assignment to one element), bytes not yet written
being `none`; `none` when the write goes beyond the buffer. -/
def write_bytes (buf : List (Option Char)) (off : Nat) (data : List Char) :
    Option (List (Option Char)) :=
  if off + data.length ≤ buf.length then
    some (buf.take off ++ data.map some ++ buf.drop (off + data.length))
  else none

/-- The C string that starts the buffer `buf`: the bytes before the first
terminator; `none` when a byte that was never written, or the end of the
buffer, comes first. -/
def c_str_of : List (Option Char) → Option (List Char)
  | [] => none
  | none :: _ => none
  | some c :: rest =>
    if c = NUL then some []
    else
      match c_str_of rest with
      | none => none
      | some s => some (c :: s)

/-- The function `open_media_segment` (remuxer.c:1365-1404) up to the call of
`out_file->open`: the local `seg_name_length` and the string `seg_name` passed
to `open`, for the output file name `name` (without its terminator) and the
segment number `current_seg_number`; `none` when an `int` overflows or a buffer
is accessed out of bounds.  The allocation is taken to succeed. -/
def open_media_segment (name : List Char) (current_seg_number : Nat) :
    Option (Nat × List Char) :=
  let out_file_name_length := name.length
  if out_file_name_length ≥ 2147483648 then none
  else
    match extension_offset name with
    | none => none
    | some p =>
      let suffix_length := suffix_length_loop 10 (current_seg_number % U32) 1
      let seg_name_length := out_file_name_length + suffix_length
      let suffixless_length := p
      if seg_name_length + 1 ≥ 2147483648 then none
      else
        let buf0 : List (Option Char) := List.replicate (seg_name_length + 1) none
        match write_bytes buf0 seg_name_length [NUL] with
        | none => none
        | some buf1 =>
          match write_bytes buf1 0 (name.take suffixless_length) with
          | none => none
          | some buf2 =>
            match write_bytes buf2 suffixless_length
                    (sprintf_suffix (current_seg_number % U32)) with
            | none => none
            | some buf3 =>
              match (if c_str_at name p = some DOT then
                       write_bytes buf3 (suffixless_length + suffix_length) (name.drop p)
                     else some buf3) with
              | none => none
              | some buf4 =>
                match c_str_of buf4 with
                | none => none
                | some seg_name => some (seg_name_length, seg_name)

/-- Following the words of the specification: the extension of a file name,
"the part of the name starting at its last '.' when no path separator (slash or
backslash) occurs after that '.'", and empty otherwise. -/
def extension_of : List Char → List Char
  | [] => []
  | c :: cs =>
    if cs.any stops_scan then extension_of cs
    else if c = DOT then c :: cs
    else []

/-- Following the words of the specification: the stem of a file name, "the
name without ext". -/
def stem_of (name : List Char) : List Char :=
  name.take (name.length - (extension_of name).length)

/-- The index of the last character of a name at which the scan of
`open_media_segment` stops. -/
def last_stop_index : List Char → Option Nat
  | [] => none
  | c :: cs =>
    match last_stop_index cs with
    | some k => some (k + 1)
    | none => if stops_scan c then some 0 else none

/-! ## `remuxer.c`: summaries and output tracks in `prepare_output` -/

/-- The fields of `input_track_t` that the track loop of `prepare_output` reads
and writes. -/
structure input_summaries_t where
  /-- Whether the track is remuxed at all. -/
  active : Bool
  /-- Number of summaries (sample descriptions) of the track. -/
  num_summaries : Nat
  /-- The flags `summaries[k].active`. -/
  summaries : List Bool
  /-- Duration given to the last sample. -/
  last_sample_delta : Nat
deriving DecidableEq

/-- The container library as seen by the track loop of `prepare_output`, for
the track `j` (0-based) of the input `i` (0-based) and its summary `k`:
whether each call succeeds. -/
structure PrepareEngine where
  /-- The track identifier returned by `lsmash_create_track`, 0 on failure. -/
  create_track : Nat → Nat → Nat
  /-- Whether `lsmash_set_track_parameters` succeeds. -/
  set_track_parameters : Nat → Nat → Bool
  /-- Whether `lsmash_set_media_parameters` succeeds. -/
  set_media_parameters : Nat → Nat → Bool
  /-- Whether `lsmash_create_data_reference` succeeds. -/
  create_data_reference : Nat → Nat → Bool
  /-- Whether `lsmash_add_sample_entry` attaches summary `k` (returns a
  non-zero index). -/
  add_sample_entry : Nat → Nat → Nat → Bool
  /-- Whether `set_starting_point` succeeds. -/
  set_starting_point : Nat → Nat → Bool

/-- The state of the loop over the summaries (remuxer.c:1260-1279). -/
structure SummaryLoop where
  /-- The flags `in_track->summaries[k].active`. -/
  summaries : List Bool
  /-- The table `out_track->summary_remap`. -/
  summary_remap : List Nat
  /-- The local `valid_summary_count`, a `uint32_t`. -/
  valid_summary_count : Nat
deriving DecidableEq

/-- One pass of the loop over the summaries (remuxer.c:1261-1279), for the
index `k`, where `accept k` tells whether `lsmash_add_sample_entry` attaches the
summary. -/
def summary_step (accept : Nat → Bool) (st : SummaryLoop) (k : Nat) : Ret SummaryLoop :=
  match st.summaries[k]? with
  | none => Ret.undef
  | some active =>
    if k < st.summary_remap.length then
      if active = false then
        Ret.ok { st with summary_remap := st.summary_remap.set k 0 }
      else if accept k = false then
        Ret.ok { st with summaries := st.summaries.set k false,
                         summary_remap := st.summary_remap.set k 0 }
      else
        Ret.ok { st with summary_remap := st.summary_remap.set k (inc32 st.valid_summary_count),
                         valid_summary_count := inc32 st.valid_summary_count }
    else Ret.undef

/-- Lines 1259-1279 of `prepare_output`: the summaries of one input track are
attached to the output track, whose table was allocated zeroed on line 1238. -/
def attach_summaries (accept : Nat → Bool) (in_track : input_summaries_t) : Ret SummaryLoop :=
  for_loop (summary_step accept) (List.range in_track.num_summaries)
    { summaries := in_track.summaries,
      summary_remap := List.replicate in_track.num_summaries 0,
      valid_summary_count := 0 }

/-- The state of the loop over the tracks of `prepare_output`: the tracks of
the inputs and the output movie. -/
structure PrepareState where
  /-- The tracks `input[i].file.movie.track[j]`. -/
  input : List (List input_summaries_t)
  /-- The output movie. -/
  out_movie : output_movie_t
deriving DecidableEq

/-- The store `input[i].file.movie.track[j] = in_track`. -/
def set_input_track (input : List (List input_summaries_t)) (i j : Nat)
    (in_track : input_summaries_t) : List (List input_summaries_t) :=
  match input[i]? with
  | none => input
  | some tracks => input.set i (tracks.set j in_track)

/-- The function `exclude_invalid_output_track` (remuxer.c:1164-1177), called
for the track `j` of the input `i` while the output track `out_track` is being
set up: the output track count is decremented and the input track is
deactivated (`lsmash_delete_track` acts on the library only). -/
def exclude_invalid_output_track (st : PrepareState) (out_track : output_track_t)
    (i j : Nat) (in_track : input_summaries_t) : PrepareState :=
  { input := set_input_track st.input i j { in_track with active := false },
    out_movie :=
      { st.out_movie with
        track := set1 st.out_movie.track st.out_movie.current_track_number out_track,
        num_tracks := dec32 st.out_movie.num_tracks } }

/-- One pass of the loop over the tracks of the input `i` in `prepare_output`
(remuxer.c:1232-1298), for the track `j`.  Allocations are taken to
succeed. -/
def prepare_track (E : PrepareEngine) (i : Nat) (st : PrepareState) (j : Nat) :
    Ret PrepareState :=
  match st.input[i]? with
  | none => Ret.undef
  | some tracks =>
    match tracks[j]? with
    | none => Ret.undef
    | some in_track =>
      if in_track.active = false then Ret.ok st
      else
        match at1 st.out_movie.track st.out_movie.current_track_number with
        | none => Ret.undef
        | some out_track0 =>
          let out_track1 : output_track_t :=
            { out_track0 with summary_remap := List.replicate in_track.num_summaries 0,
                              track_ID := E.create_track i j }
          if E.create_track i j = 0 then Ret.error
          else if E.set_track_parameters i j = false then
            Ret.ok (exclude_invalid_output_track st out_track1 i j in_track)
          else if E.set_media_parameters i j = false then
            Ret.ok (exclude_invalid_output_track st out_track1 i j in_track)
          else if E.create_data_reference i j = false then Ret.error
          else
            match attach_summaries (E.add_sample_entry i j) in_track with
            | Ret.error => Ret.error
            | Ret.undef => Ret.undef
            | Ret.ok sl =>
              let in_track1 := { in_track with summaries := sl.summaries }
              let out_track2 := { out_track1 with summary_remap := sl.summary_remap }
              if sl.valid_summary_count = 0 then
                Ret.ok (exclude_invalid_output_track st out_track2 i j in_track1)
              else
                let out_track3 :=
                  { out_track2 with last_sample_delta := in_track.last_sample_delta }
                if E.set_starting_point i j = false then
                  Ret.ok (exclude_invalid_output_track st out_track3 i j in_track1)
                else
                  Ret.ok
                    { input := set_input_track st.input i j in_track1,
                      out_movie :=
                        { st.out_movie with
                          track := set1 st.out_movie.track st.out_movie.current_track_number
                            { out_track3 with current_sample_number := 1,
                                              skip_dt_interval := 0,
                                              last_sample_dts := 0 },
                          current_track_number :=
                            inc32 st.out_movie.current_track_number } }

/-- The loop over the tracks of the input `i` (remuxer.c:1232-1298). -/
def prepare_input (E : PrepareEngine) (st : PrepareState) (i : Nat) : Ret PrepareState :=
  match st.input[i]? with
  | none => Ret.undef
  | some tracks => for_loop (prepare_track E i) (List.range tracks.length) st

/-- Lines 1228-1299 of `prepare_output`: the loops over the inputs and their
tracks, entered with `out_movie->current_track_number = 1`. -/
def prepare_tracks (E : PrepareEngine) (st : PrepareState) : Ret PrepareState :=
  for_loop (prepare_input E)
    (List.range st.input.length)
    { st with out_movie := { st.out_movie with current_track_number := 1 } }

/-- Following the words of the specification: the remap table that "sends each
inactive or rejected input summary to 0 and sends the accepted summaries, in
input order, to 1, 2, ..., m", for the summaries from index `k` on, `count`
summaries having been accepted before. -/
def expected_remap (accept : Nat → Bool) : List Bool → Nat → Nat → List Nat
  | [], _, _ => []
  | active :: rest, k, count =>
    if active && accept k then (count + 1) :: expected_remap accept rest (k + 1) (count + 1)
    else 0 :: expected_remap accept rest (k + 1) count

/-- Following the words of the specification: the number `m` of accepted
summaries among those from index `k` on. -/
def accepted_count (accept : Nat → Bool) : List Bool → Nat → Nat
  | [], _ => 0
  | active :: rest, k =>
    (if active && accept k then 1 else 0) + accepted_count accept rest (k + 1)

/-- The arrays of summaries have the length `num_summaries`, a `uint32_t`. -/
def summaries_well_formed (input : List (List input_summaries_t)) : Prop :=
  ∀ tracks ∈ input, ∀ t ∈ tracks,
    t.summaries.length = t.num_summaries ∧ t.num_summaries < U32

instance (input : List (List input_summaries_t)) : Decidable (summaries_well_formed input) := by
  unfold summaries_well_formed
  infer_instance

/-- Following the words of the specification: a remap table whose "non-zero
entries are distinct and dense": read in order they are 1, 2, ..., m, with
m >= 1. -/
def dense_remap (summary_remap : List Nat) : Prop :=
  ∃ m, 1 ≤ m ∧ summary_remap.filter (fun x => decide (x ≠ 0)) = List.range' 1 m

/-- The input track `j` (0-based) of the input `i` (0-based). -/
def input_track_at (input : List (List input_summaries_t)) (i j : Nat) :
    Option input_summaries_t :=
  input[i]?.bind (fun tracks => tracks[j]?)

/-- Every output track that was kept, that is every track below the cursor
`current_track_number`, has a dense remap table. -/
def kept_tracks_dense (out_movie : output_movie_t) : Prop :=
  ∀ n, 1 ≤ n → n < out_movie.current_track_number →
    ∃ o, at1 out_movie.track n = some o ∧ dense_remap o.summary_remap

/-- Every output track that was kept comes from an active track of the inputs
`input0` as they stood before the track loops, and its remap table is the
expected one for the summaries of that track, of which at least one was
accepted. -/
def kept_tracks_remapped (E : PrepareEngine) (input0 : List (List input_summaries_t))
    (out_movie : output_movie_t) : Prop :=
  ∀ n, 1 ≤ n → n < out_movie.current_track_number →
    ∃ o i j t0, at1 out_movie.track n = some o
      ∧ input_track_at input0 i j = some t0 ∧ t0.active = true
      ∧ o.summary_remap = expected_remap (E.add_sample_entry i j) t0.summaries 0 0
      ∧ 1 ≤ accepted_count (E.add_sample_entry i j) t0.summaries 0

/-- The input tracks from the track `j` of the input `i` on, in the order of the
track loops, are as they stood in `input0`. -/
def unprocessed_unchanged (input0 input : List (List input_summaries_t)) (i j : Nat) : Prop :=
  ∀ i1 j1, (i < i1 ∨ (i1 = i ∧ j ≤ j1)) →
    input_track_at input i1 j1 = input_track_at input0 i1 j1

/-- An active input track with three summaries of which the second is
inactive. -/
def three_summaries_track : input_summaries_t :=
  { active := true, num_summaries := 3, summaries := [true, false, true],
    last_sample_delta := 1 }

/-- An active input track with one summary. -/
def one_summary_track : input_summaries_t :=
  { active := true, num_summaries := 1, summaries := [true], last_sample_delta := 1 }

/-- One input with the two tracks `three_summaries_track` and
`one_summary_track`. -/
def two_track_input : List (List input_summaries_t) :=
  [[three_summaries_track, one_summary_track]]

/-- The state in which `prepare_output` enters its track loop for
`two_track_input`: two output tracks allocated. -/
def two_track_prepare : PrepareState :=
  { input := two_track_input,
    out_movie :=
      { track := List.replicate 2
          { track_ID := 0, last_sample_delta := 0, current_sample_number := 0,
            summary_remap := [], skip_dt_interval := 0, last_sample_dts := 0 },
        num_tracks := 2, current_track_number := 1 } }

/-- A library that attaches every summary of track 0 and rejects the summary of
track 1; every other call succeeds. -/
def reject_second_track : PrepareEngine :=
  { create_track := fun _ j => j + 1,
    set_track_parameters := fun _ _ => true,
    set_media_parameters := fun _ _ => true,
    create_data_reference := fun _ _ => true,
    add_sample_entry := fun _ j _ => decide (j = 0),
    set_starting_point := fun _ _ => true }

/-! ## Concrete scheduler states used to run the model -/

/-- The state of the scheduler on `dropped_description_remuxer` after `n` passes
(the initial state once the loop has been left by an out-of-bounds read, which
does not happen here). -/
def dropped_description_state (n : Nat) : State Frac :=
  ((run dropped_description_engine n (initial_state dropped_description_remuxer)).state?).getD
    (initial_state dropped_description_remuxer)

/-- The first track of `dropped_description_remuxer` when it holds its second
sample (DTS 10, description 2, which is mapped to 0) as pending sample, the
first one having been appended. -/
def dropped_description_holding : input_track_t Frac :=
  { fresh_input_track 1 2 with
    sample := some (mk_sample 10 0 1), dts := ⟨10, 1⟩,
    current_sample_number := 2, current_sample_index := 1 }

/-- An input track that `get_movie` could not read (one of the calls of
remuxer.c:512-578 failed and the loop went on): every field is as
`lsmash_malloc_zero` left it (line 489), except the track identifier stored on
line 494; `active` is 0 and `current_sample_number` is 0. -/
def inactive_input_track (track_ID : Nat) : input_track_t Frac :=
  { active := false, sample := none, dts := ⟨0, 1⟩, reach_end_of_media_timeline := false,
    track_ID := track_ID, current_sample_number := 0, current_sample_index := 0,
    num_summaries := 0, timescale := 0 }

/-- Two input movies of two tracks each; the second track of the first movie
and the first track of the second movie are inactive, so the output movie has
two tracks; no fragmentation. -/
def gap_remuxer : remuxer_t Frac :=
  fresh_remuxer
    [[fresh_input_track 1 1, inactive_input_track 2],
     [inactive_input_track 1, fresh_input_track 2 1]]
    [fresh_output_track 1 [1], fresh_output_track 2 [1]] 0 0 ⟨0, 1⟩

/-- The state of the scheduler on `gap_remuxer`, with the timelines of
`two_track_engine`, after `n` passes (the initial state once the loop has been
left by an out-of-bounds read, which does not happen here). -/
def gap_state (n : Nat) : State Frac :=
  ((run two_track_engine n (initial_state gap_remuxer)).state?).getD
    (initial_state gap_remuxer)

/-- Two tracks: track 1 has two random-access samples (DTS 0, 10), track 2 has
a random-access sample (DTS 0), a sample that is no random-access point (DTS 5)
and a random-access sample (DTS 10). -/
def pending_engine : Engine :=
  list_engine (fun _ track_ID =>
      if track_ID = 1 then [mk_sample 0 1 1, mk_sample 10 1 1]
      else [mk_sample 0 1 1, mk_sample 5 1 0, mk_sample 10 1 1])
    (fun _ _ _ => false)

/-- The remuxer for `pending_engine`: one input movie with two active tracks,
fragment base track 1, no segmentation, no minimum fragment duration. -/
def pending_remuxer : remuxer_t Frac :=
  fresh_remuxer [[fresh_input_track 1 1, fresh_input_track 2 1]]
    [fresh_output_track 1 [1], fresh_output_track 2 [1]] 1 0 ⟨0, 1⟩

/-- The state of the scheduler on `pending_remuxer` after `n` passes (the
initial state once the loop has been left by an out-of-bounds read, which does
not happen here). -/
def pending_state (n : Nat) : State Frac :=
  ((run pending_engine n (initial_state pending_remuxer)).state?).getD
    (initial_state pending_remuxer)

/-- The second track of `pending_remuxer` when it holds its second sample (DTS
5, no random-access point), the first one having been appended. -/
def pending_holding : input_track_t Frac :=
  { fresh_input_track 2 1 with
    sample := some (mk_sample 5 1 0), dts := ⟨5, 1⟩,
    current_sample_number := 2, current_sample_index := 1 }

/-- The state in which the fourth pass on `pending_remuxer` reaches the append
decision: the state after three passes, with the second sample of track 2
fetched and stored. -/
def pending_decision_state : State Frac :=
  set_in_track (pending_state 3) pending_holding

/-- The track of `dash3_remuxer` when it holds its first sample (DTS 0) as
pending sample. -/
def dash3_holding : input_track_t Frac :=
  { fresh_input_track 1 1 with
    sample := some (mk_sample 0 1 1), dts := ⟨0, 1⟩, current_sample_index := 1 }

/-- The state in which the first pass on `dash3_remuxer` reaches the fragment
control: the initial state with the first sample fetched and stored. -/
def dash3_decision_state : State Frac :=
  set_in_track (initial_state dash3_remuxer) dash3_holding

/-- The state of the scheduler on `dash3_remuxer` after `n` passes (the initial
state once the loop has been left by an out-of-bounds read, which does not
happen here). -/
def dash3_state (n : Nat) : State Frac :=
  ((run dash3_engine n (initial_state dash3_remuxer)).state?).getD
    (initial_state dash3_remuxer)

/-! ## Notions used to state the properties of the cursors of `do_remux` -/

/-- For every input track, movie by movie, whether it is still running: it is
active and its `reach_end_of_media_timeline` flag is clear. -/
def running_flags {D : Type} (input : List (input_movie_t D)) : List (List Bool) :=
  input.map (fun m => m.track.map (fun t => t.active && !t.reach_end_of_media_timeline))

/-- The state `s1` differs from `s`, as far as the cursors and the counts of
tracks are concerned, by a store of `t1` through the pointer `in_track`; the
calls `new` have been recorded. -/
structure Stored {D : Type} (s s1 : State D) (t1 : input_track_t D)
    (new : List Event) : Prop where
  input : s1.r.input = (set_in_track s t1).r.input
  imn : s1.input_movie_number = s.input_movie_number
  num_input : s1.r.num_input = s.r.num_input
  out_num : s1.r.out_movie.num_tracks = s.r.out_movie.num_tracks
  out_cur : s1.r.out_movie.current_track_number = s.r.out_movie.current_track_number
  out_len : s1.r.out_movie.track.length = s.r.out_movie.track.length
  events : s1.r.events = s.r.events ++ new

/-- The calls of `lsmash_flush_pooled_samples` that the loop at the end of
`do_remux` (remuxer.c:1680-1682) makes for the output tracks `tracks` when none
of them fails: one per track, with the `last_sample_delta` of that track. -/
def final_flush_calls (tracks : List output_track_t) : List Event :=
  tracks.map (fun o => Event.flush_pooled_samples o.track_ID o.last_sample_delta true)

/-- How a pass of the loop of `do_remux` that visits the active input track `t`
in the state `s` ends with the outcome `o`.  A track `t1` has been stored
through `in_track` and calls `new` recorded, giving the state `s2`, and either
the pass goes on to the next track with the flags of the track and the number
of running tracks as before; or the loop is left after an error message, with
these as before; or the track has just been found to be at its end: its
`reach_end_of_media_timeline` flag is set, nothing is recorded, the number of
running tracks is decremented and the loop is left if that number is now 0. -/
def active_pass {D : Type} (s : State D) (t : input_track_t D) (o : Outcome (State D)) :
    Prop :=
  ∃ t1 s2 new, Stored s s2 t1 new ∧ t1.active = true
    ∧ ((t1.reach_end_of_media_timeline = t.reach_end_of_media_timeline
          ∧ s2.num_active_input_tracks = s.num_active_input_tracks
          ∧ o = Outcome.next (move_next s2))
      ∨ (t1.reach_end_of_media_timeline = t.reach_end_of_media_timeline
          ∧ s2.num_active_input_tracks = s.num_active_input_tracks
          ∧ Event.error_message ∈ new
          ∧ (o = Outcome.brk s2 ∨ o = Outcome.ret (-1) s2))
      ∨ (t.reach_end_of_media_timeline = false
          ∧ t1.reach_end_of_media_timeline = true
          ∧ new = []
          ∧ s2.num_active_input_tracks = dec32 s.num_active_input_tracks
          ∧ ((dec32 s.num_active_input_tracks = 0 ∧ o = Outcome.brk s2)
            ∨ (dec32 s.num_active_input_tracks ≠ 0 ∧ o = Outcome.next (move_next s2)))))

/-- The counter of running tracks of `do_remux` is in order: it is the number
of input tracks that are active and have not reached their end, which is below
2^32, and the output movie has at least `num_tracks` tracks. -/
structure RunningOk {D : Type} (s : State D) : Prop where
  count : s.num_active_input_tracks = count_active (running_flags s.r.input)
  count_lt : count_active (running_flags s.r.input) < U32
  out_len : s.r.out_movie.num_tracks ≤ s.r.out_movie.track.length

/-- No sample was appended before the first movie fragment was created: every
successful `lsmash_append_sample` in the record comes after a successful
`lsmash_create_fragment_movie`. -/
def fragment_created_before_appends (events : List Event) : Prop :=
  ∀ pre k p post, events = pre ++ Event.append_sample k p :: post →
    Event.create_fragment_movie true ∈ pre

/-- The calls that `handle_segmentation` (remuxer.c:1451-1470) records after
its entry for the remuxer `r`, `switched` telling whether `switch_segment`
succeeds: none without segmentation or between two switches, otherwise the call
of `switch_segment`, followed by an error message when it fails. -/
def segmentation_calls {D : Type} (r : remuxer_t D) (switched : Bool) : List Event :=
  if r.subseg_per_seg = 0 then []
  else if r.subseg_per_seg = r.current_subseg_number ∨ r.current_seg_number = 1 then
    if switched = false then
      [Event.switch_segment r.current_seg_number false, Event.error_message]
    else [Event.switch_segment r.current_seg_number true]
  else []

/-! ## The DTS loops of `edit_media_timeline` under DTS compression -/

/-- The invariant of the two DTS loops (timelineeditor.c:795-814) under DTS
compression with `sample_delay_time = 0`, before the pass of index `i`: the
arrays keep their lengths, the DTS of every position `k < i` is `k * delta` up
to position `D` and `ts1[k - D]` beyond (`ts1` is the series after line 785),
and the rotating buffer holds `ts1[j]` for the last `D` indices `j`. -/
def dts_ramp_inv (ts1 : List Nat) (delta D n : Nat) (i : Nat) (st : DtsLoop) : Prop :=
  st.timestamp.length = n
  ∧ st.prev_reordered_cts.length = D
  ∧ (∀ k t, k < i → st.timestamp[k]? = some t →
      (k ≤ D → t.dts = k * delta) ∧ (D < k → ts1[k - D]? = some t.dts))
  ∧ (∀ j x, j < i → i ≤ j + D → ts1[j]? = some x →
      st.prev_reordered_cts[j % D]? = some x)

/-- The options of the timeline editor with `--dts-compression` alone
(timelineeditor.c:1001). -/
def compression_opt : opt_t := { default_opt with dts_compression := 1 }

/-! ## `timelineeditor.c`: the timestamps of `edit_media_timeline` without a timecode file -/

section NativeTs

variable {D : Type} [C_double_math D]

end NativeTs

/-- The fields of `track_t` (timelineeditor.c:46-58) that `main` reads and
writes; `summaries` holds the flags `summaries[k].active` and `timescale` is
`media_param.timescale`. -/
structure track_t where
  /-- Whether `get_movie` could read the track (an `int` flag). -/
  active : Bool
  /-- Track identifier. -/
  track_ID : Nat
  /-- Duration given to the last sample. -/
  last_sample_delta : Nat
  /-- Number of the next sample to fetch. -/
  current_sample_number : Nat
  /-- Set once the track has no more samples. -/
  reach_end_of_media_timeline : Bool
  /-- Map from input description index (minus one) to output description index. -/
  summary_remap : List Nat
  /-- Number of summaries (sample descriptions). -/
  num_summaries : Nat
  /-- The flags `summaries[k].active`. -/
  summaries : List Bool
  /-- Media timescale. -/
  timescale : Nat
deriving DecidableEq

/-- The fields of `movie_t` (timelineeditor.c:60-68) that `main` reads and
writes. -/
structure movie_t where
  /-- The array of tracks. -/
  track : List track_t
  /-- Number of tracks. -/
  num_tracks : Nat
  /-- The 1-based cursor. -/
  current_track_number : Nat
deriving DecidableEq

/-- An input track as `get_movie` leaves it when one of the calls of
timelineeditor.c:317-341 fails: the array was cleared on line 309 and only the
track identifier was stored. -/
def unread_track (track_ID : Nat) : track_t :=
  { active := false, track_ID := track_ID, last_sample_delta := 0,
    current_sample_number := 0, reach_end_of_media_timeline := false,
    summary_remap := [], num_summaries := 0, summaries := [], timescale := 0 }

/-- The container library as seen by the loop that creates the tracks of the
output movie, for the input track `i` (0-based) and its summary `k`. -/
structure TrackEngine where
  /-- The track identifier returned by `lsmash_create_track`, 0 on failure. -/
  create_track : Nat → Nat
  /-- Whether `lsmash_set_track_parameters` succeeds. -/
  set_track_parameters : Nat → Bool
  /-- Whether `lsmash_set_media_parameters` succeeds. -/
  set_media_parameters : Nat → Bool
  /-- Whether `lsmash_add_sample_entry` attaches summary `k` (returns a
  non-zero index). -/
  add_sample_entry : Nat → Nat → Bool

/-- The input movie and the output movie of the timeline editor. -/
structure Movies where
  /-- The movie `input.file.movie`. -/
  in_movie : movie_t
  /-- The movie `output.file.movie`. -/
  out_movie : movie_t
deriving DecidableEq

/-- One pass of the loop that creates the tracks of the output movie
(timelineeditor.c:1078-1127), for the index `i`.  The loop over the summaries
(lines 1102-1121) is the loop of remuxer.c:1261-1279.  Allocations are taken to
succeed. -/
def create_track_step (E : TrackEngine) (st : Movies) (i : Nat) : Ret Movies :=
  match st.in_movie.track[i]? with
  | none => Ret.undef
  | some in_track =>
    if in_track.active = false then
      Ret.ok { st with out_movie :=
        { st.out_movie with num_tracks := dec32 st.out_movie.num_tracks } }
    else
      match st.out_movie.track[i]? with
      | none => Ret.undef
      | some out_track =>
        if E.create_track i = 0 then Ret.error
        else if E.set_track_parameters i = false then Ret.error
        else if E.set_media_parameters i = false then Ret.error
        else
          match for_loop (summary_step (E.add_sample_entry i))
                  (List.range in_track.num_summaries)
                  { summaries := in_track.summaries,
                    summary_remap := List.replicate in_track.num_summaries 0,
                    valid_summary_count := 0 } with
          | Ret.error => Ret.error
          | Ret.undef => Ret.undef
          | Ret.ok l =>
            if l.valid_summary_count = 0 then Ret.error
            else
              Ret.ok
                { in_movie := { st.in_movie with
                    track := st.in_movie.track.set i { in_track with summaries := l.summaries } },
                  out_movie := { st.out_movie with
                    track := st.out_movie.track.set i
                      { out_track with
                        summary_remap := l.summary_remap,
                        track_ID := E.create_track i,
                        timescale := in_track.timescale,
                        last_sample_delta := in_track.last_sample_delta,
                        current_sample_number := 1,
                        reach_end_of_media_timeline := false } } }

/-- Lines 1070-1127 of `main`: the tracks of the output movie are created from
the tracks of the input movie, where `allocated` is the content of the array
allocated on line 1070 (`in_movie->num_tracks` entries that are not
initialised). -/
def create_tracks (E : TrackEngine) (in_movie : movie_t) (allocated : List track_t) :
    Ret Movies :=
  for_loop (create_track_step E) (List.range in_movie.num_tracks)
    { in_movie := in_movie,
      out_movie := { track := allocated, num_tracks := in_movie.num_tracks,
                     current_track_number := 1 } }

/-- A call made by the mux loop, as recorded in the order of execution. -/
inductive MuxEvent where
  /-- A message printed by `TIMELINEEDITOR_ERR`. -/
  | error_message : MuxEvent
  /-- A successful `lsmash_append_sample` to the output track with the given
  identifier. -/
  | append_sample : Nat → lsmash_sample_t → MuxEvent
  /-- A failed `lsmash_append_sample`. -/
  | append_sample_failed : Nat → lsmash_sample_t → MuxEvent
  /-- A call of `lsmash_delete_sample`. -/
  | delete_sample : lsmash_sample_t → MuxEvent
deriving DecidableEq

/-- The container library as seen by the mux loop.  Reading functions take the
track identifier and the sample number. -/
structure MuxEngine where
  /-- The function `lsmash_get_dts_from_media_timeline`; `none` is a non-zero
  return value. -/
  get_dts_from_media_timeline : Nat → Nat → Option Nat
  /-- The function `lsmash_check_sample_existence_in_media_timeline`. -/
  check_sample_existence_in_media_timeline : Nat → Nat → Bool
  /-- The function `lsmash_get_sample_from_media_timeline`; `none` is `NULL`. -/
  get_sample_from_media_timeline : Nat → Nat → Option lsmash_sample_t
  /-- Whether `lsmash_append_sample` on the given track succeeds. -/
  append_sample : List MuxEvent → Nat → lsmash_sample_t → Bool

/-- The two movies together with the local variables of the mux loop
(timelineeditor.c:1129-1133) and the record of the calls made so far. -/
structure MuxState (D : Type) where
  /-- The movie `input.file.movie`. -/
  in_movie : movie_t
  /-- The movie `output.file.movie`. -/
  out_movie : movie_t
  /-- Largest DTS appended so far, in seconds. -/
  largest_dts : D
  /-- Number of samples skipped in a row. -/
  num_consecutive_sample_skip : Nat
  /-- The local `num_active_input_tracks`. -/
  num_active_input_tracks : Nat
  /-- Total size of the appended samples. -/
  total_media_size : Nat
  /-- Progress indicator position. -/
  progress_pos : Nat
  /-- The calls made so far, oldest first. -/
  events : List MuxEvent
deriving DecidableEq

section Mux

variable {D : Type} [C_double D]

/-- The state in which `main` enters the mux loop (timelineeditor.c:1129-1133). -/
def start_muxing (m : Movies) : MuxState D :=
  { in_movie := m.in_movie,
    out_movie := m.out_movie,
    largest_dts := C_double.ofU64 0,
    num_consecutive_sample_skip := 0,
    num_active_input_tracks := m.out_movie.num_tracks,
    total_media_size := 0,
    progress_pos := 0,
    events := [] }

/-- The cursor of a movie after "Move the next track"
(timelineeditor.c:1193-1197). -/
def next_track (m : movie_t) : movie_t :=
  let n := inc32 m.current_track_number
  { m with current_track_number := if n > m.num_tracks then 1 else n }

/-- Lines 1192-1197: both cursors move on. -/
def mux_move_next (s : MuxState D) : MuxState D :=
  { s with in_movie := next_track s.in_movie, out_movie := next_track s.out_movie }

/-- A store through the pointer `in_track`. -/
def mux_set_in_track (s : MuxState D) (t : track_t) : MuxState D :=
  { s with in_movie := { s.in_movie with
      track := set1 s.in_movie.track s.in_movie.current_track_number t } }

/-- One pass through the body of the `while( 1 )` loop of `main`
(timelineeditor.c:1134-1198). -/
def mux_step (E : MuxEngine) (s : MuxState D) : Outcome (MuxState D) :=
  match at1 s.in_movie.track s.in_movie.current_track_number with
  | none => Outcome.undef
  | some in_track =>
    if in_track.reach_end_of_media_timeline = true then Outcome.next (mux_move_next s)
    else
      match at1 s.out_movie.track s.out_movie.current_track_number with
      | none => Outcome.undef
      | some out_track =>
        match E.get_dts_from_media_timeline in_track.track_ID in_track.current_sample_number with
        | none =>
          if E.check_sample_existence_in_media_timeline in_track.track_ID
              in_track.current_sample_number = true then
            Outcome.ret (-1) { s with events := s.events ++ [MuxEvent.error_message] }
          else
            let s1 := mux_set_in_track s { in_track with reach_end_of_media_timeline := true }
            let s2 := { s1 with num_active_input_tracks := dec32 s.num_active_input_tracks }
            if dec32 s.num_active_input_tracks = 0 then Outcome.brk s2
            else Outcome.next (mux_move_next s2)
        | some dts =>
          if C_double.le (C_double.div (C_double.ofU64 dts) (C_double.ofU64 in_track.timescale))
                s.largest_dts = true
              ∨ s.num_consecutive_sample_skip = s.num_active_input_tracks then
            match E.get_sample_from_media_timeline in_track.track_ID
                    in_track.current_sample_number with
            | none =>
              Outcome.ret (-1) { s with events := s.events ++ [MuxEvent.error_message] }
            | some sample0 =>
              match timelineeditor_description_index in_track.num_summaries
                      out_track.summary_remap sample0.index with
              | none => Outcome.undef
              | some index =>
                let sample := { sample0 with index := index }
                if index ≠ 0 then
                  if E.append_sample s.events out_track.track_ID sample = false then
                    Outcome.ret (-1) { s with events := s.events ++
                      [MuxEvent.append_sample_failed out_track.track_ID sample,
                       MuxEvent.delete_sample sample, MuxEvent.error_message] }
                  else
                    let total := add64 s.total_media_size sample.length
                    let s1 : MuxState D := { s with
                      events := s.events ++ [MuxEvent.append_sample out_track.track_ID sample],
                      largest_dts := LSMASH_MAX s.largest_dts
                        (C_double.div (C_double.ofU64 dts) (C_double.ofU64 in_track.timescale)),
                      total_media_size := total,
                      num_consecutive_sample_skip := 0,
                      progress_pos :=
                        if total / 4194304 > s.progress_pos then (total / 4194304) % U32
                        else s.progress_pos }
                    Outcome.next (mux_move_next (mux_set_in_track s1 { in_track with
                      current_sample_number := inc32 in_track.current_sample_number }))
                else Outcome.next (mux_move_next s)
          else
            Outcome.next (mux_move_next { s with
              num_consecutive_sample_skip := inc32 s.num_consecutive_sample_skip })

/-- The mux loop run for at most `n` passes: `next s` when the loop is still
running after `n` passes, otherwise the way it was left. -/
def mux_run (E : MuxEngine) : Nat → MuxState D → Outcome (MuxState D)
  | 0, s => Outcome.next s
  | n + 1, s =>
    match mux_step E s with
    | Outcome.next s1 => mux_run E n s1
    | other => other

end Mux

/-! ## Concrete inputs: the mux loop of the timeline editor -/

/-- A container library on which every call of the loop that creates the output
tracks succeeds; the track created for the input track `i` gets the identifier
`i + 1`. -/
def willing_track_engine : TrackEngine :=
  { create_track := fun i => i + 1,
    set_track_parameters := fun _ => true,
    set_media_parameters := fun _ => true,
    add_sample_entry := fun _ _ => true }

/-- The sample of DTS `dts` with the sample description index `index`. -/
def mux_sample (dts index : Nat) : lsmash_sample_t :=
  { length := 1, dts := dts, cts := dts, index := index, ra_flags := 0 }

/-- An input movie of one track with two sample descriptions, the second of
which `lsmash_get_summary` could not read (timelineeditor.c:252-257). -/
def unread_summary_movie : movie_t :=
  { track := [{ active := true, track_ID := 1, last_sample_delta := 1,
                current_sample_number := 1, reach_end_of_media_timeline := false,
                summary_remap := [], num_summaries := 2, summaries := [true, false],
                timescale := 1 }],
    num_tracks := 1, current_track_number := 1 }

/-- The movies after the output track of `unread_summary_movie` was created. -/
def unread_summary_movies : Movies :=
  { in_movie := unread_summary_movie,
    out_movie :=
      { track := [{ active := false, track_ID := 1, last_sample_delta := 1,
                    current_sample_number := 1, reach_end_of_media_timeline := false,
                    summary_remap := [1, 0], num_summaries := 0, summaries := [],
                    timescale := 1 }],
        num_tracks := 1, current_track_number := 1 } }

/-- A container library whose track 1 holds three samples with the DTS 0, 1
and 2; the second one uses the sample description 2, the others the sample
description 1.  Every append succeeds. -/
def unread_summary_engine : MuxEngine :=
  { get_dts_from_media_timeline := fun id n =>
      if id = 1 ∧ 1 ≤ n ∧ n ≤ 3 then some (n - 1) else none,
    check_sample_existence_in_media_timeline := fun id n =>
      decide (id = 1 ∧ 1 ≤ n ∧ n ≤ 3),
    get_sample_from_media_timeline := fun id n =>
      if id = 1 ∧ 1 ≤ n ∧ n ≤ 3 then some (mux_sample (n - 1) (if n = 2 then 2 else 1))
      else none,
    append_sample := fun _ _ _ => true }

/-- The state of the mux loop on `unread_summary_movies` after two passes: the
first sample is written and the second sample is the next one to fetch. -/
def unread_summary_stall : MuxState Frac :=
  { in_movie :=
      { track := [{ active := true, track_ID := 1, last_sample_delta := 1,
                    current_sample_number := 2, reach_end_of_media_timeline := false,
                    summary_remap := [], num_summaries := 2, summaries := [true, false],
                    timescale := 1 }],
        num_tracks := 1, current_track_number := 1 },
    out_movie := unread_summary_movies.out_movie,
    largest_dts := LSMASH_MAX (C_double.ofU64 0)
      (C_double.div (C_double.ofU64 0) (C_double.ofU64 1)),
    num_consecutive_sample_skip := 1,
    num_active_input_tracks := 1,
    total_media_size := 1,
    progress_pos := 0,
    events := [MuxEvent.append_sample 1 (mux_sample 0 1)] }

/-- An input movie of two tracks: the first one was read by `get_movie`, the
second one was not (one of the calls of timelineeditor.c:317-341 failed for
it). -/
def unread_track_movie : movie_t :=
  { track := [{ active := true, track_ID := 1, last_sample_delta := 1,
                current_sample_number := 1, reach_end_of_media_timeline := false,
                summary_remap := [], num_summaries := 1, summaries := [true],
                timescale := 1 },
              unread_track 2],
    num_tracks := 2, current_track_number := 1 }

/-- The movies after the output tracks of `unread_track_movie` were created in
an array that held `unread_track 0` twice. -/
def unread_track_movies : Movies :=
  { in_movie := unread_track_movie,
    out_movie :=
      { track := [{ active := false, track_ID := 1, last_sample_delta := 1,
                    current_sample_number := 1, reach_end_of_media_timeline := false,
                    summary_remap := [1], num_summaries := 0, summaries := [],
                    timescale := 1 },
                  unread_track 0],
        num_tracks := 1, current_track_number := 1 } }

/-- A container library whose track 1 holds two samples with the DTS 0 and 1
and whose track 2 has no timeline.  Every append succeeds. -/
def unread_track_engine : MuxEngine :=
  { get_dts_from_media_timeline := fun id n =>
      if id = 1 ∧ 1 ≤ n ∧ n ≤ 2 then some (n - 1) else none,
    check_sample_existence_in_media_timeline := fun id n =>
      decide (id = 1 ∧ 1 ≤ n ∧ n ≤ 2),
    get_sample_from_media_timeline := fun id n =>
      if id = 1 ∧ 1 ≤ n ∧ n ≤ 2 then some (mux_sample (n - 1) 1) else none,
    append_sample := fun _ _ _ => true }

/-- The state of the mux loop on `unread_track_movies` after one pass. -/
def unread_track_second_pass : MuxState Frac :=
  { in_movie :=
      { track := [{ active := true, track_ID := 1, last_sample_delta := 1,
                    current_sample_number := 2, reach_end_of_media_timeline := false,
                    summary_remap := [], num_summaries := 1, summaries := [true],
                    timescale := 1 },
                  unread_track 2],
        num_tracks := 2, current_track_number := 2 },
    out_movie := unread_track_movies.out_movie,
    largest_dts := LSMASH_MAX (C_double.ofU64 0)
      (C_double.div (C_double.ofU64 0) (C_double.ofU64 1)),
    num_consecutive_sample_skip := 0,
    num_active_input_tracks := 1,
    total_media_size := 1,
    progress_pos := 0,
    events := [MuxEvent.append_sample 1 (mux_sample 0 1)] }

/-- The state in which the mux loop on `unread_track_movies` is left. -/
def unread_track_end : MuxState Frac :=
  { unread_track_second_pass with
    in_movie :=
      { track := [{ active := true, track_ID := 1, last_sample_delta := 1,
                    current_sample_number := 2, reach_end_of_media_timeline := false,
                    summary_remap := [], num_summaries := 1, summaries := [true],
                    timescale := 1 },
                  { unread_track 2 with reach_end_of_media_timeline := true }],
        num_tracks := 2, current_track_number := 2 },
    num_active_input_tracks := 0 }

/-! ## Theorems: greatest common divisor, timebase and reduction -/

theorem get_gcd_loop_eq (a b : Nat) (hb : b ≠ 0) : get_gcd_loop a b = Nat.gcd a b := by
  induction b using Nat.strong_induction_on generalizing a with
  | _ b ih =>
    rw [get_gcd_loop]
    simp only [hb, dite_false]
    by_cases hc : a % b = 0
    · simp only [hc, if_true]
      rw [Nat.gcd_comm, Nat.gcd_rec, hc, Nat.gcd_zero_left]
    · simp only [hc, if_false]
      rw [ih (a % b) (Nat.mod_lt _ (Nat.pos_of_ne_zero hb)) b hc]
      rw [Nat.gcd_comm a b, Nat.gcd_rec b a, Nat.gcd_comm]

theorem get_gcd_eq (a b : Nat) : get_gcd a b = Nat.gcd a b := by
  unfold get_gcd
  by_cases hb : b = 0
  · simp [hb]
  · simp only [hb, if_false]
    exact get_gcd_loop_eq a b hb

theorem dvd_foldl_get_gcd {α : Type} (key : α → Nat) (l : List α) (init d : Nat) :
    d ∣ l.foldl (fun tb t => get_gcd tb (key t)) init ↔ d ∣ init ∧ ∀ t ∈ l, d ∣ key t := by
  induction l generalizing init with
  | nil => simp
  | cons x xs ih =>
    simp only [List.foldl_cons, List.mem_cons, forall_eq_or_imp]
    rw [ih, get_gcd_eq, Nat.dvd_gcd_iff]
    tauto

theorem foldl_get_gcd_mul {α : Type} (key : α → Nat) (f : α → α) (k : Nat)
    (hf : ∀ t, key (f t) = k * key t) (l : List α) (init : Nat) :
    (l.map f).foldl (fun tb t => get_gcd tb (key t)) (k * init)
      = k * l.foldl (fun tb t => get_gcd tb (key t)) init := by
  induction l generalizing init with
  | nil => simp
  | cons x xs ih =>
    simp only [List.map_cons, List.foldl_cons]
    rw [get_gcd_eq, hf, Nat.gcd_mul_left, ih, get_gcd_eq]

theorem get_media_timebase_dvd_iff (ts_list : List lsmash_media_ts_t) (g d : Nat)
    (h : get_media_timebase ts_list = some g) :
    d ∣ g ↔ ∀ t ∈ ts_list, d ∣ t.dts ∧ d ∣ t.cts := by
  cases ts_list with
  | nil => simp [get_media_timebase] at h
  | cons t0 rest =>
    simp only [get_media_timebase, Option.some.injEq] at h
    subst h
    rw [dvd_foldl_get_gcd (fun t : lsmash_media_ts_t => t.dts),
      dvd_foldl_get_gcd (fun t : lsmash_media_ts_t => t.cts)]
    simp only [List.mem_cons, forall_eq_or_imp]
    constructor
    · rintro ⟨⟨h0, hr⟩, hd0, hdr⟩
      exact ⟨⟨hd0, h0⟩, fun t ht => ⟨hdr t ht, hr t ht⟩⟩
    · rintro ⟨⟨hd0, h0⟩, hr⟩
      exact ⟨⟨h0, fun t ht => (hr t ht).2⟩, hd0, fun t ht => (hr t ht).1⟩

theorem get_media_timebase_mul (ts_list : List lsmash_media_ts_t) (k : Nat) :
    get_media_timebase (ts_list.map (fun t => ⟨k * t.dts, k * t.cts⟩))
      = (get_media_timebase ts_list).map (fun g => k * g) := by
  cases ts_list with
  | nil => simp [get_media_timebase]
  | cons t0 rest =>
    simp only [List.map_cons, get_media_timebase, Option.map_some']
    congr 1
    have h1 := foldl_get_gcd_mul (fun t : lsmash_media_ts_t => t.cts)
      (fun t => ⟨k * t.dts, k * t.cts⟩) k (fun _ => rfl) rest t0.cts
    have h2 := fun init => foldl_get_gcd_mul (fun t : lsmash_media_ts_t => t.dts)
      (fun t => ⟨k * t.dts, k * t.cts⟩) k (fun _ => rfl) (t0 :: rest) init
    simp only [List.map_cons] at h2
    rw [h1, h2]

/-- C9. For a timestamp list with at least one sample, `get_media_timebase`
returns the greatest common divisor of all CTS and DTS values: it divides every
DTS and every CTS, and every common divisor of them divides it.  `get_gcd` is
the mathematical gcd of its arguments (it is a total function, so it always
terminates), with `get_gcd a 0 = a` and `get_gcd 0 b = b`. -/
theorem get_media_timebase_is_gcd (ts_list : List lsmash_media_ts_t)
    (hne : 1 ≤ ts_list.length) :
    (∀ a b, get_gcd a b = Nat.gcd a b ∧ get_gcd a 0 = a ∧ get_gcd 0 b = b)
    ∧ ∃ g, get_media_timebase ts_list = some g
        ∧ (∀ t ∈ ts_list, g ∣ t.dts ∧ g ∣ t.cts)
        ∧ (∀ d, (∀ t ∈ ts_list, d ∣ t.dts ∧ d ∣ t.cts) → d ∣ g) := by
  refine ⟨fun a b => ⟨get_gcd_eq a b, ?_, ?_⟩, ?_⟩
  · rw [get_gcd_eq, Nat.gcd_zero_right]
  · rw [get_gcd_eq, Nat.gcd_zero_left]
  · cases ts_list with
    | nil => simp at hne
    | cons t0 rest =>
      refine ⟨_, rfl, ?_, ?_⟩
      · exact (get_media_timebase_dvd_iff (t0 :: rest) _ _ rfl).1 (dvd_refl _)
      · intro d hd
        exact (get_media_timebase_dvd_iff (t0 :: rest) _ d rfl).2 hd

theorem get_media_timebase_is_gcd_witness :
    1 ≤ [(⟨0, 1001⟩ : lsmash_media_ts_t), ⟨1001, 3003⟩, ⟨2002, 2002⟩].length
    ∧ ((∀ a b, get_gcd a b = Nat.gcd a b ∧ get_gcd a 0 = a ∧ get_gcd 0 b = b)
      ∧ ∃ g, get_media_timebase [(⟨0, 1001⟩ : lsmash_media_ts_t), ⟨1001, 3003⟩, ⟨2002, 2002⟩]
            = some g
          ∧ (∀ t ∈ [(⟨0, 1001⟩ : lsmash_media_ts_t), ⟨1001, 3003⟩, ⟨2002, 2002⟩],
              g ∣ t.dts ∧ g ∣ t.cts)
          ∧ (∀ d, (∀ t ∈ [(⟨0, 1001⟩ : lsmash_media_ts_t), ⟨1001, 3003⟩, ⟨2002, 2002⟩],
              d ∣ t.dts ∧ d ∣ t.cts) → d ∣ g)) :=
  ⟨by decide, get_media_timebase_is_gcd _ (by decide)⟩

/-- C10. In native mode `edit_media_timeline` derives the pair
`(timescale / g, timebase / g)` with `g = gcd(timescale, timebase)`, `timebase`
being the (non-zero) value of `get_media_timebase`; the pair is coprime,
reducing it again leaves it unchanged, and multiplying every DTS/CTS tick and
the native timescale by the same factor `k ≥ 1` yields the same pair. -/
theorem native_timescale_timebase_reduced (timescale : Nat)
    (ts_list : List lsmash_media_ts_t) (timebase k : Nat)
    (htb : get_media_timebase ts_list = some timebase) (hnz : timebase ≠ 0)
    (hk : 1 ≤ k) :
    native_timescale_timebase timescale ts_list
        = some (timescale / Nat.gcd timescale timebase, timebase / Nat.gcd timescale timebase)
    ∧ Nat.Coprime (timescale / Nat.gcd timescale timebase)
        (timebase / Nat.gcd timescale timebase)
    ∧ reduce_timescale_timebase (timescale / Nat.gcd timescale timebase)
          (timebase / Nat.gcd timescale timebase)
        = (timescale / Nat.gcd timescale timebase, timebase / Nat.gcd timescale timebase)
    ∧ native_timescale_timebase (k * timescale)
          (ts_list.map (fun t => ⟨k * t.dts, k * t.cts⟩))
        = native_timescale_timebase timescale ts_list := by
  have hg : 0 < Nat.gcd timescale timebase :=
    Nat.gcd_pos_of_pos_right _ (Nat.pos_of_ne_zero hnz)
  have hcop := Nat.coprime_div_gcd_div_gcd hg
  refine ⟨?_, hcop, ?_, ?_⟩
  · simp [native_timescale_timebase, htb, hnz, reduce_timescale_timebase, get_gcd_eq]
  · simp only [reduce_timescale_timebase, get_gcd_eq]
    rw [Nat.Coprime.gcd_eq_one hcop, Nat.div_one, Nat.div_one]
  · have hk0 : 0 < k := hk
    have hkne : k ≠ 0 := Nat.pos_iff_ne_zero.1 hk0
    simp only [native_timescale_timebase, get_media_timebase_mul, htb, Option.map_some',
      hnz, if_false, Nat.mul_eq_zero, hkne, false_or, reduce_timescale_timebase, get_gcd_eq]
    rw [Nat.gcd_mul_left, Nat.mul_div_mul_left _ _ hk0, Nat.mul_div_mul_left _ _ hk0]

theorem native_timescale_timebase_reduced_witness :
    get_media_timebase [(⟨0, 2002⟩ : lsmash_media_ts_t), ⟨1001, 1001⟩] = some 1001
    ∧ (1001 : Nat) ≠ 0 ∧ 1 ≤ 2
    ∧ (native_timescale_timebase 24000 [(⟨0, 2002⟩ : lsmash_media_ts_t), ⟨1001, 1001⟩]
        = some (24000 / Nat.gcd 24000 1001, 1001 / Nat.gcd 24000 1001)
      ∧ Nat.Coprime (24000 / Nat.gcd 24000 1001) (1001 / Nat.gcd 24000 1001)
      ∧ reduce_timescale_timebase (24000 / Nat.gcd 24000 1001) (1001 / Nat.gcd 24000 1001)
          = (24000 / Nat.gcd 24000 1001, 1001 / Nat.gcd 24000 1001)
      ∧ native_timescale_timebase (2 * 24000)
            ([(⟨0, 2002⟩ : lsmash_media_ts_t), ⟨1001, 1001⟩].map
              (fun t => ⟨2 * t.dts, 2 * t.cts⟩))
          = native_timescale_timebase 24000 [(⟨0, 2002⟩ : lsmash_media_ts_t), ⟨1001, 1001⟩]) :=
  ⟨by simp [get_media_timebase, get_gcd_eq], by decide, by decide,
   native_timescale_timebase_reduced 24000 [⟨0, 2002⟩, ⟨1001, 1001⟩] 1001 2
      (by simp [get_media_timebase, get_gcd_eq]) (by decide) (by decide)⟩

/-! ## Theorems: description index mapping -/

/-- C3. For an input track with `n ≥ 1` summaries, a remap table of length `n`
and a raw description index `r`, `adapt_description_index` sets the sample's
index to `remap[c - 1]`, where `c = 1` if `r = 0`, `c = n` if `r > n` and
`c = r` otherwise; `c` lies in `[1, n]`, so the lookup is in bounds.  The inline
mapping of the timeline editor yields the same value. -/
theorem adapt_description_index_clamps {D : Type} (out_track : output_track_t)
    (in_track : input_track_t D) (sample : lsmash_sample_t)
    (hn : 1 ≤ in_track.num_summaries)
    (hlen : out_track.summary_remap.length = in_track.num_summaries) :
    ∃ c v in_track1,
      c = (if sample.index = 0 then 1
           else if sample.index > in_track.num_summaries then in_track.num_summaries
           else sample.index)
      ∧ 1 ≤ c ∧ c ≤ in_track.num_summaries
      ∧ out_track.summary_remap[c - 1]? = some v
      ∧ adapt_description_index out_track in_track sample
          = some (in_track1, { sample with index := v })
      ∧ timelineeditor_description_index in_track.num_summaries out_track.summary_remap
          sample.index = some v := by
  have hc : clamp_description_index in_track.num_summaries sample.index
      = (if sample.index = 0 then 1
         else if sample.index > in_track.num_summaries then in_track.num_summaries
         else sample.index) := by
    unfold clamp_description_index
    split_ifs <;> omega
  have hc1 : 1 ≤ clamp_description_index in_track.num_summaries sample.index := by
    unfold clamp_description_index
    split_ifs <;> omega
  have hc2 : clamp_description_index in_track.num_summaries sample.index
      ≤ in_track.num_summaries := by
    unfold clamp_description_index
    split_ifs <;> omega
  have hlt : clamp_description_index in_track.num_summaries sample.index - 1
      < out_track.summary_remap.length := by omega
  have hget : out_track.summary_remap[
      clamp_description_index in_track.num_summaries sample.index - 1]?
      = some (out_track.summary_remap.get ⟨_, hlt⟩) := by
    rw [List.getElem?_eq_getElem hlt]
    rfl
  have hat : at1 out_track.summary_remap
      (clamp_description_index in_track.num_summaries sample.index)
      = some (out_track.summary_remap.get ⟨_, hlt⟩) := by
    unfold at1
    rw [if_neg (by omega), hget]
  by_cases h0 : in_track.current_sample_index = 0
  · refine ⟨clamp_description_index in_track.num_summaries sample.index,
      out_track.summary_remap.get ⟨_, hlt⟩,
      { in_track with current_sample_index := out_track.summary_remap.get ⟨_, hlt⟩ },
      hc, hc1, hc2, hget, ?_, ?_⟩
    · simp only [adapt_description_index, hat, h0, if_true]
    · simpa [timelineeditor_description_index, clamp_description_index] using hat
  · refine ⟨clamp_description_index in_track.num_summaries sample.index,
      out_track.summary_remap.get ⟨_, hlt⟩, in_track,
      hc, hc1, hc2, hget, ?_, ?_⟩
    · simp only [adapt_description_index, hat, h0, if_false]
    · simpa [timelineeditor_description_index, clamp_description_index] using hat

theorem adapt_description_index_clamps_witness :
    1 ≤ (⟨true, none, (⟨0, 1⟩ : Frac), false, 1, 1, 0, 2, 1⟩ : input_track_t Frac).num_summaries
    ∧ (⟨1, 1, 1, [1, 0], 0, 0⟩ : output_track_t).summary_remap.length
        = (⟨true, none, (⟨0, 1⟩ : Frac), false, 1, 1, 0, 2, 1⟩ : input_track_t Frac).num_summaries
    ∧ ∃ c v in_track1,
      c = (if (⟨1, 0, 0, 7, 0⟩ : lsmash_sample_t).index = 0 then 1
           else if (⟨1, 0, 0, 7, 0⟩ : lsmash_sample_t).index
               > (⟨true, none, (⟨0, 1⟩ : Frac), false, 1, 1, 0, 2, 1⟩
                    : input_track_t Frac).num_summaries
             then (⟨true, none, (⟨0, 1⟩ : Frac), false, 1, 1, 0, 2, 1⟩
                    : input_track_t Frac).num_summaries
           else (⟨1, 0, 0, 7, 0⟩ : lsmash_sample_t).index)
      ∧ 1 ≤ c
      ∧ c ≤ (⟨true, none, (⟨0, 1⟩ : Frac), false, 1, 1, 0, 2, 1⟩
              : input_track_t Frac).num_summaries
      ∧ (⟨1, 1, 1, [1, 0], 0, 0⟩ : output_track_t).summary_remap[c - 1]? = some v
      ∧ adapt_description_index ⟨1, 1, 1, [1, 0], 0, 0⟩
          (⟨true, none, (⟨0, 1⟩ : Frac), false, 1, 1, 0, 2, 1⟩ : input_track_t Frac)
          ⟨1, 0, 0, 7, 0⟩
          = some (in_track1, { (⟨1, 0, 0, 7, 0⟩ : lsmash_sample_t) with index := v })
      ∧ timelineeditor_description_index
          (⟨true, none, (⟨0, 1⟩ : Frac), false, 1, 1, 0, 2, 1⟩
            : input_track_t Frac).num_summaries
          (⟨1, 1, 1, [1, 0], 0, 0⟩ : output_track_t).summary_remap
          (⟨1, 0, 0, 7, 0⟩ : lsmash_sample_t).index = some v :=
  ⟨by decide, by decide,
   adapt_description_index_clamps ⟨1, 1, 1, [1, 0], 0, 0⟩
     (⟨true, none, (⟨0, 1⟩ : Frac), false, 1, 1, 0, 2, 1⟩ : input_track_t Frac)
     ⟨1, 0, 0, 7, 0⟩ (by decide) (by decide)⟩

/-! ## Theorems: segmentation -/

theorem succ_div_mod_of_pred (n k : Nat) (hn : 1 ≤ n) (hk : 1 ≤ k) :
    ((k - 1) % n + 1 = n → k % n = 0 ∧ k / n = (k - 1) / n + 1)
    ∧ ((k - 1) % n + 1 ≠ n → k % n = (k - 1) % n + 1 ∧ k / n = (k - 1) / n) := by
  have hlt : (k - 1) % n < n := Nat.mod_lt _ hn
  have hdm : n * ((k - 1) / n) + (k - 1) % n = k - 1 := Nat.div_add_mod (k - 1) n
  constructor
  · intro h
    have hk2 : k = n * ((k - 1) / n + 1) := by
      rw [Nat.mul_add, Nat.mul_one]; omega
    constructor
    · rw [hk2]; exact Nat.mul_mod_right _ _
    · conv_lhs => rw [hk2]
      exact Nat.mul_div_cancel_left _ hn
  · intro h
    have hk2 : k = n * ((k - 1) / n) + ((k - 1) % n + 1) := by omega
    have hlt2 : (k - 1) % n + 1 < n := by omega
    constructor
    · conv_lhs => rw [hk2]
      rw [Nat.mul_add_mod, Nat.mod_eq_of_lt hlt2]
    · conv_lhs => rw [hk2]
      rw [Nat.mul_add_div hn, Nat.div_eq_of_lt hlt2, Nat.add_zero]

theorem handle_segmentation_subseg_per_seg {D : Type} (E : Engine) (r : remuxer_t D) :
    (handle_segmentation E r).2.subseg_per_seg = r.subseg_per_seg := by
  unfold handle_segmentation
  simp only [remuxer_t.log]
  split_ifs <;> rfl

theorem handle_segmentation_calls_subseg_per_seg {D : Type} (E : Engine) (k : Nat)
    (r : remuxer_t D) :
    (handle_segmentation_calls E k r).subseg_per_seg = r.subseg_per_seg := by
  induction k with
  | zero => rfl
  | succ k ih =>
    simp only [handle_segmentation_calls]
    rw [handle_segmentation_subseg_per_seg, ih]

/-- One call of `handle_segmentation` that switches to a new segment. -/
theorem handle_segmentation_switch {D : Type} (E : Engine) (r : remuxer_t D)
    (hE : ∀ ev seg, E.switch_segment ev seg = true)
    (hn : r.subseg_per_seg ≠ 0)
    (hc : r.subseg_per_seg = r.current_subseg_number ∨ r.current_seg_number = 1) :
    (handle_segmentation E r).1 = 0
    ∧ (handle_segmentation E r).2.events
        = r.events ++ [Event.handle_segmentation, Event.switch_segment r.current_seg_number true]
    ∧ (handle_segmentation E r).2.current_subseg_number = 1
    ∧ (handle_segmentation E r).2.current_seg_number = inc32 r.current_seg_number := by
  unfold handle_segmentation
  simp only [remuxer_t.log, hn, if_false, hc, if_true, hE, Bool.true_eq_false]
  simp

/-- One call of `handle_segmentation` that stays in the current segment. -/
theorem handle_segmentation_stay {D : Type} (E : Engine) (r : remuxer_t D)
    (hn : r.subseg_per_seg ≠ 0)
    (hc : ¬ (r.subseg_per_seg = r.current_subseg_number ∨ r.current_seg_number = 1)) :
    (handle_segmentation E r).1 = 0
    ∧ (handle_segmentation E r).2.events = r.events ++ [Event.handle_segmentation]
    ∧ (handle_segmentation E r).2.current_subseg_number = inc32 r.current_subseg_number
    ∧ (handle_segmentation E r).2.current_seg_number = r.current_seg_number := by
  unfold handle_segmentation
  simp only [remuxer_t.log, hn, if_false, hc]
  simp

/-- One call of `handle_segmentation` without segmentation. -/
theorem handle_segmentation_zero {D : Type} (E : Engine) (r : remuxer_t D)
    (hn : r.subseg_per_seg = 0) :
    (handle_segmentation E r).1 = 0
    ∧ (handle_segmentation E r).2.events = r.events ++ [Event.handle_segmentation]
    ∧ (handle_segmentation E r).2.current_subseg_number = r.current_subseg_number
    ∧ (handle_segmentation E r).2.current_seg_number = r.current_seg_number := by
  unfold handle_segmentation
  simp only [remuxer_t.log, hn, if_true]
  simp

theorem handle_segmentation_calls_closed_form {D : Type} (E : Engine) (r0 : remuxer_t D)
    (n : Nat) (hE : ∀ ev seg, E.switch_segment ev seg = true)
    (hseg : r0.current_seg_number = 1)
    (hn : r0.subseg_per_seg = n) (hn1 : 1 ≤ n) (hn32 : n < U32) (k : Nat)
    (hk : 1 ≤ k) (hrange : (k - 1) / n + 2 < U32) :
    (handle_segmentation_calls E k r0).current_subseg_number = (k - 1) % n + 1
    ∧ (handle_segmentation_calls E k r0).current_seg_number = (k - 1) / n + 2 := by
  induction k with
  | zero => omega
  | succ k ih =>
    have hsp := handle_segmentation_calls_subseg_per_seg E k r0
    rw [hn] at hsp
    have hne : (handle_segmentation_calls E k r0).subseg_per_seg ≠ 0 := by omega
    simp only [handle_segmentation_calls, Nat.add_sub_cancel]
    rcases Nat.eq_zero_or_pos k with hk0 | hkpos
    · subst hk0
      have h := handle_segmentation_switch E (handle_segmentation_calls E 0 r0) hE hne
        (Or.inr hseg)
      rw [h.2.2.1, h.2.2.2]
      simp only [handle_segmentation_calls, hseg, inc32, U32, Nat.zero_mod, Nat.zero_div]
      decide
    · have hmono : (k - 1) / n ≤ k / n := Nat.div_le_div_right (Nat.sub_le k 1)
      simp only [Nat.add_sub_cancel] at hrange
      have hlt : (k - 1) % n < n := Nat.mod_lt _ hn1
      have hdm := succ_div_mod_of_pred n k hn1 hkpos
      generalize (k - 1) % n = e at *
      generalize (k - 1) / n = q at *
      generalize k % n = e1 at *
      generalize k / n = q1 at *
      obtain ⟨ihs, ihg⟩ := ih hkpos (by omega)
      by_cases hfull : e + 1 = n
      · obtain ⟨hm, hd⟩ := hdm.1 hfull
        have h := handle_segmentation_switch E (handle_segmentation_calls E k r0) hE hne
          (Or.inl (by rw [hsp, ihs]; exact hfull.symm))
        rw [h.2.2.1, h.2.2.2, ihg, hm, hd]
        refine ⟨rfl, ?_⟩
        unfold inc32
        rw [Nat.mod_eq_of_lt (by omega)]
      · obtain ⟨hm, hd⟩ := hdm.2 hfull
        have h := handle_segmentation_stay E (handle_segmentation_calls E k r0) hne
          (by rw [hsp, ihs, ihg]; rintro (h1 | h1) <;> omega)
        rw [h.2.2.1, h.2.2.2, ihg, ihs, hm, hd]
        refine ⟨?_, rfl⟩
        unfold inc32
        rw [Nat.mod_eq_of_lt (by omega)]

theorem handle_segmentation_calls_zero {D : Type} (E : Engine) (r0 : remuxer_t D)
    (hn : r0.subseg_per_seg = 0) (j : Nat) :
    (handle_segmentation_calls E j r0).current_subseg_number = r0.current_subseg_number
    ∧ (handle_segmentation_calls E j r0).current_seg_number = r0.current_seg_number
    ∧ (handle_segmentation_calls E j r0).events
        = r0.events ++ List.replicate j Event.handle_segmentation := by
  induction j with
  | zero => simp [handle_segmentation_calls]
  | succ j ih =>
    have hsp := handle_segmentation_calls_subseg_per_seg E j r0
    rw [hn] at hsp
    have h := handle_segmentation_zero E (handle_segmentation_calls E j r0) hsp
    simp only [handle_segmentation_calls]
    rw [h.2.2.1, h.2.2.2, h.2.1, ih.1, ih.2.1, ih.2.2, List.replicate_succ',
      List.append_assoc]
    exact ⟨rfl, rfl, rfl⟩

/-- C6. Let `n ≥ 1` sub-segments per segment be configured, start from
`current_seg_number = 1`, `current_subseg_number = 0`, and let every segment
switch succeed.  As long as the 32-bit segment counter has not wrapped, the
`k`-th call of `handle_segmentation` succeeds, switches to a new segment file
if and only if `(k - 1) mod n = 0` (and otherwise only records the call), leaves
`current_subseg_number = ((k - 1) mod n) + 1`, and `current_seg_number` has grown
by one per switch.  With `n = 0` no call switches or changes a counter. -/
theorem handle_segmentation_schedule {D : Type} (E : Engine) (r0 : remuxer_t D)
    (n k : Nat) (hE : ∀ ev seg, E.switch_segment ev seg = true)
    (hseg : r0.current_seg_number = 1) (hsub : r0.current_subseg_number = 0)
    (hn : r0.subseg_per_seg = n) (hn1 : 1 ≤ n) (hn32 : n < U32)
    (hk : 1 ≤ k) (hrange : (k - 1) / n + 2 < U32) :
    (handle_segmentation E (handle_segmentation_calls E (k - 1) r0)).1 = 0
    ∧ ((handle_segmentation_calls E k r0).events
          = (handle_segmentation_calls E (k - 1) r0).events
              ++ [Event.handle_segmentation,
                  Event.switch_segment
                    (handle_segmentation_calls E (k - 1) r0).current_seg_number true]
        ↔ (k - 1) % n = 0)
    ∧ ((handle_segmentation_calls E k r0).events
          = (handle_segmentation_calls E (k - 1) r0).events ++ [Event.handle_segmentation]
        ↔ (k - 1) % n ≠ 0)
    ∧ (handle_segmentation_calls E k r0).current_subseg_number = (k - 1) % n + 1
    ∧ (handle_segmentation_calls E k r0).current_seg_number
        = (handle_segmentation_calls E (k - 1) r0).current_seg_number
            + (if (k - 1) % n = 0 then 1 else 0)
    ∧ (handle_segmentation_calls E k r0).current_seg_number = (k - 1) / n + 2
    ∧ ∀ j, (handle_segmentation_calls E j { r0 with subseg_per_seg := 0 }).current_subseg_number
              = 0
          ∧ (handle_segmentation_calls E j { r0 with subseg_per_seg := 0 }).current_seg_number
              = 1
          ∧ (handle_segmentation_calls E j { r0 with subseg_per_seg := 0 }).events
              = r0.events ++ List.replicate j Event.handle_segmentation := by
  obtain ⟨k, rfl⟩ : ∃ k1, k = k1 + 1 := ⟨k - 1, by omega⟩
  have hcf := handle_segmentation_calls_closed_form E r0 n hE hseg hn hn1 hn32
    (k + 1) hk hrange
  simp only [Nat.add_sub_cancel] at hcf hrange ⊢
  have hsp := handle_segmentation_calls_subseg_per_seg E k r0
  rw [hn] at hsp
  have hne : (handle_segmentation_calls E k r0).subseg_per_seg ≠ 0 := by omega
  have hzero : ∀ j,
      (handle_segmentation_calls E j { r0 with subseg_per_seg := 0 }).current_subseg_number = 0
      ∧ (handle_segmentation_calls E j { r0 with subseg_per_seg := 0 }).current_seg_number = 1
      ∧ (handle_segmentation_calls E j { r0 with subseg_per_seg := 0 }).events
          = r0.events ++ List.replicate j Event.handle_segmentation := by
    intro j
    have h := handle_segmentation_calls_zero E { r0 with subseg_per_seg := 0 } rfl j
    exact ⟨h.1.trans hsub, h.2.1.trans hseg, h.2.2⟩
  have hlen : ∀ (l : List Event) (a b : Event), l ++ [a, b] ≠ l ++ [a] := by
    intro l a b h
    have := congrArg List.length h
    simp at this
  by_cases hsw : (handle_segmentation_calls E k r0).subseg_per_seg
      = (handle_segmentation_calls E k r0).current_subseg_number
      ∨ (handle_segmentation_calls E k r0).current_seg_number = 1
  · have h := handle_segmentation_switch E (handle_segmentation_calls E k r0) hE hne hsw
    have hmod : k % n = 0 := by
      rcases Nat.eq_zero_or_pos k with hk0 | hkpos
      · subst hk0; exact Nat.zero_mod n
      · have hmono : (k - 1) / n ≤ k / n := Nat.div_le_div_right (Nat.sub_le k 1)
        have hprev := handle_segmentation_calls_closed_form E r0 n hE hseg hn hn1 hn32
          k hkpos (lt_of_le_of_lt (Nat.add_le_add_right hmono 2) hrange)
        have hdm := succ_div_mod_of_pred n k hn1 hkpos
        rw [hsp, hprev.1, hprev.2] at hsw
        rcases hsw with hsw | hsw
        · exact (hdm.1 hsw.symm).1
        · exact absurd hsw (by generalize (k - 1) / n = q; omega)
    refine ⟨h.1, ?_, ?_, hcf.1, ?_, hcf.2, hzero⟩
    · simp only [handle_segmentation_calls, h.2.1, hmod]
    · simp only [handle_segmentation_calls, h.2.1, hmod, ne_eq, not_true_eq_false, iff_false]
      exact hlen _ _ _
    · have hseg2 := h.2.2.2
      have hafter := hcf.2
      simp only [handle_segmentation_calls, hmod, if_true] at hafter ⊢
      rw [hseg2] at hafter ⊢
      have hbefore : (handle_segmentation_calls E k r0).current_seg_number + 1 ≤ U32 := by
        rcases Nat.eq_zero_or_pos k with hk0 | hkpos
        · subst hk0
          simp only [handle_segmentation_calls, hseg, U32]
          decide
        · have hmono : (k - 1) / n ≤ k / n := Nat.div_le_div_right (Nat.sub_le k 1)
          have hprev := handle_segmentation_calls_closed_form E r0 n hE hseg hn hn1 hn32
            k hkpos (lt_of_le_of_lt (Nat.add_le_add_right hmono 2) hrange)
          rw [hprev.2]
          generalize (k - 1) / n = q at *
          generalize k / n = q1 at *
          omega
      unfold inc32 at hafter ⊢
      generalize (handle_segmentation_calls E k r0).current_seg_number = g at *
      generalize k / n = q1 at *
      simp only [U32] at *
      omega
  · have h := handle_segmentation_stay E (handle_segmentation_calls E k r0) hne hsw
    have hmod : k % n ≠ 0 := by
      rcases Nat.eq_zero_or_pos k with hk0 | hkpos
      · subst hk0
        exact absurd (Or.inr hseg) hsw
      · have hmono : (k - 1) / n ≤ k / n := Nat.div_le_div_right (Nat.sub_le k 1)
        have hprev := handle_segmentation_calls_closed_form E r0 n hE hseg hn hn1 hn32
          k hkpos (lt_of_le_of_lt (Nat.add_le_add_right hmono 2) hrange)
        have hdm := succ_div_mod_of_pred n k hn1 hkpos
        rw [hsp, hprev.1, hprev.2] at hsw
        have hfull : (k - 1) % n + 1 ≠ n := fun hf => hsw (Or.inl hf.symm)
        rw [(hdm.2 hfull).1]
        exact Nat.succ_ne_zero _
    refine ⟨h.1, ?_, ?_, hcf.1, ?_, hcf.2, hzero⟩
    · simp only [handle_segmentation_calls, h.2.1, hmod, iff_false]
      exact fun hh => hlen _ _ _ hh.symm
    · simp only [handle_segmentation_calls, h.2.1, hmod, ne_eq, not_false_eq_true]
    · simp only [handle_segmentation_calls, hmod, if_false, h.2.2.2, Nat.add_zero]

theorem handle_segmentation_schedule_witness :
    (∀ ev seg, dash3_engine.switch_segment ev seg = true)
    ∧ dash3_remuxer.current_seg_number = 1 ∧ dash3_remuxer.current_subseg_number = 0
    ∧ dash3_remuxer.subseg_per_seg = 3 ∧ 1 ≤ 3 ∧ 3 < U32 ∧ 1 ≤ 4 ∧ (4 - 1) / 3 + 2 < U32
    ∧ ((handle_segmentation dash3_engine
          (handle_segmentation_calls dash3_engine (4 - 1) dash3_remuxer)).1 = 0
      ∧ ((handle_segmentation_calls dash3_engine 4 dash3_remuxer).events
            = (handle_segmentation_calls dash3_engine (4 - 1) dash3_remuxer).events
                ++ [Event.handle_segmentation,
                    Event.switch_segment
                      (handle_segmentation_calls dash3_engine (4 - 1)
                        dash3_remuxer).current_seg_number true]
          ↔ (4 - 1) % 3 = 0)
      ∧ ((handle_segmentation_calls dash3_engine 4 dash3_remuxer).events
            = (handle_segmentation_calls dash3_engine (4 - 1) dash3_remuxer).events
                ++ [Event.handle_segmentation]
          ↔ (4 - 1) % 3 ≠ 0)
      ∧ (handle_segmentation_calls dash3_engine 4 dash3_remuxer).current_subseg_number
          = (4 - 1) % 3 + 1
      ∧ (handle_segmentation_calls dash3_engine 4 dash3_remuxer).current_seg_number
          = (handle_segmentation_calls dash3_engine (4 - 1) dash3_remuxer).current_seg_number
              + (if (4 - 1) % 3 = 0 then 1 else 0)
      ∧ (handle_segmentation_calls dash3_engine 4 dash3_remuxer).current_seg_number
          = (4 - 1) / 3 + 2
      ∧ ∀ j,
          (handle_segmentation_calls dash3_engine j
              { dash3_remuxer with subseg_per_seg := 0 }).current_subseg_number = 0
          ∧ (handle_segmentation_calls dash3_engine j
              { dash3_remuxer with subseg_per_seg := 0 }).current_seg_number = 1
          ∧ (handle_segmentation_calls dash3_engine j
              { dash3_remuxer with subseg_per_seg := 0 }).events
              = dash3_remuxer.events ++ List.replicate j Event.handle_segmentation) :=
  ⟨fun _ _ => rfl, rfl, rfl, rfl, by decide, by decide, by decide, by decide,
   handle_segmentation_schedule dash3_engine dash3_remuxer 3 4 (fun _ _ => rfl) rfl rfl rfl
     (by decide) (by decide) (by decide) (by decide)⟩

/-! ## Theorems: general facts about the loop of `do_remux` -/

section RunLemmas

variable {D : Type} [C_double D]

/-- A property kept by every pass holds after any number of passes. -/
theorem run_invariant (E : Engine) (P : State D → Prop)
    (hstep : ∀ s s1, P s → (step E s).state? = some s1 → P s1) :
    ∀ (n : Nat) (s0 s : State D), P s0 → (run E n s0).state? = some s → P s := by
  intro n
  induction n with
  | zero =>
    intro s0 s h0 hs
    simp only [run, Outcome.state?, Option.some.injEq] at hs
    exact hs ▸ h0
  | succ n ih =>
    intro s0 s h0 hs
    simp only [run] at hs
    cases hst : step E s0 with
    | next s1 =>
      rw [hst] at hs
      exact ih s1 s (hstep s0 s1 h0 (by rw [hst]; rfl)) hs
    | brk s1 =>
      rw [hst] at hs
      exact hstep s0 s h0 (by rw [hst]; exact hs)
    | ret v s1 =>
      rw [hst] at hs
      exact hstep s0 s h0 (by rw [hst]; exact hs)
    | undef =>
      rw [hst] at hs
      simp [Outcome.state?] at hs

/-- Without a fragment base track the fragment control does nothing. -/
theorem fragment_control_nonfrag (E : Engine) (s : State D) (t : input_track_t D)
    (p : lsmash_sample_t) (hfb : s.r.frag_base_track = 0) :
    fragment_control E s t p = Outcome.next s := by
  simp [fragment_control, hfb]

/-- What `append_or_skip` leaves untouched, and that it records no fragment
call. -/
theorem append_or_skip_frame (E : Engine) (s s1 : State D) (t : input_track_t D)
    (p : lsmash_sample_t) (h : (append_or_skip E s t p).state? = some s1) :
    s1.pending_flush_fragments = s.pending_flush_fragments
    ∧ s1.r.frag_base_track = s.r.frag_base_track
    ∧ ∃ new, s1.r.events = s.r.events ++ new ∧ ∀ e ∈ new, e.is_fragment_call = false := by
  unfold append_or_skip at h
  split_ifs at h with h1 h2
  · split at h
    · simp [Outcome.state?] at h
    · split_ifs at h with h4
      · simp only [Outcome.state?, Option.some.injEq] at h
        subst h
        refine ⟨rfl, rfl, _, rfl, ?_⟩
        simp [Event.is_fragment_call]
      · simp only [Outcome.state?, Option.some.injEq] at h
        subst h
        refine ⟨rfl, rfl, [_], rfl, ?_⟩
        simp [Event.is_fragment_call]
  · simp only [Outcome.state?, Option.some.injEq] at h
    subst h
    refine ⟨rfl, rfl, [_], rfl, ?_⟩
    simp [Event.is_fragment_call]
  · simp only [Outcome.state?, Option.some.injEq] at h
    subst h
    exact ⟨rfl, rfl, [], by simp [move_next, move_next_output, move_next_input], by simp⟩

/-- Without a fragment base track a pending sample is only appended, dropped
or skipped. -/
theorem handle_pending_sample_nonfrag (E : Engine) (s : State D) (t : input_track_t D)
    (p : lsmash_sample_t) (hfb : s.r.frag_base_track = 0) :
    handle_pending_sample E s t p = append_or_skip E s t p := by
  simp only [handle_pending_sample, fragment_control_nonfrag E s t p hfb]

/-- Case analysis of `fetch_sample`. -/
theorem fetch_sample_cases (E : Engine) (s : State D) (t : input_track_t D)
    (Q : Fetched D → Prop)
    (h_undef : Q (Fetched.no_sample Outcome.undef))
    (h_held : ∀ p, t.sample = some p → Q (Fetched.sample s t p))
    (h_fetch : ∀ raw o t1 p1, t.sample = none →
      E.get_sample_from_media_timeline s.input_movie_number t.track_ID
        t.current_sample_number = some raw →
      cur_out_track s = some o →
      adapt_description_index o t raw = some (t1, p1) →
      Q (Fetched.sample
          (set_out_track
            (set_in_track s { t1 with
              sample := some (adjust_timestamp o p1).2,
              dts := C_double.div (C_double.ofU64 (adjust_timestamp o p1).2.dts)
                       (C_double.ofU64 t1.timescale) })
            (adjust_timestamp o p1).1)
          { t1 with
            sample := some (adjust_timestamp o p1).2,
            dts := C_double.div (C_double.ofU64 (adjust_timestamp o p1).2.dts)
                     (C_double.ofU64 t1.timescale) }
          (adjust_timestamp o p1).2))
    (h_error : t.sample = none →
      E.get_sample_from_media_timeline s.input_movie_number t.track_ID
        t.current_sample_number = none →
      (E.check_sample_existence_in_media_timeline s.input_movie_number t.track_ID
          t.current_sample_number = true
        ∨ (E.get_sample_info_from_media_timeline s.input_movie_number t.track_ID
            t.current_sample_number).isSome = true) →
      Q (Fetched.no_sample (Outcome.brk (s.log [Event.error_message]))))
    (h_end : t.sample = none →
      E.get_sample_from_media_timeline s.input_movie_number t.track_ID
        t.current_sample_number = none →
      E.check_sample_existence_in_media_timeline s.input_movie_number t.track_ID
        t.current_sample_number = false →
      E.get_sample_info_from_media_timeline s.input_movie_number t.track_ID
        t.current_sample_number = none →
      dec32 s.num_active_input_tracks = 0 →
      Q (Fetched.no_sample (Outcome.brk { set_in_track s { t with
               sample := none, reach_end_of_media_timeline := true } with
             num_active_input_tracks := dec32 s.num_active_input_tracks })))
    (h_end_next : t.sample = none →
      E.get_sample_from_media_timeline s.input_movie_number t.track_ID
        t.current_sample_number = none →
      E.check_sample_existence_in_media_timeline s.input_movie_number t.track_ID
        t.current_sample_number = false →
      E.get_sample_info_from_media_timeline s.input_movie_number t.track_ID
        t.current_sample_number = none →
      dec32 s.num_active_input_tracks ≠ 0 →
      Q (Fetched.no_sample (Outcome.next (move_next { set_in_track s { t with
               sample := none, reach_end_of_media_timeline := true } with
             num_active_input_tracks := dec32 s.num_active_input_tracks })))) :
    Q (fetch_sample E s t) := by
  unfold fetch_sample
  cases hsm : t.sample with
  | some p =>
    simp only []
    exact h_held p hsm
  | none =>
    simp only []
    cases hg : E.get_sample_from_media_timeline s.input_movie_number t.track_ID
        t.current_sample_number with
    | some raw =>
      simp only []
      cases ho : cur_out_track s with
      | none => exact h_undef
      | some o =>
        simp only []
        cases had : adapt_description_index o t raw with
        | none => exact h_undef
        | some tp =>
          obtain ⟨t1, p1⟩ := tp
          simp only []
          exact h_fetch raw o t1 p1 hsm hg ho had
    | none =>
      simp only []
      by_cases hex : E.check_sample_existence_in_media_timeline s.input_movie_number
          t.track_ID t.current_sample_number = true
      · rw [if_pos hex]
        exact h_error hsm hg (Or.inl hex)
      · have hex1 : E.check_sample_existence_in_media_timeline s.input_movie_number
            t.track_ID t.current_sample_number = false := by simpa using hex
        rw [if_neg hex]
        cases hinfo : E.get_sample_info_from_media_timeline s.input_movie_number
            t.track_ID t.current_sample_number with
        | none =>
          simp only []
          by_cases hz : dec32 s.num_active_input_tracks = 0
          · rw [if_pos hz]
            exact h_end hsm hg hex1 hinfo hz
          · rw [if_neg hz]
            exact h_end_next hsm hg hex1 hinfo hz
        | some info =>
          simp only []
          exact h_error hsm hg (Or.inr (by rw [hinfo]; rfl))

/-- Case analysis of one pass through the loop: a property of the outcome holds
if it holds in each of the ways the body of the loop can run. -/
theorem step_cases (E : Engine) (s : State D) (Q : Outcome (State D) → Prop)
    (h_undef : Q Outcome.undef)
    (h_inactive : ∀ m t, cur_in_movie s = some m →
      at1 m.track m.current_track_number = some t → t.active = false →
      Q (Outcome.next (move_next_input s)))
    (h_ended : ∀ m t, cur_in_movie s = some m →
      at1 m.track m.current_track_number = some t → t.active = true →
      t.reach_end_of_media_timeline = true →
      Q (Outcome.next (move_next s)))
    (h_sample : ∀ m t s1 t1 p, cur_in_movie s = some m →
      at1 m.track m.current_track_number = some t → t.active = true →
      t.reach_end_of_media_timeline = false →
      fetch_sample E s t = Fetched.sample s1 t1 p →
      Q (handle_pending_sample E s1 t1 p))
    (h_no_sample : ∀ m t o, cur_in_movie s = some m →
      at1 m.track m.current_track_number = some t → t.active = true →
      t.reach_end_of_media_timeline = false →
      fetch_sample E s t = Fetched.no_sample o →
      Q o) :
    Q (step E s) := by
  unfold step
  cases hm : cur_in_movie s with
  | none => exact h_undef
  | some m =>
    simp only []
    cases ht : at1 m.track m.current_track_number with
    | none => exact h_undef
    | some t =>
      simp only []
      by_cases hact : t.active = false
      · rw [if_pos hact]
        exact h_inactive m t hm ht hact
      · have hact1 : t.active = true := by simpa using hact
        rw [if_neg hact]
        by_cases hend : t.reach_end_of_media_timeline = true
        · rw [if_pos hend]
          exact h_ended m t hm ht hact1 hend
        · have hend1 : t.reach_end_of_media_timeline = false := by simpa using hend
          rw [if_neg hend]
          cases hf : fetch_sample E s t with
          | sample s1 t1 p =>
            simp only []
            exact h_sample m t s1 t1 p hm ht hact1 hend1 hf
          | no_sample o =>
            simp only []
            exact h_no_sample m t o hm ht hact1 hend1 hf

/-- What a successful `fetch_sample` returns: the state as it is when the track
already holds a sample, or the state after the stores of the freshly fetched,
index-mapped and time-shifted sample. -/
theorem fetch_sample_sample (E : Engine) (s s1 : State D) (t t1 : input_track_t D)
    (p : lsmash_sample_t) (h : fetch_sample E s t = Fetched.sample s1 t1 p) :
    (s1 = s ∧ t1 = t ∧ t.sample = some p)
    ∨ ∃ raw o ta pa, t.sample = none
        ∧ E.get_sample_from_media_timeline s.input_movie_number t.track_ID
            t.current_sample_number = some raw
        ∧ cur_out_track s = some o
        ∧ adapt_description_index o t raw = some (ta, pa)
        ∧ p = (adjust_timestamp o pa).2
        ∧ t1 = { ta with sample := some p,
                         dts := C_double.div (C_double.ofU64 p.dts) (C_double.ofU64 ta.timescale) }
        ∧ s1 = set_out_track (set_in_track s t1) (adjust_timestamp o pa).1 := by
  revert h
  refine fetch_sample_cases E s t (fun f => f = Fetched.sample s1 t1 p → _)
    ?_ ?_ ?_ ?_ ?_ ?_
  · intro h; cases h
  · intro p0 hp0 h
    cases h
    exact Or.inl ⟨rfl, rfl, hp0⟩
  · intro raw o ta pa hsm hg ho had h
    cases h
    exact Or.inr ⟨raw, o, ta, pa, hsm, hg, ho, had, rfl, rfl, rfl⟩
  · intro _ _ _ h; cases h
  · intro _ _ _ _ _ h; cases h
  · intro _ _ _ _ _ h; cases h

/-- What `fetch_sample` returns without a sample: an out-of-bounds read, a
`break` after an error message, or the clean end of the track. -/
theorem fetch_sample_no_sample (E : Engine) (s : State D) (t : input_track_t D)
    (o : Outcome (State D)) (h : fetch_sample E s t = Fetched.no_sample o) :
    o = Outcome.undef
    ∨ (o = Outcome.brk (s.log [Event.error_message])
        ∧ t.sample = none
        ∧ E.get_sample_from_media_timeline s.input_movie_number t.track_ID
            t.current_sample_number = none
        ∧ (E.check_sample_existence_in_media_timeline s.input_movie_number t.track_ID
              t.current_sample_number = true
            ∨ (E.get_sample_info_from_media_timeline s.input_movie_number t.track_ID
                t.current_sample_number).isSome = true))
    ∨ (t.sample = none
        ∧ E.get_sample_from_media_timeline s.input_movie_number t.track_ID
            t.current_sample_number = none
        ∧ E.check_sample_existence_in_media_timeline s.input_movie_number t.track_ID
            t.current_sample_number = false
        ∧ E.get_sample_info_from_media_timeline s.input_movie_number t.track_ID
            t.current_sample_number = none
        ∧ ((dec32 s.num_active_input_tracks = 0
            ∧ o = Outcome.brk { set_in_track s { t with
                   sample := none, reach_end_of_media_timeline := true } with
                 num_active_input_tracks := dec32 s.num_active_input_tracks })
          ∨ (dec32 s.num_active_input_tracks ≠ 0
            ∧ o = Outcome.next (move_next { set_in_track s { t with
                   sample := none, reach_end_of_media_timeline := true } with
                 num_active_input_tracks := dec32 s.num_active_input_tracks })))) := by
  revert h
  refine fetch_sample_cases E s t (fun f => f = Fetched.no_sample o → _)
    ?_ ?_ ?_ ?_ ?_ ?_
  · intro h; cases h; exact Or.inl rfl
  · intro _ _ h; cases h
  · intro _ _ _ _ _ _ _ _ h; cases h
  · intro hsm hg hex h
    cases h
    exact Or.inr (Or.inl ⟨rfl, hsm, hg, hex⟩)
  · intro hsm hg hex hinfo hz h
    cases h
    exact Or.inr (Or.inr ⟨hsm, hg, hex, hinfo, Or.inl ⟨hz, rfl⟩⟩)
  · intro hsm hg hex hinfo hz h
    cases h
    exact Or.inr (Or.inr ⟨hsm, hg, hex, hinfo, Or.inr ⟨hz, rfl⟩⟩)

/-- Case analysis of `append_or_skip`. -/
theorem append_or_skip_cases (E : Engine) (s : State D) (t : input_track_t D)
    (p : lsmash_sample_t) (Q : Outcome (State D) → Prop)
    (h_undef : Q Outcome.undef)
    (h_skip : append_condition E s t p = false →
      Q (Outcome.next (move_next { s with
          num_consecutive_sample_skip := inc32 s.num_consecutive_sample_skip })))
    (h_drop : append_condition E s t p = true → p.index = 0 →
      Q (Outcome.next (move_next (set_in_track (s.log [Event.delete_sample p])
          { t with sample := none,
                   current_sample_number := inc32 t.current_sample_number }))))
    (h_fail : ∀ o, append_condition E s t p = true → p.index ≠ 0 →
      cur_out_track s = some o → E.append_sample s.r.events o.track_ID p = false →
      Q (Outcome.ret (-1)
          (s.log [Event.append_sample_failed s.r.out_movie.current_track_number p,
                  Event.delete_sample p, Event.error_message])))
    (h_append : ∀ o, append_condition E s t p = true → p.index ≠ 0 →
      cur_out_track s = some o → E.append_sample s.r.events o.track_ID p = true →
      Q (Outcome.next (move_next
          (set_out_track
            (set_in_track
              { s.log [Event.append_sample s.r.out_movie.current_track_number p] with
                largest_dts := LSMASH_MAX s.largest_dts t.dts,
                num_consecutive_sample_skip := 0,
                total_media_size := add64 s.total_media_size p.length,
                progress_pos :=
                  if add64 s.total_media_size p.length / 4194304 > s.progress_pos then
                    (add64 s.total_media_size p.length / 4194304) % U32
                  else s.progress_pos }
              { t with sample := none,
                       current_sample_number := inc32 t.current_sample_number,
                       current_sample_index := p.index })
            { o with current_sample_number := inc32 o.current_sample_number,
                     last_sample_dts := p.dts })))) :
    Q (append_or_skip E s t p) := by
  unfold append_or_skip
  by_cases hc : append_condition E s t p = true
  · rw [if_pos hc]
    by_cases hi : p.index = 0
    · rw [if_neg (not_not.mpr hi)]
      exact h_drop hc hi
    · rw [if_pos hi]
      cases ho : cur_out_track s with
      | none => exact h_undef
      | some o =>
        simp only []
        by_cases ha : E.append_sample s.r.events o.track_ID p = false
        · rw [if_pos ha]
          exact h_fail o hc hi ho ha
        · have ha1 : E.append_sample s.r.events o.track_ID p = true := by simpa using ha
          rw [if_neg ha]
          exact h_append o hc hi ho ha1
  · have hc1 : append_condition E s t p = false := by simpa using hc
    rw [if_neg hc]
    exact h_skip hc1

/-- One pass without a fragment base track: no flush becomes pending and no
fragment call is recorded. -/
theorem step_nonfrag_frame (E : Engine) (s s1 : State D)
    (hfb : s.r.frag_base_track = 0) (hp : s.pending_flush_fragments = 0)
    (h : (step E s).state? = some s1) :
    s1.pending_flush_fragments = 0
    ∧ s1.r.frag_base_track = 0
    ∧ ∃ new, s1.r.events = s.r.events ++ new ∧ ∀ e ∈ new, e.is_fragment_call = false := by
  revert h
  refine step_cases E s (fun o => o.state? = some s1 → _) ?_ ?_ ?_ ?_ ?_
  · intro h; simp [Outcome.state?] at h
  · intro m t _ _ _ h
    simp only [Outcome.state?, Option.some.injEq] at h
    subst h
    exact ⟨hp, hfb, [], by simp [move_next_input], by simp⟩
  · intro m t _ _ _ _ h
    simp only [Outcome.state?, Option.some.injEq] at h
    subst h
    exact ⟨hp, hfb, [], by simp [move_next, move_next_output, move_next_input], by simp⟩
  · intro m t s2 t2 p _ _ _ _ hf h
    have hs2 : s2.r.frag_base_track = 0 ∧ s2.pending_flush_fragments = 0
        ∧ s2.r.events = s.r.events := by
      rcases fetch_sample_sample E s s2 t t2 p hf with ⟨h1, _, _⟩ |
        ⟨raw, o, ta, pa, _, _, _, _, _, _, h1⟩
      · subst h1; exact ⟨hfb, hp, rfl⟩
      · subst h1; exact ⟨hfb, hp, rfl⟩
    rw [handle_pending_sample_nonfrag E s2 _ _ hs2.1] at h
    have hf := append_or_skip_frame E s2 s1 _ _ h
    exact ⟨hf.1.trans hs2.2.1, hf.2.1.trans hs2.1, by rw [← hs2.2.2]; exact hf.2.2⟩
  · intro m t o _ _ _ _ hf h
    rcases fetch_sample_no_sample E s t o hf with h1 | ⟨h1, _⟩ |
      ⟨_, _, _, _, ⟨_, h1⟩ | ⟨_, h1⟩⟩
    · subst h1; simp [Outcome.state?] at h
    · subst h1
      simp only [Outcome.state?, Option.some.injEq] at h
      subst h
      exact ⟨hp, hfb, [Event.error_message], rfl, by simp [Event.is_fragment_call]⟩
    · subst h1
      simp only [Outcome.state?, Option.some.injEq] at h
      subst h
      exact ⟨hp, hfb, [], by simp [set_in_track], by simp⟩
    · subst h1
      simp only [Outcome.state?, Option.some.injEq] at h
      subst h
      exact ⟨hp, hfb, [],
        by simp [move_next, move_next_output, move_next_input, set_in_track], by simp⟩

end RunLemmas

/-! ## Theorems: reading tracks back after a store -/

theorem at1_set1 {α : Type} (l : List α) (n k : Nat) (x : α) :
    at1 (set1 l n x) k = if k = n ∧ (at1 l n).isSome = true then some x else at1 l k := by
  unfold at1 set1
  by_cases hn : n = 0
  · subst hn
    simp
  · simp only [hn, if_false]
    by_cases hk : k = 0
    · subst hk
      have : ¬ (0 = n) := fun h => hn h.symm
      simp [this]
    · simp only [hk, if_false]
      rw [List.getElem?_set]
      by_cases hkn : k = n
      · subst hkn
        simp only [true_and, if_true]
        by_cases hlt : k - 1 < l.length
        · simp [hlt, List.getElem?_eq_getElem hlt]
        · have hnone : l[k - 1]? = none := List.getElem?_eq_none (by omega)
          simp [hlt, hnone]
      · have hne : ¬ (n - 1 = k - 1) := by omega
        simp [hne, hkn]

theorem at1_some_pos {α : Type} {l : List α} {n : Nat} {x : α} (h : at1 l n = some x) :
    1 ≤ n ∧ n ≤ l.length := by
  unfold at1 at h
  by_cases hn : n = 0
  · simp [hn] at h
  · simp only [hn, if_false] at h
    have := (List.getElem?_eq_some_iff.1 h).1
    omega

theorem set1_length {α : Type} (l : List α) (n : Nat) (x : α) :
    (set1 l n x).length = l.length := by
  unfold set1
  split_ifs <;> simp

section Views

variable {D : Type}

theorem at1_store_in_movie (s : State D) (f : input_movie_t D → input_movie_t D) (i : Nat) :
    at1 (store_in_movie s f) i
      = if i = s.input_movie_number then (at1 s.r.input i).map f else at1 s.r.input i := by
  unfold store_in_movie cur_in_movie
  cases hm : at1 s.r.input s.input_movie_number with
  | none =>
    simp only []
    by_cases hi : i = s.input_movie_number
    · subst hi; simp [hm]
    · simp [hi]
  | some m =>
    simp only []
    rw [at1_set1]
    by_cases hi : i = s.input_movie_number
    · subst hi; simp [hm]
    · simp [hi]

theorem in_track_at_move_next_input (s : State D) (i j : Nat) :
    in_track_at (move_next_input s) i j = in_track_at s i j := by
  unfold in_track_at move_next_input
  simp only [at1_store_in_movie]
  by_cases hi : i = s.input_movie_number
  · simp only [hi, if_true]
    cases at1 s.r.input s.input_movie_number with
    | none => rfl
    | some m =>
      simp only [Option.map_some']
      split_ifs <;> rfl
  · simp only [hi, if_false]

theorem in_track_at_move_next (s : State D) (i j : Nat) :
    in_track_at (move_next s) i j = in_track_at s i j := by
  have h : in_track_at (move_next s) i j = in_track_at (move_next_input s) i j := rfl
  rw [h, in_track_at_move_next_input]

theorem in_track_at_set_in_track (s : State D) (t1 : input_track_t D) (i j : Nat) :
    in_track_at (set_in_track s t1) i j
      = if i = s.input_movie_number ∧ j = cur_track_number s ∧ (cur_in_track s).isSome = true
        then some t1 else in_track_at s i j := by
  unfold in_track_at set_in_track cur_track_number cur_in_track
  simp only [at1_store_in_movie]
  by_cases hi : i = s.input_movie_number
  · subst hi
    simp only [if_true, true_and]
    cases at1 s.r.input s.input_movie_number with
    | none => simp
    | some m =>
      simp only [Option.map_some', at1_set1]
  · simp only [hi, if_false, false_and]

theorem in_track_at_cur (s : State D) :
    in_track_at s s.input_movie_number (cur_track_number s) = cur_in_track s := by
  unfold in_track_at cur_track_number cur_in_track
  cases at1 s.r.input s.input_movie_number <;> rfl

theorem cur_in_track_eq (s : State D) (m : input_movie_t D) (hm : cur_in_movie s = some m) :
    cur_in_track s = at1 m.track m.current_track_number := by
  unfold cur_in_movie at hm
  unfold cur_in_track
  rw [hm]

theorem cur_in_track_some (s : State D) (t : input_track_t D) (h : cur_in_track s = some t) :
    ∃ m, cur_in_movie s = some m ∧ at1 m.track m.current_track_number = some t := by
  unfold cur_in_track at h
  unfold cur_in_movie
  cases hm : at1 s.r.input s.input_movie_number with
  | none => rw [hm] at h; simp at h
  | some m => rw [hm] at h; exact ⟨m, rfl, h⟩

theorem cur_track_number_set_in_track (s : State D) (t1 : input_track_t D) :
    cur_track_number (set_in_track s t1) = cur_track_number s := by
  unfold cur_track_number set_in_track
  simp only [at1_store_in_movie, if_true]
  cases at1 s.r.input s.input_movie_number <;> rfl

theorem cur_in_track_set_in_track (s : State D) (t t1 : input_track_t D)
    (h : cur_in_track s = some t) : cur_in_track (set_in_track s t1) = some t1 := by
  have h1 := in_track_at_cur (set_in_track s t1)
  rw [cur_track_number_set_in_track] at h1
  have h2 : (set_in_track s t1).input_movie_number = s.input_movie_number := rfl
  rw [h2, in_track_at_set_in_track] at h1
  simp only [h, Option.isSome_some, and_self, if_true] at h1
  exact h1.symm

theorem cur_in_track_set_out_track (s : State D) (o : output_track_t) :
    cur_in_track (set_out_track s o) = cur_in_track s := rfl

theorem cur_track_number_set_out_track (s : State D) (o : output_track_t) :
    cur_track_number (set_out_track s o) = cur_track_number s := rfl

theorem in_track_at_set_out_track (s : State D) (o : output_track_t) (i j : Nat) :
    in_track_at (set_out_track s o) i j = in_track_at s i j := rfl

/-- A store through `in_track` in a state with the same input array and cursor
as `s` is read back at the cursor of `s`. -/
theorem in_track_at_set_in_track_of (s0 s : State D) (t t1 : input_track_t D)
    (hinput : s0.r.input = s.r.input)
    (himn : s0.input_movie_number = s.input_movie_number)
    (hcur : cur_in_track s = some t) :
    in_track_at (set_in_track s0 t1) s.input_movie_number (cur_track_number s) = some t1 := by
  have hc0 : cur_in_track s0 = some t := by
    unfold cur_in_track at hcur ⊢
    rw [hinput, himn]; exact hcur
  have hn0 : cur_track_number s0 = cur_track_number s := by
    unfold cur_track_number
    rw [hinput, himn]
  rw [in_track_at_set_in_track, himn, hn0, hc0]
  simp

end Views

section FetchFrame

variable {D : Type} [C_double D]

/-- What `fetch_sample` leaves untouched when it returns a sample, and where
the sample is then held. -/
theorem fetch_sample_frame (E : Engine) (s s1 : State D) (t t1 : input_track_t D)
    (p : lsmash_sample_t) (hcur : cur_in_track s = some t)
    (h : fetch_sample E s t = Fetched.sample s1 t1 p) :
    t1.sample = some p
    ∧ cur_in_track s1 = some t1
    ∧ cur_track_number s1 = cur_track_number s
    ∧ s1.input_movie_number = s.input_movie_number
    ∧ s1.r.events = s.r.events
    ∧ s1.r.frag_base_track = s.r.frag_base_track
    ∧ s1.pending_flush_fragments = s.pending_flush_fragments
    ∧ s1.largest_dts = s.largest_dts
    ∧ s1.num_consecutive_sample_skip = s.num_consecutive_sample_skip
    ∧ s1.num_active_input_tracks = s.num_active_input_tracks
    ∧ s1.r.out_movie.current_track_number = s.r.out_movie.current_track_number := by
  rcases fetch_sample_sample E s s1 t t1 p h with ⟨h1, h2, h3⟩ |
    ⟨raw, o, ta, pa, _, _, _, _, hp, ht1, hs1⟩
  · subst h1 h2
    exact ⟨h3, hcur, rfl, rfl, rfl, rfl, rfl, rfl, rfl, rfl, rfl⟩
  · subst hs1
    refine ⟨by rw [ht1], ?_, ?_, rfl, rfl, rfl, rfl, rfl, rfl, rfl, rfl⟩
    · rw [cur_in_track_set_out_track]
      exact cur_in_track_set_in_track s t t1 hcur
    · rw [cur_track_number_set_out_track, cur_track_number_set_in_track]

end FetchFrame


/-! ## Theorems: what the fragment control leaves untouched -/

theorem appended_append (ev new : List Event) (k : Nat) :
    appended (ev ++ new) k = appended ev k ++ appended new k := by
  unfold appended
  rw [List.filterMap_append]

theorem appended_of_no_append (new : List Event) (k : Nat) (h : no_append new) :
    appended new k = [] := by
  unfold appended
  rw [List.filterMap_eq_nil_iff]
  intro e he
  cases e with
  | append_sample k1 p => exact absurd rfl (h _ he k1 p)
  | _ => rfl

theorem appended_append_of_no_append (ev new : List Event) (k : Nat) (h : no_append new) :
    appended (ev ++ new) k = appended ev k := by
  rw [appended_append, appended_of_no_append new k h, List.append_nil]

theorem no_append_nil : no_append [] := by
  intro e he
  simp at he

theorem no_append_append {a b : List Event} (ha : no_append a) (hb : no_append b) :
    no_append (a ++ b) := by
  intro e he
  rcases List.mem_append.1 he with h | h
  · exact ha e h
  · exact hb e h

section Frames

variable {D : Type}

theorem flush_movie_fragment_tracks_events (E : Engine) (r : remuxer_t D) (i : Nat)
    (m : input_movie_t D) (js : List Nat) :
    ∀ (k : Nat) (ev : List Event),
      match flush_movie_fragment_tracks E r i m js k ev with
      | FlushLoop.run _ ev1 => ∃ new, ev1 = ev ++ new ∧ no_append new
      | FlushLoop.failed ev1 => ∃ new, ev1 = ev ++ new ∧ no_append new
      | FlushLoop.undef => True := by
  induction js with
  | nil =>
    intro k ev
    simp only [flush_movie_fragment_tracks]
    exact ⟨[], by simp, no_append_nil⟩
  | cons j js ih =>
    intro k ev
    have hext : ∀ (x : List Event) (k1 : Nat), no_append x →
        match flush_movie_fragment_tracks E r i m js k1 (ev ++ x) with
        | FlushLoop.run _ ev1 => ∃ new, ev1 = ev ++ new ∧ no_append new
        | FlushLoop.failed ev1 => ∃ new, ev1 = ev ++ new ∧ no_append new
        | FlushLoop.undef => True := by
      intro x k1 hx
      have h := ih k1 (ev ++ x)
      cases hres : flush_movie_fragment_tracks E r i m js k1 (ev ++ x) with
      | run k2 ev1 =>
        rw [hres] at h
        obtain ⟨new, h1, h2⟩ := h
        exact ⟨x ++ new, by rw [h1, List.append_assoc], no_append_append hx h2⟩
      | failed ev1 =>
        rw [hres] at h
        obtain ⟨new, h1, h2⟩ := h
        exact ⟨x ++ new, by rw [h1, List.append_assoc], no_append_append hx h2⟩
      | undef => trivial
    have hna1 : ∀ a b c, no_append [Event.flush_pooled_samples a b c] := by
      intro a b c e he k1 p
      simp only [List.mem_singleton] at he
      subst he
      exact fun h => Event.noConfusion h
    have hna2 : ∀ a b c, no_append [Event.flush_pooled_samples a b c, Event.error_message] := by
      intro a b c e he k1 p
      simp only [List.mem_cons, List.mem_singleton, List.not_mem_nil, or_false] at he
      rcases he with he | he <;> subst he <;> exact fun h => Event.noConfusion h
    have hna3 : no_append [Event.error_message] := by
      intro e he k1 p
      simp only [List.mem_singleton] at he
      subst he
      exact fun h => Event.noConfusion h
    unfold flush_movie_fragment_tracks
    cases at1 m.track j with
    | none => trivial
    | some in_track =>
      simp only []
      by_cases hact : in_track.active = false
      · rw [if_pos hact]
        exact ih k ev
      · rw [if_neg hact]
        cases at1 r.out_movie.track k with
        | none => trivial
        | some out_track =>
          simp only []
          by_cases hend : in_track.reach_end_of_media_timeline = false
          · rw [if_pos hend]
            cases E.get_sample_info_from_media_timeline i in_track.track_ID
                in_track.current_sample_number with
            | none => exact ⟨_, rfl, hna3⟩
            | some sample =>
              simp only []
              by_cases hfl : E.flush_pooled_samples ev out_track.track_ID
                  (sub64 (sub64 sample.dts out_track.skip_dt_interval)
                    out_track.last_sample_dts) = false
              · rw [if_pos hfl]
                exact ⟨_, rfl, hna2 _ _ _⟩
              · rw [if_neg hfl]
                by_cases hk : inc32 k > r.out_movie.num_tracks
                · rw [if_pos hk]
                  exact ⟨_, rfl, hna1 _ _ _⟩
                · rw [if_neg hk]
                  exact hext _ _ (hna1 _ _ _)
          · rw [if_neg hend]
            by_cases hfl : E.flush_pooled_samples ev out_track.track_ID
                out_track.last_sample_delta = false
            · rw [if_pos hfl]
              exact ⟨_, rfl, hna2 _ _ _⟩
            · rw [if_neg hfl]
              by_cases hk : inc32 k > r.out_movie.num_tracks
              · rw [if_pos hk]
                exact ⟨_, rfl, hna1 _ _ _⟩
              · rw [if_neg hk]
                exact hext _ _ (hna1 _ _ _)

theorem flush_movie_fragment_inputs_events (E : Engine) (r : remuxer_t D) (is : List Nat) :
    ∀ (k : Nat) (ev : List Event),
      match flush_movie_fragment_inputs E r is k ev with
      | FlushLoop.run _ ev1 => ∃ new, ev1 = ev ++ new ∧ no_append new
      | FlushLoop.failed ev1 => ∃ new, ev1 = ev ++ new ∧ no_append new
      | FlushLoop.undef => True := by
  induction is with
  | nil =>
    intro k ev
    simp only [flush_movie_fragment_inputs]
    exact ⟨[], by simp, no_append_nil⟩
  | cons i is ih =>
    intro k ev
    unfold flush_movie_fragment_inputs
    cases at1 r.input i with
    | none => trivial
    | some m =>
      simp only []
      have h := flush_movie_fragment_tracks_events E r i m (List.range' 1 m.num_tracks) k ev
      cases hres : flush_movie_fragment_tracks E r i m (List.range' 1 m.num_tracks) k ev with
      | run k1 ev1 =>
        rw [hres] at h
        obtain ⟨new, h1, h2⟩ := h
        simp only []
        have h3 := ih k1 ev1
        cases hres2 : flush_movie_fragment_inputs E r is k1 ev1 with
        | run k2 ev2 =>
          rw [hres2] at h3
          obtain ⟨new2, h4, h5⟩ := h3
          exact ⟨new ++ new2, by rw [h4, h1, List.append_assoc], no_append_append h2 h5⟩
        | failed ev2 =>
          rw [hres2] at h3
          obtain ⟨new2, h4, h5⟩ := h3
          exact ⟨new ++ new2, by rw [h4, h1, List.append_assoc], no_append_append h2 h5⟩
        | undef => trivial
      | failed ev1 =>
        rw [hres] at h
        exact h
      | undef => trivial

/-- The function `flush_movie_fragment` only records calls, none of which is
an append. -/
theorem flush_movie_fragment_frame (E : Engine) (r r1 : remuxer_t D) (v : Int)
    (h : flush_movie_fragment E r = some (v, r1)) :
    ∃ new, r1 = { r with events := r.events ++ new } ∧ no_append new := by
  unfold flush_movie_fragment at h
  have hev := flush_movie_fragment_inputs_events E r (List.range' 1 r.num_input) 1
    (r.events ++ [Event.flush_movie_fragment])
  have hna : no_append [Event.flush_movie_fragment] := by
    intro e he k1 p
    simp only [List.mem_singleton] at he
    subst he
    exact fun h => Event.noConfusion h
  cases hres : flush_movie_fragment_inputs E r (List.range' 1 r.num_input) 1
      (r.events ++ [Event.flush_movie_fragment]) with
  | run k ev =>
    rw [hres] at h hev
    obtain ⟨new, h1, h2⟩ := hev
    simp only [Option.some.injEq, Prod.mk.injEq] at h
    refine ⟨[Event.flush_movie_fragment] ++ new, ?_, no_append_append hna h2⟩
    rw [← h.2, h1, List.append_assoc]
  | failed ev =>
    rw [hres] at h hev
    obtain ⟨new, h1, h2⟩ := hev
    simp only [Option.some.injEq, Prod.mk.injEq] at h
    refine ⟨[Event.flush_movie_fragment] ++ new, ?_, no_append_append hna h2⟩
    rw [← h.2, h1, List.append_assoc]
  | undef =>
    rw [hres] at h
    simp at h

/-- The function `handle_segmentation` only changes the segment counters and
records calls, none of which is an append. -/
theorem handle_segmentation_frame (E : Engine) (r : remuxer_t D) :
    ∃ new a b, (handle_segmentation E r).2
        = { r with events := r.events ++ new, current_subseg_number := a,
                   current_seg_number := b }
      ∧ no_append new := by
  have hna : ∀ l : List Event, (∀ e ∈ l, e.is_fragment_call = true ∨ e = Event.error_message) →
      no_append l := by
    intro l hl e he k p heq
    subst heq
    rcases hl _ he with h | h
    · simp [Event.is_fragment_call] at h
    · exact Event.noConfusion h
  unfold handle_segmentation
  simp only [remuxer_t.log]
  split_ifs
  · exact ⟨[Event.handle_segmentation], r.current_subseg_number, r.current_seg_number, rfl,
      hna _ (by simp [Event.is_fragment_call])⟩
  · refine ⟨[Event.handle_segmentation, Event.switch_segment r.current_seg_number false,
        Event.error_message], r.current_subseg_number, r.current_seg_number, ?_,
      hna _ (by simp [Event.is_fragment_call])⟩
    simp
  · refine ⟨[Event.handle_segmentation, Event.switch_segment r.current_seg_number true],
      1, inc32 r.current_seg_number, ?_, hna _ (by simp [Event.is_fragment_call])⟩
    simp
  · exact ⟨[Event.handle_segmentation], inc32 r.current_subseg_number, r.current_seg_number,
      rfl, hna _ (by simp [Event.is_fragment_call])⟩

end Frames

section FragmentControlFrame

variable {D : Type} [C_double D]

/-- The fragment control only changes `pending_flush_fragments`,
`frag_base_dts` and the segment counters, and records calls none of which is an
append. -/
theorem fragment_control_frame (E : Engine) (s s1 : State D) (t : input_track_t D)
    (p : lsmash_sample_t) (h : (fragment_control E s t p).state? = some s1) :
    ∃ new a b c d,
      s1 = { s with
        r := { s.r with events := s.r.events ++ new, current_subseg_number := a,
                        current_seg_number := b },
        pending_flush_fragments := c, frag_base_dts := d }
      ∧ no_append new := by
  have hself : ∃ new a b c d,
      s = { s with
        r := { s.r with events := s.r.events ++ new, current_subseg_number := a,
                        current_seg_number := b },
        pending_flush_fragments := c, frag_base_dts := d }
      ∧ no_append new :=
    ⟨[], s.r.current_subseg_number, s.r.current_seg_number, s.pending_flush_fragments,
      s.frag_base_dts, by simp, no_append_nil⟩
  have hna1 : no_append [Event.error_message] := by
    intro e he k1 q
    simp only [List.mem_singleton] at he
    subst he
    exact fun h => Event.noConfusion h
  have hna2 : ∀ b, no_append [Event.create_fragment_movie b] := by
    intro b e he k1 q
    simp only [List.mem_singleton] at he
    subst he
    exact fun h => Event.noConfusion h
  have hna3 : ∀ b, no_append [Event.create_fragment_movie b, Event.error_message] := by
    intro b e he k1 q
    simp only [List.mem_cons, List.mem_singleton, List.not_mem_nil, or_false] at he
    rcases he with he | he <;> subst he <;> exact fun h => Event.noConfusion h
  unfold fragment_control at h
  by_cases hfb : s.r.frag_base_track ≠ 0
  · rw [if_pos hfb] at h
    by_cases hpend : s.pending_flush_fragments = 0
    · rw [if_pos hpend] at h
      split_ifs at h
      · simp only [Outcome.state?, Option.some.injEq] at h
        subst h
        exact ⟨[], s.r.current_subseg_number, s.r.current_seg_number, 1, t.dts, by simp,
          no_append_nil⟩
      · simp only [Outcome.state?, Option.some.injEq] at h
        subst h
        exact hself
    · rw [if_neg hpend] at h
      by_cases hfl : s.num_consecutive_sample_skip = s.num_active_input_tracks
          ∨ s.total_media_size = 0
      · rw [if_pos hfl] at h
        cases hflush : flush_movie_fragment E s.r with
        | none =>
          rw [hflush] at h
          simp [Outcome.state?] at h
        | some res =>
          obtain ⟨ret, r1⟩ := res
          rw [hflush] at h
          simp only [] at h
          obtain ⟨new1, hr1, hn1⟩ := flush_movie_fragment_frame E s.r r1 ret hflush
          by_cases hret : ret < 0
          · rw [if_pos hret] at h
            simp only [Outcome.state?, Option.some.injEq] at h
            subst h
            refine ⟨new1 ++ [Event.error_message], s.r.current_subseg_number,
              s.r.current_seg_number, s.pending_flush_fragments, s.frag_base_dts, ?_,
              no_append_append hn1 hna1⟩
            rw [hr1]
            simp [remuxer_t.log]
          · rw [if_neg hret] at h
            obtain ⟨new2, a, b, hr2, hn2⟩ := handle_segmentation_frame E r1
            cases hseg : handle_segmentation E r1 with
            | mk ret2 r2 =>
              rw [hseg] at h hr2
              simp only [] at h hr2
              by_cases hret2 : ret2 < 0
              · rw [if_pos hret2] at h
                simp only [Outcome.state?, Option.some.injEq] at h
                subst h
                refine ⟨new1 ++ new2, a, b, s.pending_flush_fragments, s.frag_base_dts, ?_,
                  no_append_append hn1 hn2⟩
                rw [hr2, hr1]
                simp
              · rw [if_neg hret2] at h
                by_cases hcr : E.create_fragment_movie r2.events = false
                · rw [if_pos hcr] at h
                  simp only [Outcome.state?, Option.some.injEq] at h
                  subst h
                  refine ⟨new1 ++ new2
                      ++ [Event.create_fragment_movie false, Event.error_message],
                    a, b, s.pending_flush_fragments, s.frag_base_dts, ?_,
                    no_append_append (no_append_append hn1 hn2) (hna3 _)⟩
                  rw [hr2, hr1]
                  simp [remuxer_t.log]
                · rw [if_neg hcr] at h
                  simp only [Outcome.state?, Option.some.injEq] at h
                  subst h
                  refine ⟨new1 ++ new2 ++ [Event.create_fragment_movie true],
                    a, b, 0, s.frag_base_dts, ?_,
                    no_append_append (no_append_append hn1 hn2) (hna2 _)⟩
                  rw [hr2, hr1]
                  simp [remuxer_t.log]
      · rw [if_neg hfl] at h
        simp only [Outcome.state?, Option.some.injEq] at h
        subst h
        exact hself
  · rw [if_neg hfb] at h
    simp only [Outcome.state?, Option.some.injEq] at h
    subst h
    exact hself

end FragmentControlFrame

/-! ## Theorems: no fragment control without a fragment base track -/

/-- Without a fragment base track, after any number of passes no flush is
pending and no fragment call has been recorded. -/
theorem run_nonfrag {D : Type} [C_double D] (E : Engine) (r : remuxer_t D) (n : Nat)
    (s : State D) (hfb : r.frag_base_track = 0)
    (hs : (run E n (initial_state r)).state? = some s) :
    s.pending_flush_fragments = 0 ∧ s.r.frag_base_track = 0
    ∧ ∃ new, s.r.events = r.events ++ new ∧ ∀ e ∈ new, e.is_fragment_call = false :=
  run_invariant E
    (fun s : State D => s.pending_flush_fragments = 0 ∧ s.r.frag_base_track = 0
      ∧ ∃ new, s.r.events = r.events ++ new ∧ ∀ e ∈ new, e.is_fragment_call = false)
    (by
      rintro s0 s1 ⟨hp, hf, new, hev, hnew⟩ hstep
      obtain ⟨hp1, hf1, new1, hev1, hnew1⟩ := step_nonfrag_frame E s0 s1 hf hp hstep
      refine ⟨hp1, hf1, new ++ new1, ?_, ?_⟩
      · rw [hev1, hev, List.append_assoc]
      · intro e he
        rcases List.mem_append.1 he with h | h
        · exact hnew e h
        · exact hnew1 e h)
    n (initial_state r) s
    ⟨by simp [initial_state, hfb], hfb, [], by simp [initial_state], by simp⟩ hs

/-- C8. If no fragment base track is set (`frag_base_track = 0`), then after any
number of passes through the loop of `do_remux`, however the last pass ended,
`pending_flush_fragments` is 0 and the calls recorded since the start contain no
`flush_movie_fragment`, no `handle_segmentation` (nor `switch_segment`) and no
`lsmash_create_fragment_movie`, for any inputs, tracks and engine. -/
theorem no_fragment_control_without_base_track {D : Type} [C_double D] (E : Engine)
    (r : remuxer_t D) (n : Nat) (s : State D)
    (hfb : r.frag_base_track = 0)
    (hs : (run E n (initial_state r)).state? = some s) :
    s.pending_flush_fragments = 0
    ∧ ∃ new, s.r.events = r.events ++ new ∧ ∀ e ∈ new, e.is_fragment_call = false :=
  ⟨(run_nonfrag E r n s hfb hs).1, (run_nonfrag E r n s hfb hs).2.2⟩

theorem no_fragment_control_without_base_track_witness :
    two_track_remuxer.frag_base_track = 0
    ∧ (run two_track_engine 5 (initial_state two_track_remuxer)).state?
        = some (two_track_state 5)
    ∧ ((two_track_state 5).pending_flush_fragments = 0
      ∧ ∃ new, (two_track_state 5).r.events = two_track_remuxer.events ++ new
          ∧ ∀ e ∈ new, e.is_fragment_call = false) :=
  ⟨rfl, rfl,
   no_fragment_control_without_base_track two_track_engine two_track_remuxer 5
     (two_track_state 5) rfl rfl⟩

/-! ## Theorems: the acceptance rule without fragmentation -/

section Acceptance

variable {D : Type} [C_double D]

/-- Without fragmentation and with no flush pending, the local `append` is the
acceptance condition. -/
theorem append_condition_nonfrag (E : Engine) (s : State D) (t : input_track_t D)
    (p : lsmash_sample_t) (hfb : s.r.frag_base_track = 0)
    (hpend : s.pending_flush_fragments = 0) :
    append_condition E s t p = true ↔ acceptance_condition s t := by
  unfold append_condition acceptance_condition need_new_fragment
  simp [hfb, hpend]

/-- One pass over an active, running track. -/
theorem step_of_fetch (E : Engine) (s : State D) (t : input_track_t D)
    (hcur : cur_in_track s = some t) (hact : t.active = true)
    (hend : t.reach_end_of_media_timeline = false) :
    step E s = match fetch_sample E s t with
               | Fetched.sample s1 t1 p => handle_pending_sample E s1 t1 p
               | Fetched.no_sample o => o := by
  obtain ⟨m, hm, ht⟩ := cur_in_track_some s t hcur
  unfold step
  rw [hm]
  simp only []
  rw [ht]
  simp only []
  rw [if_neg (by simp [hact]), if_neg (by simp [hend])]

end Acceptance

/-- C2 (as amended). Without fragmentation, at every pass of `do_remux` over an
active, running track whose pending sample is `p` (held from an earlier pass or
fetched in this one; `t1` is the track holding it): if the DTS in seconds of `p`
is not `<= largest_dts` and the consecutive-skip counter differs from the number
of running tracks, the sample stays pending, the counter is incremented by one
and nothing is recorded.  Otherwise the sample is taken: a sample with mapped
index 0 is deleted and the cursor advances; any other sample is passed to
`lsmash_append_sample`, and on success the cursor advances, the counter is reset
to 0 and `largest_dts` is raised to the maximum with the sample's DTS. -/
theorem acceptance_rule_nonfrag {D : Type} [C_double D] (E : Engine) (r : remuxer_t D)
    (n : Nat) (s s1 : State D) (t t1 : input_track_t D) (p : lsmash_sample_t)
    (hfb : r.frag_base_track = 0)
    (hs : run E n (initial_state r) = Outcome.next s)
    (hcur : cur_in_track s = some t) (hact : t.active = true)
    (hend : t.reach_end_of_media_timeline = false)
    (hfetch : fetch_sample E s t = Fetched.sample s1 t1 p) :
    t1.sample = some p
    ∧ (¬ acceptance_condition s t1 →
        ∃ s2, step E s = Outcome.next s2
          ∧ in_track_at s2 s.input_movie_number (cur_track_number s) = some t1
          ∧ s2.num_consecutive_sample_skip = inc32 s.num_consecutive_sample_skip
          ∧ s2.largest_dts = s.largest_dts
          ∧ s2.r.events = s.r.events)
    ∧ (acceptance_condition s t1 → p.index = 0 →
        ∃ s2, step E s = Outcome.next s2
          ∧ in_track_at s2 s.input_movie_number (cur_track_number s)
              = some { t1 with sample := none,
                               current_sample_number := inc32 t1.current_sample_number }
          ∧ s2.num_consecutive_sample_skip = s.num_consecutive_sample_skip
          ∧ s2.largest_dts = s.largest_dts
          ∧ s2.r.events = s.r.events ++ [Event.delete_sample p])
    ∧ (acceptance_condition s t1 → p.index ≠ 0 →
        ∀ o, cur_out_track s1 = some o →
          (E.append_sample s.r.events o.track_ID p = true →
            ∃ s2, step E s = Outcome.next s2
              ∧ in_track_at s2 s.input_movie_number (cur_track_number s)
                  = some { t1 with sample := none,
                                   current_sample_number := inc32 t1.current_sample_number,
                                   current_sample_index := p.index }
              ∧ s2.num_consecutive_sample_skip = 0
              ∧ s2.largest_dts = LSMASH_MAX s.largest_dts t1.dts
              ∧ s2.r.events
                  = s.r.events ++ [Event.append_sample s.r.out_movie.current_track_number p])
          ∧ (E.append_sample s.r.events o.track_ID p = false →
            ∃ s2, step E s = Outcome.ret (-1) s2
              ∧ s2.r.events
                  = s.r.events
                    ++ [Event.append_sample_failed s.r.out_movie.current_track_number p,
                        Event.delete_sample p, Event.error_message])) := by
  have hinv := run_nonfrag E r n s hfb (by rw [hs]; rfl)
  obtain ⟨hsm, hcur1, hnum1, himn1, hev1, hfb1, hpend1, hlg1, hskip1, hact1, hoc1⟩ :=
    fetch_sample_frame E s s1 t t1 p hcur hfetch
  have hstep : step E s = append_or_skip E s1 t1 p := by
    rw [step_of_fetch E s t hcur hact hend, hfetch]
    exact handle_pending_sample_nonfrag E s1 t1 p (hfb1.trans hinv.2.1)
  have hcond : append_condition E s1 t1 p = true ↔ acceptance_condition s t1 := by
    rw [append_condition_nonfrag E s1 t1 p (hfb1.trans hinv.2.1) (hpend1.trans hinv.1)]
    unfold acceptance_condition
    rw [hlg1, hskip1, hact1]
  have hat : in_track_at s1 s.input_movie_number (cur_track_number s) = some t1 := by
    rw [← himn1, ← hnum1, in_track_at_cur]
    exact hcur1
  refine ⟨hsm, ?_, ?_, ?_⟩
  · intro hna
    have hc : ¬ append_condition E s1 t1 p = true := fun h => hna (hcond.1 h)
    have hst : step E s = Outcome.next (move_next { s1 with
        num_consecutive_sample_skip := inc32 s1.num_consecutive_sample_skip }) := by
      rw [hstep]
      unfold append_or_skip
      rw [if_neg hc]
    refine ⟨_, hst, ?_, ?_, ?_, ?_⟩
    · rw [in_track_at_move_next]
      exact hat
    · simp only [move_next, move_next_output, move_next_input, hskip1]
    · simp only [move_next, move_next_output, move_next_input, hlg1]
    · simp only [move_next, move_next_output, move_next_input, hev1]
  · intro ha hi
    have hc : append_condition E s1 t1 p = true := hcond.2 ha
    have hst : step E s = Outcome.next (move_next
        (set_in_track (s1.log [Event.delete_sample p])
          { t1 with sample := none,
                    current_sample_number := inc32 t1.current_sample_number })) := by
      rw [hstep]
      unfold append_or_skip
      rw [if_pos hc, if_neg (not_not.mpr hi)]
    refine ⟨_, hst, ?_, ?_, ?_, ?_⟩
    · rw [in_track_at_move_next, ← himn1, ← hnum1]
      exact in_track_at_set_in_track_of _ s1 t1 _ rfl rfl hcur1
    · simp only [move_next, move_next_output, move_next_input, set_in_track, State.log,
        hskip1]
    · simp only [move_next, move_next_output, move_next_input, set_in_track, State.log,
        hlg1]
    · simp only [move_next, move_next_output, move_next_input, set_in_track, State.log,
        remuxer_t.log, hev1]
  · intro ha hi o ho
    have hc : append_condition E s1 t1 p = true := hcond.2 ha
    constructor
    · intro hok
      have hok1 : ¬ E.append_sample s1.r.events o.track_ID p = false := by
        rw [hev1, hok]; simp
      have hst : step E s = Outcome.next (move_next
          (set_out_track
            (set_in_track
              { s1.log [Event.append_sample s1.r.out_movie.current_track_number p] with
                largest_dts := LSMASH_MAX s1.largest_dts t1.dts,
                num_consecutive_sample_skip := 0,
                total_media_size := add64 s1.total_media_size p.length,
                progress_pos :=
                  if add64 s1.total_media_size p.length / 4194304 > s1.progress_pos then
                    (add64 s1.total_media_size p.length / 4194304) % U32
                  else s1.progress_pos }
              { t1 with sample := none,
                        current_sample_number := inc32 t1.current_sample_number,
                        current_sample_index := p.index })
            { o with current_sample_number := inc32 o.current_sample_number,
                     last_sample_dts := p.dts })) := by
        rw [hstep]
        unfold append_or_skip
        rw [if_pos hc, if_pos hi, ho]
        simp only []
        rw [if_neg hok1]
        rfl
      refine ⟨_, hst, ?_, ?_, ?_, ?_⟩
      · rw [in_track_at_move_next, in_track_at_set_out_track, ← himn1, ← hnum1]
        exact in_track_at_set_in_track_of _ s1 t1 _ rfl rfl hcur1
      · simp only [move_next, move_next_output, move_next_input, set_in_track, set_out_track,
          State.log]
      · simp only [move_next, move_next_output, move_next_input, set_in_track, set_out_track,
          State.log, hlg1]
      · simp only [move_next, move_next_output, move_next_input, set_in_track, set_out_track,
          State.log, remuxer_t.log, hev1, hoc1]
    · intro hfail
      have hfail1 : E.append_sample s1.r.events o.track_ID p = false := by
        rw [hev1, hfail]
      have hst : step E s = Outcome.ret (-1)
          (s1.log [Event.append_sample_failed s1.r.out_movie.current_track_number p,
                   Event.delete_sample p, Event.error_message]) := by
        rw [hstep]
        unfold append_or_skip
        rw [if_pos hc, if_pos hi, ho]
        simp only []
        rw [if_pos hfail1]
      refine ⟨_, hst, ?_⟩
      simp only [State.log, remuxer_t.log, hev1, hoc1]

theorem acceptance_rule_nonfrag_witness :
    two_track_remuxer.frag_base_track = 0
    ∧ run two_track_engine 4 (initial_state two_track_remuxer)
        = Outcome.next (two_track_state 4)
    ∧ cur_in_track (two_track_state 4) = some two_track_holding
    ∧ two_track_holding.active = true
    ∧ two_track_holding.reach_end_of_media_timeline = false
    ∧ fetch_sample two_track_engine (two_track_state 4) two_track_holding
        = Fetched.sample (two_track_state 4) two_track_holding (mk_sample 10 1 1)
    ∧ (two_track_holding.sample = some (mk_sample 10 1 1)
      ∧ (¬ acceptance_condition (two_track_state 4) two_track_holding →
          ∃ s2, step two_track_engine (two_track_state 4) = Outcome.next s2
            ∧ in_track_at s2 (two_track_state 4).input_movie_number
                (cur_track_number (two_track_state 4)) = some two_track_holding
            ∧ s2.num_consecutive_sample_skip
                = inc32 (two_track_state 4).num_consecutive_sample_skip
            ∧ s2.largest_dts = (two_track_state 4).largest_dts
            ∧ s2.r.events = (two_track_state 4).r.events)
      ∧ (acceptance_condition (two_track_state 4) two_track_holding →
          (mk_sample 10 1 1).index = 0 →
          ∃ s2, step two_track_engine (two_track_state 4) = Outcome.next s2
            ∧ in_track_at s2 (two_track_state 4).input_movie_number
                (cur_track_number (two_track_state 4))
                = some { two_track_holding with
                    sample := none,
                    current_sample_number := inc32 two_track_holding.current_sample_number }
            ∧ s2.num_consecutive_sample_skip
                = (two_track_state 4).num_consecutive_sample_skip
            ∧ s2.largest_dts = (two_track_state 4).largest_dts
            ∧ s2.r.events
                = (two_track_state 4).r.events ++ [Event.delete_sample (mk_sample 10 1 1)])
      ∧ (acceptance_condition (two_track_state 4) two_track_holding →
          (mk_sample 10 1 1).index ≠ 0 →
          ∀ o, cur_out_track (two_track_state 4) = some o →
            (two_track_engine.append_sample (two_track_state 4).r.events o.track_ID
                (mk_sample 10 1 1) = true →
              ∃ s2, step two_track_engine (two_track_state 4) = Outcome.next s2
                ∧ in_track_at s2 (two_track_state 4).input_movie_number
                    (cur_track_number (two_track_state 4))
                    = some { two_track_holding with
                        sample := none,
                        current_sample_number :=
                          inc32 two_track_holding.current_sample_number,
                        current_sample_index := (mk_sample 10 1 1).index }
                ∧ s2.num_consecutive_sample_skip = 0
                ∧ s2.largest_dts
                    = LSMASH_MAX (two_track_state 4).largest_dts two_track_holding.dts
                ∧ s2.r.events
                    = (two_track_state 4).r.events
                      ++ [Event.append_sample
                            (two_track_state 4).r.out_movie.current_track_number
                            (mk_sample 10 1 1)])
            ∧ (two_track_engine.append_sample (two_track_state 4).r.events o.track_ID
                (mk_sample 10 1 1) = false →
              ∃ s2, step two_track_engine (two_track_state 4) = Outcome.ret (-1) s2
                ∧ s2.r.events
                    = (two_track_state 4).r.events
                      ++ [Event.append_sample_failed
                            (two_track_state 4).r.out_movie.current_track_number
                            (mk_sample 10 1 1),
                          Event.delete_sample (mk_sample 10 1 1),
                          Event.error_message]))) :=
  ⟨rfl, rfl, rfl, rfl, rfl, rfl,
   acceptance_rule_nonfrag two_track_engine two_track_remuxer 4 (two_track_state 4)
     (two_track_state 4) two_track_holding two_track_holding (mk_sample 10 1 1)
     rfl rfl rfl rfl rfl rfl⟩

/-- C2, as stated, fails.  On `two_track_remuxer`, after three passes both first
samples are appended (`largest_dts` is 0 s) and the second sample of track 1
(DTS 10 s) has just been skipped: the cursor is on track 2, the other track of
the two running tracks has been skipped since the last accepted sample, and the
pending sample of track 2 has DTS 10 s.  The rule as stated accepts it; the code
skips it: the fourth pass leaves it pending in track 2, appends nothing and
raises the counter to 2. -/
theorem acceptance_rule_counterexample :
    two_track_remuxer.frag_base_track = 0
    ∧ run two_track_engine 3 (initial_state two_track_remuxer)
        = Outcome.next (two_track_state 3)
    ∧ (two_track_state 3).input_movie_number = 1
    ∧ cur_track_number (two_track_state 3) = 2
    ∧ (two_track_state 3).num_active_input_tracks = 2
    ∧ (two_track_state 3).num_consecutive_sample_skip = 1
    ∧ in_track_at (two_track_state 3) 1 1 = some two_track_holding
    ∧ every_other_track_skipped (two_track_state 3)
    ∧ step two_track_engine (two_track_state 3) = Outcome.next (two_track_state 4)
    ∧ (in_track_at (two_track_state 4) 1 2).map (fun t => t.sample)
        = some (some (mk_sample 10 1 1))
    ∧ (two_track_state 4).num_consecutive_sample_skip = 2
    ∧ (two_track_state 4).r.events = (two_track_state 3).r.events := by
  refine ⟨rfl, rfl, rfl, rfl, rfl, rfl, rfl, ?_, rfl, rfl, rfl, rfl⟩
  unfold every_other_track_skipped
  decide

/-! ## Theorems: runs on which the code departs from the specification -/

/-- C4. A fetch error does not make `do_remux` fail: on `fetch_error_engine` the
data of sample 2 cannot be fetched although the existence probe reports the
sample; `do_remux` prints the error, leaves the loop, flushes the output track
and returns 0. -/
theorem do_remux_returns_success_after_fetch_error :
    fetch_error_engine.get_sample_from_media_timeline 1 1 2 = none
    ∧ fetch_error_engine.check_sample_existence_in_media_timeline 1 1 2 = true
    ∧ (do_remux fetch_error_engine 2 fetch_error_remuxer).map
        (fun res => (res.1, res.2.events))
      = some (0, [Event.append_sample 1 (mk_sample 0 1 1), Event.error_message,
                  Event.flush_pooled_samples 1 1 true]) := by
  decide

/-- C7. The minimum fragment duration is not enforced: on
`short_fragment_engine`, with a minimum of 2 seconds, the scheduler records the
reference time 10 s in pass 2 and, after flushing in pass 3, the reference time
11 s in pass 4 (both times on a random-access sample of the base track), so a
fragment of 1 second is cut: the recorded calls show `flush_movie_fragment`
before the sample with DTS 10 and again before the sample with DTS 11. -/
theorem min_frag_duration_not_enforced :
    short_fragment_remuxer.min_frag_duration = ⟨2, 1⟩
    ∧ (run short_fragment_engine 1 (initial_state short_fragment_remuxer)).state?.map
        (fun s => (s.pending_flush_fragments, s.frag_base_dts)) = some (0, ⟨0, 1⟩)
    ∧ (run short_fragment_engine 2 (initial_state short_fragment_remuxer)).state?.map
        (fun s => (s.pending_flush_fragments, s.frag_base_dts)) = some (1, ⟨10, 1⟩)
    ∧ (run short_fragment_engine 3 (initial_state short_fragment_remuxer)).state?.map
        (fun s => (s.pending_flush_fragments, s.frag_base_dts)) = some (0, ⟨10, 1⟩)
    ∧ (run short_fragment_engine 4 (initial_state short_fragment_remuxer)).state?.map
        (fun s => (s.pending_flush_fragments, s.frag_base_dts)) = some (1, ⟨11, 1⟩)
    ∧ (run short_fragment_engine 5 (initial_state short_fragment_remuxer)).state?.map
        (fun s => s.r.events.filter
          (fun e => e = Event.flush_movie_fragment
            ∨ e = Event.append_sample 1 (mk_sample 0 1 1)
            ∨ e = Event.append_sample 1 (mk_sample 10 1 1)
            ∨ e = Event.append_sample 1 (mk_sample 11 1 1)))
      = some [Event.flush_movie_fragment, Event.append_sample 1 (mk_sample 0 1 1),
              Event.flush_movie_fragment, Event.append_sample 1 (mk_sample 10 1 1),
              Event.flush_movie_fragment, Event.append_sample 1 (mk_sample 11 1 1)] := by
  decide

/-! ## Theorems: a track that stalls forever -/

theorem stall_flush (subseg seg sps : Nat) (mfd : Frac) (events : List Event) :
    flush_movie_fragment stall_engine
      (remuxer_t.mk [input_movie_t.mk [stall_holding] 1 1] 1
        (output_movie_t.mk [stall_output] 1 1) subseg seg 1 sps mfd events)
      = some (0, remuxer_t.mk [input_movie_t.mk [stall_holding] 1 1] 1
        (output_movie_t.mk [stall_output] 1 1) subseg seg 1 sps mfd
        (events ++ [Event.flush_movie_fragment]
          ++ [Event.flush_pooled_samples 1 10 true])) := by
  simp [flush_movie_fragment, List.range', flush_movie_fragment_inputs,
    flush_movie_fragment_tracks, stall_holding, fresh_input_track, stall_output,
    fresh_output_track, stall_engine, list_engine, at1, mk_sample, inc32, U32, sub64, U64]

theorem stall_handle_segmentation (r1 : remuxer_t Frac) :
    (handle_segmentation stall_engine r1).1 = 0 := by
  unfold handle_segmentation
  simp only [remuxer_t.log]
  split_ifs with h1 h2 h3
  · rfl
  · simp [stall_engine, list_engine] at h3
  · rfl
  · rfl

theorem stalled_fragment_control (subseg seg sps : Nat) (mfd : Frac) (events : List Event)
    (lg fbd : Frac) (skip total prog pend : Nat) :
    ∃ s1, fragment_control stall_engine
        (stalled_state subseg seg sps mfd events lg fbd skip total prog pend)
        stall_holding (mk_sample 10 2 1) = Outcome.next s1 := by
  unfold fragment_control stalled_state
  simp only []
  rw [if_pos (by decide)]
  by_cases hpend : pend = 0
  · rw [if_pos hpend]
    split_ifs
    · exact ⟨_, rfl⟩
    · exact ⟨_, rfl⟩
  · rw [if_neg hpend]
    by_cases hfl : skip = 1 ∨ total = 0
    · rw [if_pos hfl, stall_flush]
      simp only []
      rw [if_neg (by decide), if_neg (by rw [stall_handle_segmentation]; decide),
        if_neg (by simp [stall_engine, list_engine])]
      exact ⟨_, rfl⟩
    · rw [if_neg hfl]
      exact ⟨_, rfl⟩

theorem stalled_move_next (subseg seg sps : Nat) (mfd : Frac) (events : List Event)
    (lg fbd : Frac) (skip total prog pend : Nat) :
    move_next (stalled_state subseg seg sps mfd events lg fbd skip total prog pend)
      = stalled_state subseg seg sps mfd events lg fbd skip total prog pend := by
  simp [move_next, move_next_input, move_next_output, store_in_movie,
    next_input_movie_number, cur_in_movie, at1, set1, inc32, U32, stalled_state]

theorem stalled_of_fields (s : State Frac)
    (h1 : s.r.input = [input_movie_t.mk [stall_holding] 1 1]) (h2 : s.r.num_input = 1)
    (h3 : s.r.out_movie = output_movie_t.mk [stall_output] 1 1)
    (h4 : s.input_movie_number = 1) (h5 : s.r.frag_base_track = 1)
    (h6 : s.num_active_input_tracks = 1)
    (h7 : appended s.r.events 1 = [mk_sample 0 1 1]) : stalled s := by
  obtain ⟨⟨input, num_input, out_movie, subseg, seg, fb, sps, mfd, events⟩, lg, fbd, imn,
    skip, act, total, prog, pend⟩ := s
  simp only [] at h1 h2 h3 h4 h5 h6 h7
  subst h1 h2 h3 h4 h5 h6
  exact ⟨subseg, seg, sps, mfd, events, lg, fbd, skip, total, prog, pend, rfl, h7⟩

theorem stalled_step (s : State Frac) (h : stalled s) :
    ∃ s1, step stall_engine s = Outcome.next s1 ∧ stalled s1 := by
  obtain ⟨subseg, seg, sps, mfd, events, lg, fbd, skip, total, prog, pend, rfl, happ⟩ := h
  obtain ⟨s1, hs1⟩ :=
    stalled_fragment_control subseg seg sps mfd events lg fbd skip total prog pend
  obtain ⟨new, a, b, c, d, hframe, hnew⟩ :=
    fragment_control_frame stall_engine _ s1 stall_holding (mk_sample 10 2 1)
      (by rw [hs1]; rfl)
  have hs1eq : s1 = stalled_state a b sps mfd (events ++ new) lg d skip total prog c := hframe
  subst hs1eq
  have hcond : append_condition stall_engine
      (stalled_state a b sps mfd (events ++ new) lg d skip total prog c)
      stall_holding (mk_sample 10 2 1) = false := by
    unfold append_condition need_new_fragment stalled_state
    simp only []
    by_cases h1 : c = 0
    · rw [if_pos h1]
      simp [stall_holding, mk_sample, fresh_input_track]
    · rw [if_neg h1, if_neg (by simp)]
  have hstep : step stall_engine
      (stalled_state subseg seg sps mfd events lg fbd skip total prog pend)
      = Outcome.next
          (stalled_state a b sps mfd (events ++ new) lg d (inc32 skip) total prog c) := by
    rw [step_of_fetch stall_engine
      (stalled_state subseg seg sps mfd events lg fbd skip total prog pend)
      stall_holding rfl rfl rfl]
    have hf : ∀ s0 : State Frac, fetch_sample stall_engine s0 stall_holding
        = Fetched.sample s0 stall_holding (mk_sample 10 2 1) := fun _ => rfl
    rw [hf]
    simp only [handle_pending_sample, hs1]
    unfold append_or_skip
    rw [if_neg (by rw [hcond]; decide)]
    have hm := stalled_move_next a b sps mfd (events ++ new) lg d (inc32 skip) total prog c
    rw [← hm]
    rfl
  refine ⟨_, hstep, ?_⟩
  exact ⟨a, b, sps, mfd, events ++ new, lg, d, inc32 skip, total, prog, c, rfl,
    by rw [appended_append_of_no_append _ _ _ hnew]; exact happ⟩

/-- C5. The skip counter does not force progress.

With fragmentation: on `stall_remuxer` (fragment base track 1) the second sample
of the only track uses another sample description than the first.  After the
first pass, which appends the first sample, every further pass leaves the loop
running with the second sample still pending and nothing more appended: no
pending sample is ever accepted again, no track reaches its end, and `do_remux`
does not return whatever the number of passes.  After three passes the
consecutive-skip counter is 2 although one track is running.

Without fragmentation: on `dropped_description_remuxer` both tracks have their
second sample dropped while the counter stands at 2, then track 1 ends.  After 7
passes one track is running (track 2, not at its end) and the counter is 2; after
9, 11 and 13 passes the counter is 3, 4 and 5, track 2 still holds its third
sample (DTS 20) and each output track has received only its first sample. -/
theorem skip_counter_does_not_force_progress (n : Nat) :
    ((∃ s, run stall_engine (n + 2) (initial_state stall_remuxer) = Outcome.next s
        ∧ s.num_active_input_tracks = 1
        ∧ in_track_at s 1 1 = some stall_holding
        ∧ appended s.r.events 1 = [mk_sample 0 1 1])
      ∧ do_remux stall_engine n stall_remuxer = none
      ∧ (run stall_engine 3 (initial_state stall_remuxer)).state?.map
          (fun s => (s.num_consecutive_sample_skip, s.num_active_input_tracks))
        = some (2, 1))
    ∧ (dropped_description_remuxer.frag_base_track = 0
      ∧ [7, 9, 11, 13].map (fun k =>
          (run dropped_description_engine k
            (initial_state dropped_description_remuxer)).state?.map
            (fun s => (s.num_consecutive_sample_skip, s.num_active_input_tracks,
              (in_track_at s 1 2).map (fun t => (t.reach_end_of_media_timeline,
                t.sample.map (fun p => p.dts))),
              appended s.r.events 1, appended s.r.events 2)))
        = [some (2, 1, some (false, none), [mk_sample 0 1 1], [mk_sample 0 1 1]),
           some (3, 1, some (false, some 20), [mk_sample 0 1 1], [mk_sample 0 1 1]),
           some (4, 1, some (false, some 20), [mk_sample 0 1 1], [mk_sample 0 1 1]),
           some (5, 1, some (false, some 20), [mk_sample 0 1 1], [mk_sample 0 1 1])]) := by
  have hrun : ∀ k, ∃ s, run stall_engine (k + 2) (initial_state stall_remuxer)
      = Outcome.next s ∧ stalled s := by
    intro k
    induction k with
    | zero =>
      refine ⟨_, rfl, ?_⟩
      exact stalled_of_fields _ (by decide) (by decide) (by decide) (by decide) (by decide)
        (by decide) (by decide)
    | succ k ih =>
      obtain ⟨s, hs, hst⟩ := ih
      obtain ⟨s1, hs1, hst1⟩ := stalled_step s hst
      refine ⟨s1, ?_, hst1⟩
      have hsplit : ∀ (m : Nat) (s0 sa sb : State Frac),
          run stall_engine m s0 = Outcome.next sa → step stall_engine sa = Outcome.next sb →
          run stall_engine (m + 1) s0 = Outcome.next sb := by
        intro m
        induction m with
        | zero =>
          intro s0 sa sb h1 h2
          simp only [run] at h1
          cases h1
          simp only [run, h2]
        | succ m ihm =>
          intro s0 sa sb h1 h2
          simp only [run] at h1 ⊢
          cases hst0 : step stall_engine s0 with
          | next s0a =>
            rw [hst0] at h1
            simp only [] at h1 ⊢
            exact ihm s0a sa sb h1 h2
          | brk _ => rw [hst0] at h1; cases h1
          | ret _ _ => rw [hst0] at h1; cases h1
          | undef => rw [hst0] at h1; cases h1
      exact hsplit (k + 2) _ s s1 hs hs1
  refine ⟨⟨?_, ?_, by decide⟩, rfl, rfl⟩
  · obtain ⟨s, hs, subseg, seg, sps, mfd, events, lg, fbd, skip, total, prog, pend, rfl,
      happ⟩ := hrun n
    exact ⟨_, hs, rfl, rfl, happ⟩
  · have hall : ∀ k, ∃ s, run stall_engine k (initial_state stall_remuxer) = Outcome.next s := by
      intro k
      rcases k with _ | _ | k
      · exact ⟨_, rfl⟩
      · exact ⟨_, rfl⟩
      · obtain ⟨s, hs, _⟩ := hrun k
        exact ⟨s, hs⟩
    obtain ⟨s, hs⟩ := hall n
    unfold do_remux
    rw [hs]

/-! ## Lemmas: lists, and counting the active tracks before a position -/

theorem set1_self {α : Type} {l : List α} {n : Nat} {x : α} (h : at1 l n = some x) :
    set1 l n x = l := by
  unfold at1 at h
  unfold set1
  by_cases hn : n = 0
  · rw [if_pos hn]
  · rw [if_neg hn] at h ⊢
    apply List.ext_getElem?
    intro k
    rw [List.getElem?_set]
    by_cases hk : n - 1 = k
    · subst hk
      rw [if_pos rfl]
      have hlt : n - 1 < l.length := by
        rcases List.getElem?_eq_some_iff.1 h with ⟨hl, _⟩
        exact hl
      rw [if_pos hlt, h]
    · rw [if_neg hk]

theorem map_set1 {α β : Type} (f : α → β) (l : List α) (n : Nat) (x : α) :
    (set1 l n x).map f = set1 (l.map f) n (f x) := by
  unfold set1
  by_cases hn : n = 0
  · rw [if_pos hn, if_pos hn]
  · rw [if_neg hn, if_neg hn, List.map_set]

theorem at1_map {α β : Type} (f : α → β) (l : List α) (n : Nat) :
    at1 (l.map f) n = (at1 l n).map f := by
  unfold at1
  by_cases hn : n = 0
  · rw [if_pos hn, if_pos hn]; rfl
  · rw [if_neg hn, if_neg hn, List.getElem?_map]

theorem sum_take_succ (l : List Nat) (a : Nat) :
    (l.take (a + 1)).sum = (l.take a).sum + l.getD a 0 := by
  induction l generalizing a with
  | nil => simp
  | cons x xs ih =>
    cases a with
    | zero => simp
    | succ a =>
      simp only [List.take_succ_cons, List.sum_cons, List.getD_cons_succ]
      rw [ih a]
      omega

theorem sum_take_le (l : List Nat) (a : Nat) : (l.take a).sum ≤ l.sum := by
  induction l generalizing a with
  | nil => simp
  | cons x xs ih =>
    cases a with
    | zero => simp
    | succ a =>
      simp only [List.take_succ_cons, List.sum_cons]
      have := ih a
      omega

theorem sum_take_mono (l : List Nat) {a b : Nat} (h : a ≤ b) :
    (l.take a).sum ≤ (l.take b).sum := by
  have : l.take a = (l.take b).take a := by
    rw [List.take_take, Nat.min_eq_left h]
  rw [this]
  exact sum_take_le _ _

theorem count_take_succ (l : List Bool) (b : Nat) (f : Bool) (h : l[b]? = some f) :
    (l.take (b + 1)).count true = (l.take b).count true + (if f = true then 1 else 0) := by
  rw [List.take_succ, h]
  simp only [Option.toList, List.count_append]
  cases f <;> simp

theorem count_take_le (l : List Bool) (b : Nat) : (l.take b).count true ≤ l.count true :=
  List.Sublist.count_le (List.take_sublist b l) true

theorem count_take_mono (l : List Bool) {a b : Nat} (h : a ≤ b) :
    (l.take a).count true ≤ (l.take b).count true := by
  have : l.take a = (l.take b).take a := by
    rw [List.take_take, Nat.min_eq_left h]
  rw [this]
  exact count_take_le _ _

theorem getD_map_count (sh : List (List Bool)) (a : Nat) :
    (sh.map (fun l => l.count true)).getD a 0 = (sh.getD a []).count true := by
  simp only [List.getD_eq_getElem?_getD, List.getElem?_map]
  cases sh[a]? <;> simp

theorem active_before0_succ (sh : List (List Bool)) (a b : Nat) (f : Bool)
    (h : (sh.getD a [])[b]? = some f) :
    active_before0 sh a (b + 1) = active_before0 sh a b + (if f = true then 1 else 0) := by
  unfold active_before0
  rw [count_take_succ _ _ _ h]
  omega

theorem active_before0_next (sh : List (List Bool)) (a : Nat) :
    active_before0 sh (a + 1) 0 = active_before0 sh a (sh.getD a []).length := by
  unfold active_before0
  rw [List.map_take, List.map_take, sum_take_succ, getD_map_count]
  simp

theorem active_before0_zero (sh : List (List Bool)) : active_before0 sh 0 0 = 0 := by
  simp [active_before0]

theorem active_before0_total (sh : List (List Bool)) (a b : Nat) (h : sh.length ≤ a) :
    active_before0 sh a b = count_active sh := by
  unfold active_before0 count_active
  rw [List.take_of_length_le h]
  have : sh.getD a [] = [] := by
    rw [List.getD_eq_getElem?_getD, List.getElem?_eq_none h]
    rfl
  rw [this]
  simp

theorem active_before0_le_next (sh : List (List Bool)) (a b : Nat) :
    active_before0 sh a b ≤ active_before0 sh (a + 1) 0 := by
  rw [active_before0_next]
  unfold active_before0
  have := count_take_le (sh.getD a []) b
  rw [List.take_length]
  omega

theorem active_before0_mono_movie (sh : List (List Bool)) {a a1 : Nat} (h : a ≤ a1) :
    active_before0 sh a 0 ≤ active_before0 sh a1 0 := by
  unfold active_before0
  rw [List.map_take, List.map_take]
  have := sum_take_mono (sh.map (fun l => l.count true)) h
  simp only [List.take_zero, List.count_nil]
  omega

theorem active_before0_mono_track (sh : List (List Bool)) (a : Nat) {b b1 : Nat} (h : b ≤ b1) :
    active_before0 sh a b ≤ active_before0 sh a b1 := by
  unfold active_before0
  have := count_take_mono (sh.getD a []) h
  omega

theorem active_before0_le (sh : List (List Bool)) (a b : Nat) :
    active_before0 sh a b ≤ count_active sh := by
  calc active_before0 sh a b ≤ active_before0 sh (a + 1) 0 := active_before0_le_next sh a b
    _ ≤ active_before0 sh (max (a + 1) sh.length) 0 :=
        active_before0_mono_movie sh (Nat.le_max_left _ _)
    _ = count_active sh := active_before0_total sh _ _ (Nat.le_max_right _ _)

theorem active_before0_lt (sh : List (List Bool)) (a b a1 b1 : Nat)
    (hact : (sh.getD a [])[b]? = some true)
    (hlt : a < a1 ∨ (a = a1 ∧ b < b1)) :
    active_before0 sh a b + 1 ≤ active_before0 sh a1 b1 := by
  have h1 : active_before0 sh a (b + 1) = active_before0 sh a b + 1 := by
    rw [active_before0_succ sh a b true hact]
    simp
  rw [← h1]
  rcases hlt with h | ⟨rfl, h⟩
  · calc active_before0 sh a (b + 1) ≤ active_before0 sh (a + 1) 0 :=
          active_before0_le_next sh a (b + 1)
      _ ≤ active_before0 sh a1 0 := active_before0_mono_movie sh h
      _ ≤ active_before0 sh a1 b1 := active_before0_mono_track sh a1 (Nat.zero_le _)
  · exact active_before0_mono_track sh a h

theorem active_before0_lt_total (sh : List (List Bool)) (a b : Nat)
    (hact : (sh.getD a [])[b]? = some true) :
    active_before0 sh a b + 1 ≤ count_active sh :=
  le_trans (active_before0_lt sh a b (a + 1) 0 hact (Or.inl (Nat.lt_succ_self a)))
    (active_before0_le sh _ _)

theorem active_before0_inj (sh : List (List Bool)) (a b a1 b1 : Nat)
    (hact : (sh.getD a [])[b]? = some true) (hact1 : (sh.getD a1 [])[b1]? = some true)
    (h : active_before0 sh a b = active_before0 sh a1 b1) : a = a1 ∧ b = b1 := by
  by_contra hne
  have hcases : (a < a1 ∨ (a = a1 ∧ b < b1)) ∨ (a1 < a ∨ (a1 = a ∧ b1 < b)) := by
    by_cases h1 : a = a1
    · by_cases h2 : b = b1
      · exact absurd ⟨h1, h2⟩ hne
      · rcases Nat.lt_or_gt_of_ne h2 with h3 | h3
        · exact Or.inl (Or.inr ⟨h1, h3⟩)
        · exact Or.inr (Or.inr ⟨h1.symm, h3⟩)
    · rcases Nat.lt_or_gt_of_ne h1 with h3 | h3
      · exact Or.inl (Or.inl h3)
      · exact Or.inr (Or.inl h3)
  rcases hcases with h1 | h1
  · have := active_before0_lt sh a b a1 b1 hact h1
    omega
  · have := active_before0_lt sh a1 b1 a b hact1 h1
    omega

/-- The flag of an input track, read from the `active` flags. -/
theorem flags_of_in_track_at {D : Type} (s : State D) (i j : Nat) (t : input_track_t D)
    (h : in_track_at s i j = some t) :
    ((active_flags s.r.input).getD (i - 1) [])[j - 1]? = some t.active
    ∧ 1 ≤ i ∧ 1 ≤ j := by
  unfold in_track_at at h
  cases hm : at1 s.r.input i with
  | none => rw [hm] at h; cases h
  | some m =>
    rw [hm] at h
    simp only [] at h
    have hi := (at1_some_pos hm).1
    have hj := (at1_some_pos h).1
    refine ⟨?_, hi, hj⟩
    unfold at1 at hm h
    rw [if_neg (by omega)] at hm h
    unfold active_flags
    rw [List.getD_eq_getElem?_getD, List.getElem?_map, hm]
    simp only [Option.map_some', Option.getD_some, List.getElem?_map, h]

/-! ## Lemmas: the cursors of the scheduler stay synchronous -/

section CursorMoves

variable {D : Type}

theorem inc32_of_lt {x : Nat} (h : x + 1 < U32) : inc32 x = x + 1 := by
  unfold inc32
  exact Nat.mod_eq_of_lt h

theorem active_before_inj (sh : List (List Bool)) (s : State D)
    (hflags : active_flags s.r.input = sh) (i j i1 j1 : Nat) (t t1 : input_track_t D)
    (h : in_track_at s i j = some t) (h1 : in_track_at s i1 j1 = some t1)
    (ha : t.active = true) (ha1 : t1.active = true)
    (heq : active_before sh i j = active_before sh i1 j1) : i = i1 ∧ j = j1 := by
  obtain ⟨hf, hi, hj⟩ := flags_of_in_track_at s i j t h
  obtain ⟨hf1, hi1, hj1⟩ := flags_of_in_track_at s i1 j1 t1 h1
  rw [hflags, ha] at hf
  rw [hflags, ha1] at hf1
  have := active_before0_inj sh _ _ _ _ hf hf1 heq
  omega

theorem active_before_lt_total (sh : List (List Bool)) (s : State D)
    (hflags : active_flags s.r.input = sh) (i j : Nat) (t : input_track_t D)
    (h : in_track_at s i j = some t) (ha : t.active = true) :
    active_before sh i j + 1 ≤ count_active sh := by
  obtain ⟨hf, _, _⟩ := flags_of_in_track_at s i j t h
  rw [hflags, ha] at hf
  exact active_before0_lt_total sh _ _ hf

theorem move_next_input_spec (sh : List (List Bool)) (s : State D) (m : input_movie_t D)
    (t : input_track_t D) (hs : InputOk sh s) (hm : cur_in_movie s = some m)
    (ht : at1 m.track m.current_track_number = some t) :
    InputOk sh (move_next_input s)
    ∧ ((m.current_track_number < m.track.length
        ∧ (move_next_input s).input_movie_number = s.input_movie_number
        ∧ cur_track_number (move_next_input s) = m.current_track_number + 1)
      ∨ (m.current_track_number = m.track.length
        ∧ s.input_movie_number < s.r.input.length
        ∧ (move_next_input s).input_movie_number = s.input_movie_number + 1
        ∧ cur_track_number (move_next_input s) = 1)
      ∨ (m.current_track_number = m.track.length
        ∧ s.input_movie_number = s.r.input.length
        ∧ (move_next_input s).input_movie_number = 1
        ∧ cur_track_number (move_next_input s) = 1)) := by
  have hm1 : at1 s.r.input s.input_movie_number = some m := hm
  obtain ⟨hnt, hlt, hpos, _⟩ := hs.tracks _ _ hm1
  have hj := (at1_some_pos ht).2
  have hinc : inc32 m.current_track_number = m.current_track_number + 1 :=
    inc32_of_lt (by omega)
  have hinci : inc32 s.input_movie_number = s.input_movie_number + 1 :=
    inc32_of_lt (by have := hs.imn_le; have := hs.input_lt; omega)
  have hni := hs.num_input
  have hile := hs.imn_le
  have hipos := hs.imn_pos
  -- the new cursor
  have himn : (move_next_input s).input_movie_number = next_input_movie_number s := rfl
  have hinput : (move_next_input s).r.input
      = set1 s.r.input s.input_movie_number
          (if inc32 m.current_track_number > m.num_tracks
            then { m with current_track_number := 1 }
            else { m with current_track_number := inc32 m.current_track_number }) := by
    simp only [move_next_input, store_in_movie, hm]
  have hat : ∀ i, at1 (move_next_input s).r.input i
      = if i = s.input_movie_number then
          some (if inc32 m.current_track_number > m.num_tracks
            then { m with current_track_number := 1 }
            else { m with current_track_number := inc32 m.current_track_number })
        else at1 s.r.input i := by
    intro i
    rw [hinput, at1_set1]
    by_cases hi : i = s.input_movie_number
    · subst hi
      rw [if_pos ⟨rfl, by rw [hm1]; rfl⟩, if_pos rfl]
    · rw [if_neg (fun h => hi h.1), if_neg hi]
  have hnext : next_input_movie_number s
      = if m.current_track_number = m.track.length then
          (if s.input_movie_number = s.r.input.length then 1 else s.input_movie_number + 1)
        else s.input_movie_number := by
    unfold next_input_movie_number
    rw [hm]
    simp only []
    rw [hinc, hinci, hnt, hni]
    by_cases h1 : m.current_track_number = m.track.length
    · rw [if_pos (by omega), if_pos h1]
      by_cases h2 : s.input_movie_number = s.r.input.length
      · rw [if_pos (by omega), if_pos h2]
      · rw [if_neg (by omega), if_neg h2]
    · rw [if_neg (by omega), if_neg h1, if_neg (by omega)]
  have hflags : active_flags (move_next_input s).r.input = sh := by
    rw [hinput]
    unfold active_flags
    rw [map_set1]
    have : (if inc32 m.current_track_number > m.num_tracks
            then { m with current_track_number := 1 }
            else { m with current_track_number := inc32 m.current_track_number }).track
          = m.track := by
      split_ifs <;> rfl
    simp only [this]
    have hold : at1 (s.r.input.map (fun m => m.track.map (fun t => t.active)))
        s.input_movie_number = some (m.track.map (fun t => t.active)) := by
      rw [at1_map, hm1]
      rfl
    rw [set1_self hold]
    exact hs.flags
  have hlen : (move_next_input s).r.input.length = s.r.input.length := by
    rw [hinput, set1_length]
  have hcur : cur_track_number (move_next_input s)
      = if m.current_track_number = m.track.length then 1 else m.current_track_number + 1 := by
    unfold cur_track_number
    rw [hat, himn, hnext]
    by_cases h1 : m.current_track_number = m.track.length
    · rw [if_pos h1, if_pos h1]
      by_cases h2 : s.input_movie_number = s.r.input.length
      · rw [if_pos h2]
        by_cases h3 : 1 = s.input_movie_number
        · rw [if_pos h3]
          simp only []
          rw [if_pos (by omega)]
        · rw [if_neg h3]
          have hex : ∃ m1, at1 s.r.input 1 = some m1 := by
            unfold at1
            rw [if_neg (by omega)]
            have : 1 - 1 < s.r.input.length := by omega
            exact ⟨_, List.getElem?_eq_getElem this⟩
          obtain ⟨m1, hm1x⟩ := hex
          rw [hm1x]
          exact (hs.tracks 1 m1 hm1x).2.2.2 h3
      · rw [if_neg h2, if_neg (by omega)]
        have hex : ∃ m1, at1 s.r.input (s.input_movie_number + 1) = some m1 := by
          unfold at1
          rw [if_neg (by omega)]
          have : s.input_movie_number + 1 - 1 < s.r.input.length := by omega
          exact ⟨_, List.getElem?_eq_getElem this⟩
        obtain ⟨m1, hm1x⟩ := hex
        rw [hm1x]
        exact (hs.tracks _ m1 hm1x).2.2.2 (by omega)
    · rw [if_neg h1, if_neg h1, if_pos rfl]
      simp only []
      rw [if_neg (by omega), hinc]
  refine ⟨⟨hflags, ?_, ?_, ?_, ?_, ?_⟩, ?_⟩
  · rw [hlen]; exact hni
  · rw [hlen]; exact hs.input_lt
  · rw [himn, hnext]
    split_ifs <;> omega
  · rw [himn, hnext, hlen]
    split_ifs <;> omega
  · intro i m0 hm0
    rw [hat] at hm0
    by_cases hi : i = s.input_movie_number
    · rw [if_pos hi] at hm0
      cases hm0
      by_cases h1 : m.current_track_number = m.track.length
      · rw [if_pos (by omega)]
        exact ⟨hnt, hlt, Nat.le_refl 1, fun _ => rfl⟩
      · rw [if_neg (by omega)]
        refine ⟨hnt, hlt, by simp only []; omega, fun hne => ?_⟩
        rw [himn, hnext, if_neg h1] at hne
        exact absurd hi hne
    · rw [if_neg hi] at hm0
      obtain ⟨a, b, c, d⟩ := hs.tracks i m0 hm0
      exact ⟨a, b, c, fun _ => d hi⟩
  · rw [himn, hnext, hcur]
    by_cases h1 : m.current_track_number = m.track.length
    · rw [if_pos h1, if_pos h1]
      by_cases h2 : s.input_movie_number = s.r.input.length
      · rw [if_pos h2]
        exact Or.inr (Or.inr ⟨h1, h2, rfl, rfl⟩)
      · rw [if_neg h2]
        exact Or.inr (Or.inl ⟨h1, by omega, rfl, rfl⟩)
    · rw [if_neg h1, if_neg h1]
      exact Or.inl ⟨by omega, rfl, rfl⟩

end CursorMoves

section CursorSync

variable {D : Type}

theorem in_track_at_of_cur (s : State D) (m : input_movie_t D) (t : input_track_t D)
    (hm : cur_in_movie s = some m) (ht : at1 m.track m.current_track_number = some t) :
    in_track_at s s.input_movie_number m.current_track_number = some t := by
  have hm1 : at1 s.r.input s.input_movie_number = some m := hm
  unfold in_track_at
  rw [hm1]
  exact ht

theorem cur_track_number_of_cur (s : State D) (m : input_movie_t D)
    (hm : cur_in_movie s = some m) : cur_track_number s = m.current_track_number := by
  have hm1 : at1 s.r.input s.input_movie_number = some m := hm
  unfold cur_track_number
  rw [hm1]

theorem flags_length (s : State D) (i : Nat) (m : input_movie_t D)
    (hm : at1 s.r.input i = some m) :
    ((active_flags s.r.input).getD (i - 1) []).length = m.track.length := by
  have hi := (at1_some_pos hm).1
  unfold at1 at hm
  rw [if_neg (by omega)] at hm
  unfold active_flags
  rw [List.getD_eq_getElem?_getD, List.getElem?_map, hm]
  simp

theorem active_before_advance [C_double D] (sh : List (List Bool)) (s : State D) (m : input_movie_t D)
    (t : input_track_t D) (hs : InputOk sh s) (hm : cur_in_movie s = some m)
    (ht : at1 m.track m.current_track_number = some t) :
    (active_before sh (move_next_input s).input_movie_number
        (cur_track_number (move_next_input s))
      = active_before sh s.input_movie_number m.current_track_number
          + (if t.active = true then 1 else 0))
    ∨ (active_before sh s.input_movie_number m.current_track_number
          + (if t.active = true then 1 else 0) = count_active sh
        ∧ active_before sh (move_next_input s).input_movie_number
            (cur_track_number (move_next_input s)) = 0) := by
  have hm1 : at1 s.r.input s.input_movie_number = some m := hm
  obtain ⟨hf, hi, hj⟩ := flags_of_in_track_at s _ _ t (in_track_at_of_cur s m t hm ht)
  rw [hs.flags] at hf
  have hlen := flags_length s _ m hm1
  rw [hs.flags] at hlen
  have hsucc := active_before0_succ sh _ _ _ hf
  have hj1 : m.current_track_number - 1 + 1 = m.current_track_number := by omega
  rw [hj1] at hsucc
  have hshlen : sh.length = s.r.input.length := by
    rw [← hs.flags]
    unfold active_flags
    rw [List.length_map]
  rcases (move_next_input_spec sh s m t hs hm ht).2 with
    ⟨_, h2, h3⟩ | ⟨h1, _, h3, h4⟩ | ⟨h1, h2, h3, h4⟩
  · left
    rw [h2, h3]
    unfold active_before
    rw [Nat.add_sub_cancel]
    exact hsucc
  · left
    rw [h3, h4]
    unfold active_before
    rw [Nat.add_sub_cancel, ← hsucc, h1, ← hlen]
    have := active_before0_next sh (s.input_movie_number - 1)
    rw [show s.input_movie_number - 1 + 1 = s.input_movie_number by omega] at this
    simpa using this
  · right
    rw [h3, h4]
    unfold active_before
    refine ⟨?_, by simpa using active_before0_zero sh⟩
    rw [← hsucc, h1, ← hlen]
    have := active_before0_next sh (s.input_movie_number - 1)
    rw [show s.input_movie_number - 1 + 1 = s.input_movie_number by omega] at this
    rw [← this]
    exact active_before0_total sh _ _ (by omega)

theorem Synced_move_next_input [C_double D] (sh : List (List Bool)) (s : State D) (m : input_movie_t D)
    (t : input_track_t D) (hs : Synced sh s) (hm : cur_in_movie s = some m)
    (ht : at1 m.track m.current_track_number = some t) (hact : t.active = false) :
    Synced sh (move_next_input s) := by
  refine ⟨(move_next_input_spec sh s m t hs.input hm ht).1, hs.out_num, hs.out_lt, ?_⟩
  have hout : (move_next_input s).r.out_movie.current_track_number
      = s.r.out_movie.current_track_number := rfl
  rw [hout, hs.out_cur, cur_track_number_of_cur s m hm]
  have hadv := active_before_advance sh s m t hs.input hm ht
  rw [hact] at hadv
  simp only [Bool.false_eq_true, if_false, Nat.add_zero] at hadv
  rcases hadv with h | ⟨h1, h2⟩
  · rw [h]
  · rw [h1, h2]
    simp

theorem Synced_move_next [C_double D] (sh : List (List Bool)) (s : State D) (m : input_movie_t D)
    (t : input_track_t D) (hs : Synced sh s) (hm : cur_in_movie s = some m)
    (ht : at1 m.track m.current_track_number = some t) (hact : t.active = true) :
    Synced sh (move_next s) := by
  have hin := (move_next_input_spec sh s m t hs.input hm ht).1
  have hlt := active_before_lt_total sh s hs.input.flags _ _ t
    (in_track_at_of_cur s m t hm ht) hact
  have hadv := active_before_advance sh s m t hs.input hm ht
  rw [hact] at hadv
  simp only [if_true] at hadv
  have hN := hs.out_lt
  have hcur := hs.out_cur
  rw [cur_track_number_of_cur s m hm] at hcur
  rw [Nat.mod_eq_of_lt (by omega)] at hcur
  refine ⟨⟨hin.flags, hin.num_input, hin.input_lt, hin.imn_pos, hin.imn_le, hin.tracks⟩,
    hs.out_num, hs.out_lt, ?_⟩
  have hout : (move_next s).r.out_movie.current_track_number
      = if inc32 s.r.out_movie.current_track_number > s.r.out_movie.num_tracks then 1
        else inc32 s.r.out_movie.current_track_number := rfl
  have hc : cur_track_number (move_next s) = cur_track_number (move_next_input s) := rfl
  have hi : (move_next s).input_movie_number = (move_next_input s).input_movie_number := rfl
  rw [hout, hc, hi, hs.out_num, hcur, inc32_of_lt (by omega)]
  rcases hadv with h | ⟨h1, h2⟩
  · rw [h]
    by_cases hlast : active_before sh s.input_movie_number m.current_track_number + 1
        = count_active sh
    · rw [if_pos (by omega), hlast, Nat.mod_self]
    · rw [if_neg (by omega), Nat.mod_eq_of_lt (by omega)]
  · rw [h2, if_pos (by omega)]
    simp

end CursorSync

section InvariantUpdates

variable {D : Type}

theorem InputOk_congr (sh : List (List Bool)) (s s1 : State D)
    (h1 : s1.r.input = s.r.input) (h2 : s1.input_movie_number = s.input_movie_number)
    (h3 : s1.r.num_input = s.r.num_input) (hs : InputOk sh s) : InputOk sh s1 := by
  refine ⟨?_, ?_, ?_, ?_, ?_, ?_⟩
  · rw [h1]; exact hs.flags
  · rw [h1, h3]; exact hs.num_input
  · rw [h1]; exact hs.input_lt
  · rw [h2]; exact hs.imn_pos
  · rw [h1, h2]; exact hs.imn_le
  · rw [h1, h2]; exact hs.tracks

theorem cur_track_number_congr (s s1 : State D)
    (h1 : s1.r.input = s.r.input) (h2 : s1.input_movie_number = s.input_movie_number) :
    cur_track_number s1 = cur_track_number s := by
  unfold cur_track_number
  rw [h1, h2]

theorem in_track_at_congr (s s1 : State D) (h1 : s1.r.input = s.r.input) (i j : Nat) :
    in_track_at s1 i j = in_track_at s i j := by
  unfold in_track_at
  rw [h1]

theorem InputOk_set_in_track (sh : List (List Bool)) (s : State D) (m : input_movie_t D)
    (t t1 : input_track_t D) (hs : InputOk sh s) (hm : cur_in_movie s = some m)
    (ht : at1 m.track m.current_track_number = some t) (hact : t1.active = t.active) :
    InputOk sh (set_in_track s t1) := by
  have hm1 : at1 s.r.input s.input_movie_number = some m := hm
  have hinput : (set_in_track s t1).r.input
      = set1 s.r.input s.input_movie_number
          { m with track := set1 m.track m.current_track_number t1 } := by
    simp only [set_in_track, store_in_movie, hm]
  have hat : ∀ i, at1 (set_in_track s t1).r.input i
      = if i = s.input_movie_number then
          some { m with track := set1 m.track m.current_track_number t1 }
        else at1 s.r.input i := by
    intro i
    rw [hinput, at1_set1]
    by_cases hi : i = s.input_movie_number
    · subst hi
      rw [if_pos ⟨rfl, by rw [hm1]; rfl⟩, if_pos rfl]
    · rw [if_neg (fun h => hi h.1), if_neg hi]
  refine ⟨?_, ?_, ?_, hs.imn_pos, ?_, ?_⟩
  · rw [hinput]
    unfold active_flags
    rw [map_set1]
    simp only []
    rw [map_set1, hact]
    have h1 : at1 (m.track.map (fun t => t.active)) m.current_track_number
        = some t.active := by
      rw [at1_map, ht]
      rfl
    rw [set1_self h1]
    have hold : at1 (s.r.input.map (fun m => m.track.map (fun t => t.active)))
        s.input_movie_number = some (m.track.map (fun t => t.active)) := by
      rw [at1_map, hm1]
      rfl
    rw [set1_self hold]
    exact hs.flags
  · rw [hinput, set1_length]; exact hs.num_input
  · rw [hinput, set1_length]; exact hs.input_lt
  · rw [hinput, set1_length]; exact hs.imn_le
  · intro i m0 hm0
    rw [hat] at hm0
    by_cases hi : i = s.input_movie_number
    · rw [if_pos hi] at hm0
      cases hm0
      obtain ⟨a, b, c, _⟩ := hs.tracks _ m hm1
      refine ⟨?_, ?_, c, fun hne => absurd hi hne⟩
      · simp only [set1_length]; exact a
      · simp only [set1_length]; exact b
    · rw [if_neg hi] at hm0
      exact hs.tracks i m0 hm0

theorem TracksOk_congr (E : Engine) (sh : List (List Bool)) (s s1 : State D)
    (h1 : ∀ i j, in_track_at s1 i j = in_track_at s i j)
    (h2 : s1.r.out_movie.track = s.r.out_movie.track)
    (h3 : ∀ k, appended s1.r.events k = appended s.r.events k)
    (hs : TracksOk E sh s) : TracksOk E sh s1 := by
  intro i j t ht hact
  rw [h1] at ht
  obtain ⟨o, ho, hok⟩ := hs i j t ht hact
  refine ⟨o, ?_, ?_⟩
  · rw [h2]; exact ho
  · rw [h3]; exact hok

theorem Inv_logged [C_double D] (E : Engine) (sh : List (List Bool)) (s s1 : State D) (new : List Event)
    (hl : Logged s s1 new) (hnew : no_append new) (hs : Inv E sh s) : Inv E sh s1 := by
  have hev : ∀ k, appended s1.r.events k = appended s.r.events k := by
    intro k
    rw [hl.events, appended_append_of_no_append _ _ _ hnew]
  refine ⟨⟨InputOk_congr sh s s1 hl.input hl.imn hl.num_input hs.sync.input, ?_, hs.sync.out_lt,
    ?_⟩, ?_, ?_⟩
  · rw [hl.out_movie]; exact hs.sync.out_num
  · rw [hl.out_movie, hl.imn, cur_track_number_congr s s1 hl.input hl.imn]
    exact hs.sync.out_cur
  · exact TracksOk_congr E sh s s1 (in_track_at_congr s s1 hl.input)
      (by rw [hl.out_movie]) hev hs.tracks
  · intro k
    rw [hev]
    exact hs.sorted k

theorem Inv_move_next_input [C_double D] (E : Engine) (sh : List (List Bool)) (s : State D)
    (m : input_movie_t D) (t : input_track_t D) (hs : Inv E sh s)
    (hm : cur_in_movie s = some m) (ht : at1 m.track m.current_track_number = some t)
    (hact : t.active = false) : Inv E sh (move_next_input s) :=
  ⟨Synced_move_next_input sh s m t hs.sync hm ht hact,
   TracksOk_congr E sh s _ (in_track_at_move_next_input s) rfl (fun _ => rfl) hs.tracks,
   hs.sorted⟩

theorem Inv_move_next [C_double D] (E : Engine) (sh : List (List Bool)) (s : State D)
    (m : input_movie_t D) (t : input_track_t D) (hs : Inv E sh s)
    (hm : cur_in_movie s = some m) (ht : at1 m.track m.current_track_number = some t)
    (hact : t.active = true) : Inv E sh (move_next s) :=
  ⟨Synced_move_next sh s m t hs.sync hm ht hact,
   TracksOk_congr E sh s _ (in_track_at_move_next s) rfl (fun _ => rfl) hs.tracks,
   hs.sorted⟩

/-- The output cursor is on the output track of the active input track under
the input cursor. -/
theorem out_cursor_of_active [C_double D] (sh : List (List Bool)) (s : State D) (m : input_movie_t D)
    (t : input_track_t D) (hs : Synced sh s) (hm : cur_in_movie s = some m)
    (ht : at1 m.track m.current_track_number = some t) (hact : t.active = true) :
    s.r.out_movie.current_track_number
      = active_before sh s.input_movie_number m.current_track_number + 1 := by
  have hlt := active_before_lt_total sh s hs.input.flags _ _ t
    (in_track_at_of_cur s m t hm ht) hact
  rw [hs.out_cur, cur_track_number_of_cur s m hm, Nat.mod_eq_of_lt (by omega)]

theorem Inv_updated [C_double D] (E : Engine) (sh : List (List Bool)) (s s1 : State D)
    (m : input_movie_t D) (t t1 : input_track_t D) (o1 : output_track_t)
    (new : List Event) (hs : Inv E sh s)
    (hm : cur_in_movie s = some m) (ht : at1 m.track m.current_track_number = some t)
    (hact : t.active = true) (hact1 : t1.active = true)
    (hu : Updated s s1 t1 o1 new)
    (hnew : ∀ k, k ≠ s.r.out_movie.current_track_number → appended new k = [])
    (hok : TrackOk E s.input_movie_number t1 o1
      (appended (s.r.events ++ new) s.r.out_movie.current_track_number))
    (hsorted : dts_increasing
      (appended (s.r.events ++ new) s.r.out_movie.current_track_number)) :
    Inv E sh s1 := by
  have hm1 : at1 s.r.input s.input_movie_number = some m := hm
  have hcur : cur_in_track s = some t := by
    rw [cur_in_track_eq s m hm]; exact ht
  have hc := out_cursor_of_active sh s m t hs.sync hm ht hact
  have hctn := cur_track_number_of_cur s m hm
  have hin := InputOk_set_in_track sh s m t t1 hs.sync.input hm ht (by rw [hact, hact1])
  have hin1 : InputOk sh s1 := by
    refine InputOk_congr sh (set_in_track s t1) s1 hu.input ?_ ?_ hin
    · rw [hu.imn]; rfl
    · rw [hu.num_input]; rfl
  obtain ⟨o, ho, _⟩ := hs.tracks _ _ t (in_track_at_of_cur s m t hm ht) hact
  rw [← hc] at ho
  have hev : ∀ k, k ≠ s.r.out_movie.current_track_number →
      appended s1.r.events k = appended s.r.events k := by
    intro k hk
    rw [hu.events, appended_append, hnew k hk, List.append_nil]
  refine ⟨⟨hin1, ?_, hs.sync.out_lt, ?_⟩, ?_, ?_⟩
  · rw [hu.out_num]; exact hs.sync.out_num
  · rw [hu.out_cur, hu.imn]
    have : cur_track_number s1 = cur_track_number s := by
      rw [cur_track_number_congr (set_in_track s t1) s1 hu.input (by rw [hu.imn]; rfl)]
      exact cur_track_number_set_in_track s t1
    rw [this]
    exact hs.sync.out_cur
  · intro i j t0 ht0 hact0
    rw [in_track_at_congr (set_in_track s t1) s1 hu.input, in_track_at_set_in_track] at ht0
    by_cases hij : i = s.input_movie_number ∧ j = cur_track_number s
    · rw [if_pos ⟨hij.1, hij.2, by rw [hcur]; rfl⟩] at ht0
      cases ht0
      rw [hij.1, hij.2, hctn, ← hc]
      refine ⟨o1, ?_, ?_⟩
      · rw [hu.out_track, at1_set1, if_pos ⟨rfl, by rw [ho]; rfl⟩]
      · rw [hu.events]; exact hok
    · rw [if_neg (fun h => hij ⟨h.1, h.2.1⟩)] at ht0
      obtain ⟨o0, ho0, hok0⟩ := hs.tracks i j t0 ht0 hact0
      have hne : active_before sh i j + 1 ≠ s.r.out_movie.current_track_number := by
        intro heq
        rw [hc] at heq
        have := active_before_inj sh s hs.sync.input.flags i j _ _ t0 t ht0
          (in_track_at_of_cur s m t hm ht) hact0 hact (by omega)
        exact hij ⟨this.1, by rw [hctn]; exact this.2⟩
      refine ⟨o0, ?_, ?_⟩
      · rw [hu.out_track, at1_set1, if_neg (fun h => hne h.1)]
        exact ho0
      · rw [hev _ hne]; exact hok0
  · intro k
    by_cases hk : k = s.r.out_movie.current_track_number
    · rw [hk, hu.events]; exact hsorted
    · rw [hev k hk]; exact hs.sorted k

end InvariantUpdates

/-! ## Lemmas: what a fetch, a drop and an append do to one track -/

section TrackSteps

variable {D : Type}

theorem inc32_lt (x : Nat) : inc32 x < U32 := by
  unfold inc32
  exact Nat.mod_lt _ (by decide)

theorem inc32_ne_zero {x : Nat} (hx : x < U32) (h : inc32 x ≠ 0) :
    x + 1 < U32 ∧ inc32 x = x + 1 := by
  have h1 : x + 1 < U32 := by
    by_contra hc
    have : x + 1 = U32 := by omega
    apply h
    unfold inc32
    rw [this, Nat.mod_self]
  exact ⟨h1, inc32_of_lt h1⟩

theorem adapt_description_index_fields (o : output_track_t) (t ta : input_track_t D)
    (raw pa : lsmash_sample_t) (h : adapt_description_index o t raw = some (ta, pa)) :
    ta.current_sample_number = t.current_sample_number ∧ ta.track_ID = t.track_ID
    ∧ ta.active = t.active ∧ ta.sample = t.sample ∧ pa.dts = raw.dts := by
  unfold adapt_description_index at h
  simp only [] at h
  cases hr : at1 o.summary_remap (clamp_description_index t.num_summaries raw.index) with
  | none => rw [hr] at h; cases h
  | some mapped =>
    rw [hr] at h
    simp only [] at h
    by_cases h0 : t.current_sample_index = 0
    · rw [if_pos h0] at h
      cases h
      exact ⟨rfl, rfl, rfl, rfl, rfl⟩
    · rw [if_neg h0] at h
      cases h
      exact ⟨rfl, rfl, rfl, rfl, rfl⟩

theorem sub64_of_le {a b : Nat} (hb : b ≤ a) (ha : a < U64) : sub64 a b + b = a := by
  unfold sub64
  have hb1 : b % U64 = b := Nat.mod_eq_of_lt (by omega)
  rw [hb1]
  have : a + U64 - b = (a - b) + U64 := by omega
  rw [this, Nat.add_mod_right, Nat.mod_eq_of_lt (by omega)]
  omega

theorem adjust_timestamp_spec (o : output_track_t) (p : lsmash_sample_t) :
    (adjust_timestamp o p).1.current_sample_number = o.current_sample_number
    ∧ (adjust_timestamp o p).1.skip_dt_interval
        = (if o.current_sample_number = 1 then p.dts else o.skip_dt_interval)
    ∧ ((adjust_timestamp o p).1.skip_dt_interval ≤ p.dts → p.dts < U64 →
        (adjust_timestamp o p).2.dts + (adjust_timestamp o p).1.skip_dt_interval = p.dts) := by
  by_cases h1 : o.current_sample_number = 1
  · by_cases h2 : p.dts = 0
    · have e : adjust_timestamp o p = ({ o with skip_dt_interval := p.dts }, p) := by
        simp [adjust_timestamp, h1, h2]
      rw [e]
      refine ⟨rfl, by rw [if_pos h1], fun _ _ => ?_⟩
      show p.dts + p.dts = p.dts
      omega
    · have e : adjust_timestamp o p
          = ({ o with skip_dt_interval := p.dts },
             { p with dts := sub64 p.dts p.dts, cts := sub64 p.cts p.dts }) := by
        simp [adjust_timestamp, h1, h2]
      rw [e]
      exact ⟨rfl, by rw [if_pos h1], fun hle hlt => sub64_of_le hle hlt⟩
  · by_cases h2 : o.skip_dt_interval = 0
    · have e : adjust_timestamp o p = (o, p) := by
        simp [adjust_timestamp, h1, h2]
      rw [e]
      refine ⟨rfl, by rw [if_neg h1], fun _ _ => ?_⟩
      show p.dts + o.skip_dt_interval = p.dts
      omega
    · have e : adjust_timestamp o p
          = (o, { p with dts := sub64 p.dts o.skip_dt_interval,
                         cts := sub64 p.cts o.skip_dt_interval }) := by
        simp [adjust_timestamp, h1, h2]
      rw [e]
      exact ⟨rfl, by rw [if_neg h1], fun hle hlt => sub64_of_le hle hlt⟩

theorem TrackOk_end (E : Engine) (i : Nat) (t : input_track_t D) (o : output_track_t)
    (log : List lsmash_sample_t) (h : TrackOk E i t o log) :
    TrackOk E i { t with sample := none, reach_end_of_media_timeline := true } o log := by
  refine ⟨h.in_lt, h.out_le, fun _ => rfl, h.fresh, ?_, ?_⟩
  · intro hp h0 n sm hn hsm
    rcases hp with hp | hp
    · exact h.ahead (Or.inl hp) h0 n sm hn hsm
    · exact absurd rfl hp
  · intro p hp
    cases hp

theorem TrackOk_fetch [C_double D] (E : Engine) (hE : increasing_timelines E) (i : Nat)
    (t ta : input_track_t D) (o : output_track_t) (log : List lsmash_sample_t)
    (raw pa : lsmash_sample_t) (d : D) (h : TrackOk E i t o log)
    (hraw : E.get_sample_from_media_timeline i t.track_ID t.current_sample_number = some raw)
    (had : adapt_description_index o t raw = some (ta, pa)) :
    TrackOk E i { ta with sample := some (adjust_timestamp o pa).2, dts := d }
      (adjust_timestamp o pa).1 log := by
  obtain ⟨hcsn, htid, _, _, hdts⟩ := adapt_description_index_fields o t ta raw pa had
  obtain ⟨hz, hb, hmono⟩ := hE
  obtain ⟨ho1, hskip, hsub⟩ := adjust_timestamp_spec o pa
  have h0 : t.current_sample_number ≠ 0 := by
    intro h0
    rw [h0, hz] at hraw
    cases hraw
  have hahead : ∀ n sm, t.current_sample_number ≤ n →
      E.get_sample_from_media_timeline i t.track_ID n = some sm →
      (adjust_timestamp o pa).1.skip_dt_interval ≤ sm.dts
      ∧ ∀ a ∈ log, a.dts + (adjust_timestamp o pa).1.skip_dt_interval < sm.dts := by
    intro n sm hn hsm
    rw [hskip]
    by_cases h1 : o.current_sample_number = 1
    · rw [if_pos h1, h.fresh h1, hdts]
      refine ⟨?_, fun a ha => by cases ha⟩
      by_cases hn1 : n = t.current_sample_number
      · rw [hn1, hraw] at hsm
        cases hsm
        exact Nat.le_refl _
      · exact Nat.le_of_lt (hmono i t.track_ID _ n raw sm (by omega) hraw hsm)
    · rw [if_neg h1]
      exact h.ahead (Or.inl h1) h0 n sm hn hsm
  refine ⟨?_, ?_, ?_, ?_, ?_, ?_⟩
  · show ta.current_sample_number < U32
    rw [hcsn]; exact h.in_lt
  · show ta.current_sample_number ≠ 0 → _
    rw [hcsn, ho1]; exact h.out_le
  · show ta.current_sample_number = 0 → _
    rw [hcsn]
    intro hc
    exact absurd hc h0
  · rw [ho1]; exact h.fresh
  · show _ → ta.current_sample_number ≠ 0 → ∀ n sm, ta.current_sample_number ≤ n →
      E.get_sample_from_media_timeline i ta.track_ID n = some sm → _
    rw [hcsn, htid]
    intro _ _
    exact hahead
  · show ∀ p, some (adjust_timestamp o pa).2 = some p →
      ∃ sm, E.get_sample_from_media_timeline i ta.track_ID ta.current_sample_number = some sm
        ∧ _
    rw [hcsn, htid]
    intro p hp
    cases hp
    refine ⟨raw, hraw, ?_⟩
    rw [← hdts]
    apply hsub
    · rw [hdts]; exact (hahead _ raw (Nat.le_refl _) hraw).1
    · rw [hdts]; exact hb i t.track_ID _ raw hraw

theorem TrackOk_drop (E : Engine) (i : Nat) (t : input_track_t D) (o : output_track_t)
    (log : List lsmash_sample_t) (p : lsmash_sample_t) (h : TrackOk E i t o log)
    (hp : t.sample = some p) :
    TrackOk E i { t with sample := none,
                         current_sample_number := inc32 t.current_sample_number } o log := by
  have h0 : t.current_sample_number ≠ 0 := by
    intro h0
    rw [h.wrapped h0] at hp
    cases hp
  refine ⟨inc32_lt _, ?_, fun _ => rfl, h.fresh, ?_, ?_⟩
  · intro hne
    obtain ⟨_, heq⟩ := inc32_ne_zero h.in_lt hne
    show 1 ≤ o.current_sample_number ∧ o.current_sample_number ≤ inc32 t.current_sample_number
    rw [heq]
    have := h.out_le h0
    omega
  · intro hq hne n sm hn hsm
    obtain ⟨_, heq⟩ := inc32_ne_zero h.in_lt hne
    have hn1 : inc32 t.current_sample_number ≤ n := hn
    rw [heq] at hn1
    rcases hq with hq | hq
    · exact h.ahead (Or.inl hq) h0 n sm (by omega) hsm
    · exact absurd rfl hq
  · intro q hq
    cases hq

theorem TrackOk_append (E : Engine) (hE : increasing_timelines E) (i : Nat)
    (t : input_track_t D) (o : output_track_t) (log : List lsmash_sample_t)
    (p : lsmash_sample_t) (x y : Nat) (h : TrackOk E i t o log) (hlog : dts_increasing log)
    (hp : t.sample = some p) :
    TrackOk E i { t with sample := none,
                         current_sample_number := inc32 t.current_sample_number,
                         current_sample_index := x }
      { o with current_sample_number := inc32 o.current_sample_number,
               last_sample_dts := y } (log ++ [p])
    ∧ dts_increasing (log ++ [p]) := by
  obtain ⟨_, _, hmono⟩ := hE
  have h0 : t.current_sample_number ≠ 0 := by
    intro h0
    rw [h.wrapped h0] at hp
    cases hp
  obtain ⟨raw, hraw, hpd⟩ := h.pending p hp
  have hold := h.ahead (Or.inr (by rw [hp]; exact fun hc => by cases hc)) h0
  have hle := h.out_le h0
  have hin := h.in_lt
  refine ⟨⟨inc32_lt _, ?_, fun _ => rfl, ?_, ?_, ?_⟩, ?_⟩
  · intro hne
    obtain ⟨hlt, heq⟩ := inc32_ne_zero h.in_lt hne
    show 1 ≤ inc32 o.current_sample_number
      ∧ inc32 o.current_sample_number ≤ inc32 t.current_sample_number
    rw [heq, inc32_of_lt (by omega)]
    omega
  · intro h1
    exfalso
    have h1x : inc32 o.current_sample_number = 1 := h1
    by_cases hc : o.current_sample_number + 1 < U32
    · rw [inc32_of_lt hc] at h1x
      omega
    · have : o.current_sample_number + 1 = U32 := by omega
      unfold inc32 at h1x
      rw [this, Nat.mod_self] at h1x
      cases h1x
  · intro _ hne n sm hn hsm
    obtain ⟨_, heq⟩ := inc32_ne_zero h.in_lt hne
    have hn1 : inc32 t.current_sample_number ≤ n := hn
    rw [heq] at hn1
    have hsm1 : E.get_sample_from_media_timeline i t.track_ID n = some sm := hsm
    have hlt := hmono i t.track_ID _ n raw sm (by omega) hraw hsm1
    obtain ⟨_, hb⟩ := hold n sm (by omega) hsm1
    show o.skip_dt_interval ≤ sm.dts ∧ ∀ a ∈ log ++ [p], a.dts + o.skip_dt_interval < sm.dts
    refine ⟨by omega, ?_⟩
    intro a ha
    rcases List.mem_append.1 ha with ha | ha
    · exact hb a ha
    · rw [List.mem_singleton] at ha
      rw [ha]
      omega
  · intro q hq
    cases hq
  · unfold dts_increasing
    rw [List.pairwise_append]
    refine ⟨hlog, List.pairwise_singleton _ _, ?_⟩
    intro a ha b hb
    rw [List.mem_singleton] at hb
    rw [hb]
    have := (hold _ raw (Nat.le_refl _) hraw).2 a ha
    omega

end TrackSteps

/-! ## Lemmas: every pass of the loop keeps the invariant -/

section CursorTrack

variable {D : Type}

theorem Inv_cur_track [C_double D] (E : Engine) (sh : List (List Bool)) (s : State D)
    (t : input_track_t D) (hs : Inv E sh s) (hcur : cur_in_track s = some t)
    (hact : t.active = true) :
    ∃ m o, cur_in_movie s = some m ∧ at1 m.track m.current_track_number = some t
      ∧ cur_out_track s = some o
      ∧ TrackOk E s.input_movie_number t o
          (appended s.r.events s.r.out_movie.current_track_number) := by
  obtain ⟨m, hm, ht⟩ := cur_in_track_some s t hcur
  obtain ⟨o, ho, hok⟩ := hs.tracks _ _ t (in_track_at_of_cur s m t hm ht) hact
  rw [← out_cursor_of_active sh s m t hs.sync hm ht hact] at ho hok
  exact ⟨m, o, hm, ht, ho, hok⟩

theorem Inv_move_next_cur [C_double D] (E : Engine) (sh : List (List Bool)) (s : State D)
    (t : input_track_t D) (hs : Inv E sh s) (hcur : cur_in_track s = some t)
    (hact : t.active = true) : Inv E sh (move_next s) := by
  obtain ⟨m, hm, ht⟩ := cur_in_track_some s t hcur
  exact Inv_move_next E sh s m t hs hm ht hact

/-- A store through `in_track` alone, with recorded calls that are no appends. -/
theorem Inv_set_in_track [C_double D] (E : Engine) (sh : List (List Bool)) (s s1 : State D)
    (t t1 : input_track_t D) (new : List Event) (hs : Inv E sh s)
    (hcur : cur_in_track s = some t) (hact : t.active = true) (hact1 : t1.active = true)
    (hnew : no_append new)
    (hinput : s1.r.input = (set_in_track s t1).r.input)
    (himn : s1.input_movie_number = s.input_movie_number)
    (hnum : s1.r.num_input = s.r.num_input)
    (hout : s1.r.out_movie = s.r.out_movie)
    (hev : s1.r.events = s.r.events ++ new)
    (hok : ∀ o log, TrackOk E s.input_movie_number t o log →
      TrackOk E s.input_movie_number t1 o log) :
    Inv E sh s1 ∧ cur_in_track s1 = some t1 := by
  obtain ⟨m, o, hm, ht, ho, hto⟩ := Inv_cur_track E sh s t hs hcur hact
  have happ : ∀ k, appended (s.r.events ++ new) k = appended s.r.events k :=
    fun k => appended_append_of_no_append _ _ _ hnew
  refine ⟨Inv_updated E sh s s1 m t t1 o new hs hm ht hact hact1
    ⟨hinput, himn, hnum, by rw [hout], by rw [hout], ?_, hev⟩ ?_ ?_ ?_, ?_⟩
  · rw [hout]
    exact (set1_self ho).symm
  · intro k _
    exact appended_of_no_append new k hnew
  · rw [happ]
    exact hok o _ hto
  · rw [happ]
    exact hs.sorted _
  · have h1 := cur_in_track_set_in_track s t t1 hcur
    unfold cur_in_track at h1 ⊢
    rw [hinput, himn]
    exact h1

end CursorTrack

section FetchAppend

variable {D : Type}

theorem Inv_fetch [C_double D] (E : Engine) (hE : increasing_timelines E) (sh : List (List Bool))
    (s s1 : State D) (t t1 : input_track_t D) (p : lsmash_sample_t) (hs : Inv E sh s)
    (hcur : cur_in_track s = some t) (hact : t.active = true)
    (hf : fetch_sample E s t = Fetched.sample s1 t1 p) :
    Inv E sh s1 ∧ cur_in_track s1 = some t1 ∧ t1.active = true ∧ t1.sample = some p := by
  obtain ⟨hsample, hcur1, _⟩ := fetch_sample_frame E s s1 t t1 p hcur hf
  rcases fetch_sample_sample E s s1 t t1 p hf with
    ⟨rfl, rfl, _⟩ | ⟨raw, o, ta, pa, hnone, hraw, ho, had, hp, ht1, hs1⟩
  · exact ⟨hs, hcur, hact, hsample⟩
  · obtain ⟨m, o0, hm, ht, ho0, hto⟩ := Inv_cur_track E sh s t hs hcur hact
    rw [ho] at ho0
    cases ho0
    have hact1 : t1.active = true := by
      rw [ht1]
      show ta.active = true
      rw [(adapt_description_index_fields o t ta raw pa had).2.2.1]
      exact hact
    refine ⟨?_, hcur1, hact1, hsample⟩
    refine Inv_updated E sh s s1 m t t1 (adjust_timestamp o pa).1 [] hs hm ht hact hact1
      ?_ (fun _ _ => rfl) ?_ ?_
    · rw [hs1]
      exact ⟨rfl, rfl, rfl, rfl, rfl, rfl, (List.append_nil _).symm⟩
    · rw [List.append_nil, ht1, hp]
      exact TrackOk_fetch E hE _ t ta o _ raw pa _ hto hraw had
    · rw [List.append_nil]
      exact hs.sorted _

theorem set_in_track_input_congr (s s0 : State D) (t : input_track_t D)
    (h1 : s0.r.input = s.r.input) (h2 : s0.input_movie_number = s.input_movie_number) :
    (set_in_track s0 t).r.input = (set_in_track s t).r.input := by
  simp only [set_in_track, store_in_movie, cur_in_movie, h1, h2]

theorem cur_in_track_congr (s s0 : State D)
    (h1 : s0.r.input = s.r.input) (h2 : s0.input_movie_number = s.input_movie_number) :
    cur_in_track s0 = cur_in_track s := by
  unfold cur_in_track
  rw [h1, h2]

theorem Inv_append [C_double D] (E : Engine) (hE : increasing_timelines E) (sh : List (List Bool))
    (s s0 : State D) (t : input_track_t D) (o : output_track_t) (p : lsmash_sample_t)
    (hs : Inv E sh s) (hcur : cur_in_track s = some t) (hact : t.active = true)
    (hp : t.sample = some p) (ho : cur_out_track s = some o)
    (h0 : s0.r = (s.log [Event.append_sample s.r.out_movie.current_track_number p]).r)
    (h0i : s0.input_movie_number = s.input_movie_number) :
    Inv E sh (move_next
      (set_out_track
        (set_in_track s0
          { t with sample := none,
                   current_sample_number := inc32 t.current_sample_number,
                   current_sample_index := p.index })
        { o with current_sample_number := inc32 o.current_sample_number,
                 last_sample_dts := p.dts })) := by
  obtain ⟨m, o0, hm, ht, ho0, hto⟩ := Inv_cur_track E sh s t hs hcur hact
  rw [ho] at ho0
  cases ho0
  have hr_in : s0.r.input = s.r.input := by rw [h0]; rfl
  have hr_num : s0.r.num_input = s.r.num_input := by rw [h0]; rfl
  have hr_out : s0.r.out_movie = s.r.out_movie := by rw [h0]; rfl
  have hr_ev : s0.r.events
      = s.r.events ++ [Event.append_sample s.r.out_movie.current_track_number p] := by
    rw [h0]; rfl
  have hlog : appended
      (s.r.events ++ [Event.append_sample s.r.out_movie.current_track_number p])
      s.r.out_movie.current_track_number
      = appended s.r.events s.r.out_movie.current_track_number ++ [p] := by
    rw [appended_append]
    simp [appended]
  obtain ⟨hok, hsorted⟩ := TrackOk_append E hE _ t o _ p p.index p.dts hto (hs.sorted _) hp
  have h1 : Inv E sh
      (set_out_track
        (set_in_track s0
          { t with sample := none,
                   current_sample_number := inc32 t.current_sample_number,
                   current_sample_index := p.index })
        { o with current_sample_number := inc32 o.current_sample_number,
                 last_sample_dts := p.dts }) := by
    refine Inv_updated E sh s _ m t
      { t with sample := none,
               current_sample_number := inc32 t.current_sample_number,
               current_sample_index := p.index }
      { o with current_sample_number := inc32 o.current_sample_number,
               last_sample_dts := p.dts }
      [Event.append_sample s.r.out_movie.current_track_number p] hs hm ht hact hact
      ⟨?_, h0i, hr_num, ?_, ?_, ?_, hr_ev⟩ ?_ ?_ ?_
    · exact set_in_track_input_congr s s0 _ hr_in h0i
    · show s0.r.out_movie.num_tracks = _
      rw [hr_out]
    · show s0.r.out_movie.current_track_number = _
      rw [hr_out]
    · show set1 s0.r.out_movie.track s0.r.out_movie.current_track_number _ = _
      rw [hr_out]
    · intro k hk
      simp only [appended, List.filterMap_cons, List.filterMap_nil]
      rw [if_neg (fun h => hk h.symm)]
    · rw [hlog]
      exact hok
    · rw [hlog]
      exact hsorted
  refine Inv_move_next_cur E sh _
    { t with sample := none,
             current_sample_number := inc32 t.current_sample_number,
             current_sample_index := p.index } h1 ?_ hact
  rw [cur_in_track_set_out_track]
  exact cur_in_track_set_in_track s0 t _ (by rw [cur_in_track_congr s s0 hr_in h0i]; exact hcur)

theorem Inv_append_or_skip [C_double D] (E : Engine) (hE : increasing_timelines E) (sh : List (List Bool))
    (s : State D) (t : input_track_t D) (p : lsmash_sample_t) (hs : Inv E sh s)
    (hcur : cur_in_track s = some t) (hact : t.active = true) (hp : t.sample = some p) :
    ∀ s1, (append_or_skip E s t p).state? = some s1 → Inv E sh s1 := by
  apply append_or_skip_cases E s t p (fun o => ∀ s1, o.state? = some s1 → Inv E sh s1)
  · intro s1 h
    cases h
  · intro _ s1 h
    simp only [Outcome.state?, Option.some.injEq] at h
    subst h
    have h1 : Inv E sh { s with
        num_consecutive_sample_skip := inc32 s.num_consecutive_sample_skip } :=
      Inv_logged E sh s _ [] ⟨rfl, rfl, rfl, rfl, (List.append_nil _).symm⟩ no_append_nil hs
    exact Inv_move_next_cur E sh _ t h1 hcur hact
  · intro _ _ s1 h
    simp only [Outcome.state?, Option.some.injEq] at h
    subst h
    have h1 := Inv_set_in_track E sh s
      (set_in_track (s.log [Event.delete_sample p])
        { t with sample := none, current_sample_number := inc32 t.current_sample_number })
      t { t with sample := none, current_sample_number := inc32 t.current_sample_number }
      [Event.delete_sample p] hs hcur hact hact
      (by
        intro e he k q hc
        rw [List.mem_singleton] at he
        rw [he] at hc
        cases hc)
      rfl rfl rfl rfl rfl
      (fun o log hto => TrackOk_drop E _ t o log p hto hp)
    exact Inv_move_next_cur E sh _
      { t with sample := none, current_sample_number := inc32 t.current_sample_number }
      h1.1 h1.2 hact
  · intro o _ _ _ _ s1 h
    simp only [Outcome.state?, Option.some.injEq] at h
    subst h
    refine Inv_logged E sh s _ _ ⟨rfl, rfl, rfl, rfl, rfl⟩ ?_ hs
    intro e he k q hc
    simp only [List.mem_cons, List.mem_singleton, List.not_mem_nil, or_false] at he
    rcases he with he | he | he <;> rw [he] at hc <;> cases hc
  · intro o _ _ ho _ s1 h
    simp only [Outcome.state?, Option.some.injEq] at h
    subst h
    exact Inv_append E hE sh s _ t o p hs hcur hact hp ho rfl rfl

end FetchAppend

section StepInvariant

variable {D : Type}

theorem Inv_handle_pending_sample [C_double D] (E : Engine) (hE : increasing_timelines E)
    (sh : List (List Bool)) (s : State D) (t : input_track_t D) (p : lsmash_sample_t)
    (hs : Inv E sh s) (hcur : cur_in_track s = some t) (hact : t.active = true)
    (hp : t.sample = some p) :
    ∀ s1, (handle_pending_sample E s t p).state? = some s1 → Inv E sh s1 := by
  have hframe : ∀ s2, (fragment_control E s t p).state? = some s2 →
      Inv E sh s2 ∧ cur_in_track s2 = cur_in_track s := by
    intro s2 h2
    obtain ⟨new, a, b, c, d, rfl, hnew⟩ := fragment_control_frame E s s2 t p h2
    exact ⟨Inv_logged E sh s _ new ⟨rfl, rfl, rfl, rfl, rfl⟩ hnew hs, rfl⟩
  intro s1 h
  unfold handle_pending_sample at h
  cases hfc : fragment_control E s t p with
  | next s2 =>
    rw [hfc] at h hframe
    simp only [] at h
    obtain ⟨h2, hc2⟩ := hframe s2 rfl
    exact Inv_append_or_skip E hE sh s2 t p h2 (by rw [hc2]; exact hcur) hact hp s1 h
  | brk s2 =>
    rw [hfc] at h hframe
    exact (hframe s1 h).1
  | ret v s2 =>
    rw [hfc] at h hframe
    exact (hframe s1 h).1
  | undef =>
    rw [hfc] at h
    cases h

theorem Inv_no_sample [C_double D] (E : Engine) (sh : List (List Bool)) (s : State D)
    (t : input_track_t D) (o : Outcome (State D)) (hs : Inv E sh s)
    (hcur : cur_in_track s = some t) (hact : t.active = true)
    (hf : fetch_sample E s t = Fetched.no_sample o) :
    ∀ s1, o.state? = some s1 → Inv E sh s1 := by
  have hend : ∀ s0 : State D, s0.r = (set_in_track s { t with
        sample := none, reach_end_of_media_timeline := true }).r →
      s0.input_movie_number = s.input_movie_number →
      Inv E sh s0 ∧ cur_in_track s0 = some { t with
        sample := none, reach_end_of_media_timeline := true } := by
    intro s0 h0 h0i
    exact Inv_set_in_track E sh s s0 t
      { t with sample := none, reach_end_of_media_timeline := true } [] hs hcur hact hact
      no_append_nil (by rw [h0]) h0i (by rw [h0]; rfl) (by rw [h0]; rfl)
      (by rw [h0]; exact (List.append_nil _).symm)
      (fun o log hto => TrackOk_end E _ t o log hto)
  intro s1 h
  rcases fetch_sample_no_sample E s t o hf with
    rfl | ⟨rfl, _⟩ | ⟨_, _, _, _, ⟨_, rfl⟩ | ⟨_, rfl⟩⟩
  · cases h
  · simp only [Outcome.state?, Option.some.injEq] at h
    subst h
    refine Inv_logged E sh s _ _ ⟨rfl, rfl, rfl, rfl, rfl⟩ ?_ hs
    intro e he k q hc
    rw [List.mem_singleton] at he
    rw [he] at hc
    cases hc
  · simp only [Outcome.state?, Option.some.injEq] at h
    subst h
    exact (hend { set_in_track s { t with
        sample := none, reach_end_of_media_timeline := true } with
      num_active_input_tracks := dec32 s.num_active_input_tracks } rfl rfl).1
  · simp only [Outcome.state?, Option.some.injEq] at h
    subst h
    obtain ⟨h1, h2⟩ := hend { set_in_track s { t with
        sample := none, reach_end_of_media_timeline := true } with
      num_active_input_tracks := dec32 s.num_active_input_tracks } rfl rfl
    exact Inv_move_next_cur E sh _
      { t with sample := none, reach_end_of_media_timeline := true } h1 h2 hact

theorem Inv_step [C_double D] (E : Engine) (hE : increasing_timelines E) (sh : List (List Bool))
    (s s1 : State D) (hs : Inv E sh s) (h : (step E s).state? = some s1) : Inv E sh s1 := by
  revert s1
  apply step_cases E s (fun o => ∀ s1, o.state? = some s1 → Inv E sh s1)
  · intro s1 h
    cases h
  · intro m t hm ht hact s1 h
    simp only [Outcome.state?, Option.some.injEq] at h
    subst h
    exact Inv_move_next_input E sh s m t hs hm ht hact
  · intro m t hm ht hact _ s1 h
    simp only [Outcome.state?, Option.some.injEq] at h
    subst h
    exact Inv_move_next E sh s m t hs hm ht hact
  · intro m t s1 t1 p hm ht hact _ hf
    have hcur : cur_in_track s = some t := by
      rw [cur_in_track_eq s m hm]; exact ht
    obtain ⟨h1, hc1, ha1, hp1⟩ := Inv_fetch E hE sh s s1 t t1 p hs hcur hact hf
    exact Inv_handle_pending_sample E hE sh s1 t1 p h1 hc1 ha1 hp1
  · intro m t o hm ht hact _ hf
    have hcur : cur_in_track s = some t := by
      rw [cur_in_track_eq s m hm]; exact ht
    exact Inv_no_sample E sh s t o hs hcur hact hf

end StepInvariant

/-! ## Theorem: appended DTS values are strictly increasing -/

section InitialInvariant

variable {D : Type}

theorem mem_of_at1 {α : Type} {l : List α} {n : Nat} {x : α} (h : at1 l n = some x) :
    x ∈ l := by
  unfold at1 at h
  by_cases hn : n = 0
  · rw [if_pos hn] at h; cases h
  · rw [if_neg hn] at h
    obtain ⟨hl, he⟩ := List.getElem?_eq_some_iff.1 h
    rw [← he]
    exact List.getElem_mem hl

theorem at1_of_le {α : Type} (l : List α) (n : Nat) (h1 : 1 ≤ n) (h2 : n ≤ l.length) :
    ∃ x, at1 l n = some x := by
  unfold at1
  rw [if_neg (by omega)]
  have : n - 1 < l.length := by omega
  exact ⟨_, List.getElem?_eq_getElem this⟩

theorem Inv_initial [C_double D] (E : Engine) (r : remuxer_t D) (hr : prepared r) (hne : r.input ≠ []) :
    Inv E (active_flags r.input) (initial_state r) := by
  obtain ⟨h1, h2, h3, h4, h5, h6, h7, h8, h9⟩ := hr
  have hlen : 1 ≤ r.input.length := by
    cases hi : r.input with
    | nil => exact absurd hi hne
    | cons a l => simp
  have hflags : active_flags (initial_state r).r.input = active_flags r.input := rfl
  refine ⟨⟨⟨rfl, h1, h2, Nat.le_refl 1, hlen, ?_⟩, h4, by rw [← h4]; exact h6, ?_⟩, ?_, ?_⟩
  · intro i m hm
    obtain ⟨a, b, c, _⟩ := h3 m (mem_of_at1 hm)
    exact ⟨a, b, by rw [c], fun _ => c⟩
  · obtain ⟨m, hm⟩ := at1_of_le r.input 1 (Nat.le_refl 1) hlen
    have hc : cur_track_number (initial_state r) = 1 := by
      unfold cur_track_number
      show (match at1 r.input 1 with | none => 0 | some m => m.current_track_number) = 1
      rw [hm]
      exact (h3 m (mem_of_at1 hm)).2.2.1
    rw [hc]
    show r.out_movie.current_track_number = active_before (active_flags r.input) 1 1
      % count_active (active_flags r.input) + 1
    have : active_before (active_flags r.input) 1 1 = 0 := by
      unfold active_before
      exact active_before0_zero _
    rw [this, h7, Nat.zero_mod]
  · intro i j t ht hact
    have hlt := active_before_lt_total (active_flags r.input) (initial_state r) hflags
      i j t ht hact
    obtain ⟨o, ho⟩ := at1_of_le r.out_movie.track (active_before (active_flags r.input) i j + 1)
      (by omega) (by rw [← h4] at hlt; omega)
    have ho1 : o.current_sample_number = 1 := by
      apply h8 o
      have hpos := (at1_some_pos ho).1
      unfold at1 at ho
      rw [if_neg (by omega)] at ho
      have hlt2 : active_before (active_flags r.input) i j + 1 - 1 < r.out_movie.num_tracks := by
        rw [h4]; omega
      have : (r.out_movie.track.take r.out_movie.num_tracks)[
          active_before (active_flags r.input) i j + 1 - 1]? = some o := by
        rw [List.getElem?_take_of_lt hlt2]
        exact ho
      obtain ⟨hl, he⟩ := List.getElem?_eq_some_iff.1 this
      rw [← he]
      exact List.getElem_mem hl
    have htm : ∃ m ∈ r.input, t ∈ m.track := by
      unfold in_track_at at ht
      cases hm : at1 (initial_state r).r.input i with
      | none => rw [hm] at ht; cases ht
      | some m =>
        rw [hm] at ht
        exact ⟨m, mem_of_at1 hm, mem_of_at1 ht⟩
    obtain ⟨m, hm, htin⟩ := htm
    obtain ⟨hsn, hcs2⟩ := (h3 m hm).2.2.2 t htin
    have hlog : appended (initial_state r).r.events
        (active_before (active_flags r.input) i j + 1) = [] := by
      show appended r.events _ = []
      rw [h9]
      rfl
    refine ⟨o, ho, ⟨hcs2, fun hne => ⟨by omega, by omega⟩, fun _ => hsn, fun _ => hlog, ?_, ?_⟩⟩
    · intro hq
      rcases hq with hq | hq
      · exact absurd ho1 hq
      · exact absurd hsn hq
    · intro p hp
      rw [hsn] at hp
      cases hp
  · intro k
    show dts_increasing (appended r.events k)
    rw [h9]
    exact List.Pairwise.nil

theorem final_flush_frame (E : Engine) (is : List Nat) :
    ∀ (r r1 : remuxer_t D) (v : Int), final_flush E is r = some (v, r1) →
      ∃ new, r1.events = r.events ++ new ∧ no_append new := by
  induction is with
  | nil =>
    intro r r1 v h
    simp only [final_flush, Option.some.injEq, Prod.mk.injEq] at h
    obtain ⟨_, rfl⟩ := h
    exact ⟨[], (List.append_nil _).symm, no_append_nil⟩
  | cons i is ih =>
    intro r r1 v h
    simp only [final_flush] at h
    cases ho : r.out_movie.track[i]? with
    | none => rw [ho] at h; cases h
    | some o =>
      rw [ho] at h
      simp only [] at h
      by_cases hf : E.flush_pooled_samples r.events o.track_ID o.last_sample_delta = false
      · rw [if_pos hf] at h
        simp only [Option.some.injEq, Prod.mk.injEq] at h
        obtain ⟨_, rfl⟩ := h
        refine ⟨_, rfl, ?_⟩
        intro e he k q hc
        simp only [List.mem_cons, List.mem_singleton, List.not_mem_nil, or_false] at he
        rcases he with he | he <;> rw [he] at hc <;> cases hc
      · rw [if_neg hf] at h
        obtain ⟨new, hnew, hno⟩ := ih _ r1 v h
        refine ⟨[Event.flush_pooled_samples o.track_ID o.last_sample_delta true] ++ new, ?_, ?_⟩
        · rw [hnew]
          simp only [remuxer_t.log, List.append_assoc]
        · apply no_append_append _ hno
          intro e he k q hc
          rw [List.mem_singleton] at he
          rw [he] at hc
          cases hc

theorem run_dts_increasing [C_double D] (E : Engine) (r : remuxer_t D) (n : Nat) (s : State D) (k : Nat)
    (hr : prepared r) (hE : increasing_timelines E)
    (hs : (run E n (initial_state r)).state? = some s) :
    dts_increasing (appended s.r.events k) := by
  by_cases hne : r.input = []
  · have hst : step E (initial_state r) = Outcome.undef := by
      unfold step cur_in_movie
      show (match at1 r.input 1 with
        | none => Outcome.undef
        | some in_movie => _) = Outcome.undef
      rw [hne]
      rfl
    cases n with
    | zero =>
      simp only [run, Outcome.state?, Option.some.injEq] at hs
      subst hs
      show dts_increasing (appended r.events k)
      rw [hr.2.2.2.2.2.2.2.2]
      exact List.Pairwise.nil
    | succ n =>
      simp only [run, hst, Outcome.state?] at hs
      cases hs
  · have hinv := run_invariant E (Inv E (active_flags r.input))
      (fun s s1 h1 h2 => Inv_step E hE _ s s1 h1 h2) n (initial_state r) s
      (Inv_initial E r hr hne) hs
    exact hinv.sorted k

theorem list_engine_increasing (timeline : Nat → Nat → List lsmash_sample_t)
    (unreadable : Nat → Nat → Nat → Bool)
    (h : ∀ root tid, dts_increasing (timeline root tid)
      ∧ ∀ sm ∈ timeline root tid, sm.dts < U64) :
    increasing_timelines (list_engine timeline unreadable) := by
  have hget : ∀ i tid n sm,
      (list_engine timeline unreadable).get_sample_from_media_timeline i tid n = some sm →
      at1 (timeline i tid) n = some sm := by
    intro i tid n sm hsm
    simp only [list_engine] at hsm
    by_cases hu : unreadable i tid n = true
    · rw [if_pos hu] at hsm; cases hsm
    · rw [if_neg hu] at hsm; exact hsm
  refine ⟨?_, ?_, ?_⟩
  · intro i tid
    simp only [list_engine, at1]
    split_ifs <;> rfl
  · intro i tid n sm hsm
    exact (h i tid).2 sm (mem_of_at1 (hget i tid n sm hsm))
  · intro i tid a b sa sb hab ha hb
    have ha1 := hget i tid a sa ha
    have hb1 := hget i tid b sb hb
    have hapos := (at1_some_pos ha1).1
    unfold at1 at ha1 hb1
    rw [if_neg (by omega)] at ha1 hb1
    obtain ⟨hal, hae⟩ := List.getElem?_eq_some_iff.1 ha1
    obtain ⟨hbl, hbe⟩ := List.getElem?_eq_some_iff.1 hb1
    have := List.pairwise_iff_getElem.1 (h i tid).1 (a - 1) (b - 1) hal hbl (by omega)
    rw [hae, hbe] at this
    exact this

end InitialInvariant

theorem two_track_prepared : prepared two_track_remuxer := by
  unfold prepared
  decide

theorem two_track_increasing : increasing_timelines two_track_engine := by
  apply list_engine_increasing
  intro _ _
  unfold dts_increasing
  decide

/-- C1. For every output track `k`, the DTS values of the samples that
`do_remux` has appended to it (after `adjust_timestamp`) are strictly
increasing in append order: after any number `n` of passes through the loop,
however the last pass ended, and in the record that `do_remux` returns.  This
holds for any engine whose media timelines have strictly increasing DTS values
(sample numbers starting at 1, DTS values below 2^64), for any remuxer as
`get_movie` and `prepare_output` leave it, with any number of input movies and
tracks, inactive tracks that `get_movie` could not read and left zero-filled
included, any fragmentation settings and any remap tables (samples mapped to
description 0 are dropped). -/
theorem appended_dts_strictly_increasing {D : Type} [C_double D] (E : Engine)
    (r : remuxer_t D) (n : Nat) (s : State D) (k : Nat)
    (hr : prepared r) (hE : increasing_timelines E)
    (hs : (run E n (initial_state r)).state? = some s) :
    List.Pairwise (fun a b => a.dts < b.dts) (appended s.r.events k)
    ∧ ∀ v r1, do_remux E n r = some (v, r1) →
        List.Pairwise (fun a b => a.dts < b.dts) (appended r1.events k) := by
  have h1 := run_dts_increasing E r n s k hr hE hs
  refine ⟨h1, ?_⟩
  intro v r1 hd
  unfold do_remux at hd
  cases hrun : run E n (initial_state r) with
  | next s1 => rw [hrun] at hd; cases hd
  | undef => rw [hrun] at hd; cases hd
  | ret v1 s1 =>
    rw [hrun] at hd hs
    simp only [Option.some.injEq, Prod.mk.injEq] at hd
    simp only [Outcome.state?, Option.some.injEq] at hs
    obtain ⟨_, rfl⟩ := hd
    rw [hs]
    exact h1
  | brk s1 =>
    rw [hrun] at hd hs
    simp only [Outcome.state?, Option.some.injEq] at hs
    simp only [] at hd
    obtain ⟨new, hnew, hno⟩ := final_flush_frame E _ _ r1 v hd
    rw [hnew, appended_append_of_no_append _ _ _ hno, hs]
    exact h1

theorem appended_dts_strictly_increasing_witness :
    prepared gap_remuxer
    ∧ increasing_timelines two_track_engine
    ∧ (run two_track_engine 16 (initial_state gap_remuxer)).state? = some (gap_state 16)
    ∧ (appended (gap_state 16).r.events 1).map (fun a => a.dts) = [0, 10]
    ∧ (List.Pairwise (fun a b => a.dts < b.dts) (appended (gap_state 16).r.events 1)
      ∧ ∀ v r1, do_remux two_track_engine 16 gap_remuxer = some (v, r1) →
          List.Pairwise (fun a b => a.dts < b.dts) (appended r1.events 1)) :=
  ⟨by unfold prepared; decide, two_track_increasing, rfl, by decide,
   appended_dts_strictly_increasing two_track_engine gap_remuxer 16
     (gap_state 16) 1 (by unfold prepared; decide) two_track_increasing rfl⟩

/-! ## Lemmas: the two DTS loops of `edit_media_timeline` -/

theorem for_loop_range' {σ : Type} (step : σ → Nat → Ret σ) (P : Nat → σ → Prop) :
    ∀ (m a : Nat) (st : σ), P a st →
      (∀ i st, a ≤ i → i < a + m → P i st → ∃ st1, step st i = Ret.ok st1 ∧ P (i + 1) st1) →
      ∃ st1, for_loop step (List.range' a m) st = Ret.ok st1 ∧ P (a + m) st1 := by
  intro m
  induction m with
  | zero =>
    intro a st h _
    exact ⟨st, rfl, h⟩
  | succ m ih =>
    intro a st h hstep
    obtain ⟨st1, hs1, hp1⟩ := hstep a st (Nat.le_refl a) (by omega) h
    obtain ⟨st2, hs2, hp2⟩ := ih (a + 1) st1 hp1
      (fun i st hi hlt hp => hstep i st (by omega) (by omega) hp)
    refine ⟨st2, ?_, ?_⟩
    · rw [List.range'_succ]
      simp only [for_loop, hs1]
      exact hs2
    · rw [show a + (m + 1) = a + 1 + m by omega]
      exact hp2

theorem mod_ne_of_lt {D i j : Nat} (h1 : j < i) (h2 : i < j + D) : j % D ≠ i % D := by
  intro h
  have hd : (i - j) % D = 0 := Nat.sub_mod_eq_zero_of_mod_eq h.symm
  have hlt : i - j < D := by omega
  rw [Nat.mod_eq_of_lt hlt] at hd
  omega

theorem map_cts_set_dts (l : List lsmash_media_ts_t) (i : Nat) (t : lsmash_media_ts_t) (d : Nat)
    (h : l[i]? = some t) :
    (l.set i { t with dts := d }).map (fun t => t.cts) = l.map (fun t => t.cts) := by
  rw [List.map_set]
  apply List.ext_getElem?
  intro k
  rw [List.getElem?_set]
  by_cases hk : i = k
  · subst hk
    rw [if_pos rfl]
    have hlt : i < l.length := (List.getElem?_eq_some_iff.1 h).1
    rw [List.length_map, if_pos hlt, List.getElem?_map, h]
    rfl
  · rw [if_neg hk]

/-- One pass of either DTS loop keeps the invariant, given the DTS value it
writes. -/
theorem dts_loop_inv_step (ts : List Nat) (sdt D : Nat) (base : List lsmash_media_ts_t)
    (i : Nat) (st : DtsLoop) (t : lsmash_media_ts_t) (d x : Nat) (hD : D ≠ 0)
    (hinv : dts_loop_inv ts sdt D base i st)
    (ht : st.timestamp[i]? = some t) (hx : ts[i]? = some x)
    (hd1 : i ≤ D → ts[i]? = some d)
    (hd2 : D < i → ∃ y, ts[i - D]? = some y ∧ d = add64 y sdt) :
    dts_loop_inv ts sdt D base (i + 1)
      { timestamp := st.timestamp.set i { t with dts := d },
        prev_reordered_cts := st.prev_reordered_cts.set (i % D) (add64 x sdt) } := by
  obtain ⟨h1, h2, h3, h4, h5⟩ := hinv
  have hDpos : 0 < D := Nat.pos_of_ne_zero hD
  refine ⟨?_, ?_, ?_, ?_, ?_⟩
  · simp only [List.length_set]; exact h1
  · simp only [List.length_set]; exact h2
  · simp only []
    rw [map_cts_set_dts _ _ _ _ ht]
    exact h3
  · intro k u hk hu
    simp only [] at hu
    rw [List.getElem?_set] at hu
    by_cases hik : i = k
    · subst hik
      have hlt : i < st.timestamp.length := (List.getElem?_eq_some_iff.1 ht).1
      rw [if_pos rfl, if_pos hlt] at hu
      cases hu
      exact ⟨hd1, hd2⟩
    · rw [if_neg hik] at hu
      exact h4 k u (by omega) hu
  · intro j y hj hle hy
    simp only []
    rw [List.getElem?_set]
    by_cases hij : j = i
    · subst hij
      rw [if_pos rfl, if_pos (by rw [h2]; exact Nat.mod_lt _ hDpos)]
      rw [hx] at hy
      cases hy
      rfl
    · rw [if_neg (fun h => (mod_ne_of_lt (show j < i by omega) (by omega)) h.symm)]
      exact h5 j y (by omega) (by omega) hy

theorem getElem?_of_lt {α : Type} (l : List α) (i : Nat) (h : i < l.length) :
    ∃ x, l[i]? = some x :=
  ⟨_, List.getElem?_eq_getElem h⟩

theorem dts_first_loop_ok (opt : opt_t) (hdc : opt.dts_compression = 0)
    (D initial_delta sdt : Nat) (ts : List Nat) (base : List lsmash_media_ts_t)
    (hD : D ≠ 0) (hDn : D < base.length) (hlen : base.length ≤ ts.length) :
    ∃ st1, for_loop (dts_first_step opt D initial_delta sdt ts) (List.range (D + 1))
        { timestamp := base, prev_reordered_cts := List.replicate D 0 } = Ret.ok st1
      ∧ dts_loop_inv ts sdt D base (D + 1) st1 := by
  rw [List.range_eq_range']
  have h := for_loop_range' (dts_first_step opt D initial_delta sdt ts)
    (fun i st => dts_loop_inv ts sdt D base i st) (D + 1) 0
    { timestamp := base, prev_reordered_cts := List.replicate D 0 }
    ⟨rfl, List.length_replicate _ _, rfl, fun k t hk _ => absurd hk (Nat.not_lt_zero k),
      fun j x hj _ _ => absurd hj (Nat.not_lt_zero j)⟩
    (by
      intro i st _ hi hinv
      obtain ⟨x, hx⟩ := getElem?_of_lt ts i (by omega)
      obtain ⟨t, ht⟩ := getElem?_of_lt st.timestamp i (by rw [hinv.1]; omega)
      refine ⟨_, ?_, dts_loop_inv_step ts sdt D base i st t x x hD hinv ht hx (fun _ => hx)
        (fun hlt => absurd hlt (by omega))⟩
      unfold dts_first_step first_loop_dts
      rw [if_pos hdc, hx, ht]
      simp only []
      rw [if_neg (fun h => h.1 hdc), if_neg hD])
  simpa using h

theorem dts_second_loop_ok (D sdt : Nat) (ts : List Nat) (base : List lsmash_media_ts_t)
    (st1 : DtsLoop) (hD : D ≠ 0) (hDn : D < base.length) (hlen : base.length ≤ ts.length)
    (hinv : dts_loop_inv ts sdt D base (D + 1) st1) :
    ∃ st2, for_loop (dts_second_step D sdt ts)
        (List.range' (D + 1) (base.length - (D + 1))) st1 = Ret.ok st2
      ∧ dts_loop_inv ts sdt D base base.length st2 := by
  have h := for_loop_range' (dts_second_step D sdt ts)
    (fun i st => dts_loop_inv ts sdt D base i st) (base.length - (D + 1)) (D + 1) st1 hinv
    (by
      intro i st hi1 hi2 hinv1
      obtain ⟨x, hx⟩ := getElem?_of_lt ts i (by omega)
      obtain ⟨y, hy⟩ := getElem?_of_lt ts (i - D) (by omega)
      obtain ⟨t, ht⟩ := getElem?_of_lt st.timestamp i (by rw [hinv1.1]; omega)
      have hp := hinv1.2.2.2.2 (i - D) y (by omega) (by omega) hy
      refine ⟨_, ?_, dts_loop_inv_step ts sdt D base i st t (add64 y sdt) x hD hinv1 ht hx
        (fun hle => absurd hle (by omega)) (fun _ => ⟨y, hy, rfl⟩)⟩
      unfold dts_second_step
      rw [if_neg hD, hp, ht, hx])
  rw [show D + 1 + (base.length - (D + 1)) = base.length by omega] at h
  exact h

/-- Without DTS compression and with a sample delay `D` other than 0, lines
777-826 succeed, leave the series and the timescale as they are, record
`ts[D]` as composition delay, and generate the CTS and DTS values described by
`dts_loop_inv`. -/
theorem generate_without_compression (opt : opt_t) (hdc : opt.dts_compression = 0)
    (D timescale cd : Nat) (ts : List Nat) (T : List lsmash_media_ts_t)
    (hD : D ≠ 0) (hDn : D < T.length) (hlen : ts.length = T.length) :
    ∃ r sdt pr, ts[D]? = some sdt
      ∧ edit_media_timeline_generate opt D timescale cd ts T = Ret.ok r
      ∧ r.ts = ts ∧ r.timescale = timescale % U32 ∧ r.composition_delay = sdt
      ∧ dts_loop_inv ts sdt D
          (lsmash_sort_timestamps_decoding_order (generate_cts T ts sdt)) T.length
          { timestamp := r.timestamp, prev_reordered_cts := pr } := by
  obtain ⟨sdt, hsdt⟩ := getElem?_of_lt ts D (by omega)
  obtain ⟨delta, hdelta⟩ := getElem?_of_lt ts 1 (by omega)
  have hmul : dts_compression_multiplier opt D = 1 := by
    unfold dts_compression_multiplier
    rw [hdc]
    simp [U32]
  have hscale : scale_ts 1 ts = ts := by
    unfold scale_ts
    rw [if_neg (by omega)]
  have hbase : (lsmash_sort_timestamps_decoding_order (generate_cts T ts sdt)).length
      = T.length := by
    unfold lsmash_sort_timestamps_decoding_order generate_cts
    rw [List.length_insertionSort, List.length_zipWith, hlen, Nat.min_self]
  obtain ⟨st1, hl1, hinv1⟩ := dts_first_loop_ok opt hdc D delta sdt ts
    (lsmash_sort_timestamps_decoding_order (generate_cts T ts sdt)) hD
    (by rw [hbase]; exact hDn) (by rw [hbase, hlen])
  obtain ⟨st2, hl2, hinv2⟩ := dts_second_loop_ok D sdt ts _ st1 hD
    (by rw [hbase]; exact hDn) (by rw [hbase, hlen]) hinv1
  rw [hbase] at hl2 hinv2
  obtain ⟨a, ha⟩ := getElem?_of_lt ts (T.length - 1) (by omega)
  obtain ⟨b, hb⟩ := getElem?_of_lt ts (T.length - 2) (by omega)
  have heq : edit_media_timeline_generate opt D timescale cd ts T
      = Ret.ok { timestamp := st2.timestamp, ts := ts, timescale := timescale % U32,
                 composition_delay := sdt, last_sample_delta := (sub64 a b) % U32,
                 duration := add64 a ((sub64 a b) % U32) } := by
    unfold edit_media_timeline_generate
    simp only []
    rw [if_pos hD, hmul, hscale, hdelta]
    simp only []
    rw [if_neg (by omega), hsdt]
    simp only []
    rw [if_neg (by omega), hl1]
    simp only []
    rw [hl2]
    simp only []
    unfold last_sample_delta_and_duration
    rw [if_pos (by omega), ha, hb]
    simp only [Nat.mul_one]
  exact ⟨_, sdt, st2.prev_reordered_cts, hsdt, heq, rfl, rfl, rfl, hinv2⟩

theorem mem_of_getElem?_some {α : Type} {l : List α} {k : Nat} {x : α} (h : l[k]? = some x) :
    x ∈ l := by
  obtain ⟨hl, he⟩ := List.getElem?_eq_some_iff.1 h
  rw [← he]
  exact List.getElem_mem hl

theorem pairwise_lt_getElem?_le {ts : List Nat} (h : ts.Pairwise (fun a b => a < b))
    {i j a b : Nat} (hij : i ≤ j) (ha : ts[i]? = some a) (hb : ts[j]? = some b) : a ≤ b := by
  obtain ⟨hi, hae⟩ := List.getElem?_eq_some_iff.1 ha
  obtain ⟨hj, hbe⟩ := List.getElem?_eq_some_iff.1 hb
  by_cases hlt : i < j
  · have := List.pairwise_iff_getElem.1 h i j hi hj hlt
    rw [hae, hbe] at this
    exact Nat.le_of_lt this
  · have : i = j := by omega
    subst this
    rw [ha] at hb
    cases hb
    exact Nat.le_refl _

theorem add64_of_lt {a b : Nat} (h : a + b < U64) : add64 a b = a + b := by
  unfold add64
  exact Nat.mod_eq_of_lt h

theorem generate_cts_getElem? (T : List lsmash_media_ts_t) (ts : List Nat) (sdt : Nat)
    (hlen : ts.length = T.length) (c : Nat) (t : lsmash_media_ts_t)
    (h : (generate_cts T ts sdt)[c]? = some t) :
    ∃ u x, T[c]? = some u ∧ ts[c]? = some x ∧ t = { u with cts := add64 x sdt } := by
  unfold generate_cts at h
  have hc : c < T.length := by
    have := (List.getElem?_eq_some_iff.1 h).1
    rw [List.length_zipWith] at this
    omega
  obtain ⟨u, hu⟩ := getElem?_of_lt T c hc
  obtain ⟨x, hx⟩ := getElem?_of_lt ts c (by omega)
  refine ⟨u, x, hu, hx, ?_⟩
  rw [List.getElem?_zipWith, hu, hx] at h
  simp only [Option.map_some', Option.bind_some] at h
  cases h
  rfl

theorem generate_cts_map_dts (T : List lsmash_media_ts_t) (ts : List Nat) (sdt : Nat)
    (hlen : ts.length = T.length) :
    (generate_cts T ts sdt).map (fun t => t.dts) = T.map (fun t => t.dts) := by
  apply List.ext_getElem?
  intro k
  rw [List.getElem?_map, List.getElem?_map]
  cases h : (generate_cts T ts sdt)[k]? with
  | none =>
    have : T.length ≤ k := by
      have := List.getElem?_eq_none_iff.1 h
      unfold generate_cts at this
      rw [List.length_zipWith] at this
      omega
    rw [List.getElem?_eq_none this]
    try rfl
  | some t =>
    obtain ⟨u, x, hu, _, rfl⟩ := generate_cts_getElem? T ts sdt hlen k t h
    rw [hu]
    rfl

theorem countP_of_pairwise_dts (s : List lsmash_media_ts_t)
    (hs : s.Pairwise (fun a b => a.dts < b.dts)) :
    ∀ (k : Nat) (t : lsmash_media_ts_t), s[k]? = some t →
      s.countP (fun u => decide (u.dts < t.dts)) = k := by
  induction s with
  | nil =>
    intro k t h
    cases h
  | cons a s ih =>
    intro k t h
    rw [List.pairwise_cons] at hs
    cases k with
    | zero =>
      simp only [List.getElem?_cons_zero, Option.some.injEq] at h
      subst h
      rw [List.countP_cons_of_neg]
      · rw [List.countP_eq_zero]
        intro u hu
        have := hs.1 u hu
        simp only [decide_eq_true_eq]
        omega
      · simp
    | succ k =>
      simp only [List.getElem?_cons_succ] at h
      have hlt : a.dts < t.dts := hs.1 t (mem_of_getElem?_some h)
      rw [List.countP_cons_of_pos _ _ (by simpa using hlt), ih hs.2 k t h]

theorem countP_dts_congr (X T : List lsmash_media_ts_t)
    (h : X.map (fun t => t.dts) = T.map (fun t => t.dts)) (d : Nat) :
    X.countP (fun u => decide (u.dts < d)) = T.countP (fun u => decide (u.dts < d)) := by
  have h1 : ∀ l : List lsmash_media_ts_t, l.countP (fun u => decide (u.dts < d))
      = (l.map (fun t => t.dts)).countP (fun x => decide (x < d)) := by
    intro l
    rw [List.countP_map]
    rfl
  rw [h1 X, h1 T, h]

/-- In the list sorted into decode order, the entry at position `k` is an entry
of the list whose decode position is `k`. -/
theorem decoding_order_getElem? (X : List lsmash_media_ts_t)
    (hnd : (X.map (fun t => t.dts)).Nodup) (k : Nat) (t : lsmash_media_ts_t)
    (h : (lsmash_sort_timestamps_decoding_order X)[k]? = some t) :
    t ∈ X ∧ decode_position X t = k := by
  unfold lsmash_sort_timestamps_decoding_order at h
  have hperm := List.perm_insertionSort (fun a b : lsmash_media_ts_t => a.dts ≤ b.dts) X
  have hsorted : (X.insertionSort (fun a b => a.dts ≤ b.dts)).Pairwise
      (fun a b => a.dts ≤ b.dts) :=
    @List.sorted_insertionSort _ (fun a b : lsmash_media_ts_t => a.dts ≤ b.dts) _
      ⟨fun a b => Nat.le_total a.dts b.dts⟩ ⟨fun a b c => Nat.le_trans⟩ X
  have hnd1 : ((X.insertionSort (fun a b => a.dts ≤ b.dts)).map (fun t => t.dts)).Nodup :=
    (hperm.map _).nodup_iff.2 hnd
  have hne : (X.insertionSort (fun a b => a.dts ≤ b.dts)).Pairwise
      (fun a b => a.dts ≠ b.dts) := by
    unfold List.Nodup at hnd1
    rw [List.pairwise_map] at hnd1
    exact hnd1
  have hlt : (X.insertionSort (fun a b => a.dts ≤ b.dts)).Pairwise
      (fun a b => a.dts < b.dts) :=
    (hsorted.and hne).imp (fun hab => Nat.lt_of_le_of_ne hab.1 hab.2)
  refine ⟨hperm.subset (mem_of_getElem?_some h), ?_⟩
  unfold decode_position
  rw [← hperm.countP_eq]
  exact countP_of_pairwise_dts _ hlt k t h

/-! ## Theorem: a sample delay of 0 gives CTS = DTS -/

/-- C11. With a maximum sample delay of 0, `edit_media_timeline` sets
`CTS[i] = DTS[i] = ts[i]` for every sample `i`, where `ts` is the reconciled
series (one entry per sample); in particular CTS equals DTS for every sample. -/
theorem delay_zero_cts_eq_dts (opt : opt_t) (timescale cd : Nat) (ts : List Nat)
    (T : List lsmash_media_ts_t) (hlen : ts.length = T.length) :
    ∃ r, edit_media_timeline_generate opt 0 timescale cd ts T = Ret.ok r
      ∧ r.timestamp = ts.map (fun x => ({ dts := x, cts := x } : lsmash_media_ts_t))
      ∧ (∀ (i x : Nat), ts[i]? = some x →
          r.timestamp[i]? = some ({ dts := x, cts := x } : lsmash_media_ts_t))
      ∧ ∀ t ∈ r.timestamp, t.cts = t.dts := by
  have hzip : List.zipWith (fun (_ : lsmash_media_ts_t) x =>
      ({ dts := x, cts := x } : lsmash_media_ts_t)) T ts
      = ts.map (fun x => ({ dts := x, cts := x } : lsmash_media_ts_t)) := by
    apply List.ext_getElem?
    intro k
    rw [List.getElem?_zipWith, List.getElem?_map]
    cases hx : ts[k]? with
    | none =>
      cases T[k]? <;> rfl
    | some x =>
      obtain ⟨u, hu⟩ := getElem?_of_lt T k (by
        have := (List.getElem?_eq_some_iff.1 hx).1
        omega)
      rw [hu]
      rfl
  have hld : ∃ p, last_sample_delta_and_duration T.length ts = some p := by
    unfold last_sample_delta_and_duration
    by_cases h1 : T.length > 1
    · rw [if_pos h1]
      obtain ⟨a, ha⟩ := getElem?_of_lt ts (T.length - 1) (by omega)
      obtain ⟨b, hb⟩ := getElem?_of_lt ts (T.length - 2) (by omega)
      rw [ha, hb]
      exact ⟨_, rfl⟩
    · rw [if_neg h1]
      exact ⟨_, rfl⟩
  obtain ⟨⟨delta, duration⟩, hp⟩ := hld
  have heq : edit_media_timeline_generate opt 0 timescale cd ts T
      = Ret.ok { timestamp := ts.map (fun x => ({ dts := x, cts := x } : lsmash_media_ts_t)),
                 ts := ts, timescale := timescale, composition_delay := cd,
                 last_sample_delta := delta, duration := duration } := by
    unfold edit_media_timeline_generate
    simp only []
    rw [if_neg (by simp), if_neg (by omega), hp]
    simp only []
    rw [hzip]
  refine ⟨_, heq, rfl, ?_, ?_⟩
  · intro i x hx
    simp only []
    rw [List.getElem?_map, hx]
    rfl
  · intro t ht
    simp only [List.mem_map] at ht
    obtain ⟨x, _, rfl⟩ := ht
    rfl

theorem delay_zero_cts_eq_dts_witness :
    [0, 10, 20, 30].length = ipbb_timestamps.length
    ∧ ∃ r, edit_media_timeline_generate default_opt 0 24 0 [0, 10, 20, 30] ipbb_timestamps
          = Ret.ok r
        ∧ r.timestamp = [0, 10, 20, 30].map
            (fun x => ({ dts := x, cts := x } : lsmash_media_ts_t))
        ∧ (∀ (i x : Nat), [0, 10, 20, 30][i]? = some x →
            r.timestamp[i]? = some ({ dts := x, cts := x } : lsmash_media_ts_t))
        ∧ ∀ t ∈ r.timestamp, t.cts = t.dts :=
  ⟨rfl, delay_zero_cts_eq_dts default_opt 24 0 [0, 10, 20, 30] ipbb_timestamps rfl⟩

/-! ## Theorem: the CTS values in composition order -/

/-- C13 (as amended). With a maximum sample delay `D > 0` (no sample's decode
position exceeds its composition position by more than `D`), DTS compression
disabled and a strictly increasing series `ts`, after `edit_media_timeline`
every sample satisfies `DTS <= CTS`: the sample at decode position `k` and
composition position `c` has `CTS = ts[c] + ts[D]`, and `DTS = ts[k]` for
`k <= D`, `DTS = ts[k - D] + ts[D]` for `k > D` (`ts[D]` is the composition
delay).  Nothing bounds `CTS - DTS` by the composition delay. -/
theorem dts_le_cts_without_compression (opt : opt_t) (D timescale cd : Nat)
    (ts : List Nat) (T : List lsmash_media_ts_t)
    (hdc : opt.dts_compression = 0) (hD : 0 < D) (hDn : D < T.length)
    (hlen : ts.length = T.length)
    (hinc : ts.Pairwise (fun a b => a < b))
    (hsum : ∀ x ∈ ts, ∀ y ∈ ts, x + y < U64)
    (hnd : (T.map (fun t => t.dts)).Nodup)
    (hdelay : delay_at_most T D) :
    ∃ r sdt, ts[D]? = some sdt
      ∧ edit_media_timeline_generate opt D timescale cd ts T = Ret.ok r
      ∧ r.composition_delay = sdt
      ∧ r.timestamp.length = T.length
      ∧ ∀ (k : Nat) (t : lsmash_media_ts_t), r.timestamp[k]? = some t →
          t.dts ≤ t.cts
          ∧ (∃ (c : Nat) (u : lsmash_media_ts_t) (x : Nat), T[c]? = some u ∧ decode_position T u = k ∧ ts[c]? = some x
              ∧ t.cts = x + sdt)
          ∧ (k ≤ D → ts[k]? = some t.dts)
          ∧ (D < k → ∃ y, ts[k - D]? = some y ∧ t.dts = y + sdt) := by
  obtain ⟨r, sdt, pr, hsdt, hr, _, _, hcd, hinv⟩ :=
    generate_without_compression opt hdc D timescale cd ts T (by omega) hDn hlen
  obtain ⟨hl, _, hcts, hdts, _⟩ := hinv
  have hsdtmem := mem_of_getElem?_some hsdt
  have hbase : (lsmash_sort_timestamps_decoding_order (generate_cts T ts sdt)).length
      = T.length := by
    unfold lsmash_sort_timestamps_decoding_order generate_cts
    rw [List.length_insertionSort, List.length_zipWith, hlen, Nat.min_self]
  simp only [] at hl hcts hdts
  refine ⟨r, sdt, hsdt, hr, hcd, by rw [hl, hbase], ?_⟩
  intro k t ht
  have hk : k < T.length := by
    have := (List.getElem?_eq_some_iff.1 ht).1
    rw [hl, hbase] at this
    exact this
  -- the entry of the decode-ordered list at position `k`
  obtain ⟨v, hv⟩ := getElem?_of_lt
    (lsmash_sort_timestamps_decoding_order (generate_cts T ts sdt)) k (by rw [hbase]; exact hk)
  have hvc : v.cts = t.cts := by
    have h1 := congrArg (fun l => l[k]?) hcts
    simp only [List.getElem?_map, ht, hv, Option.map_some', Option.some.injEq] at h1
    exact h1.symm
  have hX : ((generate_cts T ts sdt).map (fun t => t.dts)).Nodup := by
    rw [generate_cts_map_dts T ts sdt hlen]
    exact hnd
  obtain ⟨hvmem, hvpos⟩ := decoding_order_getElem? (generate_cts T ts sdt) hX k v hv
  obtain ⟨c, hc⟩ := List.getElem?_of_mem hvmem
  obtain ⟨u, x, hu, hx, hveq⟩ := generate_cts_getElem? T ts sdt hlen c v hc
  have hxmem := mem_of_getElem?_some hx
  have hpos : decode_position T u = k := by
    rw [← hvpos]
    unfold decode_position
    rw [countP_dts_congr _ _ (generate_cts_map_dts T ts sdt hlen), hveq]
  have hkc : k ≤ c + D := by
    have := hdelay (c, u) (List.mk_mem_enum_iff_getElem?.2 hu)
    simp only [] at this
    omega
  have hcts1 : t.cts = x + sdt := by
    rw [← hvc, hveq]
    exact add64_of_lt (hsum x hxmem sdt hsdtmem)
  obtain ⟨hd1, hd2⟩ := hdts k t hk ht
  have hd2x : D < k → ∃ y, ts[k - D]? = some y ∧ t.dts = y + sdt := by
    intro hlt
    obtain ⟨y, hy, hty⟩ := hd2 hlt
    exact ⟨y, hy, by rw [hty]; exact add64_of_lt (hsum y (mem_of_getElem?_some hy) sdt hsdtmem)⟩
  refine ⟨?_, ⟨c, u, x, hu, hpos, hx, hcts1⟩, hd1, hd2x⟩
  by_cases hkD : k ≤ D
  · have h1 := pairwise_lt_getElem?_le hinc hkD (hd1 hkD) hsdt
    omega
  · obtain ⟨y, hy, hty⟩ := hd2x (by omega)
    have h1 := pairwise_lt_getElem?_le hinc (show k - D ≤ c by omega) hy hx
    omega

theorem dts_le_cts_without_compression_witness :
    default_opt.dts_compression = 0 ∧ 0 < 1 ∧ 1 < ipbb_timestamps.length
    ∧ [0, 10, 20, 30].length = ipbb_timestamps.length
    ∧ [0, 10, 20, 30].Pairwise (fun a b => a < b)
    ∧ (∀ x ∈ [0, 10, 20, 30], ∀ y ∈ [0, 10, 20, 30], x + y < U64)
    ∧ (ipbb_timestamps.map (fun t => t.dts)).Nodup
    ∧ delay_at_most ipbb_timestamps 1
    ∧ ∃ r sdt, [0, 10, 20, 30][1]? = some sdt
        ∧ edit_media_timeline_generate default_opt 1 24 0 [0, 10, 20, 30] ipbb_timestamps
            = Ret.ok r
        ∧ r.composition_delay = sdt
        ∧ r.timestamp.length = ipbb_timestamps.length
        ∧ ∀ (k : Nat) (t : lsmash_media_ts_t), r.timestamp[k]? = some t →
            t.dts ≤ t.cts
            ∧ (∃ (c : Nat) (u : lsmash_media_ts_t) (x : Nat), ipbb_timestamps[c]? = some u ∧ decode_position ipbb_timestamps u = k
                ∧ [0, 10, 20, 30][c]? = some x ∧ t.cts = x + sdt)
            ∧ (k ≤ 1 → [0, 10, 20, 30][k]? = some t.dts)
            ∧ (1 < k → ∃ y, [0, 10, 20, 30][k - 1]? = some y ∧ t.dts = y + sdt) :=
  ⟨rfl, by decide, by decide, rfl, by decide, by decide, by decide, by decide,
   dts_le_cts_without_compression default_opt 1 24 0 [0, 10, 20, 30] ipbb_timestamps
     rfl (by decide) (by decide) rfl (by decide) (by decide) (by decide) (by decide)⟩

/-- C13, as stated, fails.  For the four samples `ipbb_timestamps` (decoded in
the order I P B B, maximum sample delay 1) and the strictly increasing series
0, 10, 20, 30, without DTS compression, the composition delay is 10 and the
second sample in decode order (P) gets DTS 10 and CTS 40: `CTS - DTS` is 30,
more than the composition delay. -/
theorem cts_minus_dts_bound_counterexample :
    delay_at_most ipbb_timestamps 1
    ∧ [0, 10, 20, 30].Pairwise (fun a b => a < b)
    ∧ ∃ r, edit_media_timeline_generate default_opt 1 24 0 [0, 10, 20, 30] ipbb_timestamps
          = Ret.ok r
        ∧ r.composition_delay = 10
        ∧ r.timestamp[1]? = some { dts := 10, cts := 40 }
        ∧ ¬ (40 - 10 ≤ r.composition_delay) :=
  ⟨by decide, by decide, _, rfl, rfl, rfl, by decide⟩

/-! ## Theorem: DTS compression with a pinned media timescale -/

theorem for_loop_preserves {σ : Type} (step : σ → Nat → Ret σ) (Q : σ → Prop)
    (hstep : ∀ st i st1, step st i = Ret.ok st1 → Q st → Q st1) :
    ∀ (is : List Nat) (st st1 : σ), for_loop step is st = Ret.ok st1 → Q st → Q st1 := by
  intro is
  induction is with
  | nil =>
    intro st st1 h hq
    simp only [for_loop, Ret.ok.injEq] at h
    rw [← h]
    exact hq
  | cons i is ih =>
    intro st st1 h hq
    simp only [for_loop] at h
    cases hs : step st i with
    | ok st2 =>
      rw [hs] at h
      exact ih st2 st1 h (hstep st i st2 hs hq)
    | error => rw [hs] at h; cases h
    | undef => rw [hs] at h; cases h

theorem dts_first_step_cts (opt : opt_t) (D initial_delta sdt : Nat) (ts : List Nat)
    (st st1 : DtsLoop) (i : Nat)
    (h : dts_first_step opt D initial_delta sdt ts st i = Ret.ok st1) :
    st1.timestamp.map (fun t => t.cts) = st.timestamp.map (fun t => t.cts) := by
  unfold dts_first_step at h
  cases hd : first_loop_dts opt D initial_delta ts i with
  | none => rw [hd] at h; cases h
  | some d =>
    cases ht : st.timestamp[i]? with
    | none => rw [hd, ht] at h; cases h
    | some t =>
      cases hx : ts[i]? with
      | none => rw [hd, ht, hx] at h; cases h
      | some x =>
        rw [hd, ht, hx] at h
        simp only [] at h
        split_ifs at h
        cases h
        exact map_cts_set_dts _ _ _ _ ht

theorem dts_second_step_cts (D sdt : Nat) (ts : List Nat) (st st1 : DtsLoop) (i : Nat)
    (h : dts_second_step D sdt ts st i = Ret.ok st1) :
    st1.timestamp.map (fun t => t.cts) = st.timestamp.map (fun t => t.cts) := by
  unfold dts_second_step at h
  by_cases hD : D = 0
  · rw [if_pos hD] at h; cases h
  · rw [if_neg hD] at h
    cases hd : st.prev_reordered_cts[(i - D) % D]? with
    | none => rw [hd] at h; cases h
    | some d =>
      cases ht : st.timestamp[i]? with
      | none => rw [hd, ht] at h; cases h
      | some t =>
        cases hx : ts[i]? with
        | none => rw [hd, ht, hx] at h; cases h
        | some x =>
          rw [hd, ht, hx] at h
          cases h
          exact map_cts_set_dts _ _ _ _ ht

/-- What a successful run of lines 777-826 with a sample delay other than 0 went
through. -/
theorem generate_ok_inv (opt : opt_t) (D timescale cd : Nat) (ts : List Nat)
    (T : List lsmash_media_ts_t) (r : timeline_t) (hD : D ≠ 0)
    (h : edit_media_timeline_generate opt D timescale cd ts T = Ret.ok r) :
    ∃ sdt,
      (if opt.dts_compression ≠ 0 then some 0
       else (scale_ts (dts_compression_multiplier opt D) ts)[D]?) = some sdt
      ∧ T.length ≤ (scale_ts (dts_compression_multiplier opt D) ts).length
      ∧ r.timestamp.map (fun t => t.cts)
          = (lsmash_sort_timestamps_decoding_order
              (generate_cts T (scale_ts (dts_compression_multiplier opt D) ts) sdt)).map
              (fun t => t.cts)
      ∧ r.ts = scale_ts (dts_compression_multiplier opt D) ts
      ∧ r.timescale = (timescale * dts_compression_multiplier opt D) % U32
      ∧ r.composition_delay = sdt
      ∧ last_sample_delta_and_duration T.length
          (scale_ts (dts_compression_multiplier opt D) ts)
          = some (r.last_sample_delta, r.duration) := by
  unfold edit_media_timeline_generate at h
  simp only [] at h
  rw [if_pos hD] at h
  cases hdelta : ts[1]? with
  | none => rw [hdelta] at h; cases h
  | some initial_delta =>
    rw [hdelta] at h
    simp only [] at h
    cases hsdt : (if opt.dts_compression ≠ 0 then some 0
        else (scale_ts (dts_compression_multiplier opt D) ts)[D]?) with
    | none => rw [hsdt] at h; cases h
    | some sdt =>
      rw [hsdt] at h
      simp only [] at h
      by_cases hlen : (scale_ts (dts_compression_multiplier opt D) ts).length < T.length
      · rw [if_pos hlen] at h; cases h
      · rw [if_neg hlen] at h
        cases hl1 : for_loop (dts_first_step opt D initial_delta sdt
            (scale_ts (dts_compression_multiplier opt D) ts)) (List.range (D + 1))
            { timestamp := lsmash_sort_timestamps_decoding_order
                (generate_cts T (scale_ts (dts_compression_multiplier opt D) ts) sdt),
              prev_reordered_cts := List.replicate D 0 } with
        | error => rw [hl1] at h; cases h
        | undef => rw [hl1] at h; cases h
        | ok st1 =>
          rw [hl1] at h
          simp only [] at h
          cases hl2 : for_loop (dts_second_step D sdt
              (scale_ts (dts_compression_multiplier opt D) ts))
              (List.range' (D + 1) (T.length - (D + 1))) st1 with
          | error => rw [hl2] at h; cases h
          | undef => rw [hl2] at h; cases h
          | ok st2 =>
            rw [hl2] at h
            simp only [] at h
            cases hld : last_sample_delta_and_duration T.length
                (scale_ts (dts_compression_multiplier opt D) ts) with
            | none => rw [hld] at h; cases h
            | some p =>
              obtain ⟨delta, duration⟩ := p
              rw [hld] at h
              simp only [Ret.ok.injEq] at h
              subst h
              have hc1 := for_loop_preserves _
                (fun st : DtsLoop => st.timestamp.map (fun t => t.cts)
                  = (lsmash_sort_timestamps_decoding_order
                      (generate_cts T (scale_ts (dts_compression_multiplier opt D) ts)
                        sdt)).map (fun t => t.cts))
                (fun st i st1 hs hq => (dts_first_step_cts _ _ _ _ _ _ _ _ hs).trans hq)
                _ _ _ hl1 rfl
              have hc2 := for_loop_preserves _
                (fun st : DtsLoop => st.timestamp.map (fun t => t.cts)
                  = (lsmash_sort_timestamps_decoding_order
                      (generate_cts T (scale_ts (dts_compression_multiplier opt D) ts)
                        sdt)).map (fun t => t.cts))
                (fun st i st1 hs hq => (dts_second_step_cts _ _ _ _ _ _ hs).trans hq)
                _ _ _ hl2 hc1
              exact ⟨sdt, rfl, by omega, hc2, rfl, rfl, rfl, rfl⟩

theorem for_loop_range'_of_ok {σ : Type} (step : σ → Nat → Ret σ) (P : Nat → σ → Prop) :
    ∀ (m a : Nat) (st st1 : σ), for_loop step (List.range' a m) st = Ret.ok st1 → P a st →
      (∀ i s s1, a ≤ i → i < a + m → step s i = Ret.ok s1 → P i s → P (i + 1) s1) →
      P (a + m) st1 := by
  intro m
  induction m with
  | zero =>
    intro a st st1 h hp _
    simp only [List.range'_zero, for_loop, Ret.ok.injEq] at h
    subst h
    exact hp
  | succ m ih =>
    intro a st st1 h hp hstep
    rw [List.range'_succ] at h
    simp only [for_loop] at h
    cases hs : step st a with
    | ok st2 =>
      rw [hs] at h
      simp only [] at h
      have := ih (a + 1) st2 st1 h (hstep a st st2 (Nat.le_refl a) (by omega) hs hp)
        (fun i s s1 hi hlt hs1 hq => hstep i s s1 (by omega) (by omega) hs1 hq)
      rw [show a + (m + 1) = a + 1 + m by omega]
      exact this
    | error => rw [hs] at h; cases h
    | undef => rw [hs] at h; cases h

theorem dts_first_step_frame (opt : opt_t) (D initial_delta sdt : Nat) (ts : List Nat)
    (st st1 : DtsLoop) (i : Nat)
    (h : dts_first_step opt D initial_delta sdt ts st i = Ret.ok st1) :
    (∀ k, k ≠ i → st1.timestamp[k]? = st.timestamp[k]?)
    ∧ ∃ t, st1.timestamp[i]? = some t
        ∧ first_loop_dts opt D initial_delta ts i = some t.dts := by
  unfold dts_first_step at h
  cases hd : first_loop_dts opt D initial_delta ts i with
  | none => rw [hd] at h; cases h
  | some d =>
    cases ht : st.timestamp[i]? with
    | none => rw [hd, ht] at h; cases h
    | some t =>
      cases hx : ts[i]? with
      | none => rw [hd, ht, hx] at h; cases h
      | some x =>
        rw [hd, ht, hx] at h
        simp only [] at h
        split_ifs at h
        cases h
        have hi : i < st.timestamp.length := (List.getElem?_eq_some_iff.1 ht).1
        refine ⟨?_, { t with dts := d }, ?_, rfl⟩
        · intro k hk
          simp only []
          rw [List.getElem?_set_ne (fun h => hk h.symm)]
        · simp only []
          exact List.getElem?_set_self hi

theorem dts_second_step_frame (D sdt : Nat) (ts : List Nat) (st st1 : DtsLoop) (i : Nat)
    (h : dts_second_step D sdt ts st i = Ret.ok st1) :
    ∀ k, k ≠ i → st1.timestamp[k]? = st.timestamp[k]? := by
  unfold dts_second_step at h
  by_cases hD : D = 0
  · rw [if_pos hD] at h; cases h
  · rw [if_neg hD] at h
    cases hd : st.prev_reordered_cts[(i - D) % D]? with
    | none => rw [hd] at h; cases h
    | some d =>
      cases ht : st.timestamp[i]? with
      | none => rw [hd, ht] at h; cases h
      | some t =>
        cases hx : ts[i]? with
        | none => rw [hd, ht, hx] at h; cases h
        | some x =>
          rw [hd, ht, hx] at h
          cases h
          intro k hk
          simp only []
          rw [List.getElem?_set_ne (fun h => hk h.symm)]

/-- After the two DTS loops the first `D + 1` entries hold the DTS values of the
first loop. -/
theorem dts_loops_first_entries (opt : opt_t) (D initial_delta sdt n : Nat) (ts : List Nat)
    (st0 st1 st2 : DtsLoop)
    (h1 : for_loop (dts_first_step opt D initial_delta sdt ts) (List.range (D + 1)) st0
      = Ret.ok st1)
    (h2 : for_loop (dts_second_step D sdt ts) (List.range' (D + 1) n) st1 = Ret.ok st2) :
    ∀ k, k ≤ D → ∃ t, st2.timestamp[k]? = some t
      ∧ first_loop_dts opt D initial_delta ts k = some t.dts := by
  rw [List.range_eq_range'] at h1
  have hp1 := for_loop_range'_of_ok (dts_first_step opt D initial_delta sdt ts)
    (fun i s => ∀ k, k < i → ∃ t, s.timestamp[k]? = some t
      ∧ first_loop_dts opt D initial_delta ts k = some t.dts)
    (D + 1) 0 st0 st1 h1 (fun k hk => by omega)
    (fun i s s1 _ _ hs hq k hk => by
      obtain ⟨hframe, t, ht, hdts⟩ := dts_first_step_frame opt D initial_delta sdt ts s s1 i hs
      by_cases hki : k = i
      · subst hki
        exact ⟨t, ht, hdts⟩
      · rw [hframe k hki]
        exact hq k (by omega))
  have hp2 := for_loop_range'_of_ok (dts_second_step D sdt ts)
    (fun _ s => ∀ k, k < 0 + (D + 1) → ∃ t, s.timestamp[k]? = some t
      ∧ first_loop_dts opt D initial_delta ts k = some t.dts)
    n (D + 1) st1 st2 h2 hp1
    (fun i s s1 hi _ hs hq k hk => by
      rw [dts_second_step_frame D sdt ts s s1 i hs k (by omega)]
      exact hq k hk)
  intro k hk
  exact hp2 k (by omega)

/-- After a successful run of lines 777-826 with a sample delay other than 0,
the first `D + 1` entries hold the DTS values of the first loop. -/
theorem generate_ok_first_dts (opt : opt_t) (D timescale cd : Nat) (ts : List Nat)
    (T : List lsmash_media_ts_t) (r : timeline_t) (hD : D ≠ 0)
    (h : edit_media_timeline_generate opt D timescale cd ts T = Ret.ok r) :
    ∃ delta, ts[1]? = some delta
      ∧ ∀ k, k ≤ D → ∃ t, r.timestamp[k]? = some t
          ∧ first_loop_dts opt D delta (scale_ts (dts_compression_multiplier opt D) ts) k
              = some t.dts := by
  unfold edit_media_timeline_generate at h
  simp only [] at h
  rw [if_pos hD] at h
  cases hdelta : ts[1]? with
  | none => rw [hdelta] at h; cases h
  | some initial_delta =>
    rw [hdelta] at h
    simp only [] at h
    cases hsdt : (if opt.dts_compression ≠ 0 then some 0
        else (scale_ts (dts_compression_multiplier opt D) ts)[D]?) with
    | none => rw [hsdt] at h; cases h
    | some sdt =>
      rw [hsdt] at h
      simp only [] at h
      by_cases hlen : (scale_ts (dts_compression_multiplier opt D) ts).length < T.length
      · rw [if_pos hlen] at h; cases h
      · rw [if_neg hlen] at h
        cases hl1 : for_loop (dts_first_step opt D initial_delta sdt
            (scale_ts (dts_compression_multiplier opt D) ts)) (List.range (D + 1))
            { timestamp := lsmash_sort_timestamps_decoding_order
                (generate_cts T (scale_ts (dts_compression_multiplier opt D) ts) sdt),
              prev_reordered_cts := List.replicate D 0 } with
        | error => rw [hl1] at h; cases h
        | undef => rw [hl1] at h; cases h
        | ok st1 =>
          rw [hl1] at h
          simp only [] at h
          cases hl2 : for_loop (dts_second_step D sdt
              (scale_ts (dts_compression_multiplier opt D) ts))
              (List.range' (D + 1) (T.length - (D + 1))) st1 with
          | error => rw [hl2] at h; cases h
          | undef => rw [hl2] at h; cases h
          | ok st2 =>
            rw [hl2] at h
            simp only [] at h
            cases hld : last_sample_delta_and_duration T.length
                (scale_ts (dts_compression_multiplier opt D) ts) with
            | none => rw [hld] at h; cases h
            | some p =>
              obtain ⟨delta, duration⟩ := p
              rw [hld] at h
              simp only [Ret.ok.injEq] at h
              subst h
              exact ⟨initial_delta, rfl,
                dts_loops_first_entries opt D initial_delta sdt _ _ _ st1 st2 hl1 hl2⟩

theorem generate_cts_shift (T : List lsmash_media_ts_t) (ts : List Nat) (sdt : Nat)
    (hts : ∀ x ∈ ts, x < U64) :
    generate_cts T ts sdt
      = (generate_cts T ts 0).map (fun t => { t with cts := add64 t.cts sdt }) := by
  apply List.ext_getElem?
  intro k
  rw [List.getElem?_map]
  unfold generate_cts
  rw [List.getElem?_zipWith, List.getElem?_zipWith]
  cases hu : T[k]? with
  | none => rfl
  | some u =>
    cases hx : ts[k]? with
    | none => rfl
    | some x =>
      have hlt : x < U64 := hts x (mem_of_getElem?_some hx)
      have h0 : add64 x 0 = x := by
        unfold add64
        exact Nat.mod_eq_of_lt hlt
      simp only [Option.map_some', Option.bind_some, h0]

theorem decoding_order_map_shift (X : List lsmash_media_ts_t) (sdt : Nat) :
    lsmash_sort_timestamps_decoding_order
        (X.map (fun t => ({ t with cts := add64 t.cts sdt } : lsmash_media_ts_t)))
      = (lsmash_sort_timestamps_decoding_order X).map
          (fun t => ({ t with cts := add64 t.cts sdt } : lsmash_media_ts_t)) := by
  unfold lsmash_sort_timestamps_decoding_order
  exact (List.map_insertionSort (fun a b : lsmash_media_ts_t => a.dts ≤ b.dts)
    (fun a b : lsmash_media_ts_t => a.dts ≤ b.dts)
    (fun t : lsmash_media_ts_t => ({ t with cts := add64 t.cts sdt } : lsmash_media_ts_t))
    X (fun a _ b _ => Iff.rfl)).symm

theorem pinned_multiplier_one (opt : opt_t) (D : Nat) (hmt : opt.media_timescale ≠ 0) :
    dts_compression_multiplier opt D = 1 := by
  unfold dts_compression_multiplier
  rw [if_neg hmt]
  simp [U32]

theorem scale_ts_one (ts : List Nat) : scale_ts 1 ts = ts := by
  unfold scale_ts
  rw [if_neg (by omega)]

/-- C14 (as amended). With a pinned media timescale (`opt.media_timescale != 0`)
only the multiplier of DTS compression is disabled: it is 1, so the media
timescale, the series `ts`, the last sample delta and the duration are the same
with `dts_compression = 1` as with `dts_compression = 0`.  The timestamps are
still compressed: with a sample delay `D > 0` the composition delay is 0 with
compression and `ts[D]` without, every CTS without compression is the CTS
with compression plus `ts[D]`, and the first `D + 1` DTS with compression are
the ramp `i * ts[1] / (D + 1)`.  With a sample delay of 0 the two runs are the
same. -/
theorem pinned_timescale_disables_only_the_multiplier (opt : opt_t)
    (D timescale cd : Nat) (ts : List Nat) (T : List lsmash_media_ts_t)
    (hmt : opt.media_timescale ≠ 0) (hlen : ts.length = T.length)
    (hts : ∀ x ∈ ts, x < U64) :
    dts_compression_multiplier { opt with dts_compression := 1 } D = 1
    ∧ (D = 0 →
        edit_media_timeline_generate { opt with dts_compression := 1 } D timescale cd ts T
          = edit_media_timeline_generate { opt with dts_compression := 0 } D timescale cd ts T)
    ∧ (D ≠ 0 → D < T.length →
        ∃ r0, edit_media_timeline_generate { opt with dts_compression := 0 } D timescale cd ts T
            = Ret.ok r0
          ∧ ts[D]? = some r0.composition_delay
          ∧ ∀ r1, edit_media_timeline_generate { opt with dts_compression := 1 } D timescale
                cd ts T = Ret.ok r1 →
              r1.timescale = r0.timescale ∧ r1.ts = ts ∧ r0.ts = ts
              ∧ r1.last_sample_delta = r0.last_sample_delta ∧ r1.duration = r0.duration
              ∧ r1.composition_delay = 0
              ∧ r0.timestamp.map (fun t => t.cts)
                  = (r1.timestamp.map (fun t => t.cts)).map
                      (fun c => add64 c r0.composition_delay)
              ∧ ∃ delta, ts[1]? = some delta
                  ∧ ∀ k, k ≤ D → ∃ t, r1.timestamp[k]? = some t
                      ∧ t.dts = ((k * delta) % U64) / ((D + 1) % U32)) := by
  refine ⟨pinned_multiplier_one { opt with dts_compression := 1 } D hmt, ?_, ?_⟩
  · intro hD
    subst hD
    rfl
  · intro hD hDn
    obtain ⟨r0, sdt, _, hsdt, hr0, _, _, hcd, _⟩ :=
      generate_without_compression { opt with dts_compression := 0 } rfl D timescale cd ts T
        hD hDn hlen
    refine ⟨r0, hr0, by rw [hcd]; exact hsdt, ?_⟩
    intro r1 hr1
    obtain ⟨s0, hs0, _, hc0, hts0, htsc0, hcd0, hld0⟩ :=
      generate_ok_inv _ D timescale cd ts T r0 hD hr0
    obtain ⟨s1, hs1, _, hc1, hts1, htsc1, hcd1, hld1⟩ :=
      generate_ok_inv _ D timescale cd ts T r1 hD hr1
    have hm0 : dts_compression_multiplier { opt with dts_compression := 0 } D = 1 :=
      pinned_multiplier_one { opt with dts_compression := 0 } D hmt
    have hm1 : dts_compression_multiplier { opt with dts_compression := 1 } D = 1 :=
      pinned_multiplier_one { opt with dts_compression := 1 } D hmt
    rw [hm0, scale_ts_one] at hs0 hc0 hts0 hld0
    rw [hm0] at htsc0
    rw [hm1, scale_ts_one] at hs1 hc1 hts1 hld1
    rw [hm1] at htsc1
    have hs1z : s1 = 0 := by
      rw [if_pos (by simp)] at hs1
      cases hs1
      rfl
    subst hs1z
    rw [hld0] at hld1
    simp only [Option.some.injEq, Prod.mk.injEq] at hld1
    refine ⟨by rw [htsc1, htsc0], hts1, hts0, hld1.1.symm, hld1.2.symm, hcd1, ?_, ?_⟩
    · rw [hc0, hc1, hcd0, generate_cts_shift T ts s0 hts, decoding_order_map_shift,
        List.map_map, List.map_map]
      rfl
    · obtain ⟨delta, hdelta, hramp⟩ := generate_ok_first_dts _ D timescale cd ts T r1 hD hr1
      rw [hm1, scale_ts_one] at hramp
      refine ⟨delta, hdelta, ?_⟩
      intro k hk
      obtain ⟨t, ht, hdts⟩ := hramp k hk
      refine ⟨t, ht, ?_⟩
      unfold first_loop_dts at hdts
      simp only [] at hdts
      rw [if_neg (by simp), if_pos hmt, Nat.one_mul] at hdts
      by_cases hz : (D + 1) % U32 = 0
      · rw [if_pos hz] at hdts
        cases hdts
      · rw [if_neg hz] at hdts
        simp only [Option.some.injEq] at hdts
        exact hdts.symm

theorem pinned_timescale_disables_only_the_multiplier_witness :
    ({ default_opt with media_timescale := 24 } : opt_t).media_timescale ≠ 0
    ∧ [0, 10, 20, 30].length = ipbb_timestamps.length
    ∧ (∀ x ∈ [0, 10, 20, 30], x < U64)
    ∧ (∃ r1, edit_media_timeline_generate
          { ({ default_opt with media_timescale := 24 } : opt_t) with dts_compression := 1 }
          1 24 0 [0, 10, 20, 30] ipbb_timestamps = Ret.ok r1)
    ∧ dts_compression_multiplier
        { ({ default_opt with media_timescale := 24 } : opt_t) with dts_compression := 1 } 1 = 1
    ∧ ((1 : Nat) = 0 →
        edit_media_timeline_generate
            { ({ default_opt with media_timescale := 24 } : opt_t) with dts_compression := 1 }
            1 24 0 [0, 10, 20, 30] ipbb_timestamps
          = edit_media_timeline_generate
            { ({ default_opt with media_timescale := 24 } : opt_t) with dts_compression := 0 }
            1 24 0 [0, 10, 20, 30] ipbb_timestamps)
    ∧ ((1 : Nat) ≠ 0 → 1 < ipbb_timestamps.length →
        ∃ r0, edit_media_timeline_generate
              { ({ default_opt with media_timescale := 24 } : opt_t) with dts_compression := 0 }
              1 24 0 [0, 10, 20, 30] ipbb_timestamps = Ret.ok r0
          ∧ [0, 10, 20, 30][1]? = some r0.composition_delay
          ∧ ∀ r1, edit_media_timeline_generate
                { ({ default_opt with media_timescale := 24 } : opt_t) with
                  dts_compression := 1 }
                1 24 0 [0, 10, 20, 30] ipbb_timestamps = Ret.ok r1 →
              r1.timescale = r0.timescale ∧ r1.ts = [0, 10, 20, 30] ∧ r0.ts = [0, 10, 20, 30]
              ∧ r1.last_sample_delta = r0.last_sample_delta ∧ r1.duration = r0.duration
              ∧ r1.composition_delay = 0
              ∧ r0.timestamp.map (fun t => t.cts)
                  = (r1.timestamp.map (fun t => t.cts)).map
                      (fun c => add64 c r0.composition_delay)
              ∧ ∃ delta, [0, 10, 20, 30][1]? = some delta
                  ∧ ∀ k, k ≤ 1 → ∃ t, r1.timestamp[k]? = some t
                      ∧ t.dts = ((k * delta) % U64) / ((1 + 1) % U32)) :=
  ⟨by decide, rfl, by decide, ⟨_, rfl⟩,
   pinned_timescale_disables_only_the_multiplier
     { default_opt with media_timescale := 24 } 1 24 0 [0, 10, 20, 30] ipbb_timestamps
     (by decide) rfl (by decide)⟩

/-- C14, as stated, fails.  With the media timescale pinned to 24, the four
samples `ipbb_timestamps` (maximum sample delay 1) and the series 0, 10, 20, 30,
the run with `dts_compression = 1` leaves composition delay 0, CTS 0, 30, 10, 20
and DTS 0, 5, 10, 20, and the run with `dts_compression = 0` leaves composition
delay 10, CTS 10, 40, 20, 30 and DTS 0, 10, 20, 30. -/
theorem pinned_timescale_compression_counterexample :
    ({ default_opt with media_timescale := 24 } : opt_t).media_timescale ≠ 0
    ∧ edit_media_timeline_generate
        { default_opt with media_timescale := 24, dts_compression := 1 }
        1 24 0 [0, 10, 20, 30] ipbb_timestamps
      = Ret.ok { timestamp := [⟨0, 0⟩, ⟨5, 30⟩, ⟨10, 10⟩, ⟨20, 20⟩],
                 ts := [0, 10, 20, 30], timescale := 24, composition_delay := 0,
                 last_sample_delta := 10, duration := 40 }
    ∧ edit_media_timeline_generate
        { default_opt with media_timescale := 24, dts_compression := 0 }
        1 24 0 [0, 10, 20, 30] ipbb_timestamps
      = Ret.ok { timestamp := [⟨0, 10⟩, ⟨10, 40⟩, ⟨20, 20⟩, ⟨30, 30⟩],
                 ts := [0, 10, 20, 30], timescale := 24, composition_delay := 10,
                 last_sample_delta := 10, duration := 40 }
    ∧ edit_media_timeline_generate
        { default_opt with media_timescale := 24, dts_compression := 1 }
        1 24 0 [0, 10, 20, 30] ipbb_timestamps
      ≠ edit_media_timeline_generate
        { default_opt with media_timescale := 24, dts_compression := 0 }
        1 24 0 [0, 10, 20, 30] ipbb_timestamps :=
  ⟨by decide, rfl, rfl, by decide⟩

/-! ## Theorem: the durations of the edits written by the timeline editor -/

theorem sub64_eq_sub {a b : Nat} (hb : b ≤ a) (ha : a < U64) : sub64 a b = a - b := by
  unfold sub64
  rw [Nat.mod_eq_of_lt (by omega : b < U64)]
  rw [show a + U64 - b = (a - b) + U64 by omega, Nat.add_mod_right]
  exact Nat.mod_eq_of_lt (by omega)

/-- Known binary64 values: 0.1 is `0x3FB999999999999A`, 0.1 + 0.2 is
`0x3FD3333333333334` (0.30000000000000004), 1 / 3 is `0x3FD5555555555555`,
`(double)UINT64_MAX` is 2^64, `round( 2.5 )` is 3 and `round( -2.5 )` is -3,
the largest `double` below 0.5 rounds to 0, and 1 / 0 is an infinity. -/
theorem B64_known_values :
    (C_double_math.lit 1 10 : B64) = B64.fin false 0x1999999999999A (-56)
    ∧ C_double_math.add (C_double_math.lit 1 10 : B64) (C_double_math.lit 2 10)
        = B64.fin false 0x13333333333334 (-54)
    ∧ C_double.div (C_double.ofU64 1 : B64) (C_double.ofU64 3)
        = B64.fin false 0x15555555555555 (-54)
    ∧ (C_double.ofU64 18446744073709551615 : B64) = B64.fin false (2 ^ 52) 12
    ∧ C_double_math.round (C_double_math.lit 5 2 : B64) = C_double.ofU64 3
    ∧ C_double_math.round (C_double_math.lit (-5) 2 : B64) = C_double_math.lit (-3) 1
    ∧ C_double_math.round (B64.fin false (2 ^ 53 - 1) (-54)) = B64.fin false 0 0
    ∧ C_double.div (C_double.ofU64 1 : B64) (C_double.ofU64 0) = B64.inf false
    ∧ C_double_math.toU64 (C_double_math.lit (-1) 2 : B64) = some 0
    ∧ C_double_math.toU64 (C_double_math.lit (-1) 1 : B64) = none := by
  decide

/-- The conversion of a binary64 value that is not negative to `uint64_t` gives
the integral part of the value: `t <= m * 2^e < t + 1`. -/
theorem B64_toU64_floor (m : Nat) (e : Int) (t : Nat)
    (h : B64.toU64 (B64.fin false m e) = some t) :
    t * pow2 (-e) ≤ m * pow2 e ∧ m * pow2 e < (t + 1) * pow2 (-e) := by
  have hpos : 0 < pow2 (-e) := Nat.pow_pos (by decide)
  unfold B64.toU64 at h
  simp only [Bool.false_eq_true, if_false] at h
  split at h
  · simp only [Option.some.injEq] at h
    subst h
    refine ⟨Nat.div_mul_le_self _ _, ?_⟩
    rw [Nat.mul_comm (m * pow2 e / pow2 (-e) + 1)]
    exact Nat.lt_mul_div_succ _ hpos
  · cases h

/-- C15 (as amended). In the edit list construction of the timeline editor the
durations are truncated, not rounded to the nearest tick, for every
implementation of `double`: a count `x` of media timescale ticks is converted
as `((double)x / media_timescale) * movie_timescale` and assigned to a
`uint64_t`, which drops the fractional part of that `double` value (no 0.5 is
added, unlike in the conversions of `--delay` and `--skip`).  With a total empty
delay `E` and a track duration `td`, the empty edit is made only when `E` is not
0, and first, with the converted `E` as duration; the normal edit has the
converted `td + E` as duration, less the duration of the empty edit when there
is one.  In IEEE binary64 arithmetic the converted value `t` is the integral
part of the `double` product `p = m * 2^e`, that is `t <= p < t + 1`. -/
theorem edit_durations_are_truncated {D : Type} [C_double_math D] (te td tc : Nat)
    (opt : opt_t) (movie_timescale media_timescale E skip total : Nat)
    (hE : total_empty_delay (D := D) te opt media_timescale = some E)
    (hs : rational_to_ticks (D := D) opt.skip_duration_num media_timescale
            opt.skip_duration_den = some skip)
    (ht : to_movie_ticks (D := D) (add64 td E) media_timescale movie_timescale = some total) :
    (∀ x, to_movie_ticks (D := D) x media_timescale movie_timescale
        = C_double_math.toU64
            (C_double_math.mul
              (C_double.div (C_double.ofU64 x) (C_double.ofU64 media_timescale))
              (C_double.ofU64 movie_timescale : D)))
    ∧ (E = 0 →
        edit_timeline_map (D := D) te td tc opt movie_timescale media_timescale
          = some [{ duration := total, start_time := toI64 (add64 tc skip),
                    rate := ISOM_EDIT_MODE_NORMAL }])
    ∧ (E ≠ 0 → ∀ e,
        to_movie_ticks (D := D) E media_timescale movie_timescale = some e →
        edit_timeline_map (D := D) te td tc opt movie_timescale media_timescale
          = some [{ duration := e, start_time := ISOM_EDIT_MODE_EMPTY,
                    rate := ISOM_EDIT_MODE_NORMAL },
                  { duration := sub64 total e, start_time := toI64 (add64 tc skip),
                    rate := ISOM_EDIT_MODE_NORMAL }])
    ∧ (∀ (x m : Nat) (e : Int) (t : Nat),
        (C_double_math.mul
            (C_double.div (C_double.ofU64 x) (C_double.ofU64 media_timescale))
            (C_double.ofU64 movie_timescale) : B64) = B64.fin false m e →
        to_movie_ticks (D := B64) x media_timescale movie_timescale = some t →
        t * pow2 (-e) ≤ m * pow2 e ∧ m * pow2 e < (t + 1) * pow2 (-e)) := by
  refine ⟨fun x => rfl, ?_, ?_, ?_⟩
  · intro h0
    unfold edit_timeline_map
    rw [hE]
    simp only []
    rw [ht, hs]
    simp only []
    rw [if_neg (by simpa using h0)]
  · intro h0 e he
    unfold edit_timeline_map
    rw [hE]
    simp only []
    rw [ht, hs]
    simp only []
    rw [if_pos h0, he]
  · intro x m e t hp hx
    unfold to_movie_ticks at hx
    rw [hp] at hx
    exact B64_toU64_floor m e t hx

theorem edit_durations_are_truncated_witness :
    total_empty_delay (D := B64) 3 default_opt 1000 = some 3
    ∧ rational_to_ticks (D := B64) default_opt.skip_duration_num 1000
        default_opt.skip_duration_den = some 0
    ∧ to_movie_ticks (D := B64) (add64 4 3) 1000 600 = some 4
    ∧ to_movie_ticks (D := B64) 3 1000 600 = some 1
    ∧ edit_timeline_map (D := B64) 3 4 0 default_opt 600 1000
        = some [{ duration := 1, start_time := ISOM_EDIT_MODE_EMPTY,
                  rate := ISOM_EDIT_MODE_NORMAL },
                { duration := sub64 4 1, start_time := toI64 (add64 0 0),
                  rate := ISOM_EDIT_MODE_NORMAL }]
    ∧ total_empty_delay (D := B64) 0 default_opt 1000 = some 0
    ∧ to_movie_ticks (D := B64) (add64 205 0) 1000 600 = some 122
    ∧ edit_timeline_map (D := B64) 0 205 0 default_opt 600 1000
        = some [{ duration := 122, start_time := toI64 (add64 0 0),
                  rate := ISOM_EDIT_MODE_NORMAL }]
    ∧ (C_double_math.mul (C_double.div (C_double.ofU64 205) (C_double.ofU64 1000))
          (C_double.ofU64 600) : B64) = B64.fin false 8655355533852671 (-46)
    ∧ (122 * pow2 (-(-46)) ≤ 8655355533852671 * pow2 (-46)
        ∧ 8655355533852671 * pow2 (-46) < (122 + 1) * pow2 (-(-46))) :=
  ⟨by decide, by decide, by decide, by decide,
   (edit_durations_are_truncated (D := B64) 3 4 0 default_opt 600 1000 3 0 4
     (by decide) (by decide) (by decide)).2.2.1 (by decide) 1 (by decide),
   by decide, by decide,
   (edit_durations_are_truncated (D := B64) 0 205 0 default_opt 600 1000 0 0 122
     (by decide) (by decide) (by decide)).2.1 rfl,
   by decide,
   (edit_durations_are_truncated (D := B64) 0 205 0 default_opt 600 1000 0 0 122
     (by decide) (by decide) (by decide)).2.2.2 205 8655355533852671 (-46) 122
     (by decide) (by decide)⟩

/-- C15, as stated, fails.  In IEEE binary64 arithmetic, with a media timescale
of 1000 and a movie timescale of 600, an empty delay of 3 ticks and a track
duration of 4 ticks give an empty edit of 1 tick and a normal edit of 3 ticks,
where the nearest ticks are 2 (for 1.8) and 2 (for 2.4; 4 for the total of
4.2); without an empty delay a track duration of 3 ticks gives a normal edit of
1 tick, where the nearest tick is 2, and a track duration of 205 ticks gives
122 ticks, where the exact quotient and the nearest tick are 123; with both
timescales 1000 a track duration of 1001 ticks gives 1000 ticks. -/
theorem edit_duration_nearest_tick_counterexample :
    (edit_timeline_map (D := B64) 3 4 0 default_opt 600 1000).map
        (fun edits => edits.map (fun e => e.duration)) = some [1, 3]
    ∧ nearest_movie_tick 3 600 1000 = 2
    ∧ nearest_movie_tick 4 600 1000 = 2
    ∧ nearest_movie_tick (4 + 3) 600 1000 = 4
    ∧ (edit_timeline_map (D := B64) 0 3 0 default_opt 600 1000).map
        (fun edits => edits.map (fun e => e.duration)) = some [1]
    ∧ nearest_movie_tick 3 600 1000 ≠ 1
    ∧ (edit_timeline_map (D := B64) 0 205 0 default_opt 600 1000).map
        (fun edits => edits.map (fun e => e.duration)) = some [122]
    ∧ nearest_movie_tick 205 600 1000 = 123
    ∧ 205 * 600 / 1000 = 123
    ∧ (edit_timeline_map (D := B64) 0 1001 0 default_opt 1000 1000).map
        (fun edits => edits.map (fun e => e.duration)) = some [1000]
    ∧ nearest_movie_tick 1001 1000 1000 = 1001 := by
  decide

/-! ## Theorem: the media timescale after `correct_fps` -/

theorem div_mul_eq_mul_div_of_dvd (a b c : Nat) (h : b ∣ a) : a / b * c = a * c / b := by
  obtain ⟨k, rfl⟩ := h
  rcases Nat.eq_zero_or_pos b with hb | hb
  · subst hb; simp
  · rw [Nat.mul_div_cancel_left _ hb, Nat.mul_assoc, Nat.mul_div_cancel_left _ hb]

/-- For `a > 0` and as long as the result is a `uint64_t`, `get_lcm` is the least
common multiple. -/
theorem get_lcm_eq (a b : Nat) (ha : 0 < a) (h : Nat.lcm a b < U64) :
    get_lcm a b = Nat.lcm a b := by
  unfold get_lcm
  rw [if_neg (by omega), get_gcd_eq, div_mul_eq_mul_div_of_dvd a _ b (Nat.gcd_dvd_left a b)]
  exact Nat.mod_eq_of_lt h

theorem for_each_nil {σ α : Type} (step : σ → α → Ret σ) (st : σ) :
    for_each step [] st = Ret.ok st := rfl

theorem for_each_cons_ok {σ α : Type} (step : σ → α → Ret σ) (a : α) (as : List α)
    (st st1 : σ) (h : step st a = Ret.ok st1) :
    for_each step (a :: as) st = for_each step as st1 := by
  simp only [for_each, h]

section

variable {D : Type}

theorem correct_fps_of_numerator [C_double_math D] (fuel : Nat) (fps : D) (tc : timecode_t)
    (n : Nat) (h : corrected_numerator fuel tc.media_timebase fps = some n) :
    ∃ q, correct_fps fuel fps tc = Ret.ok (q, correct_fps_timescale tc n) := by
  unfold corrected_numerator at h
  unfold correct_fps
  cases hs : sigexp10 fuel fps with
  | none => rw [hs] at h; cases h
  | some p =>
    obtain ⟨fps_sig, exponent⟩ := p
    rw [hs] at h
    simp only [] at h ⊢
    cases hc : correct_fps_search tc.media_timebase fps_sig exponent fuel 1 with
    | ok r =>
      obtain ⟨fps_num, fps_den⟩ := r
      rw [hc] at h
      simp only [Option.some.injEq] at h
      subst h
      exact ⟨_, rfl⟩
    | error => rw [hc] at h; cases h
    | undef => rw [hc] at h; cases h

theorem correct_fps_calls_cons [C_double_math D] (fuel : Nat) (fps : D) (fs : List D)
    (tc : timecode_t) (n : Nat)
    (h : corrected_numerator fuel tc.media_timebase fps = some n) :
    correct_fps_calls fuel (fps :: fs) tc
      = correct_fps_calls fuel fs (correct_fps_timescale tc n) := by
  obtain ⟨q, hq⟩ := correct_fps_of_numerator fuel fps tc n h
  unfold correct_fps_calls
  exact for_each_cons_ok _ _ _ _ _ (by simp only [hq])

theorem correct_fps_timescale_lcm (tc : timecode_t) (n : Nat)
    (hauto : tc.auto_media_timescale ≠ 0) (hM : 0 < tc.media_timescale)
    (hle : Nat.lcm tc.media_timescale n ≤ UINT32_MAX) :
    correct_fps_timescale tc n
      = { tc with media_timescale := Nat.lcm tc.media_timescale n } := by
  unfold correct_fps_timescale
  have hlt : Nat.lcm tc.media_timescale n < U64 := by
    simp only [UINT32_MAX, U32, U64] at *
    omega
  have hmts : (if tc.media_timescale ≠ 0 then get_lcm tc.media_timescale n else n)
      = Nat.lcm tc.media_timescale n := by
    rw [if_pos (by omega), get_lcm_eq _ _ hM hlt]
  rw [if_pos hauto]
  simp only [hmts]
  rw [if_neg (by omega)]

theorem correct_fps_timescale_first (tc : timecode_t) (n : Nat)
    (hauto : tc.auto_media_timescale ≠ 0) (hM : tc.media_timescale = 0)
    (hle : n ≤ UINT32_MAX) :
    correct_fps_timescale tc n = { tc with media_timescale := n } := by
  unfold correct_fps_timescale
  have hmts : (if tc.media_timescale ≠ 0 then get_lcm tc.media_timescale n else n) = n := by
    rw [if_neg (by omega)]
  rw [if_pos hauto]
  simp only [hmts]
  rw [if_neg (by omega)]

theorem foldr_lcm_pos (l : List Nat) (hl : ∀ n ∈ l, 0 < n) : 0 < l.foldr Nat.lcm 1 := by
  induction l with
  | nil => simp
  | cons a l ihl =>
    simp only [List.foldr_cons]
    exact Nat.lcm_pos (hl a (List.mem_cons_self _ _))
      (ihl (fun n hn => hl n (List.mem_cons_of_mem _ hn)))

theorem correct_fps_calls_lcm [C_double_math D] (fuel : Nat) :
    ∀ (fs : List D) (ns : List Nat) (tc : timecode_t),
      tc.auto_media_timescale ≠ 0 → 0 < tc.media_timescale →
      fs.map (corrected_numerator fuel tc.media_timebase) = ns.map some →
      (∀ n ∈ ns, 0 < n) →
      Nat.lcm tc.media_timescale (ns.foldr Nat.lcm 1) ≤ UINT32_MAX →
      correct_fps_calls fuel fs tc
        = Ret.ok { tc with
            media_timescale := Nat.lcm tc.media_timescale (ns.foldr Nat.lcm 1) } := by
  intro fs
  induction fs with
  | nil =>
    intro ns tc _ hM hmap _ _
    cases ns with
    | nil =>
      simp only [List.foldr_nil, Nat.lcm_one_right]
      rfl
    | cons n ns => simp at hmap
  | cons f fs ih =>
    intro ns tc hauto hM hmap hpos hle
    cases ns with
    | nil => simp at hmap
    | cons n ns =>
      simp only [List.map_cons, List.cons.injEq] at hmap
      simp only [List.foldr_cons] at hle ⊢
      have hn : 0 < n := hpos n (List.mem_cons_self _ _)
      have hLpos : 0 < Nat.lcm tc.media_timescale (Nat.lcm n (ns.foldr Nat.lcm 1)) :=
        Nat.lcm_pos hM (Nat.lcm_pos hn
          (foldr_lcm_pos ns (fun n hn => hpos n (List.mem_cons_of_mem _ hn))))
      have hdvd : Nat.lcm tc.media_timescale n
          ∣ Nat.lcm tc.media_timescale (Nat.lcm n (ns.foldr Nat.lcm 1)) := by
        rw [← Nat.lcm_assoc]
        exact Nat.dvd_lcm_left _ _
      have hle1 : Nat.lcm tc.media_timescale n ≤ UINT32_MAX :=
        Nat.le_trans (Nat.le_of_dvd hLpos hdvd) hle
      rw [correct_fps_calls_cons fuel f fs tc n hmap.1,
        correct_fps_timescale_lcm tc n hauto hM hle1]
      have hM1 : 0 < Nat.lcm tc.media_timescale n := Nat.lcm_pos hM hn
      rw [ih ns { tc with media_timescale := Nat.lcm tc.media_timescale n } hauto hM1
        hmap.2 (fun n hn => hpos n (List.mem_cons_of_mem _ hn))
        (by simp only []; rw [Nat.lcm_assoc]; exact hle)]
      simp only [Nat.lcm_assoc]

/-- C17. With automatic timescale selection (`auto_media_timescale` set, the
media timescale 0 at first), after `correct_fps` has processed rates whose
corrected numerators are `n1, ..., nk > 0` (`k >= 1`), `timecode.media_timescale`
is `lcm(n1, ..., nk)` as long as that value is at most `2^32 - 1`, and automatic
selection is still on; `get_lcm( a, b )` is the least common multiple for
`a > 0` (as long as it is a `uint64_t`). -/
theorem media_timescale_is_lcm [C_double_math D] (fuel : Nat) (fps_list : List D)
    (ns : List Nat) (tc : timecode_t)
    (hauto : tc.auto_media_timescale ≠ 0) (h0 : tc.media_timescale = 0)
    (hk : ns ≠ [])
    (hfound : fps_list.map (corrected_numerator fuel tc.media_timebase) = ns.map some)
    (hpos : ∀ n ∈ ns, 0 < n)
    (hle : ns.foldr Nat.lcm 1 ≤ UINT32_MAX) :
    correct_fps_calls fuel fps_list tc
        = Ret.ok { tc with media_timescale := ns.foldr Nat.lcm 1 }
    ∧ ∀ a b, 0 < a → Nat.lcm a b < U64 → get_lcm a b = Nat.lcm a b := by
  refine ⟨?_, get_lcm_eq⟩
  cases ns with
  | nil => exact absurd rfl hk
  | cons n ns =>
    cases fps_list with
    | nil => simp at hfound
    | cons f fs =>
      simp only [List.map_cons, List.cons.injEq] at hfound
      simp only [List.foldr_cons] at hle ⊢
      have hn : 0 < n := hpos n (List.mem_cons_self _ _)
      have hLpos : 0 < Nat.lcm n (ns.foldr Nat.lcm 1) :=
        Nat.lcm_pos hn (foldr_lcm_pos ns (fun n hn => hpos n (List.mem_cons_of_mem _ hn)))
      have hn_le : n ≤ UINT32_MAX :=
        Nat.le_trans (Nat.le_of_dvd hLpos (Nat.dvd_lcm_left _ _)) hle
      rw [correct_fps_calls_cons fuel f fs tc n hfound.1,
        correct_fps_timescale_first tc n hauto h0 hn_le,
        correct_fps_calls_lcm fuel fs ns { tc with media_timescale := n } hauto hn
          hfound.2 (fun n hn => hpos n (List.mem_cons_of_mem _ hn)) hle]

theorem media_timescale_is_lcm_witness :
    ({ auto_media_timescale := 1, auto_media_timebase := 1, media_timescale := 0,
       media_timebase := 1001, empty_delay := 0, ts := [] } : timecode_t).auto_media_timescale
      ≠ 0
    ∧ ([24000, 30000] : List Nat) ≠ []
    ∧ ([⟨24000, 1001⟩, ⟨30000, 1001⟩] : List Frac).map (corrected_numerator 8 1001)
        = ([24000, 30000] : List Nat).map some
    ∧ (∀ n ∈ ([24000, 30000] : List Nat), 0 < n)
    ∧ ([24000, 30000] : List Nat).foldr Nat.lcm 1 ≤ UINT32_MAX
    ∧ ([24000, 30000] : List Nat).foldr Nat.lcm 1 = 120000
    ∧ (correct_fps_calls 8 ([⟨24000, 1001⟩, ⟨30000, 1001⟩] : List Frac)
          { auto_media_timescale := 1, auto_media_timebase := 1, media_timescale := 0,
            media_timebase := 1001, empty_delay := 0, ts := [] }
        = Ret.ok { auto_media_timescale := 1, auto_media_timebase := 1,
                   media_timescale := ([24000, 30000] : List Nat).foldr Nat.lcm 1,
                   media_timebase := 1001, empty_delay := 0, ts := [] }
      ∧ ∀ a b, 0 < a → Nat.lcm a b < U64 → get_lcm a b = Nat.lcm a b) :=
  ⟨by decide, by decide, by decide, by decide, by decide, by decide,
   media_timescale_is_lcm 8 ([⟨24000, 1001⟩, ⟨30000, 1001⟩] : List Frac) [24000, 30000]
     { auto_media_timescale := 1, auto_media_timebase := 1, media_timescale := 0,
       media_timebase := 1001, empty_delay := 0, ts := [] }
     (by decide) rfl (by decide) (by decide) (by decide) (by decide)⟩

end

/-! ## Theorem: a numerator above `UINT32_MAX` in `parse_timecode` -/

theorem for_each_append {σ α : Type} (step : σ → α → Ret σ) (l1 l2 : List α) (st st1 : σ)
    (h : for_each step l1 st = Ret.ok st1) :
    for_each step (l1 ++ l2) st = for_each step l2 st1 := by
  induction l1 generalizing st with
  | nil =>
    simp only [for_each, Ret.ok.injEq] at h
    subst h
    rfl
  | cons a l1 ih =>
    simp only [for_each, List.cons_append] at h ⊢
    cases hs : step st a with
    | ok st2 =>
      rw [hs] at h
      simp only [] at h ⊢
      exact ih st2 h
    | error => rw [hs] at h; cases h
    | undef => rw [hs] at h; cases h

theorem for_each_cons_error {σ α : Type} (step : σ → α → Ret σ) (a : α) (as : List α)
    (st : σ) (h : step st a = Ret.error) :
    for_each step (a :: as) st = Ret.error := by
  simp only [for_each, h]

theorem for_loop_append {σ : Type} (step : σ → Nat → Ret σ) (l1 l2 : List Nat) (st st1 : σ)
    (h : for_loop step l1 st = Ret.ok st1) :
    for_loop step (l1 ++ l2) st = for_loop step l2 st1 := by
  induction l1 generalizing st with
  | nil =>
    simp only [for_loop, Ret.ok.injEq] at h
    subst h
    rfl
  | cons a l1 ih =>
    simp only [for_loop, List.cons_append] at h ⊢
    cases hs : step st a with
    | ok st2 =>
      rw [hs] at h
      simp only [] at h ⊢
      exact ih st2 h
    | error => rw [hs] at h; cases h
    | undef => rw [hs] at h; cases h

theorem for_loop_cons_ok {σ : Type} (step : σ → Nat → Ret σ) (a : Nat) (as : List Nat)
    (st st1 : σ) (h : step st a = Ret.ok st1) :
    for_loop step (a :: as) st = for_loop step as st1 := by
  simp only [for_loop, h]

theorem range_split (k n : Nat) (h : k < n) :
    List.range n = List.range k ++ k :: List.range' (k + 1) (n - (k + 1)) := by
  rw [List.range_eq_range', List.range_eq_range']
  have h1 : List.range' 0 n = List.range' 0 k ++ List.range' (0 + k) (n - k) := by
    rw [List.range'_append_1, show n - k + k = n by omega]
  rw [h1, Nat.zero_add, show n - k = (n - (k + 1)) + 1 by omega, List.range'_succ]

section

variable {D : Type}

/-- When the assumed rate makes `correct_fps` return its error, so does
`parse_timecode` for format v1. -/
theorem v1_assume_error [C_double_math D] (fuel : Nat) (tc : timecode_t) (sc : Nat)
    (assume_fps : D) (lines : List (sequence_t D))
    (h : correct_fps fuel assume_fps tc = Ret.error) :
    parse_timecode_v1 fuel tc sc assume_fps lines = Ret.error := by
  unfold parse_timecode_v1
  by_cases h1 : C_double.le assume_fps (C_double_math.lit 0 1 : D) = true
  · rw [if_pos h1]
  · rw [if_neg h1]
    by_cases h2 : check_sequences lines (-1) (-1) = false
    · rw [if_pos h2]
    · rw [if_neg h2]
      unfold v1_generate
      rw [h]

theorem v1_step_error [C_double_math D] (fuel limit : Nat) (caf : D) (st : V1Loop D)
    (l : sequence_t D) (array1 : List D)
    (hi : st.i < limit)
    (hfill : fill_timecodes st.timecode_array caf st.i (run_until_start st.i l.start limit)
      = Ret.ok array1)
    (hreach : run_until_start st.i l.start limit < limit)
    (h : correct_fps fuel l.fps st.timecode = Ret.error) :
    v1_step fuel limit caf st l = Ret.error := by
  unfold v1_step
  rw [if_pos hi]
  simp only []
  rw [hfill]
  simp only []
  rw [if_pos hreach, h]

/-- When the rate of a run that is reached makes `correct_fps` return its error,
so does `parse_timecode` for format v1. -/
theorem v1_run_error [C_double_math D] (fuel : Nat) (tc : timecode_t) (sc : Nat)
    (assume_fps : D) (pre post : List (sequence_t D)) (l : sequence_t D)
    (caf : D) (tc1 : timecode_t) (st1 : V1Loop D) (array1 : List D)
    (hsc : sc ≠ 0)
    (hassume : correct_fps fuel assume_fps tc = Ret.ok (caf, tc1))
    (hpre : for_each (v1_step fuel (dec32 sc) caf) pre
        { timecode := tc1,
          timecode_array := List.replicate sc (C_double_math.lit 0 1),
          i := 0, fps_array := [] } = Ret.ok st1)
    (hi : st1.i < dec32 sc)
    (hfill : fill_timecodes st1.timecode_array caf st1.i
        (run_until_start st1.i l.start (dec32 sc)) = Ret.ok array1)
    (hreach : run_until_start st1.i l.start (dec32 sc) < dec32 sc)
    (h : correct_fps fuel l.fps st1.timecode = Ret.error) :
    parse_timecode_v1 fuel tc sc assume_fps (pre ++ l :: post) = Ret.error := by
  unfold parse_timecode_v1
  by_cases h1 : C_double.le assume_fps (C_double_math.lit 0 1 : D) = true
  · rw [if_pos h1]
  · rw [if_neg h1]
    by_cases h2 : check_sequences (pre ++ l :: post) (-1) (-1) = false
    · rw [if_pos h2]
    · rw [if_neg h2]
      unfold v1_generate
      rw [hassume]
      simp only []
      by_cases h3 : C_double.lt caf (C_double_math.lit 0 1 : D) = true
      · rw [if_pos h3]
      · rw [if_neg h3, if_neg hsc]
        rw [for_each_append _ _ _ _ _ hpre,
          for_each_cons_error _ _ _ _ (v1_step_error fuel _ caf st1 l array1 hi hfill hreach h)]

theorem v2_rest [C_double_math D] (fuel : Nat) (tca : List D) :
    ∀ (is : List Nat) (st : V2Loop D),
      st.timecode.auto_media_timescale = 0 →
      (∀ i ∈ is, i + 1 < tca.length) →
      for_loop (v2_step fuel tca) is st
        = Ret.ok { timecode := st.timecode,
                   fps_array := st.fps_array ++ is.filterMap (interval_fps tca) } := by
  intro is
  induction is with
  | nil =>
    intro st _ _
    simp only [for_loop, List.filterMap_nil, List.append_nil]
  | cons i is ih =>
    intro st hauto hb
    have hi : i + 1 < tca.length := hb i (List.mem_cons_self _ _)
    obtain ⟨b, hb1⟩ := getElem?_of_lt tca (i + 1) hi
    obtain ⟨a, ha1⟩ := getElem?_of_lt tca i (by omega)
    have hfps : interval_fps tca i
        = some (C_double.div (C_double_math.lit 1 1 : D) (C_double.sub b a)) := by
      unfold interval_fps
      rw [hb1, ha1]
    have hstep : v2_step fuel tca st i
        = Ret.ok { timecode := st.timecode,
                   fps_array := st.fps_array
                     ++ [C_double.div (C_double_math.lit 1 1 : D) (C_double.sub b a)] } := by
      unfold v2_step
      rw [hfps]
      simp only []
      rw [if_neg (by simpa using hauto)]
    rw [for_loop_cons_ok _ _ _ _ _ hstep,
      ih { timecode := st.timecode,
           fps_array := st.fps_array
             ++ [C_double.div (C_double_math.lit 1 1 : D) (C_double.sub b a)] }
        hauto (fun j hj => hb j (List.mem_cons_of_mem _ hj)),
      List.filterMap_cons, hfps]
    simp only [List.append_assoc, List.singleton_append]

theorem v2_timescale_timebase (tc : timecode_t) (n : Nat) :
    (v2_timescale tc n).auto_media_timebase = tc.auto_media_timebase := by
  unfold v2_timescale
  simp only []
  split_ifs <;> rfl

theorem v2_step_timebase [C_double_math D] (fuel : Nat) (tca : List D) (st st1 : V2Loop D)
    (i : Nat) (h : v2_step fuel tca st i = Ret.ok st1) :
    st1.timecode.auto_media_timebase = st.timecode.auto_media_timebase := by
  unfold v2_step at h
  cases hf : interval_fps tca i with
  | none => rw [hf] at h; cases h
  | some fps =>
    rw [hf] at h
    simp only [] at h
    by_cases ha : st.timecode.auto_media_timescale ≠ 0
    · rw [if_pos ha] at h
      cases hs : sigexp10 fuel fps with
      | none => rw [hs] at h; cases h
      | some p =>
        obtain ⟨sig, e⟩ := p
        rw [hs] at h
        simp only [] at h
        cases hv : v2_search st.timecode.media_timebase sig e fuel 1 with
        | none => rw [hv] at h; cases h
        | some q =>
          obtain ⟨n, d⟩ := q
          rw [hv] at h
          simp only [Ret.ok.injEq] at h
          subst h
          exact v2_timescale_timebase _ _
    · rw [if_neg ha] at h
      simp only [Ret.ok.injEq] at h
      subst h
      rfl

/-- In format v2, a search that ends with a numerator above `UINT32_MAX` which
takes the media timescale above `UINT32_MAX` switches automatic timescale
generation off; the rest of the loop only records the rates, and then the
Matroska timescale is tried if the timebase is automatic, while a pinned
timebase makes `parse_timecode` return an error. -/
theorem v2_overflow [C_double_math D] (fuel sc k n d : Nat) (tc : timecode_t)
    (tca : List D) (st : V2Loop D) (fps fps_sig exponent : D)
    (hsc : sc ≠ 1) (hauto : tc.auto_media_timescale ≠ 0)
    (hk : k < dec32 sc) (hlen : dec32 sc < tca.length)
    (hpre : for_loop (v2_step fuel tca) (List.range k) { timecode := tc, fps_array := [] }
      = Ret.ok st)
    (hst : st.timecode.auto_media_timescale ≠ 0)
    (hfps : interval_fps tca k = some fps)
    (hsig : sigexp10 fuel fps = some (fps_sig, exponent))
    (hsearch : v2_search st.timecode.media_timebase fps_sig exponent fuel 1 = some (n, d))
    (hn : UINT32_MAX < n)
    (hbig : st.timecode.media_timescale = 0
      ∨ UINT32_MAX < get_lcm st.timecode.media_timescale n) :
    (tc.auto_media_timebase = 0 → parse_timecode_v2 fuel tc sc tca = Ret.error)
    ∧ (tc.auto_media_timebase ≠ 0 →
        parse_timecode_v2 fuel tc sc tca
          = finish_after
              (try_matroska_timescale fuel
                (st.fps_array ++ (List.range' k (dec32 sc - k)).filterMap (interval_fps tca))
                (v2_timescale st.timecode n) (dec32 sc))
              sc tca) := by
  have hmts : UINT32_MAX < (if n ≠ 0 ∧ st.timecode.media_timescale ≠ 0 then
      get_lcm st.timecode.media_timescale n else n) := by
    rcases hbig with h | h
    · rw [if_neg (by omega)]
      exact hn
    · by_cases h0 : st.timecode.media_timescale = 0
      · rw [if_neg (by omega)]
        exact hn
      · rw [if_pos ⟨by omega, h0⟩]
        exact h
  have hts : v2_timescale st.timecode n
      = { st.timecode with
          media_timescale := (if n ≠ 0 ∧ st.timecode.media_timescale ≠ 0 then
            get_lcm st.timecode.media_timescale n else n),
          auto_media_timescale := 0 } := by
    unfold v2_timescale
    simp only []
    rw [if_pos hmts]
  have hstep : v2_step fuel tca st k
      = Ret.ok { timecode := v2_timescale st.timecode n,
                 fps_array := st.fps_array ++ [fps] } := by
    unfold v2_step
    rw [hfps]
    simp only []
    rw [if_pos hst, hsig]
    simp only []
    rw [hsearch]
  have hoff : (v2_timescale st.timecode n).auto_media_timescale = 0 := by
    rw [hts]
  have htb : st.timecode.auto_media_timebase = tc.auto_media_timebase :=
    for_loop_preserves (v2_step fuel tca)
      (fun s : V2Loop D => s.timecode.auto_media_timebase = tc.auto_media_timebase)
      (fun s i s1 hs hq => (v2_step_timebase fuel tca s s1 i hs).trans hq)
      _ _ _ hpre rfl
  have hloop : for_loop (v2_step fuel tca) (List.range (dec32 sc))
      { timecode := tc, fps_array := [] }
      = Ret.ok { timecode := v2_timescale st.timecode n,
                 fps_array := st.fps_array
                   ++ (List.range' k (dec32 sc - k)).filterMap (interval_fps tca) } := by
    rw [range_split k (dec32 sc) hk, for_loop_append _ _ _ _ _ hpre,
      for_loop_cons_ok _ _ _ _ _ hstep,
      v2_rest fuel tca _ _ hoff (fun i hi => by
        have := (List.mem_range'_1.1 hi).2
        omega)]
    simp only []
    rw [show dec32 sc - k = (dec32 sc - (k + 1)) + 1 by omega, List.range'_succ,
      List.filterMap_cons, hfps]
    simp only [List.append_assoc, List.singleton_append]
  have hgen : v2_generate_timescale fuel tc sc tca
      = v2_fallback fuel sc
          { timecode := v2_timescale st.timecode n,
            fps_array := st.fps_array
              ++ (List.range' k (dec32 sc - k)).filterMap (interval_fps tca) } := by
    unfold v2_generate_timescale
    rw [if_pos ⟨hsc, hauto⟩, hloop]
  constructor
  · intro hpin
    unfold parse_timecode_v2
    rw [hgen]
    unfold v2_fallback
    simp only []
    rw [if_neg (by rw [v2_timescale_timebase, htb]; simp [hpin])]
    unfold finish_after
    simp only []
    unfold parse_timecode_finish reduce_or_check
    rw [if_neg (by rw [hoff, v2_timescale_timebase, htb, hpin]; simp)]
    rw [if_pos (Or.inl (by rw [hts]; exact hmts))]
  · intro hautotb
    unfold parse_timecode_v2
    rw [hgen]
    unfold v2_fallback
    simp only []
    rw [if_pos ⟨by rw [v2_timescale_timebase, htb]; exact hautotb, hoff⟩]

theorem reduce_or_check_auto (tc : timecode_t)
    (hauto : tc.auto_media_timescale ≠ 0 ∨ tc.auto_media_timebase ≠ 0)
    (hg : Nat.gcd tc.media_timebase tc.media_timescale ≠ 0) :
    reduce_or_check tc
      = Ret.ok { tc with
          media_timebase := tc.media_timebase / Nat.gcd tc.media_timebase tc.media_timescale,
          media_timescale :=
            tc.media_timescale / Nat.gcd tc.media_timebase tc.media_timescale } := by
  unfold reduce_or_check
  rw [if_pos hauto]
  simp only [get_gcd_eq]
  rw [if_neg hg]

theorem parse_timecode_finish_of_reduce [C_double_math D] (tc tc1 : timecode_t) (sc : Nat)
    (tca : List D) (h : reduce_or_check tc = Ret.ok tc1) :
    parse_timecode_finish tc sc tca = parse_timecode_ts tc1 sc tca := by
  unfold parse_timecode_finish
  rw [h]

theorem parse_timecode_v2_of_generate [C_double_math D] (fuel : Nat) (tc tc1 : timecode_t)
    (sc : Nat) (tca : List D) (h : v2_generate_timescale fuel tc sc tca = Ret.ok tc1) :
    parse_timecode_v2 fuel tc sc tca = parse_timecode_finish tc1 sc tca := by
  unfold parse_timecode_v2
  rw [h]
  rfl

end

/-- C16 (as amended). When `correct_fps` reaches a numerator above `2^32 - 1`
without a match, for the assumed rate or for the rate of a run that is reached,
it returns its error and `parse_timecode` (format v1) returns an error.  In
format v2 such a numerator only ends the search: it enters the media timescale,
and when that takes the media timescale above `2^32 - 1` automatic timescale
generation is switched off and the rest of the loop only records the rates; then
`parse_timecode` returns an error if the timebase is pinned, and with an
automatic timebase it goes on with the Matroska timescale
(`try_matroska_timescale`) and returns what that path gives. -/
theorem numerator_overflow_fails_or_falls_back {D : Type} [C_double_math D] :
    (∀ (fuel : Nat) (tc : timecode_t) (sc : Nat) (assume_fps : D)
        (lines : List (sequence_t D)),
        correct_fps fuel assume_fps tc = Ret.error →
        parse_timecode_v1 fuel tc sc assume_fps lines = Ret.error)
    ∧ (∀ (fuel : Nat) (tc : timecode_t) (sc : Nat) (assume_fps : D)
        (pre post : List (sequence_t D)) (l : sequence_t D) (caf : D) (tc1 : timecode_t)
        (st1 : V1Loop D) (array1 : List D),
        sc ≠ 0 →
        correct_fps fuel assume_fps tc = Ret.ok (caf, tc1) →
        for_each (v1_step fuel (dec32 sc) caf) pre
          { timecode := tc1,
            timecode_array := List.replicate sc (C_double_math.lit 0 1),
            i := 0, fps_array := [] } = Ret.ok st1 →
        st1.i < dec32 sc →
        fill_timecodes st1.timecode_array caf st1.i
          (run_until_start st1.i l.start (dec32 sc)) = Ret.ok array1 →
        run_until_start st1.i l.start (dec32 sc) < dec32 sc →
        correct_fps fuel l.fps st1.timecode = Ret.error →
        parse_timecode_v1 fuel tc sc assume_fps (pre ++ l :: post) = Ret.error)
    ∧ (∀ (fuel sc k n d : Nat) (tc : timecode_t) (tca : List D) (st : V2Loop D)
        (fps fps_sig exponent : D),
        sc ≠ 1 → tc.auto_media_timescale ≠ 0 →
        k < dec32 sc → dec32 sc < tca.length →
        for_loop (v2_step fuel tca) (List.range k) { timecode := tc, fps_array := [] }
          = Ret.ok st →
        st.timecode.auto_media_timescale ≠ 0 →
        interval_fps tca k = some fps →
        sigexp10 fuel fps = some (fps_sig, exponent) →
        v2_search st.timecode.media_timebase fps_sig exponent fuel 1 = some (n, d) →
        UINT32_MAX < n →
        (st.timecode.media_timescale = 0
          ∨ UINT32_MAX < get_lcm st.timecode.media_timescale n) →
        (tc.auto_media_timebase = 0 → parse_timecode_v2 fuel tc sc tca = Ret.error)
        ∧ (tc.auto_media_timebase ≠ 0 →
            parse_timecode_v2 fuel tc sc tca
              = finish_after
                  (try_matroska_timescale fuel
                    (st.fps_array
                      ++ (List.range' k (dec32 sc - k)).filterMap (interval_fps tca))
                    (v2_timescale st.timecode n) (dec32 sc))
                  sc tca)) :=
by
  refine ⟨?_, ?_, ?_⟩
  · intro fuel tc sc assume_fps lines h
    exact v1_assume_error fuel tc sc assume_fps lines h
  · intro fuel tc sc assume_fps pre post l caf tc1 st1 array1 hsc hassume hpre hi hfill hreach h
    exact v1_run_error fuel tc sc assume_fps pre post l caf tc1 st1 array1 hsc hassume hpre hi
      hfill hreach h
  · intro fuel sc k n d tc tca st fps fps_sig exponent hsc hauto hk hlen hpre hst hfps hsig
      hsearch hn hbig
    exact v2_overflow fuel sc k n d tc tca st fps fps_sig exponent hsc hauto hk hlen hpre hst
      hfps hsig hsearch hn hbig

theorem numerator_overflow_fails_or_falls_back_witness :
    (correct_fps (D := Frac) 4 ⟨2, 1⟩ wide_timebase_timecode = Ret.error
      ∧ parse_timecode_v1 (D := Frac) 4 wide_timebase_timecode 3 ⟨2, 1⟩ [] = Ret.error)
    ∧ (correct_fps (D := Frac) 4 ⟨1, 1⟩ wide_timebase_timecode
          = Ret.ok (⟨3221225472, 3221225472⟩,
              { wide_timebase_timecode with media_timescale := 3221225472 })
      ∧ correct_fps (D := Frac) 4 ⟨2, 1⟩
          { wide_timebase_timecode with media_timescale := 3221225472 } = Ret.error
      ∧ parse_timecode_v1 (D := Frac) 4 wide_timebase_timecode 3 ⟨1, 1⟩
          ([] ++ [(⟨1, 1, ⟨2, 1⟩⟩ : sequence_t Frac)]) = Ret.error)
    ∧ (v2_search (D := Frac) 3221225472 ⟨2, 1⟩ ⟨1, 1⟩ 4 1 = some (6442450944, 3221225472)
      ∧ UINT32_MAX < 6442450944
      ∧ parse_timecode_v2 4 { wide_timebase_timecode with auto_media_timebase := 0 } 3
          half_second_timecodes = Ret.error) :=
  ⟨⟨by decide, (numerator_overflow_fails_or_falls_back (D := Frac)).1 4
      wide_timebase_timecode 3 ⟨2, 1⟩ [] (by decide)⟩,
   ⟨by decide, by decide,
    (numerator_overflow_fails_or_falls_back (D := Frac)).2.1 4 wide_timebase_timecode 3
      ⟨1, 1⟩ [] [] ⟨1, 1, ⟨2, 1⟩⟩ ⟨3221225472, 3221225472⟩
      { wide_timebase_timecode with media_timescale := 3221225472 }
      { timecode := { wide_timebase_timecode with media_timescale := 3221225472 },
        timecode_array := List.replicate 3 (C_double_math.lit 0 1),
        i := 0, fps_array := [] }
      [⟨0, 1⟩, ⟨3221225472, 3221225472⟩, ⟨0, 1⟩]
      (by decide) (by decide) rfl (by decide) rfl (by decide) (by decide)⟩,
   ⟨by decide, by decide,
    ((numerator_overflow_fails_or_falls_back (D := Frac)).2.2 4 3 0 6442450944 3221225472
      { wide_timebase_timecode with auto_media_timebase := 0 } half_second_timecodes
      { timecode := { wide_timebase_timecode with auto_media_timebase := 0 },
        fps_array := [] }
      ⟨2, 1⟩ ⟨2, 1⟩ ⟨1, 1⟩
      (by decide) (by decide) (by decide) (by decide) rfl (by decide) rfl rfl (by decide)
      (by decide) (Or.inl rfl)).1 rfl⟩⟩

/-- C16, as stated, fails for format v2.  With both the timescale and the
timebase automatic, a media timebase of `3 * 2^30` and the timecodes 0 s, 0.5 s
and 1 s, the search for the rate 2 of the first interval ends with the
numerator `3 * 2^31`, above `2^32 - 1`, without a match; `parse_timecode`
switches automatic timescale generation off, takes the Matroska timescale and
returns 0 with the timescale 2, the timebase 1 and the timestamps 0, 1, 2. -/
theorem numerator_overflow_v2_counterexample :
    wide_timebase_timecode.auto_media_timescale ≠ 0
    ∧ interval_fps half_second_timecodes 0 = some ⟨2, 1⟩
    ∧ sigexp10 (D := Frac) 4 ⟨2, 1⟩ = some (⟨2, 1⟩, ⟨1, 1⟩)
    ∧ fps_candidate (D := Frac) wide_timebase_timecode.media_timebase ⟨2, 1⟩ ⟨1, 1⟩ 1
        = some (6442450944, 3221225472)
    ∧ fps_matches (D := Frac) 6442450944 3221225472 ⟨2, 1⟩ ⟨1, 1⟩ = true
    ∧ v2_search (D := Frac) wide_timebase_timecode.media_timebase ⟨2, 1⟩ ⟨1, 1⟩ 4 1
        = some (6442450944, 3221225472)
    ∧ UINT32_MAX < 6442450944
    ∧ parse_timecode_v2 4 wide_timebase_timecode 3 half_second_timecodes
        = Ret.ok { auto_media_timescale := 0, auto_media_timebase := 1, media_timescale := 2,
                   media_timebase := 1, empty_delay := 0, ts := [0, 1, 2] } := by
  have h5 : v2_generate_timescale 4 wide_timebase_timecode 3 half_second_timecodes
      = Ret.ok (timecode_t.mk 0 1 1000000000 500000000 0 []) := by
    delta v2_generate_timescale v2_fallback try_matroska_timescale try_matroska_timescale_step
    simp only [get_gcd_eq]
    decide
  have h6 : reduce_or_check (timecode_t.mk 0 1 1000000000 500000000 0 [])
      = Ret.ok (timecode_t.mk 0 1 2 1 0 []) :=
    (reduce_or_check_auto (timecode_t.mk 0 1 1000000000 500000000 0 []) (by decide)
      (by decide)).trans (by decide)
  have h7 : parse_timecode_ts (timecode_t.mk 0 1 2 1 0 []) 3 half_second_timecodes
      = Ret.ok (timecode_t.mk 0 1 2 1 0 [0, 1, 2]) := by
    decide
  exact ⟨by decide, rfl, rfl, by decide, by decide, by decide, by decide,
    (parse_timecode_v2_of_generate 4 _ _ 3 half_second_timecodes h5).trans
      ((parse_timecode_finish_of_reduce _ _ 3 half_second_timecodes h6).trans h7)⟩

/-! ## Theorem: the name of a media segment file -/

theorem c_str_at_cons_succ (c : Char) (cs : List Char) (i : Nat) :
    c_str_at (c :: cs) (i + 1) = c_str_at cs i := by
  unfold c_str_at
  simp only [List.length_cons, Nat.add_right_cancel_iff, List.getElem?_cons_succ]

theorem c_str_at_cons_zero (c : Char) (cs : List Char) :
    c_str_at (c :: cs) 0 = some c := by
  unfold c_str_at
  simp

theorem scan_back_cons (c : Char) (cs : List Char) :
    ∀ i, scan_back (c :: cs) (i + 1)
      = match scan_back cs i with
        | none => none
        | some q =>
          if q < 0 then (if stops_scan c then some 0 else some (-1)) else some (q + 1) := by
  intro i
  induction i with
  | zero =>
    simp only [scan_back, c_str_at_cons_succ, c_str_at_cons_zero]
    cases h : c_str_at cs 0 with
    | none => rfl
    | some d =>
      simp only []
      by_cases hd : stops_scan d = true
      · simp [hd]
      · simp [hd]
  | succ i ih =>
    rw [scan_back, c_str_at_cons_succ]
    conv => rhs; rw [scan_back]
    cases h : c_str_at cs (i + 1) with
    | none => rfl
    | some d =>
      simp only []
      by_cases hd : stops_scan d = true
      · simp only [hd, if_true]
        rw [if_neg (by omega)]
        push_cast
        rfl
      · simp only [hd]
        exact ih

theorem scan_back_length (name : List Char) :
    scan_back name name.length
      = some (match last_stop_index name with
              | some k => (k : Int)
              | none => -1) := by
  induction name with
  | nil => rfl
  | cons c cs ih =>
    rw [List.length_cons, scan_back_cons, ih]
    simp only [last_stop_index]
    cases h : last_stop_index cs with
    | some k =>
      simp only []
      rw [if_neg (Int.not_lt.2 (Int.ofNat_nonneg k))]
      push_cast
      rfl
    | none =>
      simp only []
      rw [if_pos (by decide)]
      by_cases hc : stops_scan c = true
      · simp [hc]
      · simp [hc]

theorem last_stop_index_none (name : List Char) :
    last_stop_index name = none ↔ name.any stops_scan = false := by
  induction name with
  | nil => simp [last_stop_index]
  | cons c cs ih =>
    simp only [last_stop_index, List.any_cons, Bool.or_eq_false_iff]
    cases h : last_stop_index cs with
    | some k =>
      simp only []
      constructor
      · intro h1
        cases h1
      · intro h2
        have := ih.2 h2.2
        rw [h] at this
        cases this
    | none =>
      have := ih.1 h
      by_cases hc : stops_scan c = true
      · simp [hc]
      · simp [hc, this]

theorem last_stop_index_lt (name : List Char) (k : Nat) (h : last_stop_index name = some k) :
    ∃ c, name[k]? = some c ∧ stops_scan c = true := by
  induction name generalizing k with
  | nil => simp [last_stop_index] at h
  | cons c cs ih =>
    simp only [last_stop_index] at h
    cases hl : last_stop_index cs with
    | some j =>
      rw [hl] at h
      simp only [Option.some.injEq] at h
      subst h
      simpa using ih j hl
    | none =>
      rw [hl] at h
      by_cases hc : stops_scan c = true
      · simp only [hc, if_true, Option.some.injEq] at h
        subst h
        exact ⟨c, List.getElem?_cons_zero, hc⟩
      · simp [hc] at h

theorem extension_of_eq (name : List Char) :
    extension_of name
      = match last_stop_index name with
        | none => []
        | some k => if name[k]? = some DOT then name.drop k else [] := by
  induction name with
  | nil => rfl
  | cons c cs ih =>
    simp only [extension_of, last_stop_index]
    cases hl : last_stop_index cs with
    | some k =>
      have hany : cs.any stops_scan = true := by
        cases ha : cs.any stops_scan with
        | true => rfl
        | false =>
          have := (last_stop_index_none cs).2 ha
          rw [hl] at this
          cases this
      rw [if_pos hany, ih, hl]
      simp only [List.getElem?_cons_succ, List.drop_succ_cons]
    | none =>
      have hany := (last_stop_index_none cs).1 hl
      rw [if_neg (by simp [hany])]
      by_cases hc : stops_scan c = true
      · simp only [hc, if_true, List.getElem?_cons_zero, Option.some.injEq, List.drop_zero]
      · simp only [hc]
        have hdot : c ≠ DOT := by
          intro h
          apply hc
          rw [h]
          decide
        simp [hdot]

/-- What lines 1378-1385 of `open_media_segment` compute: the offset at which
the extension of the name starts. -/
theorem extension_offset_spec (name : List Char) :
    ∃ p, extension_offset name = some p ∧ p ≤ name.length
      ∧ name.drop p = extension_of name ∧ name.take p = stem_of name
      ∧ (c_str_at name p = some DOT ↔ extension_of name ≠ []) := by
  have hstem : ∀ p, p ≤ name.length → name.drop p = extension_of name →
      name.take p = stem_of name := by
    intro p hp hd
    unfold stem_of
    rw [← hd, List.length_drop, show name.length - (name.length - p) = p by omega]
  have hend : c_str_at name name.length = some NUL := by
    unfold c_str_at
    rw [if_pos rfl]
  unfold extension_offset
  rw [scan_back_length, extension_of_eq]
  cases hl : last_stop_index name with
  | none =>
    simp only []
    have hany := (last_stop_index_none name).1 hl
    have h0 : ∃ c, c_str_at name 0 = some c ∧ c ≠ DOT := by
      cases name with
      | nil => exact ⟨NUL, rfl, by decide⟩
      | cons c cs =>
        refine ⟨c, c_str_at_cons_zero c cs, ?_⟩
        intro h
        simp only [List.any_cons, Bool.or_eq_false_iff] at hany
        rw [h] at hany
        exact absurd hany.1 (by decide)
    obtain ⟨c, hc, hcd⟩ := h0
    have hp1 : (if (-1 : Int) < 0 then (-1 : Int) + 1 else -1).toNat = 0 := by decide
    rw [hp1, hc]
    simp only []
    rw [if_pos hcd]
    refine ⟨name.length, rfl, Nat.le_refl _, by simp, ?_, ?_⟩
    · apply hstem _ (Nat.le_refl _)
      rw [extension_of_eq, hl]
      simp
    · rw [hend]
      simp
      decide
  | some k =>
    simp only []
    obtain ⟨c, hc, hstop⟩ := last_stop_index_lt name k hl
    have hk : k < name.length := (List.getElem?_eq_some_iff.1 hc).1
    have hp1 : (if (k : Int) < 0 then (k : Int) + 1 else (k : Int)).toNat = k := by
      rw [if_neg (by omega)]
      exact Int.toNat_ofNat k
    have hat : c_str_at name k = some c := by
      unfold c_str_at
      rw [if_neg (by omega)]
      exact hc
    rw [hp1, hat]
    simp only []
    by_cases hcd : c = DOT
    · subst hcd
      rw [if_neg (by simp), hc, if_pos rfl]
      refine ⟨k, rfl, by omega, rfl, ?_, ?_⟩
      · apply hstem _ (by omega)
        rw [extension_of_eq, hl]
        simp only [hc, if_true]
      · rw [hat]
        simp only [true_iff]
        intro h
        have := congrArg List.length h
        rw [List.length_drop] at this
        simp at this
        omega
    · rw [if_pos hcd, hc, if_neg (by simpa using hcd)]
      refine ⟨name.length, rfl, Nat.le_refl _, by simp, ?_, ?_⟩
      · apply hstem _ (Nat.le_refl _)
        rw [extension_of_eq, hl]
        simp only [hc]
        rw [if_neg (by simpa using hcd)]
        simp
      · rw [hend]
        simp
        decide

theorem suffix_length_loop_zero (fuel len : Nat) : suffix_length_loop fuel 0 len = len := by
  cases fuel <;> simp [suffix_length_loop]

theorem suffix_length_loop_digits :
    ∀ (g f n : Nat) (ds : List Char) (len : Nat), 0 < n → n < f → n < 10 ^ g →
      suffix_length_loop g n len + ds.length = len + (Nat.toDigitsCore 10 f n ds).length := by
  intro g
  induction g with
  | zero =>
    intro f n ds len hn _ hg
    simp at hg
    omega
  | succ g ih =>
    intro f n ds len hn hf hg
    cases f with
    | zero => omega
    | succ f =>
      rw [suffix_length_loop, if_neg (by omega)]
      simp only [Nat.toDigitsCore]
      by_cases h0 : n / 10 = 0
      · rw [h0, suffix_length_loop_zero, if_pos rfl, List.length_cons]
        omega
      · rw [if_neg h0]
        have hlt : n / 10 < 10 ^ g := by
          rw [Nat.pow_succ] at hg
          exact Nat.div_lt_of_lt_mul (by omega)
        have hlt2 : n / 10 < f := by
          have : n / 10 < n := Nat.div_lt_self hn (by omega)
          omega
        have := ih f (n / 10) (Nat.digitChar (n % 10) :: ds) (len + 1) (by omega) hlt2 hlt
        rw [List.length_cons] at this
        omega

theorem suffix_length_eq (n : Nat) (hn : 0 < n) (h32 : n < U32) :
    suffix_length_loop 10 n 1 = 1 + (Nat.toDigits 10 n).length := by
  have h10 : U32 ≤ 10 ^ 10 := by decide
  have := suffix_length_loop_digits 10 (n + 1) n [] 1 hn (by omega)
    (Nat.lt_of_lt_of_le h32 h10)
  rw [List.length_nil, Nat.add_zero] at this
  unfold Nat.toDigits
  exact this

theorem digitChar_ne_NUL : ∀ k, k < 10 → Nat.digitChar k ≠ NUL := by
  decide

theorem toDigitsCore_ne_NUL :
    ∀ (f n : Nat) (ds : List Char), (∀ c ∈ ds, c ≠ NUL) →
      ∀ c ∈ Nat.toDigitsCore 10 f n ds, c ≠ NUL := by
  intro f
  induction f with
  | zero =>
    intro n ds hds c hc
    simp only [Nat.toDigitsCore] at hc
    exact hds c hc
  | succ f ih =>
    intro n ds hds c hc
    simp only [Nat.toDigitsCore] at hc
    have hds1 : ∀ c ∈ Nat.digitChar (n % 10) :: ds, c ≠ NUL := by
      intro c hc
      rcases List.mem_cons.1 hc with h | h
      · rw [h]; exact digitChar_ne_NUL _ (Nat.mod_lt _ (by omega))
      · exact hds c h
    by_cases h0 : n / 10 = 0
    · rw [if_pos h0] at hc
      exact hds1 c hc
    · rw [if_neg h0] at hc
      exact ih _ _ hds1 c hc

theorem toDigits_ne_NUL (n : Nat) : ∀ c ∈ Nat.toDigits 10 n, c ≠ NUL :=
  toDigitsCore_ne_NUL _ _ [] (fun _ h => by cases h)

theorem c_str_of_append (l : List Char) (rest : List (Option Char))
    (h : ∀ c ∈ l, c ≠ NUL) :
    c_str_of (l.map some ++ some NUL :: rest) = some l := by
  induction l with
  | nil => simp [c_str_of]
  | cons c l ih =>
    have hc : c ≠ NUL := h c (List.mem_cons_self _ _)
    simp only [List.map_cons, List.cons_append, c_str_of, List.append_eq]
    rw [if_neg hc, ih (fun d hd => h d (List.mem_cons_of_mem _ hd))]

theorem write_bytes_spec (A B C : List (Option Char)) (off : Nat) (data : List Char)
    (hA : A.length = off) (hB : B.length = data.length) :
    write_bytes (A ++ B ++ C) off data = some (A ++ data.map some ++ C) := by
  unfold write_bytes
  rw [if_pos (by simp only [List.length_append]; omega)]
  have h1 : (A ++ B ++ C).take off = A := by
    rw [List.append_assoc, ← hA, List.take_left']
    rfl
  have h2 : (A ++ B ++ C).drop (off + data.length) = C := by
    rw [← hA, ← hB, ← List.length_append, List.drop_left']
    rfl
  rw [h1, h2]

theorem suffix_length_loop_le (g n len : Nat) : suffix_length_loop g n len ≤ len + g := by
  induction g generalizing n len with
  | zero => simp [suffix_length_loop]
  | succ g ih =>
    rw [suffix_length_loop]
    by_cases h : n = 0
    · rw [if_pos h]; omega
    · rw [if_neg h]
      have := ih (n / 10) (len + 1)
      omega

theorem replicate_split {α : Type} (a b : Nat) (x : α) :
    List.replicate (a + b) x = List.replicate a x ++ List.replicate b x := by
  induction a with
  | zero => simp
  | succ a ih =>
    rw [Nat.succ_add, List.replicate_succ, List.replicate_succ, ih, List.cons_append]

theorem write_bytes_view (buf A B C : List (Option Char)) (off : Nat) (data : List Char)
    (hbuf : buf = A ++ B ++ C) (hA : A.length = off) (hB : B.length = data.length) :
    write_bytes buf off data = some (A ++ data.map some ++ C) := by
  rw [hbuf]
  exact write_bytes_spec A B C off data hA hB

/-- The buffer of `open_media_segment` after the four writes, and the string
it holds. -/
theorem segment_buffer (name sfx : List Char) (p : Nat) (hp : p ≤ name.length)
    (hname : ∀ c ∈ name, c ≠ NUL) (hsfx : ∀ c ∈ sfx, c ≠ NUL) :
    ∃ buf1 buf2 buf3 buf4,
      write_bytes (List.replicate (name.length + sfx.length + 1) none)
          (name.length + sfx.length) [NUL] = some buf1
      ∧ write_bytes buf1 0 (name.take p) = some buf2
      ∧ write_bytes buf2 p (sfx ++ [NUL]) = some buf3
      ∧ (if p < name.length then write_bytes buf3 (p + sfx.length) (name.drop p)
         else some buf3) = some buf4
      ∧ c_str_of buf4 = some (name.take p ++ sfx ++ name.drop p) := by
  have htake : (name.take p).length = p := by
    rw [List.length_take]
    omega
  have hdrop : (name.drop p).length = name.length - p := List.length_drop _ _
  have hall : ∀ c ∈ name.take p ++ sfx ++ name.drop p, c ≠ NUL := by
    intro c hc
    rcases List.mem_append.1 hc with h | h
    · rcases List.mem_append.1 h with h | h
      · exact hname c (List.mem_of_mem_take h)
      · exact hsfx c h
    · exact hname c (List.mem_of_mem_drop h)
  have h1 := write_bytes_view (List.replicate (name.length + sfx.length + 1) none)
    (List.replicate (name.length + sfx.length) none) [none] []
    (name.length + sfx.length) [NUL]
    (by rw [List.append_nil, ← List.replicate_succ']) (by simp) rfl
  have h2 := write_bytes_view
    (List.replicate (name.length + sfx.length) none ++ [NUL].map some ++ [])
    [] (List.replicate p none)
    (List.replicate (name.length - p + sfx.length) none ++ [some NUL]) 0 (name.take p)
    (by
      rw [List.append_nil, List.nil_append, ← List.append_assoc, ← replicate_split,
        show p + (name.length - p + sfx.length) = name.length + sfx.length by omega]
      rfl)
    rfl (by rw [List.length_replicate, htake])
  by_cases hlt : p < name.length
  · have h3 := write_bytes_view
      ([] ++ (name.take p).map some
        ++ (List.replicate (name.length - p + sfx.length) none ++ [some NUL]))
      ((name.take p).map some) (List.replicate (sfx.length + 1) none)
      (List.replicate (name.length - p - 1) none ++ [some NUL]) p (sfx ++ [NUL])
      (by
        rw [List.nil_append, List.append_assoc, ← List.append_assoc (List.replicate _ _),
          ← replicate_split,
          show sfx.length + 1 + (name.length - p - 1) = name.length - p + sfx.length by omega])
      (by rw [List.length_map, htake]) (by simp)
    have h4 := write_bytes_view
      ((name.take p).map some ++ (sfx ++ [NUL]).map some
        ++ (List.replicate (name.length - p - 1) none ++ [some NUL]))
      ((name.take p).map some ++ sfx.map some)
      ([some NUL] ++ List.replicate (name.length - p - 1) none) [some NUL]
      (p + sfx.length) (name.drop p)
      (by simp only [List.map_append, List.append_assoc, List.map_cons, List.map_nil])
      (by simp only [List.length_append, List.length_map, htake])
      (by simp only [List.length_append, List.length_replicate, hdrop, List.length_singleton]
          omega)
    refine ⟨_, _, _,
      (name.take p).map some ++ sfx.map some ++ (name.drop p).map some ++ [some NUL],
      h1, h2, h3, ?_, ?_⟩
    · rw [if_pos hlt]
      exact h4
    · have : (name.take p).map some ++ sfx.map some ++ (name.drop p).map some ++ [some NUL]
          = (name.take p ++ sfx ++ name.drop p).map some ++ some NUL :: [] := by
        simp only [List.map_append]
      rw [this]
      exact c_str_of_append _ _ hall
  · have hpn : p = name.length := by omega
    have h3 := write_bytes_view
      ([] ++ (name.take p).map some
        ++ (List.replicate (name.length - p + sfx.length) none ++ [some NUL]))
      ((name.take p).map some) (List.replicate sfx.length none ++ [some NUL]) [] p
      (sfx ++ [NUL])
      (by
        rw [List.nil_append, List.append_nil,
          show name.length - p + sfx.length = sfx.length by omega])
      (by rw [List.length_map, htake]) (by simp)
    refine ⟨_, _, _, (name.take p).map some ++ (sfx ++ [NUL]).map some ++ [],
      h1, h2, h3, ?_, ?_⟩
    · rw [if_neg hlt]
    · have hd : name.drop p = [] := by
        rw [hpn]
        exact List.drop_length _
      have : (name.take p).map some ++ (sfx ++ [NUL]).map some ++ []
          = (name.take p ++ sfx ++ name.drop p).map some ++ some NUL :: [] := by
        rw [hd]
        simp only [List.map_append, List.append_nil, List.append_assoc, List.map_cons,
          List.map_nil]
      rw [this]
      exact c_str_of_append _ _ hall

/-- C18. For every output file name (a C string of fewer than `2^31 - 12`
characters) and every segment number `N` with `1 <= N < 2^32`,
`open_media_segment` opens the file named `stem ++ "_" ++ decimal(N) ++ ext`,
where `ext` is the part of the name from its last `.` on when no slash or
backslash comes after that `.`, and empty otherwise, and `stem` is the name
without `ext`; the computed length `seg_name_length` is the length of that
name. -/
theorem open_media_segment_name (name : List Char) (N : Nat)
    (hnul : ∀ c ∈ name, c ≠ NUL) (hN : 1 ≤ N) (h32 : N < U32)
    (hlen : name.length + 12 < 2147483648) :
    open_media_segment name N
      = some ((stem_of name ++ UNDERSCORE :: Nat.toDigits 10 N ++ extension_of name).length,
              stem_of name ++ UNDERSCORE :: Nat.toDigits 10 N ++ extension_of name)
    ∧ stem_of name ++ extension_of name = name := by
  obtain ⟨p, hoff, hp, hdrop, htake, hdot⟩ := extension_offset_spec name
  have hmod : N % U32 = N := Nat.mod_eq_of_lt h32
  have hs : suffix_length_loop 10 N 1 = (UNDERSCORE :: Nat.toDigits 10 N).length := by
    rw [suffix_length_eq N hN h32, List.length_cons]
    omega
  have hsle : (UNDERSCORE :: Nat.toDigits 10 N).length ≤ 11 := by
    rw [← hs]
    exact suffix_length_loop_le 10 N 1
  have hsfx : ∀ c ∈ UNDERSCORE :: Nat.toDigits 10 N, c ≠ NUL := by
    intro c hc
    rcases List.mem_cons.1 hc with h | h
    · rw [h]; decide
    · exact toDigits_ne_NUL N c h
  obtain ⟨buf1, buf2, buf3, buf4, h1, h2, h3, h4, h5⟩ :=
    segment_buffer name (UNDERSCORE :: Nat.toDigits 10 N) p hp hnul hsfx
  have hcond : (c_str_at name p = some DOT) ↔ p < name.length := by
    rw [hdot, ← hdrop]
    constructor
    · intro h
      by_contra hlt
      exact h (List.drop_eq_nil_of_le (by omega))
    · intro h hnil
      have := congrArg List.length hnil
      rw [List.length_drop] at this
      simp at this
      omega
  have hif : (if c_str_at name p = some DOT then
        write_bytes buf3 (p + (UNDERSCORE :: Nat.toDigits 10 N).length) (name.drop p)
      else some buf3) = some buf4 := by
    by_cases hlt : p < name.length
    · rw [if_pos (hcond.2 hlt)]
      rw [if_pos hlt] at h4
      exact h4
    · rw [if_neg (fun h => hlt (hcond.1 h))]
      rw [if_neg hlt] at h4
      exact h4
  have hsplit : stem_of name ++ extension_of name = name := by
    rw [← htake, ← hdrop]
    exact List.take_append_drop p name
  refine ⟨?_, hsplit⟩
  have hres : name.take p ++ UNDERSCORE :: Nat.toDigits 10 N ++ name.drop p
      = stem_of name ++ UNDERSCORE :: Nat.toDigits 10 N ++ extension_of name := by
    rw [htake, hdrop]
  have hreslen : (stem_of name ++ UNDERSCORE :: Nat.toDigits 10 N ++ extension_of name).length
      = name.length + (UNDERSCORE :: Nat.toDigits 10 N).length := by
    have := congrArg List.length hsplit
    simp only [List.length_append, List.length_cons] at this ⊢
    omega
  unfold open_media_segment
  simp only [hmod]
  rw [if_neg (by omega), hoff]
  simp only [hs]
  rw [if_neg (by omega), h1]
  simp only []
  rw [h2]
  simp only []
  have hsp : sprintf_suffix N = UNDERSCORE :: Nat.toDigits 10 N ++ [NUL] := rfl
  rw [hsp, h3]
  simp only []
  rw [hif]
  simp only []
  rw [h5]
  simp only []
  rw [hreslen]
  congr 2

theorem open_media_segment_name_witness :
    (∀ c ∈ String.toList "a.mp4", c ≠ NUL) ∧ 1 ≤ 2 ∧ 2 < U32
    ∧ (String.toList "a.mp4").length + 12 < 2147483648
    ∧ (open_media_segment (String.toList "a.mp4") 2
        = some ((stem_of (String.toList "a.mp4") ++ UNDERSCORE :: Nat.toDigits 10 2
                  ++ extension_of (String.toList "a.mp4")).length,
                stem_of (String.toList "a.mp4") ++ UNDERSCORE :: Nat.toDigits 10 2
                  ++ extension_of (String.toList "a.mp4"))
      ∧ stem_of (String.toList "a.mp4") ++ extension_of (String.toList "a.mp4")
          = String.toList "a.mp4")
    ∧ stem_of (String.toList "a.mp4") ++ UNDERSCORE :: Nat.toDigits 10 2
        ++ extension_of (String.toList "a.mp4") = String.toList "a_2.mp4" :=
  ⟨by decide, by decide, by decide, by decide,
   open_media_segment_name (String.toList "a.mp4") 2 (by decide) (by decide) (by decide)
     (by decide),
   by decide⟩

/-! ## Theorem: failures while a fragment is flushed -/

/-- C19. A failure while a fragment is flushed does not make `do_remux` fail.
On three samples with fragment base track 1, after the first sample is written:
when `lsmash_flush_pooled_samples` fails inside `flush_movie_fragment`, when
`switch_segment` fails inside `handle_segmentation` (the second segment cannot
be opened), and when `lsmash_create_fragment_movie` fails, `do_remux` leaves its
loop, flushes the output track and returns 0, with two of the three samples
never written. -/
theorem do_remux_returns_success_after_fragment_failure :
    (do_remux fragment_flush_failure_engine 3 dash3_remuxer).map
        (fun res => (res.1, res.2.events))
      = some (0, [Event.flush_movie_fragment, Event.flush_pooled_samples 1 0 true,
                  Event.handle_segmentation, Event.switch_segment 1 true,
                  Event.create_fragment_movie true,
                  Event.append_sample 1 (mk_sample 0 1 1),
                  Event.flush_movie_fragment, Event.flush_pooled_samples 1 10 false,
                  Event.error_message, Event.error_message,
                  Event.flush_pooled_samples 1 1 true])
    ∧ (do_remux segment_failure_engine 3 segment_failure_remuxer).map
        (fun res => (res.1, res.2.events))
      = some (0, [Event.flush_movie_fragment, Event.flush_pooled_samples 1 0 true,
                  Event.handle_segmentation, Event.switch_segment 1 true,
                  Event.create_fragment_movie true,
                  Event.append_sample 1 (mk_sample 0 1 1),
                  Event.flush_movie_fragment, Event.flush_pooled_samples 1 10 true,
                  Event.handle_segmentation, Event.switch_segment 2 false,
                  Event.error_message,
                  Event.flush_pooled_samples 1 1 true])
    ∧ (do_remux fragment_rejected_engine 3 dash3_remuxer).map
        (fun res => (res.1, res.2.events))
      = some (0, [Event.flush_movie_fragment, Event.flush_pooled_samples 1 0 true,
                  Event.handle_segmentation, Event.switch_segment 1 true,
                  Event.create_fragment_movie true,
                  Event.append_sample 1 (mk_sample 0 1 1),
                  Event.flush_movie_fragment, Event.flush_pooled_samples 1 10 true,
                  Event.handle_segmentation, Event.create_fragment_movie false,
                  Event.error_message,
                  Event.flush_pooled_samples 1 1 true]) := by
  decide

/-! ## Theorem: the remap tables made by `prepare_output` -/

theorem for_loop_cons_ok2 {σ : Type} (step : σ → Nat → Ret σ) (a : Nat) (as : List Nat)
    (st st1 : σ) (h : step st a = Ret.ok st1) :
    for_loop step (a :: as) st = for_loop step as st1 := by
  simp only [for_loop, h]

theorem set_append_singleton {α : Type} (pre rest : List α) (a x : α) (k : Nat)
    (hk : pre.length = k) :
    (pre ++ a :: rest).set k x = (pre ++ [x]) ++ rest := by
  subst hk
  induction pre with
  | nil => rfl
  | cons b pre ih =>
    simp only [List.cons_append, List.length_cons, List.set_cons_succ, ih]

theorem getElem?_append_cons_length {α : Type} (pre rest : List α) (a : α) (k : Nat)
    (hk : pre.length = k) : (pre ++ a :: rest)[k]? = some a := by
  subst hk
  induction pre with
  | nil => simp
  | cons b pre ih => simpa using ih

theorem summary_loop_spec (accept : Nat → Bool) :
    ∀ (rest pre : List Bool) (done : List Nat) (k c : Nat),
      pre.length = k → done.length = k → c + rest.length < U32 →
      ∃ s, for_loop (summary_step accept) (List.range' k rest.length)
            { summaries := pre ++ rest,
              summary_remap := done ++ List.replicate rest.length 0,
              valid_summary_count := c }
          = Ret.ok { summaries := s,
                     summary_remap := done ++ expected_remap accept rest k c,
                     valid_summary_count := c + accepted_count accept rest k }
        ∧ s.length = k + rest.length := by
  intro rest
  induction rest with
  | nil =>
    intro pre done k c hpre _ _
    exact ⟨pre, by simp [for_loop, expected_remap, accepted_count], by simp [hpre]⟩
  | cons a rest ih =>
    intro pre done k c hpre hdone hc
    simp only [List.length_cons] at hc
    have hread : (pre ++ a :: rest)[k]? = some a := getElem?_append_cons_length _ _ _ _ hpre
    have hklt : k < (done ++ List.replicate (rest.length + 1) 0).length := by
      simp only [List.length_append, List.length_replicate]
      omega
    have hrep : done ++ List.replicate (rest.length + 1) 0
        = done ++ 0 :: List.replicate rest.length 0 := by
      rw [List.replicate_succ]
    rw [List.length_cons, List.range'_succ]
    by_cases ha : (a && accept k) = true
    · have ha1 : a = true := by
        cases a <;> simp_all
      have ha2 : accept k = true := by
        cases a <;> simp_all
      have hinc : inc32 c = c + 1 := by
        unfold inc32
        exact Nat.mod_eq_of_lt (by omega)
      have hstep : summary_step accept
          { summaries := pre ++ a :: rest,
            summary_remap := done ++ List.replicate (rest.length + 1) 0,
            valid_summary_count := c } k
          = Ret.ok { summaries := (pre ++ [a]) ++ rest,
                     summary_remap := (done ++ [c + 1]) ++ List.replicate rest.length 0,
                     valid_summary_count := c + 1 } := by
        unfold summary_step
        simp only []
        rw [hread]
        simp only []
        rw [if_pos hklt, if_neg (by simp [ha1]), if_neg (by simp [ha2]), hinc, hrep,
          set_append_singleton _ _ _ _ _ hdone]
        simp only [List.append_assoc, List.singleton_append]
      obtain ⟨s, hs, hlen⟩ := ih (pre ++ [a]) (done ++ [c + 1]) (k + 1) (c + 1)
        (by simp [hpre]) (by simp [hdone]) (by omega)
      refine ⟨s, ?_, by rw [hlen]; omega⟩
      rw [for_loop_cons_ok2 _ _ _ _ _ hstep, hs]
      simp only [expected_remap, accepted_count, ha, if_true, List.append_assoc,
        List.singleton_append, Nat.add_assoc]
    · have hstep : ∃ b, summary_step accept
          { summaries := pre ++ a :: rest,
            summary_remap := done ++ List.replicate (rest.length + 1) 0,
            valid_summary_count := c } k
          = Ret.ok { summaries := (pre ++ [b]) ++ rest,
                     summary_remap := (done ++ [0]) ++ List.replicate rest.length 0,
                     valid_summary_count := c } := by
        unfold summary_step
        simp only []
        rw [hread]
        simp only []
        rw [if_pos hklt]
        by_cases ha1 : a = false
        · refine ⟨a, ?_⟩
          rw [if_pos ha1, hrep, set_append_singleton _ _ _ _ _ hdone]
          simp only [List.append_assoc, List.singleton_append]
        · have ha2 : accept k = false := by
            cases a <;> simp_all
          refine ⟨false, ?_⟩
          rw [if_neg ha1, if_pos ha2, hrep, set_append_singleton _ _ _ _ _ hdone,
            set_append_singleton _ _ _ _ _ hpre]
      obtain ⟨b, hstep⟩ := hstep
      obtain ⟨s, hs, hlen⟩ := ih (pre ++ [b]) (done ++ [0]) (k + 1) c
        (by simp [hpre]) (by simp [hdone]) (by omega)
      refine ⟨s, ?_, by rw [hlen]; omega⟩
      rw [for_loop_cons_ok2 _ _ _ _ _ hstep, hs]
      simp only [expected_remap, accepted_count, ha, List.append_assoc,
        List.singleton_append, Bool.false_eq_true, if_false, Nat.zero_add]

theorem expected_remap_nonzero (accept : Nat → Bool) :
    ∀ (flags : List Bool) (k c : Nat),
      (expected_remap accept flags k c).filter (fun x => decide (x ≠ 0))
        = List.range' (c + 1) (accepted_count accept flags k) := by
  intro flags
  induction flags with
  | nil => intro k c; rfl
  | cons a rest ih =>
    intro k c
    simp only [expected_remap, accepted_count]
    by_cases h : (a && accept k) = true
    · rw [if_pos h, if_pos h, List.filter_cons_of_pos (by simp), ih, Nat.add_comm 1,
        List.range'_succ]
    · rw [if_neg h, if_neg h, List.filter_cons_of_neg (by simp), ih, Nat.zero_add]

theorem expected_remap_length (accept : Nat → Bool) :
    ∀ (flags : List Bool) (k c : Nat), (expected_remap accept flags k c).length = flags.length := by
  intro flags
  induction flags with
  | nil => intro k c; rfl
  | cons a rest ih =>
    intro k c
    simp only [expected_remap]
    split_ifs <;> simp [ih]

theorem expected_remap_zero_iff (accept : Nat → Bool) :
    ∀ (flags : List Bool) (k c i : Nat) (a : Bool) (x : Nat),
      flags[i]? = some a → (expected_remap accept flags k c)[i]? = some x →
      (x = 0 ↔ (a && accept (k + i)) = false) := by
  intro flags
  induction flags with
  | nil => intro k c i a x h; simp at h
  | cons b rest ih =>
    intro k c i a x ha hx
    cases i with
    | zero =>
      simp only [List.getElem?_cons_zero, Option.some.injEq] at ha
      subst ha
      simp only [expected_remap] at hx
      by_cases h : (b && accept k) = true
      · rw [if_pos h] at hx
        simp only [List.getElem?_cons_zero, Option.some.injEq] at hx
        subst hx
        simp [h]
      · rw [if_neg h] at hx
        simp only [List.getElem?_cons_zero, Option.some.injEq] at hx
        subst hx
        simpa using h
    | succ i =>
      simp only [List.getElem?_cons_succ] at ha
      simp only [expected_remap] at hx
      have key : ∀ c1, (expected_remap accept rest (k + 1) c1)[i]? = some x →
          (x = 0 ↔ (a && accept (k + (i + 1))) = false) := by
        intro c1 h1
        have := ih (k + 1) c1 i a x ha h1
        rw [show k + 1 + i = k + (i + 1) by omega] at this
        exact this
      by_cases h : (b && accept k) = true
      · rw [if_pos h, List.getElem?_cons_succ] at hx
        exact key _ hx
      · rw [if_neg h, List.getElem?_cons_succ] at hx
        exact key _ hx

/-- The loop over the summaries gives the expected table and counts the
accepted summaries. -/
theorem attach_summaries_spec (accept : Nat → Bool) (in_track : input_summaries_t)
    (hlen : in_track.summaries.length = in_track.num_summaries)
    (h32 : in_track.num_summaries < U32) :
    ∃ s, attach_summaries accept in_track
        = Ret.ok { summaries := s,
                   summary_remap := expected_remap accept in_track.summaries 0 0,
                   valid_summary_count := accepted_count accept in_track.summaries 0 }
      ∧ s.length = in_track.summaries.length := by
  obtain ⟨s, hs, hl⟩ := summary_loop_spec accept in_track.summaries [] [] 0 0 rfl rfl
    (by omega)
  refine ⟨s, ?_, by omega⟩
  unfold attach_summaries
  rw [List.range_eq_range', ← hlen]
  simpa using hs

/-- How a pass of the track loop of `prepare_output` that does not return ends:
the track is inactive and skipped, or excluded, or kept. -/
theorem prepare_track_cases (E : PrepareEngine) (i : Nat) (st : PrepareState) (j : Nat)
    (st1 : PrepareState) (h : prepare_track E i st j = Ret.ok st1)
    (hW : ∀ tracks t, st.input[i]? = some tracks → tracks[j]? = some t →
      t.summaries.length = t.num_summaries ∧ t.num_summaries < U32) :
    ∃ tracks in_track, st.input[i]? = some tracks ∧ tracks[j]? = some in_track ∧
      ((in_track.active = false ∧ st1 = st)
      ∨ (in_track.active = true ∧ ∃ out_track t1,
          st1 = exclude_invalid_output_track st out_track i j t1
          ∧ t1.num_summaries = in_track.num_summaries
          ∧ t1.summaries.length = in_track.summaries.length)
      ∨ (in_track.active = true ∧ ∃ o t1 o0,
          at1 st.out_movie.track st.out_movie.current_track_number = some o0
          ∧ st1 = { input := set_input_track st.input i j t1,
                    out_movie :=
                      { st.out_movie with
                        track := set1 st.out_movie.track st.out_movie.current_track_number o,
                        current_track_number := inc32 st.out_movie.current_track_number } }
          ∧ o.summary_remap = expected_remap (E.add_sample_entry i j) in_track.summaries 0 0
          ∧ 1 ≤ accepted_count (E.add_sample_entry i j) in_track.summaries 0
          ∧ t1.num_summaries = in_track.num_summaries
          ∧ t1.summaries.length = in_track.summaries.length
          ∧ t1.active = true)) := by
  unfold prepare_track at h
  cases hi : st.input[i]? with
  | none => rw [hi] at h; cases h
  | some tracks =>
    rw [hi] at h
    simp only [] at h
    cases hj : tracks[j]? with
    | none => rw [hj] at h; cases h
    | some in_track =>
      rw [hj] at h
      simp only [] at h
      refine ⟨tracks, in_track, rfl, hj, ?_⟩
      obtain ⟨hlen, h32⟩ := hW tracks in_track hi hj
      by_cases hact : in_track.active = false
      · rw [if_pos hact] at h
        cases h
        exact Or.inl ⟨hact, rfl⟩
      · rw [if_neg hact] at h
        have hact1 : in_track.active = true := by
          cases hb : in_track.active
          · exact absurd hb hact
          · rfl
        cases ho : at1 st.out_movie.track st.out_movie.current_track_number with
        | none => rw [ho] at h; cases h
        | some out_track0 =>
          rw [ho] at h
          simp only [] at h
          by_cases h1 : E.create_track i j = 0
          · rw [if_pos h1] at h; cases h
          · rw [if_neg h1] at h
            by_cases h2 : E.set_track_parameters i j = false
            · rw [if_pos h2] at h
              cases h
              exact Or.inr (Or.inl ⟨hact1, _, _, rfl, rfl, rfl⟩)
            · rw [if_neg h2] at h
              by_cases h3 : E.set_media_parameters i j = false
              · rw [if_pos h3] at h
                cases h
                exact Or.inr (Or.inl ⟨hact1, _, _, rfl, rfl, rfl⟩)
              · rw [if_neg h3] at h
                by_cases h4 : E.create_data_reference i j = false
                · rw [if_pos h4] at h; cases h
                · rw [if_neg h4] at h
                  obtain ⟨s, hs, hsl⟩ :=
                    attach_summaries_spec (E.add_sample_entry i j) in_track hlen h32
                  rw [hs] at h
                  simp only [] at h
                  by_cases h5 : accepted_count (E.add_sample_entry i j) in_track.summaries 0 = 0
                  · rw [if_pos h5] at h
                    cases h
                    exact Or.inr (Or.inl ⟨hact1, _, _, rfl, rfl, hsl⟩)
                  · rw [if_neg h5] at h
                    by_cases h6 : E.set_starting_point i j = false
                    · rw [if_pos h6] at h
                      cases h
                      exact Or.inr (Or.inl ⟨hact1, _, _, rfl, rfl, hsl⟩)
                    · rw [if_neg h6] at h
                      cases h
                      exact Or.inr (Or.inr ⟨hact1, _, _, out_track0, rfl, rfl, rfl,
                        by omega, rfl, hsl, hact1⟩)

theorem set_input_track_read (input : List (List input_summaries_t)) (i j : Nat)
    (tracks : List input_summaries_t) (t0 t : input_summaries_t)
    (hi : input[i]? = some tracks) (hj : tracks[j]? = some t0) :
    input_track_at (set_input_track input i j t) i j = some t := by
  unfold input_track_at set_input_track
  rw [hi]
  have h1 : i < input.length := (List.getElem?_eq_some_iff.1 hi).1
  have h2 : j < tracks.length := (List.getElem?_eq_some_iff.1 hj).1
  rw [List.getElem?_set_self h1]
  exact List.getElem?_set_self h2

theorem set_input_track_mem (input : List (List input_summaries_t)) (i j : Nat)
    (t : input_summaries_t) (tracks : List input_summaries_t) (u : input_summaries_t)
    (hts : tracks ∈ set_input_track input i j t) (hu : u ∈ tracks) :
    u = t ∨ ∃ tracks0 ∈ input, u ∈ tracks0 := by
  unfold set_input_track at hts
  cases hi : input[i]? with
  | none =>
    rw [hi] at hts
    exact Or.inr ⟨tracks, hts, hu⟩
  | some row =>
    rw [hi] at hts
    simp only [] at hts
    rcases List.mem_or_eq_of_mem_set hts with h | h
    · exact Or.inr ⟨tracks, h, hu⟩
    · subst h
      rcases List.mem_or_eq_of_mem_set hu with h | h
      · exact Or.inr ⟨row, mem_of_getElem?_some hi, h⟩
      · exact Or.inl h

theorem set_input_track_length (input : List (List input_summaries_t)) (i j : Nat)
    (t : input_summaries_t) : (set_input_track input i j t).length = input.length := by
  unfold set_input_track
  cases input[i]? <;> simp

theorem set_input_track_read_other (input : List (List input_summaries_t)) (i j i1 j1 : Nat)
    (t : input_summaries_t) (h : ¬ (i1 = i ∧ j1 = j)) :
    input_track_at (set_input_track input i j t) i1 j1 = input_track_at input i1 j1 := by
  unfold input_track_at set_input_track
  cases hi : input[i]? with
  | none => rfl
  | some tracks =>
    simp only []
    by_cases hii : i1 = i
    · subst hii
      have hjj : j1 ≠ j := fun hj => h ⟨rfl, hj⟩
      have h1 : i1 < input.length := (List.getElem?_eq_some_iff.1 hi).1
      rw [List.getElem?_set_self h1, hi]
      show (tracks.set j t)[j1]? = tracks[j1]?
      exact List.getElem?_set_ne (fun hj => hjj hj.symm)
    · rw [List.getElem?_set_ne (fun hi1 => hii hi1.symm)]

theorem input_track_at_of (input : List (List input_summaries_t)) (i j : Nat)
    (tracks : List input_summaries_t) (t : input_summaries_t)
    (hi : input[i]? = some tracks) (hj : tracks[j]? = some t) :
    input_track_at input i j = some t := by
  unfold input_track_at
  rw [hi]
  exact hj

/-- A table that is the expected one is dense. -/
theorem kept_tracks_remapped_dense (E : PrepareEngine) (input0 : List (List input_summaries_t))
    (out_movie : output_movie_t) (h : kept_tracks_remapped E input0 out_movie) :
    kept_tracks_dense out_movie := by
  intro n hn1 hn2
  obtain ⟨o, i, j, t0, ho, _, _, hremap, hm⟩ := h n hn1 hn2
  refine ⟨o, ho, _, hm, ?_⟩
  rw [hremap, expected_remap_nonzero]

/-- What every pass of the track loop keeps: well-formed summaries, a cursor of
at least 1, an output array shorter than `2^32 - 1`, the input tracks not yet
visited as they were, and in the tracks kept so far the expected tables. -/
theorem prepare_track_keeps (E : PrepareEngine) (input0 : List (List input_summaries_t))
    (i : Nat) (st : PrepareState) (j : Nat)
    (st1 : PrepareState) (h : prepare_track E i st j = Ret.ok st1)
    (hinv : summaries_well_formed st.input ∧ 1 ≤ st.out_movie.current_track_number
      ∧ st.out_movie.track.length + 1 < U32
      ∧ unprocessed_unchanged input0 st.input i j
      ∧ kept_tracks_remapped E input0 st.out_movie) :
    summaries_well_formed st1.input ∧ 1 ≤ st1.out_movie.current_track_number
      ∧ st1.out_movie.track.length + 1 < U32
      ∧ unprocessed_unchanged input0 st1.input i (j + 1)
      ∧ kept_tracks_remapped E input0 st1.out_movie := by
  obtain ⟨hW, h1, hlen, hU, hk⟩ := hinv
  obtain ⟨tracks, in_track, hi, hj, hcases⟩ := prepare_track_cases E i st j st1 h
    (fun tracks t hi hj =>
      hW tracks (mem_of_getElem?_some hi) t (mem_of_getElem?_some hj))
  have hin := hW tracks (mem_of_getElem?_some hi) in_track (mem_of_getElem?_some hj)
  have hread0 : input_track_at input0 i j = some in_track := by
    rw [← hU i j (Or.inr ⟨rfl, Nat.le_refl j⟩)]
    exact input_track_at_of st.input i j tracks in_track hi hj
  have hWset : ∀ t1 : input_summaries_t, t1.num_summaries = in_track.num_summaries →
      t1.summaries.length = in_track.summaries.length →
      summaries_well_formed (set_input_track st.input i j t1) := by
    intro t1 hn hs tracks1 hts u hu
    rcases set_input_track_mem _ _ _ _ _ _ hts hu with h | ⟨tracks0, h0, hu0⟩
    · subst h
      rw [hn, hs]
      exact hin
    · exact hW tracks0 h0 u hu0
  have hUset : ∀ t1 : input_summaries_t,
      unprocessed_unchanged input0 (set_input_track st.input i j t1) i (j + 1) := by
    intro t1 i1 j1 hij
    rw [set_input_track_read_other st.input i j i1 j1 t1 (by omega)]
    exact hU i1 j1 (by omega)
  rcases hcases with ⟨_, rfl⟩ | ⟨_, out_track, t1, rfl, hn, hs⟩
    | ⟨hact, o, t1, o0, ho0, rfl, hremap, hm, hn, hs, _⟩
  · exact ⟨hW, h1, hlen, fun i1 j1 hij => hU i1 j1 (by omega), hk⟩
  · refine ⟨hWset _ hn hs, h1, ?_, hUset _, ?_⟩
    · simp only [exclude_invalid_output_track]
      rw [set1_length]
      exact hlen
    · intro n hn1 hn2
      simp only [exclude_invalid_output_track] at hn2 ⊢
      obtain ⟨o, i0, j0, t0, ho, hd⟩ := hk n hn1 hn2
      refine ⟨o, i0, j0, t0, ?_, hd⟩
      rw [at1_set1, if_neg (by omega)]
      exact ho
  · have hpos := at1_some_pos ho0
    have hinc : inc32 st.out_movie.current_track_number
        = st.out_movie.current_track_number + 1 := by
      unfold inc32
      exact Nat.mod_eq_of_lt (by omega)
    refine ⟨hWset _ hn hs, ?_, ?_, hUset _, ?_⟩
    · simp only [hinc]
      omega
    · simp only []
      rw [set1_length]
      exact hlen
    · intro n hn1 hn2
      simp only [hinc] at hn2 ⊢
      by_cases hnc : n = st.out_movie.current_track_number
      · subst hnc
        refine ⟨o, i, j, in_track, ?_, hread0, hact, hremap, hm⟩
        rw [at1_set1, if_pos ⟨rfl, by rw [ho0]; rfl⟩]
      · obtain ⟨o1, i0, j0, t0, ho1, hd⟩ := hk n hn1 (by omega)
        refine ⟨o1, i0, j0, t0, ?_, hd⟩
        rw [at1_set1, if_neg (by omega)]
        exact ho1

theorem prepare_input_keeps (E : PrepareEngine) (input0 : List (List input_summaries_t))
    (st : PrepareState) (i : Nat)
    (st1 : PrepareState) (h : prepare_input E st i = Ret.ok st1)
    (hinv : summaries_well_formed st.input ∧ 1 ≤ st.out_movie.current_track_number
      ∧ st.out_movie.track.length + 1 < U32
      ∧ unprocessed_unchanged input0 st.input i 0
      ∧ kept_tracks_remapped E input0 st.out_movie) :
    summaries_well_formed st1.input ∧ 1 ≤ st1.out_movie.current_track_number
      ∧ st1.out_movie.track.length + 1 < U32
      ∧ unprocessed_unchanged input0 st1.input (i + 1) 0
      ∧ kept_tracks_remapped E input0 st1.out_movie := by
  unfold prepare_input at h
  cases hi : st.input[i]? with
  | none => rw [hi] at h; cases h
  | some tracks =>
    rw [hi] at h
    simp only [List.range_eq_range'] at h
    obtain ⟨hW, h1, hlen, hU, hk⟩ := for_loop_range'_of_ok (prepare_track E i)
      (fun j s => summaries_well_formed s.input ∧ 1 ≤ s.out_movie.current_track_number
        ∧ s.out_movie.track.length + 1 < U32
        ∧ unprocessed_unchanged input0 s.input i j
        ∧ kept_tracks_remapped E input0 s.out_movie)
      tracks.length 0 st st1 h hinv
      (fun j s s1 _ _ hs hq => prepare_track_keeps E input0 i s j s1 hs hq)
    exact ⟨hW, h1, hlen, fun i1 j1 hij => hU i1 j1 (by omega), hk⟩

/-- After the track loops of `prepare_output`, every output track that was kept
has the expected remap table of the input track it was made from. -/
theorem prepare_tracks_remapped (E : PrepareEngine) (st st1 : PrepareState)
    (hW : summaries_well_formed st.input) (hlen : st.out_movie.track.length + 1 < U32)
    (h : prepare_tracks E st = Ret.ok st1) :
    kept_tracks_remapped E st.input st1.out_movie := by
  unfold prepare_tracks at h
  simp only [List.range_eq_range'] at h
  exact (for_loop_range'_of_ok (prepare_input E)
    (fun i s => summaries_well_formed s.input ∧ 1 ≤ s.out_movie.current_track_number
      ∧ s.out_movie.track.length + 1 < U32
      ∧ unprocessed_unchanged st.input s.input i 0
      ∧ kept_tracks_remapped E st.input s.out_movie)
    st.input.length 0 _ st1 h
    ⟨hW, Nat.le_refl 1, hlen, fun _ _ _ => rfl,
      fun n hn1 hn2 => absurd hn2 (by simp only []; omega)⟩
    (fun i s s1 _ _ hs hq => prepare_input_keeps E st.input s i s1 hs hq)).2.2.2.2

/-- C20. In `prepare_output` the loop over the summaries of a track sends each
inactive or rejected summary to 0 and the accepted summaries, in input order, to
1, 2, ..., m (so the non-zero entries, read in order, are 1, ..., m).  A pass of
the track loop that does not return either keeps the track, with that table and
`m >= 1`, and moves the output cursor on, or excludes it: the output track count
is decremented and the input track deactivated; with `m = 0` the track is
excluded.  After the track loops every output track that was kept was made from
an active track of the inputs and has the table of that track, with `m >= 1`,
which is dense. -/
theorem summary_remap_dense_or_excluded :
    (∀ (accept : Nat → Bool) (in_track : input_summaries_t),
        in_track.summaries.length = in_track.num_summaries →
        in_track.num_summaries < U32 →
        ∃ sl, attach_summaries accept in_track = Ret.ok sl
          ∧ sl.summary_remap = expected_remap accept in_track.summaries 0 0
          ∧ sl.valid_summary_count = accepted_count accept in_track.summaries 0
          ∧ sl.summary_remap.filter (fun x => decide (x ≠ 0))
              = List.range' 1 (accepted_count accept in_track.summaries 0)
          ∧ ∀ (k : Nat) (a : Bool) (x : Nat), in_track.summaries[k]? = some a →
              sl.summary_remap[k]? = some x → (x = 0 ↔ (a && accept k) = false))
    ∧ (∀ (E : PrepareEngine) (i j : Nat) (st st1 : PrepareState)
        (tracks : List input_summaries_t) (in_track : input_summaries_t),
        st.input[i]? = some tracks → tracks[j]? = some in_track →
        in_track.active = true →
        in_track.summaries.length = in_track.num_summaries →
        in_track.num_summaries < U32 →
        prepare_track E i st j = Ret.ok st1 →
        ((∃ o, at1 st1.out_movie.track st.out_movie.current_track_number = some o
            ∧ o.summary_remap = expected_remap (E.add_sample_entry i j) in_track.summaries 0 0
            ∧ 1 ≤ accepted_count (E.add_sample_entry i j) in_track.summaries 0
            ∧ st1.out_movie.current_track_number = inc32 st.out_movie.current_track_number
            ∧ st1.out_movie.num_tracks = st.out_movie.num_tracks)
          ∨ (st1.out_movie.current_track_number = st.out_movie.current_track_number
            ∧ st1.out_movie.num_tracks = dec32 st.out_movie.num_tracks
            ∧ ∃ t, input_track_at st1.input i j = some t ∧ t.active = false))
        ∧ (accepted_count (E.add_sample_entry i j) in_track.summaries 0 = 0 →
            st1.out_movie.current_track_number = st.out_movie.current_track_number
            ∧ st1.out_movie.num_tracks = dec32 st.out_movie.num_tracks
            ∧ ∃ t, input_track_at st1.input i j = some t ∧ t.active = false))
    ∧ (∀ (E : PrepareEngine) (st st1 : PrepareState),
        summaries_well_formed st.input → st.out_movie.track.length + 1 < U32 →
        prepare_tracks E st = Ret.ok st1 →
        kept_tracks_remapped E st.input st1.out_movie
          ∧ kept_tracks_dense st1.out_movie) := by
  refine ⟨?_, ?_, ?_⟩
  · intro accept in_track hlen h32
    obtain ⟨s, hs, _⟩ := attach_summaries_spec accept in_track hlen h32
    refine ⟨_, hs, rfl, rfl, ?_, ?_⟩
    · simp only []
      exact expected_remap_nonzero accept in_track.summaries 0 0
    · intro k a x ha hx
      have := expected_remap_zero_iff accept in_track.summaries 0 0 k a x ha hx
      rw [Nat.zero_add] at this
      exact this
  · intro E i j st st1 tracks in_track hi hj hact hlen h32 h
    obtain ⟨tracks1, in_track1, hi1, hj1, hcases⟩ := prepare_track_cases E i st j st1 h
      (fun tracks2 t hi2 hj2 => by
        rw [hi] at hi2
        cases hi2
        rw [hj] at hj2
        cases hj2
        exact ⟨hlen, h32⟩)
    rw [hi] at hi1
    cases hi1
    rw [hj] at hj1
    cases hj1
    have hmain : (∃ o, at1 st1.out_movie.track st.out_movie.current_track_number = some o
            ∧ o.summary_remap = expected_remap (E.add_sample_entry i j) in_track.summaries 0 0
            ∧ 1 ≤ accepted_count (E.add_sample_entry i j) in_track.summaries 0
            ∧ st1.out_movie.current_track_number = inc32 st.out_movie.current_track_number
            ∧ st1.out_movie.num_tracks = st.out_movie.num_tracks)
          ∨ (st1.out_movie.current_track_number = st.out_movie.current_track_number
            ∧ st1.out_movie.num_tracks = dec32 st.out_movie.num_tracks
            ∧ ∃ t, input_track_at st1.input i j = some t ∧ t.active = false) := by
      rcases hcases with ⟨hf, _⟩ | ⟨_, out_track, t1, rfl, _, _⟩
        | ⟨_, o, t1, o0, ho0, rfl, hremap, hm, _, _, _⟩
      · rw [hact] at hf
        cases hf
      · exact Or.inr ⟨rfl, rfl, _,
          set_input_track_read st.input i j tracks in_track _ hi hj, rfl⟩
      · refine Or.inl ⟨o, ?_, hremap, hm, rfl, rfl⟩
        simp only []
        rw [at1_set1, if_pos ⟨rfl, by rw [ho0]; rfl⟩]
    refine ⟨hmain, ?_⟩
    intro hm0
    rcases hmain with ⟨o, _, _, hm, _⟩ | hex
    · omega
    · exact hex
  · intro E st st1 hW hlen h
    have hr := prepare_tracks_remapped E st st1 hW hlen h
    exact ⟨hr, kept_tracks_remapped_dense E st.input st1.out_movie hr⟩

theorem summary_remap_dense_or_excluded_witness :
    (three_summaries_track.summaries.length = three_summaries_track.num_summaries
      ∧ three_summaries_track.num_summaries < U32
      ∧ expected_remap (fun _ => true) three_summaries_track.summaries 0 0 = [1, 0, 2]
      ∧ ∃ sl, attach_summaries (fun _ => true) three_summaries_track = Ret.ok sl
          ∧ sl.summary_remap = expected_remap (fun _ => true) three_summaries_track.summaries 0 0
          ∧ sl.valid_summary_count
              = accepted_count (fun _ => true) three_summaries_track.summaries 0
          ∧ sl.summary_remap.filter (fun x => decide (x ≠ 0))
              = List.range' 1 (accepted_count (fun _ => true) three_summaries_track.summaries 0)
          ∧ ∀ (k : Nat) (a : Bool) (x : Nat), three_summaries_track.summaries[k]? = some a →
              sl.summary_remap[k]? = some x → (x = 0 ↔ (a && (fun _ => true) k) = false))
    ∧ (accepted_count (reject_second_track.add_sample_entry 0 1) one_summary_track.summaries 0
        = 0
      ∧ ∃ st1, prepare_track reject_second_track 0 two_track_prepare 1 = Ret.ok st1
        ∧ st1.out_movie.current_track_number = two_track_prepare.out_movie.current_track_number
        ∧ st1.out_movie.num_tracks = dec32 two_track_prepare.out_movie.num_tracks
        ∧ ∃ t, input_track_at st1.input 0 1 = some t ∧ t.active = false)
    ∧ (summaries_well_formed two_track_prepare.input
      ∧ two_track_prepare.out_movie.track.length + 1 < U32
      ∧ ∃ st1, prepare_tracks reject_second_track two_track_prepare = Ret.ok st1
        ∧ (st1.out_movie.track.map (fun o => o.summary_remap), st1.out_movie.num_tracks,
            st1.out_movie.current_track_number) = ([[1, 0, 2], [0]], 1, 2)
        ∧ kept_tracks_remapped reject_second_track two_track_prepare.input st1.out_movie
        ∧ kept_tracks_dense st1.out_movie) :=
  ⟨⟨rfl, by decide, by decide,
    summary_remap_dense_or_excluded.1 (fun _ => true) three_summaries_track rfl (by decide)⟩,
   ⟨by decide, _, rfl,
    (summary_remap_dense_or_excluded.2.1 reject_second_track 0 1 two_track_prepare _
      [three_summaries_track, one_summary_track] one_summary_track rfl rfl rfl rfl
      (by decide) rfl).2 (by decide)⟩,
   ⟨by decide, by decide, _, rfl, by decide,
    summary_remap_dense_or_excluded.2.2 reject_second_track two_track_prepare _
      (by decide) (by decide) rfl⟩⟩

/-! ## Theorem: a sample whose description was excluded is dropped -/

section Drop

variable {D : Type} [C_double D]

theorem appended_delete_sample (ev : List Event) (p : lsmash_sample_t) (k : Nat) :
    appended (ev ++ [Event.delete_sample p]) k = appended ev k := by
  apply appended_append_of_no_append
  intro e he k1 q hc
  simp only [List.mem_singleton] at he
  rw [he] at hc
  cases hc

/-- C21. In `do_remux`, when the pending sample `p` of the current input track
`t` meets the append condition and its mapped description index is 0, the pass
goes on to the next track after dropping the sample: the only call recorded is
`lsmash_delete_sample`, so nothing is appended to any output track; the current
input track is stored back with an empty pending slot and its
`current_sample_number` incremented (by exactly one unless it wraps at 2^32),
every other input track is as before; `largest_dts`, the consecutive-skip
counter, `total_media_size`, the number of running tracks and the whole array of
output tracks (sample counters and last DTS included) are unchanged. -/
theorem zero_index_sample_is_dropped (E : Engine) (s : State D) (t : input_track_t D)
    (p : lsmash_sample_t) (hcur : cur_in_track s = some t)
    (happ : append_condition E s t p = true) (hidx : p.index = 0) :
    ∃ s1, append_or_skip E s t p = Outcome.next s1
      ∧ s1.r.events = s.r.events ++ [Event.delete_sample p]
      ∧ (∀ k, appended s1.r.events k = appended s.r.events k)
      ∧ in_track_at s1 s.input_movie_number (cur_track_number s)
          = some { t with sample := none,
                          current_sample_number := inc32 t.current_sample_number }
      ∧ (t.current_sample_number + 1 < U32 →
          inc32 t.current_sample_number = t.current_sample_number + 1)
      ∧ (∀ i j, ¬ (i = s.input_movie_number ∧ j = cur_track_number s) →
          in_track_at s1 i j = in_track_at s i j)
      ∧ s1.largest_dts = s.largest_dts
      ∧ s1.num_consecutive_sample_skip = s.num_consecutive_sample_skip
      ∧ s1.total_media_size = s.total_media_size
      ∧ s1.num_active_input_tracks = s.num_active_input_tracks
      ∧ s1.r.out_movie.track = s.r.out_movie.track
      ∧ s1.r.out_movie.num_tracks = s.r.out_movie.num_tracks := by
  refine ⟨move_next (set_in_track (s.log [Event.delete_sample p])
      { t with sample := none, current_sample_number := inc32 t.current_sample_number }),
    ?_, rfl, ?_, ?_, ?_, ?_, rfl, rfl, rfl, rfl, rfl, rfl⟩
  · unfold append_or_skip
    rw [if_pos happ, if_neg (not_not.mpr hidx)]
  · intro k
    exact appended_delete_sample s.r.events p k
  · rw [in_track_at_move_next]
    have h := in_track_at_set_in_track_of (s.log [Event.delete_sample p]) s t
      { t with sample := none, current_sample_number := inc32 t.current_sample_number }
      rfl rfl hcur
    exact h
  · intro h
    exact inc32_of_lt h
  · intro i j hij
    rw [in_track_at_move_next, in_track_at_set_in_track]
    rw [if_neg (fun h => hij ⟨h.1, h.2.1⟩)]
    rfl

end Drop

theorem zero_index_sample_is_dropped_witness :
    cur_in_track (dropped_description_state 4) = some dropped_description_holding
    ∧ append_condition dropped_description_engine (dropped_description_state 4)
        dropped_description_holding (mk_sample 10 0 1) = true
    ∧ (mk_sample 10 0 1).index = 0
    ∧ ∃ s1, append_or_skip dropped_description_engine (dropped_description_state 4)
          dropped_description_holding (mk_sample 10 0 1) = Outcome.next s1
      ∧ s1.r.events = (dropped_description_state 4).r.events
          ++ [Event.delete_sample (mk_sample 10 0 1)]
      ∧ (∀ k, appended s1.r.events k = appended (dropped_description_state 4).r.events k)
      ∧ in_track_at s1 (dropped_description_state 4).input_movie_number
            (cur_track_number (dropped_description_state 4))
          = some { dropped_description_holding with
                   sample := none,
                   current_sample_number :=
                     inc32 dropped_description_holding.current_sample_number }
      ∧ (dropped_description_holding.current_sample_number + 1 < U32 →
          inc32 dropped_description_holding.current_sample_number
            = dropped_description_holding.current_sample_number + 1)
      ∧ (∀ i j, ¬ (i = (dropped_description_state 4).input_movie_number
              ∧ j = cur_track_number (dropped_description_state 4)) →
          in_track_at s1 i j = in_track_at (dropped_description_state 4) i j)
      ∧ s1.largest_dts = (dropped_description_state 4).largest_dts
      ∧ s1.num_consecutive_sample_skip
          = (dropped_description_state 4).num_consecutive_sample_skip
      ∧ s1.total_media_size = (dropped_description_state 4).total_media_size
      ∧ s1.num_active_input_tracks = (dropped_description_state 4).num_active_input_tracks
      ∧ s1.r.out_movie.track = (dropped_description_state 4).r.out_movie.track
      ∧ s1.r.out_movie.num_tracks = (dropped_description_state 4).r.out_movie.num_tracks :=
  ⟨by decide, by decide, rfl,
   zero_index_sample_is_dropped dropped_description_engine (dropped_description_state 4)
     dropped_description_holding (mk_sample 10 0 1) (by decide) (by decide) rfl⟩

/-! ## Lemmas: how a pass through the loop of `do_remux` ends -/

section Shape

variable {D : Type}

theorem set1_set1 {α : Type} (l : List α) (n : Nat) (x y : α) :
    set1 (set1 l n x) n y = set1 l n y := by
  unfold set1
  by_cases hn : n = 0
  · simp only [hn, if_true]
  · simp only [hn, if_false]
    exact List.set_set _ _ _ _

/-- A store through `in_track` of the track that is there changes nothing. -/
theorem set_in_track_self (s : State D) (t : input_track_t D)
    (hcur : cur_in_track s = some t) : (set_in_track s t).r.input = s.r.input := by
  obtain ⟨m, hm, ht⟩ := cur_in_track_some s t hcur
  show store_in_movie s _ = s.r.input
  unfold store_in_movie
  rw [hm]
  simp only []
  rw [set1_self ht]
  unfold cur_in_movie at hm
  exact set1_self hm

/-- A second store through `in_track` overwrites the first. -/
theorem set_in_track_twice (s s1 : State D) (t t1 t2 : input_track_t D)
    (hcur : cur_in_track s = some t)
    (hinput : s1.r.input = (set_in_track s t1).r.input)
    (himn : s1.input_movie_number = s.input_movie_number) :
    (set_in_track s1 t2).r.input = (set_in_track s t2).r.input := by
  obtain ⟨m, hm, ht⟩ := cur_in_track_some s t hcur
  have hin1 : s1.r.input
      = set1 s.r.input s.input_movie_number
          { m with track := set1 m.track m.current_track_number t1 } := by
    rw [hinput]
    show store_in_movie s _ = _
    unfold store_in_movie
    rw [hm]
  have hm0 : at1 s.r.input s.input_movie_number = some m := hm
  have hm1 : cur_in_movie s1
      = some { m with track := set1 m.track m.current_track_number t1 } := by
    unfold cur_in_movie
    rw [hin1, himn, at1_set1, if_pos ⟨rfl, by rw [hm0]; rfl⟩]
  show store_in_movie s1 _ = store_in_movie s _
  unfold store_in_movie
  rw [hm1, hm]
  simp only []
  rw [hin1, himn, set1_set1, set1_set1]

theorem Stored_refl (s : State D) (t : input_track_t D) (hcur : cur_in_track s = some t) :
    Stored s s t [] :=
  ⟨(set_in_track_self s t hcur).symm, rfl, rfl, rfl, rfl, rfl, (List.append_nil _).symm⟩

/-- After a store through `in_track` the pointer reads the stored track. -/
theorem Stored_cur (s s1 : State D) (t t1 : input_track_t D) (new : List Event)
    (hcur : cur_in_track s = some t) (h : Stored s s1 t1 new) :
    cur_in_track s1 = some t1 := by
  have h1 := cur_in_track_set_in_track s t t1 hcur
  unfold cur_in_track at h1 ⊢
  rw [h.input, h.imn]
  exact h1

/-- Two stores through `in_track` one after the other. -/
theorem Stored_trans (s s1 s2 : State D) (t t1 t2 : input_track_t D) (new new2 : List Event)
    (hcur : cur_in_track s = some t) (h1 : Stored s s1 t1 new) (h2 : Stored s1 s2 t2 new2) :
    Stored s s2 t2 (new ++ new2) := by
  refine ⟨?_, h2.imn.trans h1.imn, h2.num_input.trans h1.num_input,
    h2.out_num.trans h1.out_num, h2.out_cur.trans h1.out_cur, h2.out_len.trans h1.out_len, ?_⟩
  · rw [h2.input]
    exact set_in_track_twice s s1 t t1 t2 hcur h1.input h1.imn
  · rw [h2.events, h1.events, List.append_assoc]

/-- A state that differs from `s` in none of the fields `Stored` looks at,
except for recorded calls. -/
theorem Stored_of_eq (s s1 : State D) (t : input_track_t D) (new : List Event)
    (hcur : cur_in_track s = some t)
    (hinput : s1.r.input = s.r.input)
    (himn : s1.input_movie_number = s.input_movie_number)
    (hnum : s1.r.num_input = s.r.num_input)
    (hout : s1.r.out_movie = s.r.out_movie)
    (hev : s1.r.events = s.r.events ++ new) : Stored s s1 t new :=
  ⟨hinput.trans (set_in_track_self s t hcur).symm, himn, hnum, by rw [hout], by rw [hout],
    by rw [hout], hev⟩

end Shape

section PassShape

variable {D : Type}

theorem handle_segmentation_outcome (E : Engine) (r : remuxer_t D) :
    ∃ new a b, (handle_segmentation E r).2
        = { r with events := r.events ++ new, current_subseg_number := a,
                   current_seg_number := b }
      ∧ no_append new
      ∧ ((handle_segmentation E r).1 = 0
        ∨ ((handle_segmentation E r).1 = -1 ∧ Event.error_message ∈ new)) := by
  have hna : ∀ l : List Event, (∀ e ∈ l, e.is_fragment_call = true ∨ e = Event.error_message) →
      no_append l := by
    intro l hl e he k p heq
    subst heq
    rcases hl _ he with h | h
    · simp [Event.is_fragment_call] at h
    · exact Event.noConfusion h
  unfold handle_segmentation
  simp only [remuxer_t.log]
  split_ifs
  · exact ⟨[Event.handle_segmentation], r.current_subseg_number, r.current_seg_number, rfl,
      hna _ (by simp [Event.is_fragment_call]), Or.inl rfl⟩
  · refine ⟨[Event.handle_segmentation, Event.switch_segment r.current_seg_number false,
        Event.error_message], r.current_subseg_number, r.current_seg_number, ?_,
      hna _ (by simp [Event.is_fragment_call]), Or.inr ⟨rfl, by simp⟩⟩
    simp
  · refine ⟨[Event.handle_segmentation, Event.switch_segment r.current_seg_number true],
      1, inc32 r.current_seg_number, ?_, hna _ (by simp [Event.is_fragment_call]), Or.inl rfl⟩
    simp
  · exact ⟨[Event.handle_segmentation], inc32 r.current_subseg_number, r.current_seg_number,
      rfl, hna _ (by simp [Event.is_fragment_call]), Or.inl rfl⟩

/-- The fragment control either goes on or leaves the loop after an error
message; it touches neither the tracks nor the cursors nor the counters of the
scheduler. -/
theorem fragment_control_outcome [C_double D] (E : Engine) (s : State D) (t : input_track_t D)
    (p : lsmash_sample_t) :
    fragment_control E s t p = Outcome.undef
    ∨ ∃ s1 new, s1.r.input = s.r.input
        ∧ s1.input_movie_number = s.input_movie_number
        ∧ s1.r.num_input = s.r.num_input
        ∧ s1.r.out_movie = s.r.out_movie
        ∧ s1.r.events = s.r.events ++ new
        ∧ s1.num_active_input_tracks = s.num_active_input_tracks
        ∧ no_append new
        ∧ (fragment_control E s t p = Outcome.next s1
          ∨ (fragment_control E s t p = Outcome.brk s1 ∧ Event.error_message ∈ new)) := by
  have hna1 : no_append [Event.error_message] := by
    intro e he k1 q
    simp only [List.mem_singleton] at he
    subst he
    exact fun h => Event.noConfusion h
  have hna2 : ∀ b, no_append [Event.create_fragment_movie b] := by
    intro b e he k1 q
    simp only [List.mem_singleton] at he
    subst he
    exact fun h => Event.noConfusion h
  have hna3 : ∀ b, no_append [Event.create_fragment_movie b, Event.error_message] := by
    intro b e he k1 q
    simp only [List.mem_cons, List.mem_singleton, List.not_mem_nil, or_false] at he
    rcases he with he | he <;> subst he <;> exact fun h => Event.noConfusion h
  generalize ho : fragment_control E s t p = o
  have hself : ∀ s1 : State D, s1.r = s.r → s1.input_movie_number = s.input_movie_number →
      s1.num_active_input_tracks = s.num_active_input_tracks →
      o = Outcome.next s1 →
      o = Outcome.undef
      ∨ ∃ s1 new, s1.r.input = s.r.input
        ∧ s1.input_movie_number = s.input_movie_number
        ∧ s1.r.num_input = s.r.num_input
        ∧ s1.r.out_movie = s.r.out_movie
        ∧ s1.r.events = s.r.events ++ new
        ∧ s1.num_active_input_tracks = s.num_active_input_tracks
        ∧ no_append new
        ∧ (o = Outcome.next s1 ∨ (o = Outcome.brk s1 ∧ Event.error_message ∈ new)) := by
    intro s1 hr hi hn h
    exact Or.inr ⟨s1, [], by rw [hr], hi, by rw [hr], by rw [hr],
      by rw [hr, List.append_nil], hn, no_append_nil, Or.inl h⟩
  unfold fragment_control at ho
  by_cases hfb : s.r.frag_base_track ≠ 0
  · rw [if_pos hfb] at ho
    by_cases hpend : s.pending_flush_fragments = 0
    · rw [if_pos hpend] at ho
      by_cases hc : s.r.frag_base_track = s.r.out_movie.current_track_number
          ∧ p.ra_flags ≠ ISOM_SAMPLE_RANDOM_ACCESS_FLAG_NONE
          ∧ over_duration E s t = true
      · rw [if_pos hc] at ho
        exact hself { s with pending_flush_fragments := 1, frag_base_dts := t.dts }
          rfl rfl rfl ho.symm
      · rw [if_neg hc] at ho
        exact hself s rfl rfl rfl ho.symm
    · rw [if_neg hpend] at ho
      by_cases hfl : s.num_consecutive_sample_skip = s.num_active_input_tracks
          ∨ s.total_media_size = 0
      · rw [if_pos hfl] at ho
        cases hflush : flush_movie_fragment E s.r with
        | none =>
          rw [hflush] at ho
          exact Or.inl ho.symm
        | some res =>
          obtain ⟨ret, r1⟩ := res
          rw [hflush] at ho
          simp only [] at ho
          obtain ⟨new1, hr1, hn1⟩ := flush_movie_fragment_frame E s.r r1 ret hflush
          by_cases hret : ret < 0
          · rw [if_pos hret] at ho
            subst ho
            refine Or.inr ⟨{ s with r := r1.log [Event.error_message] },
              new1 ++ [Event.error_message], ?_, rfl, ?_, ?_, ?_, rfl,
              no_append_append hn1 hna1, Or.inr ⟨rfl, by simp⟩⟩
            · rw [hr1]; rfl
            · rw [hr1]; rfl
            · rw [hr1]; rfl
            · rw [hr1]
              simp [remuxer_t.log]
          · rw [if_neg hret] at ho
            obtain ⟨new2, a, b, hr2, hn2, hv2⟩ := handle_segmentation_outcome E r1
            cases hseg : handle_segmentation E r1 with
            | mk ret2 r2 =>
              rw [hseg] at hr2 hv2 ho
              simp only [] at hr2 hv2 ho
              by_cases hret2 : ret2 < 0
              · rw [if_pos hret2] at ho
                subst ho
                have herr : Event.error_message ∈ new2 := by
                  rcases hv2 with h0 | ⟨_, h1⟩
                  · rw [h0] at hret2
                    exact absurd hret2 (by decide)
                  · exact h1
                refine Or.inr ⟨{ s with r := r2 }, new1 ++ new2, ?_, rfl, ?_, ?_, ?_, rfl,
                  no_append_append hn1 hn2, Or.inr ⟨rfl, by simp [herr]⟩⟩
                · rw [hr2, hr1]
                · rw [hr2, hr1]
                · rw [hr2, hr1]
                · rw [hr2, hr1]
                  simp
              · rw [if_neg hret2] at ho
                by_cases hcr : E.create_fragment_movie r2.events = false
                · rw [if_pos hcr] at ho
                  subst ho
                  refine Or.inr ⟨{ s with r := r2.log [Event.create_fragment_movie false,
                                                       Event.error_message] },
                    new1 ++ new2 ++ [Event.create_fragment_movie false,
                      Event.error_message], ?_, rfl, ?_, ?_, ?_, rfl,
                    no_append_append (no_append_append hn1 hn2) (hna3 _),
                    Or.inr ⟨rfl, by simp⟩⟩
                  · rw [hr2, hr1]; rfl
                  · rw [hr2, hr1]; rfl
                  · rw [hr2, hr1]; rfl
                  · rw [hr2, hr1]
                    simp [remuxer_t.log]
                · rw [if_neg hcr] at ho
                  subst ho
                  refine Or.inr ⟨{ s with r := r2.log [Event.create_fragment_movie true],
                                          pending_flush_fragments := 0 },
                    new1 ++ new2 ++ [Event.create_fragment_movie true],
                    ?_, rfl, ?_, ?_, ?_, rfl,
                    no_append_append (no_append_append hn1 hn2) (hna2 _), Or.inl rfl⟩
                  · rw [hr2, hr1]; rfl
                  · rw [hr2, hr1]; rfl
                  · rw [hr2, hr1]; rfl
                  · rw [hr2, hr1]
                    simp [remuxer_t.log]
      · rw [if_neg hfl] at ho
        exact hself s rfl rfl rfl ho.symm
  · rw [if_neg hfb] at ho
    exact hself s rfl rfl rfl ho.symm

end PassShape

section StepShape

variable {D : Type}

theorem adapt_description_index_flags (o : output_track_t) (t ta : input_track_t D)
    (raw pa : lsmash_sample_t) (h : adapt_description_index o t raw = some (ta, pa)) :
    ta.active = t.active
    ∧ ta.reach_end_of_media_timeline = t.reach_end_of_media_timeline := by
  unfold adapt_description_index at h
  simp only [] at h
  split at h
  · cases h
  · split_ifs at h <;> (simp only [Option.some.injEq, Prod.mk.injEq] at h; rw [← h.1]) <;>
      exact ⟨rfl, rfl⟩

/-- What a successful `fetch_sample` stores. -/
theorem fetch_sample_stored [C_double D] (E : Engine) (s s1 : State D) (t t1 : input_track_t D)
    (p : lsmash_sample_t) (hcur : cur_in_track s = some t)
    (hf : fetch_sample E s t = Fetched.sample s1 t1 p) :
    Stored s s1 t1 [] ∧ t1.active = t.active
    ∧ t1.reach_end_of_media_timeline = t.reach_end_of_media_timeline
    ∧ s1.num_active_input_tracks = s.num_active_input_tracks := by
  rcases fetch_sample_sample E s s1 t t1 p hf with
    ⟨h1, h2, _⟩ | ⟨raw, o, ta, pa, _, _, _, had, _, ht1, hs1⟩
  · rw [h1, h2]
    exact ⟨Stored_refl s t hcur, rfl, rfl, rfl⟩
  · obtain ⟨ha, hr⟩ := adapt_description_index_flags o t ta raw pa had
    refine ⟨?_, ?_, ?_, ?_⟩
    · rw [hs1]
      exact ⟨rfl, rfl, rfl, rfl, rfl, set1_length _ _ _, (List.append_nil _).symm⟩
    · rw [ht1]; exact ha
    · rw [ht1]; exact hr
    · rw [hs1]; rfl

/-- How lines 1628-1665 end. -/
theorem append_or_skip_shape [C_double D] (E : Engine) (s : State D) (t : input_track_t D)
    (p : lsmash_sample_t) (hcur : cur_in_track s = some t) (hact : t.active = true) :
    append_or_skip E s t p = Outcome.undef
    ∨ ∃ t1 s2 new, Stored s s2 t1 new ∧ t1.active = true
        ∧ t1.reach_end_of_media_timeline = t.reach_end_of_media_timeline
        ∧ s2.num_active_input_tracks = s.num_active_input_tracks
        ∧ (append_or_skip E s t p = Outcome.next (move_next s2)
          ∨ (Event.error_message ∈ new ∧ append_or_skip E s t p = Outcome.ret (-1) s2)) := by
  refine append_or_skip_cases E s t p
    (fun o => o = Outcome.undef
      ∨ ∃ t1 s2 new, Stored s s2 t1 new ∧ t1.active = true
          ∧ t1.reach_end_of_media_timeline = t.reach_end_of_media_timeline
          ∧ s2.num_active_input_tracks = s.num_active_input_tracks
          ∧ (o = Outcome.next (move_next s2)
            ∨ (Event.error_message ∈ new ∧ o = Outcome.ret (-1) s2))) ?_ ?_ ?_ ?_ ?_
  · exact Or.inl rfl
  · intro _
    exact Or.inr ⟨t, { s with
        num_consecutive_sample_skip := inc32 s.num_consecutive_sample_skip }, [],
      Stored_of_eq s _ t [] hcur rfl rfl rfl rfl (List.append_nil _).symm,
      hact, rfl, rfl, Or.inl rfl⟩
  · intro _ _
    exact Or.inr ⟨{ t with sample := none,
                           current_sample_number := inc32 t.current_sample_number },
      set_in_track (s.log [Event.delete_sample p])
        { t with sample := none, current_sample_number := inc32 t.current_sample_number },
      [Event.delete_sample p],
      ⟨rfl, rfl, rfl, rfl, rfl, rfl, rfl⟩, hact, rfl, rfl, Or.inl rfl⟩
  · intro o _ _ _ _
    exact Or.inr ⟨t,
      s.log [Event.append_sample_failed s.r.out_movie.current_track_number p,
             Event.delete_sample p, Event.error_message],
      [Event.append_sample_failed s.r.out_movie.current_track_number p,
       Event.delete_sample p, Event.error_message],
      Stored_of_eq s _ t _ hcur rfl rfl rfl rfl rfl, hact, rfl, rfl,
      Or.inr ⟨by simp, rfl⟩⟩
  · intro o _ _ _ _
    exact Or.inr ⟨{ t with sample := none,
                           current_sample_number := inc32 t.current_sample_number,
                           current_sample_index := p.index },
      set_out_track
        (set_in_track
          { s.log [Event.append_sample s.r.out_movie.current_track_number p] with
            largest_dts := LSMASH_MAX s.largest_dts t.dts,
            num_consecutive_sample_skip := 0,
            total_media_size := add64 s.total_media_size p.length,
            progress_pos :=
              if add64 s.total_media_size p.length / 4194304 > s.progress_pos then
                (add64 s.total_media_size p.length / 4194304) % U32
              else s.progress_pos }
          { t with sample := none,
                   current_sample_number := inc32 t.current_sample_number,
                   current_sample_index := p.index })
        { o with current_sample_number := inc32 o.current_sample_number,
                 last_sample_dts := p.dts },
      [Event.append_sample s.r.out_movie.current_track_number p],
      ⟨rfl, rfl, rfl, rfl, rfl, set1_length _ _ _, rfl⟩, hact, rfl, rfl, Or.inl rfl⟩

end StepShape

section StepShape2

variable {D : Type}

/-- How lines 1566-1666 end. -/
theorem handle_pending_sample_shape [C_double D] (E : Engine) (s : State D)
    (t : input_track_t D) (p : lsmash_sample_t) (hcur : cur_in_track s = some t)
    (hact : t.active = true) :
    handle_pending_sample E s t p = Outcome.undef
    ∨ ∃ t1 s2 new, Stored s s2 t1 new ∧ t1.active = true
        ∧ t1.reach_end_of_media_timeline = t.reach_end_of_media_timeline
        ∧ s2.num_active_input_tracks = s.num_active_input_tracks
        ∧ (handle_pending_sample E s t p = Outcome.next (move_next s2)
          ∨ (Event.error_message ∈ new
            ∧ (handle_pending_sample E s t p = Outcome.brk s2
              ∨ handle_pending_sample E s t p = Outcome.ret (-1) s2))) := by
  unfold handle_pending_sample
  rcases fragment_control_outcome E s t p with hu | ⟨s1, new, h1, h2, h3, h4, h5, h6, _, hn | ⟨hb, herr⟩⟩
  · rw [hu]
    exact Or.inl rfl
  · rw [hn]
    simp only []
    have hst : Stored s s1 t new := Stored_of_eq s s1 t new hcur h1 h2 h3 h4 h5
    have hcur1 : cur_in_track s1 = some t := Stored_cur s s1 t t new hcur hst
    rcases append_or_skip_shape E s1 t p hcur1 hact with hu | ⟨t1, s2, new2, hs2, ha, hr, hnum, ho⟩
    · exact Or.inl hu
    · refine Or.inr ⟨t1, s2, new ++ new2, Stored_trans s s1 s2 t t t1 new new2 hcur hst hs2,
        ha, hr, hnum.trans h6, ?_⟩
      rcases ho with ho | ⟨he, ho⟩
      · exact Or.inl ho
      · exact Or.inr ⟨List.mem_append_right _ he, Or.inr ho⟩
  · rw [hb]
    exact Or.inr ⟨t, s1, new, Stored_of_eq s s1 t new hcur h1 h2 h3 h4 h5, hact, rfl, h6,
      Or.inr ⟨herr, Or.inl rfl⟩⟩

/-- How a pass through the loop of `do_remux` ends: with an out-of-bounds read,
with a move of the input cursor alone when the track under it is inactive, or
as described by `active_pass`. -/
theorem step_shape [C_double D] (E : Engine) (s : State D) :
    step E s = Outcome.undef
    ∨ ∃ m t, cur_in_movie s = some m ∧ at1 m.track m.current_track_number = some t
        ∧ ((t.active = false ∧ step E s = Outcome.next (move_next_input s))
          ∨ (t.active = true ∧ active_pass s t (step E s))) := by
  refine step_cases E s
    (fun o => o = Outcome.undef
      ∨ ∃ m t, cur_in_movie s = some m ∧ at1 m.track m.current_track_number = some t
          ∧ ((t.active = false ∧ o = Outcome.next (move_next_input s))
            ∨ (t.active = true ∧ active_pass s t o))) ?_ ?_ ?_ ?_ ?_
  · exact Or.inl rfl
  · intro m t hm ht hact
    exact Or.inr ⟨m, t, hm, ht, Or.inl ⟨hact, rfl⟩⟩
  · intro m t hm ht hact hend
    have hcur : cur_in_track s = some t := by rw [cur_in_track_eq s m hm]; exact ht
    exact Or.inr ⟨m, t, hm, ht, Or.inr ⟨hact, t, s, [], Stored_refl s t hcur, hact,
      Or.inl ⟨rfl, rfl, rfl⟩⟩⟩
  · intro m t s1 t1 p hm ht hact hend hf
    have hcur : cur_in_track s = some t := by rw [cur_in_track_eq s m hm]; exact ht
    obtain ⟨hst, ha1, hr1, hn1⟩ := fetch_sample_stored E s s1 t t1 p hcur hf
    have hcur1 : cur_in_track s1 = some t1 := Stored_cur s s1 t t1 [] hcur hst
    rcases handle_pending_sample_shape E s1 t1 p hcur1 (ha1.trans hact) with
      hu | ⟨t2, s2, new, hs2, ha2, hr2, hn2, ho⟩
    · exact Or.inl hu
    · have hst2 := Stored_trans s s1 s2 t t1 t2 [] new hcur hst hs2
      rw [List.nil_append] at hst2
      refine Or.inr ⟨m, t, hm, ht, Or.inr ⟨hact, t2, s2, new, hst2, ha2, ?_⟩⟩
      rcases ho with ho | ⟨he, ho⟩
      · exact Or.inl ⟨hr2.trans hr1, hn2.trans hn1, ho⟩
      · exact Or.inr (Or.inl ⟨hr2.trans hr1, hn2.trans hn1, he, ho⟩)
  · intro m t o hm ht hact hend hf
    have hcur : cur_in_track s = some t := by rw [cur_in_track_eq s m hm]; exact ht
    rcases fetch_sample_no_sample E s t o hf with h1 | ⟨h1, _⟩ |
      ⟨_, _, _, _, ⟨hz, h1⟩ | ⟨hz, h1⟩⟩
    · exact Or.inl h1
    · refine Or.inr ⟨m, t, hm, ht, Or.inr ⟨hact, t, s.log [Event.error_message],
        [Event.error_message],
        Stored_of_eq s _ t _ hcur rfl rfl rfl rfl rfl, hact,
        Or.inr (Or.inl ⟨rfl, rfl, by simp, Or.inl h1⟩)⟩⟩
    · refine Or.inr ⟨m, t, hm, ht, Or.inr ⟨hact,
        { t with sample := none, reach_end_of_media_timeline := true },
        { set_in_track s { t with sample := none, reach_end_of_media_timeline := true } with
          num_active_input_tracks := dec32 s.num_active_input_tracks }, [],
        ⟨rfl, rfl, rfl, rfl, rfl, rfl, (List.append_nil _).symm⟩, hact,
        Or.inr (Or.inr ⟨hend, rfl, rfl, rfl, Or.inl ⟨hz, h1⟩⟩)⟩⟩
    · refine Or.inr ⟨m, t, hm, ht, Or.inr ⟨hact,
        { t with sample := none, reach_end_of_media_timeline := true },
        { set_in_track s { t with sample := none, reach_end_of_media_timeline := true } with
          num_active_input_tracks := dec32 s.num_active_input_tracks }, [],
        ⟨rfl, rfl, rfl, rfl, rfl, rfl, (List.append_nil _).symm⟩, hact,
        Or.inr (Or.inr ⟨hend, rfl, rfl, rfl, Or.inr ⟨hz, h1⟩⟩)⟩⟩

end StepShape2

/-! ## Theorem: the output cursor follows the active input tracks -/

section SyncedStep

variable {D : Type}

/-- A store through `in_track` that keeps the `active` flag keeps the cursors
synchronous. -/
theorem Synced_stored (sh : List (List Bool)) (s s2 : State D) (m : input_movie_t D)
    (t t1 : input_track_t D) (new : List Event) (hs : Synced sh s)
    (hm : cur_in_movie s = some m) (ht : at1 m.track m.current_track_number = some t)
    (hact : t1.active = t.active) (hst : Stored s s2 t1 new) : Synced sh s2 := by
  have hin := InputOk_set_in_track sh s m t t1 hs.input hm ht hact
  have hin2 : InputOk sh s2 := InputOk_congr sh (set_in_track s t1) s2 hst.input hst.imn
    hst.num_input hin
  refine ⟨hin2, hst.out_num.trans hs.out_num, hs.out_lt, ?_⟩
  rw [hst.out_cur, hst.imn, cur_track_number_congr (set_in_track s t1) s2 hst.input hst.imn,
    cur_track_number_set_in_track]
  exact hs.out_cur

/-- Every pass of the loop keeps the cursors synchronous. -/
theorem Synced_step [C_double D] (E : Engine) (sh : List (List Bool)) (s s1 : State D)
    (hs : Synced sh s) (h : (step E s).state? = some s1) : Synced sh s1 := by
  rcases step_shape E s with hu | ⟨m, t, hm, ht, ⟨hact, ho⟩ | ⟨hact, t1, s2, new, hst, ha1, ho⟩⟩
  · rw [hu] at h
    cases h
  · rw [ho] at h
    simp only [Outcome.state?, Option.some.injEq] at h
    rw [← h]
    exact Synced_move_next_input sh s m t hs hm ht hact
  · have hcur : cur_in_track s = some t := by rw [cur_in_track_eq s m hm]; exact ht
    have hs2 : Synced sh s2 := Synced_stored sh s s2 m t t1 new hs hm ht (ha1.trans hact.symm) hst
    have hcur2 : cur_in_track s2 = some t1 := Stored_cur s s2 t t1 new hcur hst
    obtain ⟨m2, hm2, ht2⟩ := cur_in_track_some s2 t1 hcur2
    have hmv : Synced sh (move_next s2) := Synced_move_next sh s2 m2 t1 hs2 hm2 ht2 ha1
    rcases ho with ⟨_, _, ho⟩ | ⟨_, _, _, ho | ho⟩ | ⟨_, _, _, _, ⟨_, ho⟩ | ⟨_, ho⟩⟩ <;>
      (rw [ho] at h
       simp only [Outcome.state?, Option.some.injEq] at h
       rw [← h]) <;>
      first
        | exact hmv
        | exact hs2

end SyncedStep

section CursorRank

variable {D : Type}

/-- After any number of passes the cursors are synchronous. -/
theorem run_Synced [C_double D] (E : Engine) (r : remuxer_t D) (n : Nat) (s : State D)
    (hr : prepared r) (hne : r.input ≠ [])
    (hs : (run E n (initial_state r)).state? = some s) :
    Synced (active_flags r.input) s :=
  run_invariant E (Synced (active_flags r.input))
    (fun s s1 h1 h2 => Synced_step E _ s s1 h1 h2) n (initial_state r) s
    (Inv_initial E r hr hne).sync hs

/-- C23. Let the remuxer be as `get_movie` and `prepare_output` leave it, with
as many output tracks as there are active input tracks (an inactive track may
be one that `get_movie` could not read and left zero-filled).  After any number of
passes through the loop of `do_remux`: the `active` flags are those of the
start; when the input cursor is on an active track, the output cursor is the
rank of that track among the active input tracks in the order input movie by
input movie, track by track (one more than the number of active tracks before
it), which is at most the number of output tracks; when the input cursor is on
an inactive track, the pass only moves the input cursor (the output movie, the
skip counter, the other locals, the recorded calls and every input track are as
before); and the output cursor is always one more than the number of active
tracks before the input cursor, taken modulo the number of active tracks, so
that it is back on 1 whenever the input cursor is back on the first track of
the first movie. -/
theorem output_cursor_is_rank_of_input_track [C_double D] (E : Engine) (r : remuxer_t D)
    (n : Nat) (s : State D) (hr : prepared r)
    (hs : (run E n (initial_state r)).state? = some s) :
    active_flags s.r.input = active_flags r.input
    ∧ (∀ m t, cur_in_movie s = some m → at1 m.track m.current_track_number = some t →
        t.active = true →
        s.r.out_movie.current_track_number
            = active_before (active_flags r.input) s.input_movie_number
                m.current_track_number + 1
        ∧ s.r.out_movie.current_track_number ≤ s.r.out_movie.num_tracks)
    ∧ (∀ m t, cur_in_movie s = some m → at1 m.track m.current_track_number = some t →
        t.active = false →
        ∃ s1, step E s = Outcome.next s1
          ∧ s1.r.out_movie = s.r.out_movie
          ∧ s1.num_consecutive_sample_skip = s.num_consecutive_sample_skip
          ∧ s1.num_active_input_tracks = s.num_active_input_tracks
          ∧ s1.largest_dts = s.largest_dts
          ∧ s1.total_media_size = s.total_media_size
          ∧ s1.pending_flush_fragments = s.pending_flush_fragments
          ∧ s1.r.events = s.r.events
          ∧ ∀ i j, in_track_at s1 i j = in_track_at s i j)
    ∧ s.r.out_movie.current_track_number
        = active_before (active_flags r.input) s.input_movie_number (cur_track_number s)
            % count_active (active_flags r.input) + 1
    ∧ (s.input_movie_number = 1 → cur_track_number s = 1 →
        s.r.out_movie.current_track_number = 1) := by
  have hinactive : ∀ m t, cur_in_movie s = some m →
      at1 m.track m.current_track_number = some t → t.active = false →
      ∃ s1, step E s = Outcome.next s1
        ∧ s1.r.out_movie = s.r.out_movie
        ∧ s1.num_consecutive_sample_skip = s.num_consecutive_sample_skip
        ∧ s1.num_active_input_tracks = s.num_active_input_tracks
        ∧ s1.largest_dts = s.largest_dts
        ∧ s1.total_media_size = s.total_media_size
        ∧ s1.pending_flush_fragments = s.pending_flush_fragments
        ∧ s1.r.events = s.r.events
        ∧ ∀ i j, in_track_at s1 i j = in_track_at s i j := by
    intro m t hm ht hact
    refine ⟨move_next_input s, ?_, rfl, rfl, rfl, rfl, rfl, rfl, rfl,
      in_track_at_move_next_input s⟩
    unfold step
    rw [hm]
    simp only []
    rw [ht]
    simp only []
    rw [if_pos hact]
  have hfirst : ∀ sh : List (List Bool), s.r.out_movie.current_track_number
        = active_before sh s.input_movie_number (cur_track_number s) % count_active sh + 1 →
      s.input_movie_number = 1 → cur_track_number s = 1 →
      s.r.out_movie.current_track_number = 1 := by
    intro sh h h1 h2
    rw [h, h1, h2]
    unfold active_before
    rw [active_before0_zero, Nat.zero_mod]
  by_cases hne : r.input = []
  · have hst : step E (initial_state r) = Outcome.undef := by
      unfold step cur_in_movie
      show (match at1 r.input 1 with
        | none => Outcome.undef
        | some in_movie => _) = Outcome.undef
      rw [hne]
      rfl
    cases n with
    | zero =>
      simp only [run, Outcome.state?, Option.some.injEq] at hs
      have hcur : s.r.out_movie.current_track_number
          = active_before (active_flags r.input) s.input_movie_number (cur_track_number s)
              % count_active (active_flags r.input) + 1 := by
        rw [← hs]
        show r.out_movie.current_track_number = _
        rw [hr.2.2.2.2.2.2.1, hne]
        have h0 : ∀ i j, active_before ([] : List (List Bool)) i j = 0 := by
          intro i j
          unfold active_before
          rw [active_before0_total _ _ _ (Nat.zero_le _)]
          rfl
        show 1 = active_before [] _ _ % count_active [] + 1
        rw [h0, Nat.zero_mod]
      have hnone : cur_in_movie s = none := by
        rw [← hs]
        unfold cur_in_movie
        show at1 r.input 1 = none
        rw [hne]
        rfl
      refine ⟨by rw [← hs]; rfl, ?_, hinactive, hcur, hfirst _ hcur⟩
      intro m t hm
      rw [hnone] at hm
      cases hm
    | succ n =>
      simp only [run, hst, Outcome.state?] at hs
      cases hs
  · have hsync := run_Synced E r n s hr hne hs
    refine ⟨hsync.input.flags, ?_, hinactive, hsync.out_cur, hfirst _ hsync.out_cur⟩
    intro m t hm ht hact
    have hrank := out_cursor_of_active _ s m t hsync hm ht hact
    refine ⟨hrank, ?_⟩
    have hlt := active_before_lt_total _ s hsync.input.flags _ _ t
      (in_track_at_of_cur s m t hm ht) hact
    rw [hrank, hsync.out_num]
    exact hlt

end CursorRank

theorem output_cursor_is_rank_of_input_track_witness :
    prepared gap_remuxer
    ∧ (run two_track_engine 1 (initial_state gap_remuxer)).state? = some (gap_state 1)
    ∧ (gap_state 1).input_movie_number = 1 ∧ cur_track_number (gap_state 1) = 2
    ∧ (gap_state 1).r.out_movie.current_track_number = 2
    ∧ (active_flags (gap_state 1).r.input = active_flags gap_remuxer.input
      ∧ (∀ m t, cur_in_movie (gap_state 1) = some m →
          at1 m.track m.current_track_number = some t → t.active = true →
          (gap_state 1).r.out_movie.current_track_number
              = active_before (active_flags gap_remuxer.input)
                  (gap_state 1).input_movie_number m.current_track_number + 1
          ∧ (gap_state 1).r.out_movie.current_track_number
              ≤ (gap_state 1).r.out_movie.num_tracks)
      ∧ (∀ m t, cur_in_movie (gap_state 1) = some m →
          at1 m.track m.current_track_number = some t → t.active = false →
          ∃ s1, step two_track_engine (gap_state 1) = Outcome.next s1
            ∧ s1.r.out_movie = (gap_state 1).r.out_movie
            ∧ s1.num_consecutive_sample_skip = (gap_state 1).num_consecutive_sample_skip
            ∧ s1.num_active_input_tracks = (gap_state 1).num_active_input_tracks
            ∧ s1.largest_dts = (gap_state 1).largest_dts
            ∧ s1.total_media_size = (gap_state 1).total_media_size
            ∧ s1.pending_flush_fragments = (gap_state 1).pending_flush_fragments
            ∧ s1.r.events = (gap_state 1).r.events
            ∧ ∀ i j, in_track_at s1 i j = in_track_at (gap_state 1) i j)
      ∧ (gap_state 1).r.out_movie.current_track_number
          = active_before (active_flags gap_remuxer.input) (gap_state 1).input_movie_number
                (cur_track_number (gap_state 1))
              % count_active (active_flags gap_remuxer.input) + 1
      ∧ ((gap_state 1).input_movie_number = 1 → cur_track_number (gap_state 1) = 1 →
          (gap_state 1).r.out_movie.current_track_number = 1)) :=
  ⟨by unfold prepared; decide, by decide, by decide, by decide, by decide,
   output_cursor_is_rank_of_input_track two_track_engine gap_remuxer 1 (gap_state 1)
     (by unfold prepared; decide) (by decide)⟩

/-! ## Theorem: the counter of running tracks and the final flush -/

section RunningCount

variable {D : Type}

theorem count_set_false (l : List Bool) :
    ∀ k, l[k]? = some true → (l.set k false).count true + 1 = l.count true := by
  induction l with
  | nil => intro k h; cases h
  | cons a l ih =>
    intro k h
    cases k with
    | zero =>
      simp only [List.getElem?_cons_zero, Option.some.injEq] at h
      subst h
      simp
    | succ k =>
      simp only [List.getElem?_cons_succ] at h
      have := ih k h
      simp only [List.set_cons_succ, List.count_cons]
      omega

theorem sum_set_add (L : List Nat) :
    ∀ k x y, L[k]? = some x → (L.set k y).sum + x = L.sum + y := by
  induction L with
  | nil => intro k x y h; cases h
  | cons a L ih =>
    intro k x y h
    cases k with
    | zero =>
      simp only [List.getElem?_cons_zero, Option.some.injEq] at h
      subst h
      simp only [List.set_cons_zero, List.sum_cons]
      omega
    | succ k =>
      simp only [List.getElem?_cons_succ] at h
      have := ih k x y h
      simp only [List.set_cons_succ, List.sum_cons]
      omega

/-- Clearing one flag that is set lowers the count by one. -/
theorem count_active_clear (sh : List (List Bool)) (i j : Nat) (row : List Bool)
    (hrow : at1 sh i = some row) (hflag : at1 row j = some true) :
    count_active (set1 sh i (set1 row j false)) + 1 = count_active sh := by
  have hi := (at1_some_pos hrow).1
  have hj := (at1_some_pos hflag).1
  unfold at1 at hrow hflag
  rw [if_neg (by omega)] at hrow hflag
  unfold set1
  rw [if_neg (by omega), if_neg (by omega)]
  unfold count_active
  rw [List.map_set]
  have h1 := count_set_false row (j - 1) hflag
  have h2 := sum_set_add (sh.map (fun l => l.count true)) (i - 1) (row.count true)
    ((row.set (j - 1) false).count true) (by rw [List.getElem?_map, hrow]; rfl)
  omega

/-- The flags `g` of the input tracks after a store through `in_track`. -/
theorem flags_set_in_track (g : input_track_t D → Bool) (s : State D) (m : input_movie_t D)
    (t1 : input_track_t D) (hm : cur_in_movie s = some m) :
    (set_in_track s t1).r.input.map (fun m => m.track.map g)
      = set1 (s.r.input.map (fun m => m.track.map g)) s.input_movie_number
          (set1 (m.track.map g) m.current_track_number (g t1)) := by
  have hinput : (set_in_track s t1).r.input
      = set1 s.r.input s.input_movie_number
          { m with track := set1 m.track m.current_track_number t1 } := by
    simp only [set_in_track, store_in_movie, hm]
  rw [hinput, map_set1]
  simp only []
  rw [map_set1]

/-- A store through `in_track` that keeps the flag `g` of the track keeps the
flags `g` of all tracks. -/
theorem flags_set_in_track_same (g : input_track_t D → Bool) (s : State D)
    (m : input_movie_t D) (t t1 : input_track_t D) (hm : cur_in_movie s = some m)
    (ht : at1 m.track m.current_track_number = some t) (hg : g t1 = g t) :
    (set_in_track s t1).r.input.map (fun m => m.track.map g)
      = s.r.input.map (fun m => m.track.map g) := by
  rw [flags_set_in_track g s m t1 hm, hg]
  have h1 : at1 (m.track.map g) m.current_track_number = some (g t) := by
    rw [at1_map, ht]
    rfl
  rw [set1_self h1]
  have hm1 : at1 s.r.input s.input_movie_number = some m := hm
  have hold : at1 (s.r.input.map (fun m => m.track.map g)) s.input_movie_number
      = some (m.track.map g) := by
    rw [at1_map, hm1]
    rfl
  exact set1_self hold

/-- The flags `g` of the input tracks do not depend on the cursors. -/
theorem flags_move_next_input (g : input_track_t D → Bool) (s : State D) :
    (move_next_input s).r.input.map (fun m => m.track.map g)
      = s.r.input.map (fun m => m.track.map g) := by
  show (store_in_movie s _).map _ = _
  unfold store_in_movie
  cases hm : cur_in_movie s with
  | none => rfl
  | some m =>
    simp only []
    rw [map_set1]
    have hm1 : at1 s.r.input s.input_movie_number = some m := hm
    have hold : at1 (s.r.input.map (fun m => m.track.map g)) s.input_movie_number
        = some (m.track.map g) := by
      rw [at1_map, hm1]
      rfl
    have hsame : List.map g
        (if inc32 m.current_track_number > m.num_tracks then
          { m with current_track_number := 1 }
         else { m with current_track_number := inc32 m.current_track_number }).track
        = m.track.map g := by
      by_cases h : inc32 m.current_track_number > m.num_tracks
      · rw [if_pos h]
      · rw [if_neg h]
    rw [hsame]
    exact set1_self hold

end RunningCount

section RunningInvariant

variable {D : Type}

theorem RunningOk_move_next_input (s : State D) (h : RunningOk s) :
    RunningOk (move_next_input s) := by
  have hf : running_flags (move_next_input s).r.input = running_flags s.r.input :=
    flags_move_next_input (fun t => t.active && !t.reach_end_of_media_timeline) s
  exact ⟨by rw [hf]; exact h.count, by rw [hf]; exact h.count_lt, h.out_len⟩

theorem RunningOk_move_next (s : State D) (h : RunningOk s) : RunningOk (move_next s) := by
  have h1 := RunningOk_move_next_input s h
  exact ⟨h1.count, h1.count_lt, h1.out_len⟩

/-- A store through `in_track` that keeps both flags of the track keeps the
counter of running tracks in order. -/
theorem RunningOk_stored_same (s s2 : State D) (m : input_movie_t D)
    (t t1 : input_track_t D) (new : List Event) (h : RunningOk s)
    (hm : cur_in_movie s = some m) (ht : at1 m.track m.current_track_number = some t)
    (hact : t1.active = t.active)
    (hend : t1.reach_end_of_media_timeline = t.reach_end_of_media_timeline)
    (hst : Stored s s2 t1 new)
    (hnum : s2.num_active_input_tracks = s.num_active_input_tracks) : RunningOk s2 := by
  have hf : running_flags s2.r.input = running_flags s.r.input := by
    rw [hst.input]
    exact flags_set_in_track_same (fun t => t.active && !t.reach_end_of_media_timeline)
      s m t t1 hm ht (by simp only [hact, hend])
  exact ⟨by rw [hf, hnum]; exact h.count, by rw [hf]; exact h.count_lt,
    by rw [hst.out_num, hst.out_len]; exact h.out_len⟩

/-- The store that marks the end of a running track and decrements the
counter keeps the counter in order; the counter was at least 1. -/
theorem RunningOk_stored_end (s s2 : State D) (m : input_movie_t D)
    (t t1 : input_track_t D) (new : List Event) (h : RunningOk s)
    (hm : cur_in_movie s = some m) (ht : at1 m.track m.current_track_number = some t)
    (hact : t.active = true) (hend : t.reach_end_of_media_timeline = false)
    (hend1 : t1.reach_end_of_media_timeline = true)
    (hst : Stored s s2 t1 new)
    (hnum : s2.num_active_input_tracks = dec32 s.num_active_input_tracks) :
    RunningOk s2 ∧ s.num_active_input_tracks = s2.num_active_input_tracks + 1 := by
  have hm1 : at1 s.r.input s.input_movie_number = some m := hm
  have hrow : at1 (running_flags s.r.input) s.input_movie_number
      = some (m.track.map (fun t => t.active && !t.reach_end_of_media_timeline)) := by
    unfold running_flags
    rw [at1_map, hm1]
    rfl
  have hflag : at1 (m.track.map (fun t => t.active && !t.reach_end_of_media_timeline))
      m.current_track_number = some true := by
    rw [at1_map, ht]
    simp only [Option.map_some', hact, hend]
    rfl
  have hf : running_flags s2.r.input
      = set1 (running_flags s.r.input) s.input_movie_number
          (set1 (m.track.map (fun t => t.active && !t.reach_end_of_media_timeline))
            m.current_track_number false) := by
    rw [hst.input]
    have := flags_set_in_track (fun t => t.active && !t.reach_end_of_media_timeline)
      s m t1 hm
    simp only [hend1, Bool.not_true, Bool.and_false] at this
    exact this
  have hc := count_active_clear (running_flags s.r.input) s.input_movie_number
    m.current_track_number _ hrow hflag
  rw [← hf] at hc
  have hlt := h.count_lt
  have hcount := h.count
  have hdec : dec32 s.num_active_input_tracks = count_active (running_flags s2.r.input) := by
    unfold dec32
    rw [hcount, ← hc]
    simp only [U32] at hlt ⊢
    omega
  refine ⟨⟨hnum.trans hdec, by omega, by rw [hst.out_num, hst.out_len]; exact h.out_len⟩, ?_⟩
  rw [hnum, hdec, hcount]
  exact hc.symm

/-- Every pass of the loop keeps the counter of running tracks in order. -/
theorem RunningOk_step [C_double D] (E : Engine) (s s1 : State D) (hs : RunningOk s)
    (h : (step E s).state? = some s1) : RunningOk s1 := by
  rcases step_shape E s with hu | ⟨m, t, hm, ht, ⟨hact, ho⟩ | ⟨hact, t1, s2, new, hst, ha1, ho⟩⟩
  · rw [hu] at h
    cases h
  · rw [ho] at h
    simp only [Outcome.state?, Option.some.injEq] at h
    rw [← h]
    exact RunningOk_move_next_input s hs
  · rcases ho with ⟨hr, hn, ho⟩ | ⟨hr, hn, _, ho | ho⟩ | ⟨hr, hr1, _, hn, ⟨_, ho⟩ | ⟨_, ho⟩⟩
    · have h2 := RunningOk_stored_same s s2 m t t1 new hs hm ht (ha1.trans hact.symm) hr hst hn
      rw [ho] at h
      simp only [Outcome.state?, Option.some.injEq] at h
      rw [← h]
      exact RunningOk_move_next s2 h2
    · have h2 := RunningOk_stored_same s s2 m t t1 new hs hm ht (ha1.trans hact.symm) hr hst hn
      rw [ho] at h
      simp only [Outcome.state?, Option.some.injEq] at h
      rw [← h]
      exact h2
    · have h2 := RunningOk_stored_same s s2 m t t1 new hs hm ht (ha1.trans hact.symm) hr hst hn
      rw [ho] at h
      simp only [Outcome.state?, Option.some.injEq] at h
      rw [← h]
      exact h2
    · have h2 := (RunningOk_stored_end s s2 m t t1 new hs hm ht hact hr hr1 hst hn).1
      rw [ho] at h
      simp only [Outcome.state?, Option.some.injEq] at h
      rw [← h]
      exact h2
    · have h2 := (RunningOk_stored_end s s2 m t t1 new hs hm ht hact hr hr1 hst hn).1
      rw [ho] at h
      simp only [Outcome.state?, Option.some.injEq] at h
      rw [← h]
      exact RunningOk_move_next s2 h2

/-- While the loop goes on, at least one track is running. -/
theorem RunningOk_step_next [C_double D] (E : Engine) (s s1 : State D)
    (hs : RunningOk s ∧ 1 ≤ s.num_active_input_tracks)
    (h : step E s = Outcome.next s1) : RunningOk s1 ∧ 1 ≤ s1.num_active_input_tracks := by
  have hok := RunningOk_step E s s1 hs.1 (by rw [h]; rfl)
  refine ⟨hok, ?_⟩
  rcases step_shape E s with hu | ⟨m, t, hm, ht, ⟨hact, ho⟩ | ⟨hact, t1, s2, new, hst, ha1, ho⟩⟩
  · rw [hu] at h
    cases h
  · rw [ho] at h
    cases h
    exact hs.2
  · rcases ho with ⟨hr, hn, ho⟩ | ⟨hr, hn, _, ho | ho⟩ | ⟨hr, hr1, _, hn, ⟨_, ho⟩ | ⟨hz, ho⟩⟩
    · rw [ho] at h
      cases h
      show 1 ≤ s2.num_active_input_tracks
      rw [hn]
      exact hs.2
    · rw [ho] at h
      cases h
    · rw [ho] at h
      cases h
    · rw [ho] at h
      cases h
    · rw [ho] at h
      cases h
      show 1 ≤ s2.num_active_input_tracks
      rw [hn]
      omega

/-- A property kept by every pass that goes on holds as long as the loop goes
on. -/
theorem run_next_invariant [C_double D] (E : Engine) (P : State D → Prop)
    (hstep : ∀ s s1, P s → step E s = Outcome.next s1 → P s1) :
    ∀ (n : Nat) (s0 s : State D), P s0 → run E n s0 = Outcome.next s → P s := by
  intro n
  induction n with
  | zero =>
    intro s0 s h0 hs
    simp only [run, Outcome.next.injEq] at hs
    exact hs ▸ h0
  | succ n ih =>
    intro s0 s h0 hs
    simp only [run] at hs
    cases hst : step E s0 with
    | next s1 =>
      rw [hst] at hs
      exact ih s1 s (hstep s0 s1 h0 hst) hs
    | brk s1 => rw [hst] at hs; cases hs
    | ret v s1 => rw [hst] at hs; cases hs
    | undef => rw [hst] at hs; cases hs

theorem RunningOk_initial [C_double D] (r : remuxer_t D) (hr : prepared r)
    (hclear : ∀ m ∈ r.input, ∀ t ∈ m.track, t.reach_end_of_media_timeline = false) :
    RunningOk (initial_state r) := by
  obtain ⟨_, _, _, h4, h5, h6, _⟩ := hr
  have hf : running_flags r.input = active_flags r.input := by
    unfold running_flags active_flags
    apply List.map_congr_left
    intro m hm
    apply List.map_congr_left
    intro t ht
    rw [hclear m hm t ht]
    simp
  refine ⟨?_, ?_, h5⟩
  · show r.out_movie.num_tracks = count_active (running_flags r.input)
    rw [hf]
    exact h4
  · show count_active (running_flags r.input) < U32
    rw [hf, ← h4]
    omega

end RunningInvariant

section FinalFlush

variable {D : Type}

/-- The loop at the end of `do_remux` over the output tracks `a`, ..., `a + n - 1`
(0-based): it calls `lsmash_flush_pooled_samples` for one track after the other
with that track's `last_sample_delta`, and either every call succeeds and 0 is
returned, or the first call that fails is followed by an error message and
-1 is returned. -/
theorem final_flush_spec (E : Engine) :
    ∀ (n a : Nat) (r : remuxer_t D), a + n ≤ r.out_movie.track.length →
      (∃ r1, final_flush E (List.range' a n) r = some (0, r1)
        ∧ r1.events = r.events ++ final_flush_calls ((r.out_movie.track.drop a).take n))
      ∨ (∃ k o r1, k < n ∧ r.out_movie.track[a + k]? = some o
        ∧ final_flush E (List.range' a n) r = some (-1, r1)
        ∧ r1.events = r.events ++ final_flush_calls ((r.out_movie.track.drop a).take k)
            ++ [Event.flush_pooled_samples o.track_ID o.last_sample_delta false,
                Event.error_message]
        ∧ E.flush_pooled_samples
            (r.events ++ final_flush_calls ((r.out_movie.track.drop a).take k))
            o.track_ID o.last_sample_delta = false) := by
  intro n
  induction n with
  | zero =>
    intro a r _
    exact Or.inl ⟨r, rfl, by simp [final_flush_calls]⟩
  | succ n ih =>
    intro a r hlen
    obtain ⟨o, ho⟩ := getElem?_of_lt r.out_movie.track a (by omega)
    have hdrop : r.out_movie.track.drop a = o :: r.out_movie.track.drop (a + 1) := by
      obtain ⟨hl, he⟩ := List.getElem?_eq_some_iff.1 ho
      rw [List.drop_eq_getElem_cons hl, he]
    rw [List.range'_succ]
    simp only [final_flush]
    rw [ho]
    simp only []
    by_cases hf : E.flush_pooled_samples r.events o.track_ID o.last_sample_delta = false
    · rw [if_pos hf]
      refine Or.inr ⟨0, o, _, by omega, ho, rfl, ?_, ?_⟩
      · simp [final_flush_calls, remuxer_t.log]
      · simp only [List.take_zero, final_flush_calls, List.map_nil, List.append_nil]
        exact hf
    · rw [if_neg hf]
      have hlen1 : a + 1 + n
          ≤ (r.log [Event.flush_pooled_samples o.track_ID o.last_sample_delta true]
              ).out_movie.track.length := by
        show a + 1 + n ≤ r.out_movie.track.length
        omega
      have hcalls : ∀ k, r.events
          ++ final_flush_calls ((r.out_movie.track.drop a).take (k + 1))
          = (r.log [Event.flush_pooled_samples o.track_ID o.last_sample_delta true]).events
            ++ final_flush_calls ((r.out_movie.track.drop (a + 1)).take k) := by
        intro k
        rw [hdrop]
        simp [final_flush_calls, remuxer_t.log]
      rcases ih (a + 1)
          (r.log [Event.flush_pooled_samples o.track_ID o.last_sample_delta true]) hlen1 with
        ⟨r1, h1, h2⟩ | ⟨k, o1, r1, hk, ho1, h1, h2, h3⟩
      · refine Or.inl ⟨r1, h1, ?_⟩
        rw [h2, hcalls]
        rfl
      · refine Or.inr ⟨k + 1, o1, r1, by omega, ?_, h1, ?_, ?_⟩
        · rw [show a + (k + 1) = a + 1 + k by omega]
          exact ho1
        · rw [h2, hcalls]
          rfl
        · rw [hcalls]
          exact h3

end FinalFlush

section RunningTracks

variable {D : Type}

/-- C24. Let the remuxer be as `get_movie` and `prepare_output` leave it (tracks
that `get_movie` could not read and left zero-filled included), with at least
one output track and every `reach_end_of_media_timeline` flag clear.
After any number of passes through the loop of `do_remux`,
`num_active_input_tracks` is the number of input tracks that are active and
whose `reach_end_of_media_timeline` flag is clear.  A pass that leaves the loop
by `break` either records nothing and leaves no such track (the normal end), or
has recorded an error message.  As long as the loop goes on, at least one such
track is left.  Once the loop has been left by `break`, `do_remux` calls
`lsmash_flush_pooled_samples` for the output tracks in order, each with its
`last_sample_delta`: when no call fails there is exactly one call per output
track and 0 is returned; the first call that fails is followed by an error
message and -1 is returned. -/
theorem num_active_input_tracks_counts_running_tracks [C_double D] (E : Engine)
    (r : remuxer_t D) (n : Nat) (s : State D) (hr : prepared r)
    (hpos : 1 ≤ r.out_movie.num_tracks)
    (hclear : ∀ m ∈ r.input, ∀ t ∈ m.track, t.reach_end_of_media_timeline = false)
    (hs : (run E n (initial_state r)).state? = some s) :
    s.num_active_input_tracks = count_active (running_flags s.r.input)
    ∧ (∀ s1, step E s = Outcome.brk s1 →
        (s1.r.events = s.r.events ∧ s1.num_active_input_tracks = 0
          ∧ count_active (running_flags s1.r.input) = 0)
        ∨ (∃ new, s1.r.events = s.r.events ++ new ∧ Event.error_message ∈ new))
    ∧ (run E n (initial_state r) = Outcome.next s → 1 ≤ s.num_active_input_tracks)
    ∧ (run E n (initial_state r) = Outcome.brk s →
        (∃ r1, do_remux E n r = some (0, r1)
          ∧ r1.events = s.r.events
              ++ final_flush_calls (s.r.out_movie.track.take s.r.out_movie.num_tracks))
        ∨ (∃ k o r1, k < s.r.out_movie.num_tracks ∧ s.r.out_movie.track[k]? = some o
          ∧ do_remux E n r = some (-1, r1)
          ∧ r1.events = s.r.events ++ final_flush_calls (s.r.out_movie.track.take k)
              ++ [Event.flush_pooled_samples o.track_ID o.last_sample_delta false,
                  Event.error_message]
          ∧ E.flush_pooled_samples
              (s.r.events ++ final_flush_calls (s.r.out_movie.track.take k))
              o.track_ID o.last_sample_delta = false)) := by
  have hinit := RunningOk_initial r hr hclear
  have hok : RunningOk s := run_invariant E RunningOk
    (fun s s1 h1 h2 => RunningOk_step E s s1 h1 h2) n (initial_state r) s hinit hs
  refine ⟨hok.count, ?_, ?_, ?_⟩
  · intro s1 hb
    have hok1 : RunningOk s1 := RunningOk_step E s s1 hok (by rw [hb]; rfl)
    rcases step_shape E s with hu | ⟨m, t, hm, ht, ⟨hact, ho⟩ | ⟨hact, t1, s2, new, hst, ha1, ho⟩⟩
    · rw [hu] at hb
      cases hb
    · rw [ho] at hb
      cases hb
    · rcases ho with ⟨_, _, ho⟩ | ⟨_, _, herr, ho | ho⟩ | ⟨_, _, hnew, hn, ⟨hz, ho⟩ | ⟨_, ho⟩⟩
      · rw [ho] at hb
        cases hb
      · rw [ho] at hb
        simp only [Outcome.brk.injEq] at hb
        subst hb
        exact Or.inr ⟨new, hst.events, herr⟩
      · rw [ho] at hb
        cases hb
      · rw [ho] at hb
        simp only [Outcome.brk.injEq] at hb
        subst hb
        have hnum : s2.num_active_input_tracks = 0 := hn.trans hz
        refine Or.inl ⟨?_, hnum, ?_⟩
        · rw [hst.events, hnew, List.append_nil]
        · rw [← hok1.count]
          exact hnum
      · rw [ho] at hb
        cases hb
  · intro hrun
    exact (run_next_invariant E (fun s => RunningOk s ∧ 1 ≤ s.num_active_input_tracks)
      (fun s s1 h1 h2 => RunningOk_step_next E s s1 h1 h2) n (initial_state r) s
      ⟨hinit, hpos⟩ hrun).2
  · intro hrun
    have hdo : do_remux E n r
        = final_flush E (List.range' 0 s.r.out_movie.num_tracks) s.r := by
      unfold do_remux
      rw [hrun]
      simp only []
      rw [List.range_eq_range']
    rw [hdo]
    have hspec := final_flush_spec E s.r.out_movie.num_tracks 0 s.r
      (by rw [Nat.zero_add]; exact hok.out_len)
    simp only [List.drop_zero, Nat.zero_add] at hspec
    exact hspec

end RunningTracks

theorem num_active_input_tracks_counts_running_tracks_witness :
    prepared gap_remuxer
    ∧ 1 ≤ gap_remuxer.out_movie.num_tracks
    ∧ (∀ m ∈ gap_remuxer.input, ∀ t ∈ m.track, t.reach_end_of_media_timeline = false)
    ∧ (run two_track_engine 16 (initial_state gap_remuxer)).state?
        = some (gap_state 16)
    ∧ run two_track_engine 16 (initial_state gap_remuxer)
        = Outcome.brk (gap_state 16)
    ∧ ((gap_state 16).num_active_input_tracks
          = count_active (running_flags (gap_state 16).r.input)
      ∧ (∀ s1, step two_track_engine (gap_state 16) = Outcome.brk s1 →
          (s1.r.events = (gap_state 16).r.events ∧ s1.num_active_input_tracks = 0
            ∧ count_active (running_flags s1.r.input) = 0)
          ∨ (∃ new, s1.r.events = (gap_state 16).r.events ++ new
              ∧ Event.error_message ∈ new))
      ∧ (run two_track_engine 16 (initial_state gap_remuxer)
            = Outcome.next (gap_state 16) →
          1 ≤ (gap_state 16).num_active_input_tracks)
      ∧ (run two_track_engine 16 (initial_state gap_remuxer)
            = Outcome.brk (gap_state 16) →
          (∃ r1, do_remux two_track_engine 16 gap_remuxer = some (0, r1)
            ∧ r1.events = (gap_state 16).r.events
                ++ final_flush_calls ((gap_state 16).r.out_movie.track.take
                    (gap_state 16).r.out_movie.num_tracks))
          ∨ (∃ k o r1, k < (gap_state 16).r.out_movie.num_tracks
            ∧ (gap_state 16).r.out_movie.track[k]? = some o
            ∧ do_remux two_track_engine 16 gap_remuxer = some (-1, r1)
            ∧ r1.events = (gap_state 16).r.events
                ++ final_flush_calls ((gap_state 16).r.out_movie.track.take k)
                ++ [Event.flush_pooled_samples o.track_ID o.last_sample_delta false,
                    Event.error_message]
            ∧ two_track_engine.flush_pooled_samples
                ((gap_state 16).r.events
                  ++ final_flush_calls ((gap_state 16).r.out_movie.track.take k))
                o.track_ID o.last_sample_delta = false))) :=
  ⟨by unfold prepared; decide, by decide, by decide, by decide, rfl,
   num_active_input_tracks_counts_running_tracks two_track_engine gap_remuxer 16
     (gap_state 16) (by unfold prepared; decide) (by decide) (by decide) (by decide)⟩

/-! ## Theorem: the append decision while a flush is pending -/

section PendingFlag

variable {D : Type}

/-- The fragment control leaves `frag_base_track` alone, and it leaves
`pending_flush_fragments` as it is, clears it, or sets it to 1, the last only
with a fragment base track. -/
theorem fragment_control_pending [C_double D] (E : Engine) (s s1 : State D)
    (t : input_track_t D) (p : lsmash_sample_t)
    (h : (fragment_control E s t p).state? = some s1) :
    s1.r.frag_base_track = s.r.frag_base_track
    ∧ (s1.pending_flush_fragments = s.pending_flush_fragments
      ∨ s1.pending_flush_fragments = 0
      ∨ (s1.pending_flush_fragments = 1 ∧ s.r.frag_base_track ≠ 0)) := by
  obtain ⟨new, a, b, c, d, hs1, _⟩ := fragment_control_frame E s s1 t p h
  have hfb : s1.r.frag_base_track = s.r.frag_base_track := by rw [hs1]
  refine ⟨hfb, ?_⟩
  unfold fragment_control at h
  by_cases hb : s.r.frag_base_track ≠ 0
  · rw [if_pos hb] at h
    by_cases hpend : s.pending_flush_fragments = 0
    · rw [if_pos hpend] at h
      by_cases hc : s.r.frag_base_track = s.r.out_movie.current_track_number
          ∧ p.ra_flags ≠ ISOM_SAMPLE_RANDOM_ACCESS_FLAG_NONE
          ∧ over_duration E s t = true
      · rw [if_pos hc] at h
        simp only [Outcome.state?, Option.some.injEq] at h
        rw [← h]
        exact Or.inr (Or.inr ⟨rfl, hb⟩)
      · rw [if_neg hc] at h
        simp only [Outcome.state?, Option.some.injEq] at h
        rw [← h]
        exact Or.inl rfl
    · rw [if_neg hpend] at h
      by_cases hfl : s.num_consecutive_sample_skip = s.num_active_input_tracks
          ∨ s.total_media_size = 0
      · rw [if_pos hfl] at h
        cases hflush : flush_movie_fragment E s.r with
        | none =>
          rw [hflush] at h
          cases h
        | some res =>
          obtain ⟨ret, r1⟩ := res
          rw [hflush] at h
          simp only [] at h
          by_cases hret : ret < 0
          · rw [if_pos hret] at h
            simp only [Outcome.state?, Option.some.injEq] at h
            rw [← h]
            exact Or.inl rfl
          · rw [if_neg hret] at h
            cases hseg : handle_segmentation E r1 with
            | mk ret2 r2 =>
              rw [hseg] at h
              simp only [] at h
              by_cases hret2 : ret2 < 0
              · rw [if_pos hret2] at h
                simp only [Outcome.state?, Option.some.injEq] at h
                rw [← h]
                exact Or.inl rfl
              · rw [if_neg hret2] at h
                by_cases hcr : E.create_fragment_movie r2.events = false
                · rw [if_pos hcr] at h
                  simp only [Outcome.state?, Option.some.injEq] at h
                  rw [← h]
                  exact Or.inl rfl
                · rw [if_neg hcr] at h
                  simp only [Outcome.state?, Option.some.injEq] at h
                  rw [← h]
                  exact Or.inr (Or.inl rfl)
      · rw [if_neg hfl] at h
        simp only [Outcome.state?, Option.some.injEq] at h
        rw [← h]
        exact Or.inl rfl
  · rw [if_neg hb] at h
    simp only [Outcome.state?, Option.some.injEq] at h
    rw [← h]
    exact Or.inl rfl

/-- Every pass of the loop keeps: `pending_flush_fragments` is 0, or it is 1
and there is a fragment base track. -/
theorem pending_flag_step [C_double D] (E : Engine) (s s1 : State D)
    (hs : s.pending_flush_fragments = 0
      ∨ (s.pending_flush_fragments = 1 ∧ s.r.frag_base_track ≠ 0))
    (h : (step E s).state? = some s1) :
    s1.pending_flush_fragments = 0
    ∨ (s1.pending_flush_fragments = 1 ∧ s1.r.frag_base_track ≠ 0) := by
  have hkeep : ∀ s2 : State D, s2.pending_flush_fragments = s.pending_flush_fragments →
      s2.r.frag_base_track = s.r.frag_base_track →
      (s2.pending_flush_fragments = 0
        ∨ (s2.pending_flush_fragments = 1 ∧ s2.r.frag_base_track ≠ 0)) := by
    intro s2 h1 h2
    rw [h1, h2]
    exact hs
  revert h
  refine step_cases E s (fun o => o.state? = some s1 → _) ?_ ?_ ?_ ?_ ?_
  · intro h; cases h
  · intro m t _ _ _ h
    simp only [Outcome.state?, Option.some.injEq] at h
    rw [← h]
    exact hkeep _ rfl rfl
  · intro m t _ _ _ _ h
    simp only [Outcome.state?, Option.some.injEq] at h
    rw [← h]
    exact hkeep _ rfl rfl
  · intro m t sa ta p hm ht _ _ hf h
    have hcur : cur_in_track s = some t := by rw [cur_in_track_eq s m hm]; exact ht
    obtain ⟨_, _, _, _, _, hfa, hpa, _⟩ := fetch_sample_frame E s sa t ta p hcur hf
    have hsa := hkeep sa hpa hfa
    unfold handle_pending_sample at h
    cases hfc : fragment_control E sa ta p with
    | undef => rw [hfc] at h; cases h
    | ret v sb => 
      rw [hfc] at h
      simp only [Outcome.state?, Option.some.injEq] at h
      obtain ⟨hfb, hp⟩ := fragment_control_pending E sa sb ta p (by rw [hfc]; rfl)
      rw [← h, hfb]
      rcases hp with hp | hp | ⟨hp, hb⟩
      · rw [hp]; exact hsa
      · exact Or.inl hp
      · exact Or.inr ⟨hp, hb⟩
    | brk sb =>
      rw [hfc] at h
      simp only [Outcome.state?, Option.some.injEq] at h
      obtain ⟨hfb, hp⟩ := fragment_control_pending E sa sb ta p (by rw [hfc]; rfl)
      rw [← h, hfb]
      rcases hp with hp | hp | ⟨hp, hb⟩
      · rw [hp]; exact hsa
      · exact Or.inl hp
      · exact Or.inr ⟨hp, hb⟩
    | next sb =>
      rw [hfc] at h
      simp only [] at h
      obtain ⟨hfb, hp⟩ := fragment_control_pending E sa sb ta p (by rw [hfc]; rfl)
      obtain ⟨hp1, hfb1, _⟩ := append_or_skip_frame E sb s1 ta p h
      rw [hp1, hfb1, hfb]
      rcases hp with hp | hp | ⟨hp, hb⟩
      · rw [hp]; exact hsa
      · exact Or.inl hp
      · exact Or.inr ⟨hp, hb⟩
  · intro m t o _ _ _ _ hf h
    rcases fetch_sample_no_sample E s t o hf with h1 | ⟨h1, _⟩ |
      ⟨_, _, _, _, ⟨_, h1⟩ | ⟨_, h1⟩⟩
    · rw [h1] at h; cases h
    · rw [h1] at h
      simp only [Outcome.state?, Option.some.injEq] at h
      rw [← h]
      exact hkeep _ rfl rfl
    · rw [h1] at h
      simp only [Outcome.state?, Option.some.injEq] at h
      rw [← h]
      exact hkeep _ rfl rfl
    · rw [h1] at h
      simp only [Outcome.state?, Option.some.injEq] at h
      rw [← h]
      exact hkeep _ rfl rfl

end PendingFlag

section PendingRule

variable {D : Type}

/-- C25. While a flush is pending in `do_remux` (`pending_flush_fragments` is
not 0 when the local `append` is computed, lines 1605-1627), with the fragment
base track set: the local `append` is 0 for the pending sample of the base
track; for the pending sample `p` of another track `t` it is 1 if and only if
the description index of `p` is the one of the current fragment
(`current_sample_index`) and either `p` is no random-access point, or the
sample after it exists, is a random-access point and has a DTS in seconds of at
most `frag_base_dts`.  With `append` 0 the sample stays pending and is counted
as skipped; with `append` 1, an index other than 0 and no failure of the
library the sample is appended.  In every state in which `do_remux` computes
`append` with a flush pending, `pending_flush_fragments` is 1 and the fragment
base track is set. -/
theorem pending_flush_append_rule [C_double D] (E : Engine) :
    (∀ (s : State D) (t : input_track_t D) (p : lsmash_sample_t),
        s.r.frag_base_track ≠ 0 → s.pending_flush_fragments ≠ 0 →
        (s.r.frag_base_track = s.r.out_movie.current_track_number →
          append_condition E s t p = false)
        ∧ (s.r.frag_base_track ≠ s.r.out_movie.current_track_number →
          (append_condition E s t p = true ↔
            p.index = t.current_sample_index
            ∧ (p.ra_flags = ISOM_SAMPLE_RANDOM_ACCESS_FLAG_NONE
              ∨ ∃ info, E.get_sample_info_from_media_timeline s.input_movie_number
                    t.track_ID (inc32 t.current_sample_number) = some info
                  ∧ info.ra_flags ≠ ISOM_SAMPLE_RANDOM_ACCESS_FLAG_NONE
                  ∧ C_double.le
                      (C_double.div (C_double.ofU64 info.dts) (C_double.ofU64 t.timescale))
                      s.frag_base_dts = true)))
        ∧ (append_condition E s t p = false →
            append_or_skip E s t p
              = Outcome.next (move_next { s with
                  num_consecutive_sample_skip := inc32 s.num_consecutive_sample_skip }))
        ∧ (append_condition E s t p = true → p.index ≠ 0 →
            ∀ o, cur_out_track s = some o →
              E.append_sample s.r.events o.track_ID p = true →
              ∃ s1, append_or_skip E s t p = Outcome.next s1
                ∧ s1.r.events = s.r.events
                    ++ [Event.append_sample s.r.out_movie.current_track_number p]))
    ∧ (∀ (r : remuxer_t D) (n : Nat) (s0 s1 s2 : State D) (t0 t1 : input_track_t D)
        (p : lsmash_sample_t),
        (run E n (initial_state r)).state? = some s0 →
        fetch_sample E s0 t0 = Fetched.sample s1 t1 p →
        fragment_control E s1 t1 p = Outcome.next s2 →
        s2.pending_flush_fragments ≠ 0 →
        s2.pending_flush_fragments = 1 ∧ s2.r.frag_base_track ≠ 0) := by
  refine ⟨?_, ?_⟩
  · intro s t p hfb hpend
    have hnf : need_new_fragment s t p = decide (p.index ≠ t.current_sample_index) := by
      unfold need_new_fragment
      rw [decide_eq_true hfb, Bool.true_and]
    refine ⟨?_, ?_, ?_, ?_⟩
    · intro hbase
      unfold append_condition
      rw [if_neg hpend, if_neg (fun h => h.1 hbase)]
    · intro hbase
      unfold append_condition
      rw [if_neg hpend, hnf]
      by_cases hidx : p.index = t.current_sample_index
      · rw [if_pos ⟨hbase, by simp [hidx]⟩]
        by_cases hra : p.ra_flags = ISOM_SAMPLE_RANDOM_ACCESS_FLAG_NONE
        · rw [if_pos hra]
          exact ⟨fun _ => ⟨hidx, Or.inl hra⟩, fun _ => rfl⟩
        · rw [if_neg hra]
          cases hinfo : E.get_sample_info_from_media_timeline s.input_movie_number
              t.track_ID (inc32 t.current_sample_number) with
          | none =>
            simp only []
            constructor
            · intro h; cases h
            · rintro ⟨_, h | ⟨info, h, _⟩⟩
              · exact absurd h hra
              · cases h
          | some info =>
            simp only [Bool.and_eq_true, decide_eq_true_eq]
            constructor
            · intro h
              exact ⟨hidx, Or.inr ⟨info, rfl, h.1, h.2⟩⟩
            · rintro ⟨_, h | ⟨info1, h, h1, h2⟩⟩
              · exact absurd h hra
              · cases h
                exact ⟨h1, h2⟩
      · rw [if_neg (fun h => hidx (by simpa using h.2))]
        constructor
        · intro h; cases h
        · intro h
          exact absurd h.1 hidx
    · intro happ
      unfold append_or_skip
      rw [if_neg (by rw [happ]; exact Bool.false_ne_true)]
    · intro happ hidx o ho hacc
      refine ⟨move_next
          (set_out_track
            (set_in_track
              { s.log [Event.append_sample s.r.out_movie.current_track_number p] with
                largest_dts := LSMASH_MAX s.largest_dts t.dts,
                num_consecutive_sample_skip := 0,
                total_media_size := add64 s.total_media_size p.length,
                progress_pos :=
                  if add64 s.total_media_size p.length / 4194304 > s.progress_pos then
                    (add64 s.total_media_size p.length / 4194304) % U32
                  else s.progress_pos }
              { t with sample := none,
                       current_sample_number := inc32 t.current_sample_number,
                       current_sample_index := p.index })
            { o with current_sample_number := inc32 o.current_sample_number,
                     last_sample_dts := p.dts }), ?_, ?_⟩
      · unfold append_or_skip
        rw [if_pos happ, if_pos hidx, ho]
        simp only []
        rw [if_neg (by rw [hacc]; exact Bool.noConfusion)]
        rfl
      · rfl
  · intro r n s0 s1 s2 t0 t1 p hs hf hc hpend
    have hinit : (initial_state r).pending_flush_fragments = 0
        ∨ ((initial_state r).pending_flush_fragments = 1
          ∧ (initial_state r).r.frag_base_track ≠ 0) := by
      by_cases hb : r.frag_base_track ≠ 0
      · exact Or.inr ⟨by show (if r.frag_base_track ≠ 0 then 1 else 0) = 1; rw [if_pos hb],
          hb⟩
      · exact Or.inl (by show (if r.frag_base_track ≠ 0 then 1 else 0) = 0; rw [if_neg hb])
    have h0 := run_invariant E
      (fun s : State D => s.pending_flush_fragments = 0
        ∨ (s.pending_flush_fragments = 1 ∧ s.r.frag_base_track ≠ 0))
      (fun s s1 h1 h2 => pending_flag_step E s s1 h1 h2) n (initial_state r) s0 hinit hs
    have h1 : s1.pending_flush_fragments = s0.pending_flush_fragments
        ∧ s1.r.frag_base_track = s0.r.frag_base_track := by
      rcases fetch_sample_sample E s0 s1 t0 t1 p hf with
        ⟨h, _, _⟩ | ⟨_, _, _, _, _, _, _, _, _, _, h⟩
      · rw [h]
        exact ⟨rfl, rfl⟩
      · rw [h]
        exact ⟨rfl, rfl⟩
    obtain ⟨hfb2, hp2⟩ := fragment_control_pending E s1 s2 t1 p (by rw [hc]; rfl)
    rcases hp2 with hp | hp | ⟨hp, hb⟩
    · rw [hp, h1.1] at hpend ⊢
      rw [hfb2, h1.2]
      rcases h0 with h0 | h0
      · exact absurd h0 hpend
      · exact h0
    · exact absurd hp hpend
    · rw [hfb2]
      exact ⟨hp, hb⟩

end PendingRule

theorem pending_flush_append_rule_witness :
    (pending_decision_state.r.frag_base_track ≠ 0
      ∧ pending_decision_state.pending_flush_fragments ≠ 0
      ∧ pending_decision_state.r.frag_base_track
          ≠ pending_decision_state.r.out_movie.current_track_number
      ∧ append_condition pending_engine pending_decision_state pending_holding
          (mk_sample 5 1 0) = true
      ∧ ((pending_decision_state.r.frag_base_track
            = pending_decision_state.r.out_movie.current_track_number →
          append_condition pending_engine pending_decision_state pending_holding
            (mk_sample 5 1 0) = false)
        ∧ (pending_decision_state.r.frag_base_track
            ≠ pending_decision_state.r.out_movie.current_track_number →
          (append_condition pending_engine pending_decision_state pending_holding
              (mk_sample 5 1 0) = true ↔
            (mk_sample 5 1 0).index = pending_holding.current_sample_index
            ∧ ((mk_sample 5 1 0).ra_flags = ISOM_SAMPLE_RANDOM_ACCESS_FLAG_NONE
              ∨ ∃ info, pending_engine.get_sample_info_from_media_timeline
                    pending_decision_state.input_movie_number pending_holding.track_ID
                    (inc32 pending_holding.current_sample_number) = some info
                  ∧ info.ra_flags ≠ ISOM_SAMPLE_RANDOM_ACCESS_FLAG_NONE
                  ∧ C_double.le
                      (C_double.div (C_double.ofU64 info.dts)
                        (C_double.ofU64 pending_holding.timescale))
                      pending_decision_state.frag_base_dts = true)))
        ∧ (append_condition pending_engine pending_decision_state pending_holding
              (mk_sample 5 1 0) = false →
            append_or_skip pending_engine pending_decision_state pending_holding
                (mk_sample 5 1 0)
              = Outcome.next (move_next { pending_decision_state with
                  num_consecutive_sample_skip :=
                    inc32 pending_decision_state.num_consecutive_sample_skip }))
        ∧ (append_condition pending_engine pending_decision_state pending_holding
              (mk_sample 5 1 0) = true → (mk_sample 5 1 0).index ≠ 0 →
            ∀ o, cur_out_track pending_decision_state = some o →
              pending_engine.append_sample pending_decision_state.r.events o.track_ID
                (mk_sample 5 1 0) = true →
              ∃ s1, append_or_skip pending_engine pending_decision_state pending_holding
                    (mk_sample 5 1 0) = Outcome.next s1
                ∧ s1.r.events = pending_decision_state.r.events
                    ++ [Event.append_sample
                          pending_decision_state.r.out_movie.current_track_number
                          (mk_sample 5 1 0)])))
    ∧ ((run pending_engine 3 (initial_state pending_remuxer)).state?
          = some (pending_state 3)
      ∧ fetch_sample pending_engine (pending_state 3)
            { fresh_input_track 2 1 with current_sample_number := 2,
                                         current_sample_index := 1 }
          = Fetched.sample pending_decision_state pending_holding (mk_sample 5 1 0)
      ∧ fragment_control pending_engine pending_decision_state pending_holding
            (mk_sample 5 1 0) = Outcome.next pending_decision_state
      ∧ pending_decision_state.pending_flush_fragments ≠ 0
      ∧ pending_decision_state.pending_flush_fragments = 1
      ∧ pending_decision_state.r.frag_base_track ≠ 0) :=
  ⟨⟨by decide, by decide, by decide, by decide,
    (pending_flush_append_rule pending_engine).1 pending_decision_state pending_holding
      (mk_sample 5 1 0) (by decide) (by decide)⟩,
   ⟨by decide, rfl, rfl, by decide,
    (pending_flush_append_rule pending_engine).2 pending_remuxer 3 (pending_state 3)
      pending_decision_state pending_decision_state
      { fresh_input_track 2 1 with current_sample_number := 2, current_sample_index := 1 }
      pending_holding (mk_sample 5 1 0) (by decide) rfl rfl (by decide)⟩⟩

/-! ## Theorem: the first movie fragment comes before the first sample -/

section FlushEvents

variable {D : Type}

theorem flush_movie_fragment_tracks_calls (E : Engine) (r : remuxer_t D) (i : Nat)
    (m : input_movie_t D) (js : List Nat) :
    ∀ (k : Nat) (ev : List Event),
      match flush_movie_fragment_tracks E r i m js k ev with
      | FlushLoop.run _ ev1 => ∃ new, ev1 = ev ++ new ∧ ∀ e ∈ new, e.is_fragment_call = false
      | FlushLoop.failed ev1 => ∃ new, ev1 = ev ++ new ∧ ∀ e ∈ new, e.is_fragment_call = false
      | FlushLoop.undef => True := by
  induction js with
  | nil =>
    intro k ev
    simp only [flush_movie_fragment_tracks]
    exact ⟨[], by simp, by simp⟩
  | cons j js ih =>
    intro k ev
    have happ : ∀ x y : List Event, (∀ e ∈ x, e.is_fragment_call = false) →
        (∀ e ∈ y, e.is_fragment_call = false) → ∀ e ∈ x ++ y, e.is_fragment_call = false := by
      intro x y hx hy e he
      rcases List.mem_append.1 he with h | h
      · exact hx e h
      · exact hy e h
    have hext : ∀ (x : List Event) (k1 : Nat), (∀ e ∈ x, e.is_fragment_call = false) →
        match flush_movie_fragment_tracks E r i m js k1 (ev ++ x) with
        | FlushLoop.run _ ev1 => ∃ new, ev1 = ev ++ new ∧ ∀ e ∈ new, e.is_fragment_call = false
        | FlushLoop.failed ev1 =>
          ∃ new, ev1 = ev ++ new ∧ ∀ e ∈ new, e.is_fragment_call = false
        | FlushLoop.undef => True := by
      intro x k1 hx
      have h := ih k1 (ev ++ x)
      cases hres : flush_movie_fragment_tracks E r i m js k1 (ev ++ x) with
      | run k2 ev1 =>
        rw [hres] at h
        obtain ⟨new, h1, h2⟩ := h
        exact ⟨x ++ new, by rw [h1, List.append_assoc], happ x new hx h2⟩
      | failed ev1 =>
        rw [hres] at h
        obtain ⟨new, h1, h2⟩ := h
        exact ⟨x ++ new, by rw [h1, List.append_assoc], happ x new hx h2⟩
      | undef => trivial
    have hna1 : ∀ a b c, ∀ e ∈ [Event.flush_pooled_samples a b c],
        e.is_fragment_call = false := by
      intro a b c e he
      simp only [List.mem_singleton] at he
      subst he
      rfl
    have hna2 : ∀ a b c,
        ∀ e ∈ [Event.flush_pooled_samples a b c, Event.error_message],
          e.is_fragment_call = false := by
      intro a b c e he
      simp only [List.mem_cons, List.mem_singleton, List.not_mem_nil, or_false] at he
      rcases he with he | he <;> subst he <;> rfl
    have hna3 : ∀ e ∈ [Event.error_message], e.is_fragment_call = false := by
      intro e he
      simp only [List.mem_singleton] at he
      subst he
      rfl
    unfold flush_movie_fragment_tracks
    cases at1 m.track j with
    | none => trivial
    | some in_track =>
      simp only []
      by_cases hact : in_track.active = false
      · rw [if_pos hact]
        exact ih k ev
      · rw [if_neg hact]
        cases at1 r.out_movie.track k with
        | none => trivial
        | some out_track =>
          simp only []
          by_cases hend : in_track.reach_end_of_media_timeline = false
          · rw [if_pos hend]
            cases E.get_sample_info_from_media_timeline i in_track.track_ID
                in_track.current_sample_number with
            | none => exact ⟨_, rfl, hna3⟩
            | some sample =>
              simp only []
              by_cases hfl : E.flush_pooled_samples ev out_track.track_ID
                  (sub64 (sub64 sample.dts out_track.skip_dt_interval)
                    out_track.last_sample_dts) = false
              · rw [if_pos hfl]
                exact ⟨_, rfl, hna2 _ _ _⟩
              · rw [if_neg hfl]
                by_cases hk : inc32 k > r.out_movie.num_tracks
                · rw [if_pos hk]
                  exact ⟨_, rfl, hna1 _ _ _⟩
                · rw [if_neg hk]
                  exact hext _ _ (hna1 _ _ _)
          · rw [if_neg hend]
            by_cases hfl : E.flush_pooled_samples ev out_track.track_ID
                out_track.last_sample_delta = false
            · rw [if_pos hfl]
              exact ⟨_, rfl, hna2 _ _ _⟩
            · rw [if_neg hfl]
              by_cases hk : inc32 k > r.out_movie.num_tracks
              · rw [if_pos hk]
                exact ⟨_, rfl, hna1 _ _ _⟩
              · rw [if_neg hk]
                exact hext _ _ (hna1 _ _ _)

theorem flush_movie_fragment_inputs_calls (E : Engine) (r : remuxer_t D) (is : List Nat) :
    ∀ (k : Nat) (ev : List Event),
      match flush_movie_fragment_inputs E r is k ev with
      | FlushLoop.run _ ev1 => ∃ new, ev1 = ev ++ new ∧ ∀ e ∈ new, e.is_fragment_call = false
      | FlushLoop.failed ev1 => ∃ new, ev1 = ev ++ new ∧ ∀ e ∈ new, e.is_fragment_call = false
      | FlushLoop.undef => True := by
  induction is with
  | nil =>
    intro k ev
    simp only [flush_movie_fragment_inputs]
    exact ⟨[], by simp, by simp⟩
  | cons i is ih =>
    intro k ev
    have happ : ∀ x y : List Event, (∀ e ∈ x, e.is_fragment_call = false) →
        (∀ e ∈ y, e.is_fragment_call = false) → ∀ e ∈ x ++ y, e.is_fragment_call = false := by
      intro x y hx hy e he
      rcases List.mem_append.1 he with h | h
      · exact hx e h
      · exact hy e h
    unfold flush_movie_fragment_inputs
    cases at1 r.input i with
    | none => trivial
    | some m =>
      simp only []
      have h := flush_movie_fragment_tracks_calls E r i m (List.range' 1 m.num_tracks) k ev
      cases hres : flush_movie_fragment_tracks E r i m (List.range' 1 m.num_tracks) k ev with
      | run k1 ev1 =>
        rw [hres] at h
        obtain ⟨new, h1, h2⟩ := h
        simp only []
        have h3 := ih k1 ev1
        cases hres2 : flush_movie_fragment_inputs E r is k1 ev1 with
        | run k2 ev2 =>
          rw [hres2] at h3
          obtain ⟨new2, h4, h5⟩ := h3
          exact ⟨new ++ new2, by rw [h4, h1, List.append_assoc], happ new new2 h2 h5⟩
        | failed ev2 =>
          rw [hres2] at h3
          obtain ⟨new2, h4, h5⟩ := h3
          exact ⟨new ++ new2, by rw [h4, h1, List.append_assoc], happ new new2 h2 h5⟩
        | undef => trivial
      | failed ev1 =>
        rw [hres] at h
        exact h
      | undef => trivial

/-- The function `flush_movie_fragment` records its entry and then only calls
of `lsmash_flush_pooled_samples` and error messages. -/
theorem flush_movie_fragment_calls (E : Engine) (r r1 : remuxer_t D) (v : Int)
    (h : flush_movie_fragment E r = some (v, r1)) :
    ∃ new, r1 = { r with events := r.events ++ Event.flush_movie_fragment :: new }
      ∧ (∀ e ∈ new, e.is_fragment_call = false) ∧ no_append new := by
  obtain ⟨new0, hr0, hn0⟩ := flush_movie_fragment_frame E r r1 v h
  unfold flush_movie_fragment at h
  have hev := flush_movie_fragment_inputs_calls E r (List.range' 1 r.num_input) 1
    (r.events ++ [Event.flush_movie_fragment])
  have hfin : ∀ ev : List Event, r1 = { r with events := ev } →
      (∃ new, ev = r.events ++ [Event.flush_movie_fragment] ++ new
        ∧ ∀ e ∈ new, e.is_fragment_call = false) →
      ∃ new, r1 = { r with events := r.events ++ Event.flush_movie_fragment :: new }
        ∧ (∀ e ∈ new, e.is_fragment_call = false) ∧ no_append new := by
    intro ev hr1 ⟨new, h1, h2⟩
    refine ⟨new, ?_, h2, ?_⟩
    · rw [hr1, h1]
      simp
    · have he : r.events ++ new0 = r.events ++ Event.flush_movie_fragment :: new := by
        have := congrArg remuxer_t.events hr0
        have h3 := congrArg remuxer_t.events hr1
        simp only [] at this h3
        rw [← this, h3, h1]
        simp
      have hnew0 := List.append_cancel_left he
      intro e hmem
      exact hn0 e (by rw [hnew0]; exact List.mem_cons_of_mem _ hmem)
  cases hres : flush_movie_fragment_inputs E r (List.range' 1 r.num_input) 1
      (r.events ++ [Event.flush_movie_fragment]) with
  | run k ev =>
    rw [hres] at h hev
    simp only [Option.some.injEq, Prod.mk.injEq] at h
    exact hfin ev h.2.symm hev
  | failed ev =>
    rw [hres] at h hev
    simp only [Option.some.injEq, Prod.mk.injEq] at h
    exact hfin ev h.2.symm hev
  | undef =>
    rw [hres] at h
    simp at h

/-- What `handle_segmentation` records and returns. -/
theorem handle_segmentation_calls_eq (E : Engine) (r : remuxer_t D) :
    (handle_segmentation E r).2.events
      = r.events ++ Event.handle_segmentation
          :: segmentation_calls r
              (E.switch_segment (r.events ++ [Event.handle_segmentation]) r.current_seg_number)
    ∧ ((handle_segmentation E r).1 < 0 ↔
        r.subseg_per_seg ≠ 0
        ∧ (r.subseg_per_seg = r.current_subseg_number ∨ r.current_seg_number = 1)
        ∧ E.switch_segment (r.events ++ [Event.handle_segmentation]) r.current_seg_number
            = false) := by
  unfold handle_segmentation segmentation_calls
  simp only [remuxer_t.log]
  by_cases h0 : r.subseg_per_seg = 0
  · rw [if_pos h0, if_pos h0]
    exact ⟨by simp, by simp [h0]⟩
  · rw [if_neg h0, if_neg h0]
    by_cases h1 : r.subseg_per_seg = r.current_subseg_number ∨ r.current_seg_number = 1
    · rw [if_pos h1, if_pos h1]
      by_cases h2 : E.switch_segment (r.events ++ [Event.handle_segmentation])
          r.current_seg_number = false
      · rw [if_pos h2, if_pos h2]
        exact ⟨by simp, by simp [h0, h1, h2]⟩
      · rw [if_neg h2, if_neg h2]
        exact ⟨by simp, by simp [h2]⟩
    · rw [if_neg h1, if_neg h1]
      exact ⟨by simp, by simp [h1]⟩

end FlushEvents

section FirstFragment

variable {D : Type}

theorem created_before_of_no_append (ev : List Event) (h : no_append ev) :
    fragment_created_before_appends ev := by
  intro pre k p post he
  exact absurd rfl (h (Event.append_sample k p) (by rw [he]; simp) k p)

theorem created_before_append_of_created (ev new : List Event)
    (h : fragment_created_before_appends ev)
    (hc : Event.create_fragment_movie true ∈ ev) :
    fragment_created_before_appends (ev ++ new) := by
  intro pre k p post he
  rcases List.append_eq_append_iff.1 he with ⟨a, h1, _⟩ | ⟨c, h1, h2⟩
  · rw [h1]
    exact List.mem_append_left _ hc
  · cases c with
    | nil =>
      rw [List.append_nil] at h1
      rw [← h1]
      exact hc
    | cons x c =>
      simp only [List.cons_append, List.cons.injEq] at h2
      rw [← h2.1] at h1
      exact h pre k p c h1

theorem created_before_append_of_no_append (ev new : List Event)
    (h : fragment_created_before_appends ev) (hn : no_append new) :
    fragment_created_before_appends (ev ++ new) := by
  intro pre k p post he
  rcases List.append_eq_append_iff.1 he.symm with ⟨a, h1, h2⟩ | ⟨c, h1, h2⟩
  · cases a with
    | nil =>
      rw [List.nil_append] at h2
      exact absurd rfl (hn (Event.append_sample k p) (by rw [← h2]; simp) k p)
    | cons x a =>
      simp only [List.cons_append, List.cons.injEq] at h2
      rw [← h2.1] at h1
      exact h pre k p a h1
  · exact absurd rfl (hn (Event.append_sample k p) (by rw [h2]; simp) k p)

theorem segmentation_calls_mem (r : remuxer_t D) (b : Bool) (e : Event)
    (he : e ∈ segmentation_calls r b) :
    e = Event.error_message ∨ ∃ n c, e = Event.switch_segment n c := by
  unfold segmentation_calls at he
  by_cases h0 : r.subseg_per_seg = 0
  · rw [if_pos h0] at he
    cases he
  · rw [if_neg h0] at he
    by_cases h1 : r.subseg_per_seg = r.current_subseg_number ∨ r.current_seg_number = 1
    · rw [if_pos h1] at he
      by_cases h2 : b = false
      · rw [if_pos h2] at he
        simp only [List.mem_cons, List.mem_singleton, List.not_mem_nil, or_false] at he
        rcases he with he | he
        · exact Or.inr ⟨_, _, he⟩
        · exact Or.inl he
      · rw [if_neg h2] at he
        simp only [List.mem_singleton] at he
        exact Or.inr ⟨_, _, he⟩
    · rw [if_neg h1] at he
      cases he

/-- With a fragment base track, a pending flush and nothing appended so far
(`total_media_size` is 0), the fragment control calls `flush_movie_fragment`,
then `handle_segmentation`, then `lsmash_create_fragment_movie`, each only
after the one before succeeded, and clears `pending_flush_fragments` after the
last; when one of them fails the loop is left. -/
theorem fragment_control_first_flush [C_double D] (E : Engine) (s : State D)
    (t : input_track_t D) (p : lsmash_sample_t) (hfb : s.r.frag_base_track ≠ 0)
    (hpend : s.pending_flush_fragments ≠ 0) (htotal : s.total_media_size = 0) :
    fragment_control E s t p = Outcome.undef
    ∨ ∃ fl seg, (∀ e ∈ fl, e.is_fragment_call = false) ∧ no_append fl ∧ no_append seg
        ∧ ((∃ s1, fragment_control E s t p = Outcome.next s1
              ∧ s1 = { s with
                  r := { s.r with
                    events := s.r.events ++ Event.flush_movie_fragment :: fl
                      ++ Event.handle_segmentation :: segmentation_calls s.r true
                      ++ [Event.create_fragment_movie true],
                    current_subseg_number := s1.r.current_subseg_number,
                    current_seg_number := s1.r.current_seg_number },
                  pending_flush_fragments := 0 })
          ∨ (∃ s1 new, fragment_control E s t p = Outcome.brk s1
              ∧ s1 = { s with
                  r := { s.r with
                    events := s.r.events ++ Event.flush_movie_fragment :: new,
                    current_subseg_number := s1.r.current_subseg_number,
                    current_seg_number := s1.r.current_seg_number } }
              ∧ no_append new
              ∧ Event.create_fragment_movie true ∉ new
              ∧ Event.error_message ∈ new)) := by
  generalize ho : fragment_control E s t p = o
  unfold fragment_control at ho
  rw [if_pos hfb, if_neg hpend, if_pos (Or.inr htotal)] at ho
  have hna1 : no_append [Event.error_message] := by
    intro e he k1 q
    simp only [List.mem_singleton] at he
    subst he
    exact fun h => Event.noConfusion h
  have hna3 : ∀ b, no_append [Event.create_fragment_movie b, Event.error_message] := by
    intro b e he k1 q
    simp only [List.mem_cons, List.mem_singleton, List.not_mem_nil, or_false] at he
    rcases he with he | he <;> subst he <;> exact fun h => Event.noConfusion h
  cases hflush : flush_movie_fragment E s.r with
  | none =>
    rw [hflush] at ho
    exact Or.inl ho.symm
  | some res =>
    obtain ⟨ret, r1⟩ := res
    rw [hflush] at ho
    simp only [] at ho
    obtain ⟨fl, hr1, hfl, hnfl⟩ := flush_movie_fragment_calls E s.r r1 ret hflush
    have hncreate : ∀ l : List Event, (∀ e ∈ l, e.is_fragment_call = false) →
        Event.create_fragment_movie true ∉ l := by
      intro l hl hmem
      have := hl _ hmem
      simp [Event.is_fragment_call] at this
    by_cases hret : ret < 0
    · rw [if_pos hret] at ho
      refine Or.inr ⟨fl, [], hfl, hnfl, no_append_nil, Or.inr
        ⟨{ s with r := r1.log [Event.error_message] }, fl ++ [Event.error_message],
          ho.symm, ?_, no_append_append hnfl hna1, ?_, by simp⟩⟩
      · rw [hr1]
        simp [remuxer_t.log]
      · intro hmem
        rcases List.mem_append.1 hmem with h | h
        · exact hncreate fl hfl h
        · simp at h
    · rw [if_neg hret] at ho
      obtain ⟨hev2, hneg2⟩ := handle_segmentation_calls_eq E r1
      obtain ⟨new2, a, b, hr2, hn2, _⟩ := handle_segmentation_outcome E r1
      have hsegfields : r1.subseg_per_seg = s.r.subseg_per_seg
          ∧ r1.current_subseg_number = s.r.current_subseg_number
          ∧ r1.current_seg_number = s.r.current_seg_number := by
        rw [hr1]
        exact ⟨rfl, rfl, rfl⟩
      have hsc : ∀ b, segmentation_calls r1 b = segmentation_calls s.r b := by
        intro b
        unfold segmentation_calls
        rw [hsegfields.1, hsegfields.2.1, hsegfields.2.2]
      have hnseg : ∀ b, no_append (segmentation_calls s.r b) := by
        intro b e he k1 q hc
        rcases segmentation_calls_mem s.r b e he with h | ⟨n, c, h⟩
        · rw [h] at hc; cases hc
        · rw [h] at hc; cases hc
      have hcseg : ∀ b, Event.create_fragment_movie true ∉ segmentation_calls s.r b := by
        intro b he
        rcases segmentation_calls_mem s.r b _ he with h | ⟨n, c, h⟩
        · cases h
        · cases h
      cases hseg : handle_segmentation E r1 with
      | mk ret2 r2 =>
        rw [hseg] at hr2 hev2 hneg2 ho
        simp only [] at hr2 hev2 hneg2 ho
        have hr2ev : r2.events = s.r.events ++ Event.flush_movie_fragment :: fl
            ++ Event.handle_segmentation
              :: segmentation_calls s.r
                  (E.switch_segment (r1.events ++ [Event.handle_segmentation])
                    r1.current_seg_number) := by
          rw [hev2, hsc, hr1]
        have hr2eq : ∀ extra : List Event, r2.log extra
            = { s.r with
                events := r2.events ++ extra,
                current_subseg_number := (r2.log extra).current_subseg_number,
                current_seg_number := (r2.log extra).current_seg_number } := by
          intro extra
          rw [hr2, hr1]
          rfl
        by_cases hret2 : ret2 < 0
        · rw [if_pos hret2] at ho
          have hsw := (hneg2.1 hret2).2.2
          rw [hsw] at hr2ev
          refine Or.inr ⟨fl, [], hfl, hnfl, no_append_nil, Or.inr
            ⟨{ s with r := r2 },
              fl ++ Event.handle_segmentation :: segmentation_calls s.r false,
              ho.symm, ?_, ?_, ?_, ?_⟩⟩
          · have := hr2eq []
            simp only [remuxer_t.log, List.append_nil] at this
            have h3 : r2 = { s.r with
                events := r2.events,
                current_subseg_number := r2.current_subseg_number,
                current_seg_number := r2.current_seg_number } := by
              rw [hr2, hr1]
            rw [hr2ev] at h3
            simp only [List.append_assoc, List.cons_append] at h3 ⊢
            rw [h3]
          · apply no_append_append hnfl
            intro e he k1 q hc
            simp only [List.mem_cons] at he
            rcases he with he | he
            · rw [he] at hc; cases hc
            · exact hnseg false e he k1 q hc
          · intro hmem
            rcases List.mem_append.1 hmem with h | h
            · exact hncreate fl hfl h
            · simp only [List.mem_cons] at h
              rcases h with h | h
              · cases h
              · exact hcseg false h
          · apply List.mem_append_right
            apply List.mem_cons_of_mem
            have hh := hneg2.1 hret2
            rw [hsegfields.1, hsegfields.2.1, hsegfields.2.2] at hh
            unfold segmentation_calls
            rw [if_neg hh.1, if_pos hh.2.1]
            simp
        · rw [if_neg hret2] at ho
          have hsw : E.switch_segment (r1.events ++ [Event.handle_segmentation])
                r1.current_seg_number = true
              ∨ segmentation_calls s.r
                  (E.switch_segment (r1.events ++ [Event.handle_segmentation])
                    r1.current_seg_number) = segmentation_calls s.r true := by
            by_cases hb : E.switch_segment (r1.events ++ [Event.handle_segmentation])
                r1.current_seg_number = true
            · exact Or.inl hb
            · right
              have hb1 : E.switch_segment (r1.events ++ [Event.handle_segmentation])
                  r1.current_seg_number = false := by simpa using hb
              have hnot : ¬ (r1.subseg_per_seg ≠ 0
                  ∧ (r1.subseg_per_seg = r1.current_subseg_number
                    ∨ r1.current_seg_number = 1)) := by
                intro hh
                exact hret2 (hneg2.2 ⟨hh.1, hh.2, hb1⟩)
              rw [hsegfields.1, hsegfields.2.1, hsegfields.2.2] at hnot
              unfold segmentation_calls
              by_cases h0 : s.r.subseg_per_seg = 0
              · rw [if_pos h0, if_pos h0]
              · rw [if_neg h0, if_neg h0, if_neg (fun h => hnot ⟨h0, h⟩),
                  if_neg (fun h => hnot ⟨h0, h⟩)]
          have hsegev : segmentation_calls s.r
              (E.switch_segment (r1.events ++ [Event.handle_segmentation])
                r1.current_seg_number) = segmentation_calls s.r true := by
            rcases hsw with h | h
            · rw [h]
            · exact h
          rw [hsegev] at hr2ev
          by_cases hcr : E.create_fragment_movie r2.events = false
          · rw [if_pos hcr] at ho
            refine Or.inr ⟨fl, [], hfl, hnfl, no_append_nil, Or.inr
              ⟨{ s with r := r2.log [Event.create_fragment_movie false,
                                     Event.error_message] },
                fl ++ Event.handle_segmentation :: segmentation_calls s.r true
                  ++ [Event.create_fragment_movie false, Event.error_message],
                ho.symm, ?_, ?_, ?_, by simp⟩⟩
            · have h3 := hr2eq [Event.create_fragment_movie false, Event.error_message]
              rw [hr2ev] at h3
              simp only [List.append_assoc, List.cons_append] at h3 ⊢
              rw [h3]
            · apply no_append_append
              · apply no_append_append hnfl
                intro e he k1 q hc
                simp only [List.mem_cons] at he
                rcases he with he | he
                · rw [he] at hc; cases hc
                · exact hnseg true e he k1 q hc
              · exact hna3 false
            · intro hmem
              rcases List.mem_append.1 hmem with h | h
              · rcases List.mem_append.1 h with h | h
                · exact hncreate fl hfl h
                · simp only [List.mem_cons] at h
                  rcases h with h | h
                  · cases h
                  · exact hcseg true h
              · simp at h
          · rw [if_neg hcr] at ho
            refine Or.inr ⟨fl, segmentation_calls s.r true, hfl, hnfl, hnseg true, Or.inl
              ⟨{ s with r := r2.log [Event.create_fragment_movie true],
                        pending_flush_fragments := 0 }, ho.symm, ?_⟩⟩
            have h3 := hr2eq [Event.create_fragment_movie true]
            rw [hr2ev] at h3
            simp only [List.append_assoc, List.cons_append] at h3 ⊢
            rw [h3]

end FirstFragment

section FirstFragmentInvariant

variable {D : Type}

/-- Every pass only adds to the record of calls. -/
theorem step_events [C_double D] (E : Engine) (s s1 : State D)
    (h : (step E s).state? = some s1) : ∃ new, s1.r.events = s.r.events ++ new := by
  rcases step_shape E s with hu | ⟨m, t, hm, ht, ⟨hact, ho⟩ | ⟨hact, t1, s2, new, hst, ha1, ho⟩⟩
  · rw [hu] at h
    cases h
  · rw [ho] at h
    simp only [Outcome.state?, Option.some.injEq] at h
    rw [← h]
    exact ⟨[], (List.append_nil _).symm⟩
  · rcases ho with ⟨_, _, ho⟩ | ⟨_, _, _, ho | ho⟩ | ⟨_, _, _, _, ⟨_, ho⟩ | ⟨_, ho⟩⟩ <;>
      (rw [ho] at h
       simp only [Outcome.state?, Option.some.injEq] at h
       rw [← h]
       exact ⟨new, hst.events⟩)

/-- A run that has left the loop did so in a pass started while the loop was
going on. -/
theorem run_state_cases [C_double D] (E : Engine) :
    ∀ (n : Nat) (s0 s : State D), (run E n s0).state? = some s →
      run E n s0 = Outcome.next s
      ∨ ∃ k s1, run E k s0 = Outcome.next s1 ∧ (step E s1).state? = some s := by
  intro n
  induction n with
  | zero =>
    intro s0 s h
    simp only [run, Outcome.state?, Option.some.injEq] at h
    rw [← h]
    exact Or.inl rfl
  | succ n ih =>
    intro s0 s h
    cases hst : step E s0 with
    | next s1 =>
      have hrun : ∀ k, run E (k + 1) s0 = run E k s1 := by
        intro k
        simp only [run, hst]
      rw [hrun] at h ⊢
      rcases ih s1 s h with h1 | ⟨k, s2, h1, h2⟩
      · exact Or.inl h1
      · exact Or.inr ⟨k + 1, s2, by rw [hrun]; exact h1, h2⟩
    | brk s1 =>
      have hrun : run E (n + 1) s0 = Outcome.brk s1 := by simp only [run, hst]
      rw [hrun] at h
      exact Or.inr ⟨0, s0, rfl, by rw [hst]; exact h⟩
    | ret v s1 =>
      have hrun : run E (n + 1) s0 = Outcome.ret v s1 := by simp only [run, hst]
      rw [hrun] at h
      exact Or.inr ⟨0, s0, rfl, by rw [hst]; exact h⟩
    | undef =>
      have hrun : run E (n + 1) s0 = Outcome.undef := by simp only [run, hst]
      rw [hrun] at h
      cases h

/-- What a pass keeps while no movie fragment has been created: either one has
been created, and then before every append, or the scheduler is still as it
started, with the flush pending, nothing appended and the segment counters
untouched.  After a pass that leaves the loop, the record still has a created
fragment before every append. -/
theorem first_fragment_step [C_double D] (E : Engine) (r0 : remuxer_t D) (s : State D)
    (hord : fragment_created_before_appends s.r.events)
    (hs : Event.create_fragment_movie true ∈ s.r.events
      ∨ (s.r.frag_base_track ≠ 0 ∧ s.pending_flush_fragments ≠ 0
        ∧ s.total_media_size = 0 ∧ no_append s.r.events
        ∧ s.r.current_seg_number = r0.current_seg_number
        ∧ s.r.current_subseg_number = r0.current_subseg_number
        ∧ s.r.subseg_per_seg = r0.subseg_per_seg)) :
    (∀ s1, (step E s).state? = some s1 → fragment_created_before_appends s1.r.events)
    ∧ (∀ s1, step E s = Outcome.next s1 →
        Event.create_fragment_movie true ∈ s1.r.events
        ∨ (s1.r.frag_base_track ≠ 0 ∧ s1.pending_flush_fragments ≠ 0
          ∧ s1.total_media_size = 0 ∧ no_append s1.r.events
          ∧ s1.r.current_seg_number = r0.current_seg_number
          ∧ s1.r.current_subseg_number = r0.current_subseg_number
          ∧ s1.r.subseg_per_seg = r0.subseg_per_seg)) := by
  rcases hs with hc | hb
  · constructor
    · intro s1 h
      obtain ⟨new, hev⟩ := step_events E s s1 h
      rw [hev]
      exact created_before_append_of_created _ _ hord hc
    · intro s1 h
      obtain ⟨new, hev⟩ := step_events E s s1 (by rw [h]; rfl)
      rw [hev]
      exact Or.inl (List.mem_append_left _ hc)
  · have hkeep : ∀ s2 : State D, s2.r.frag_base_track = s.r.frag_base_track →
        s2.pending_flush_fragments = s.pending_flush_fragments →
        s2.total_media_size = s.total_media_size → s2.r.events = s.r.events →
        s2.r.current_seg_number = s.r.current_seg_number →
        s2.r.current_subseg_number = s.r.current_subseg_number →
        s2.r.subseg_per_seg = s.r.subseg_per_seg →
        (s2.r.frag_base_track ≠ 0 ∧ s2.pending_flush_fragments ≠ 0
          ∧ s2.total_media_size = 0 ∧ no_append s2.r.events
          ∧ s2.r.current_seg_number = r0.current_seg_number
          ∧ s2.r.current_subseg_number = r0.current_subseg_number
          ∧ s2.r.subseg_per_seg = r0.subseg_per_seg) := by
      intro s2 h1 h2 h3 h4 h5 h6 h7
      rw [h1, h2, h3, h4, h5, h6, h7]
      exact hb
    have hnerr : no_append [Event.error_message] := by
      intro e he k1 q
      simp only [List.mem_singleton] at he
      subst he
      exact fun h => Event.noConfusion h
    refine step_cases E s
      (fun o => (∀ s1, o.state? = some s1 → fragment_created_before_appends s1.r.events)
        ∧ (∀ s1, o = Outcome.next s1 →
            Event.create_fragment_movie true ∈ s1.r.events
            ∨ (s1.r.frag_base_track ≠ 0 ∧ s1.pending_flush_fragments ≠ 0
              ∧ s1.total_media_size = 0 ∧ no_append s1.r.events
              ∧ s1.r.current_seg_number = r0.current_seg_number
              ∧ s1.r.current_subseg_number = r0.current_subseg_number
              ∧ s1.r.subseg_per_seg = r0.subseg_per_seg))) ?_ ?_ ?_ ?_ ?_
    · exact ⟨fun s1 h => (by cases h), fun s1 h => (by cases h)⟩
    · intro m t _ _ _
      constructor
      · intro s1 h
        simp only [Outcome.state?, Option.some.injEq] at h
        rw [← h]
        exact hord
      · intro s1 h
        simp only [Outcome.next.injEq] at h
        rw [← h]
        exact Or.inr (hkeep _ rfl rfl rfl rfl rfl rfl rfl)
    · intro m t _ _ _ _
      constructor
      · intro s1 h
        simp only [Outcome.state?, Option.some.injEq] at h
        rw [← h]
        exact hord
      · intro s1 h
        simp only [Outcome.next.injEq] at h
        rw [← h]
        exact Or.inr (hkeep _ rfl rfl rfl rfl rfl rfl rfl)
    · intro m t sa ta p _ _ _ _ hf
      have hsa : sa.r.frag_base_track = s.r.frag_base_track
          ∧ sa.pending_flush_fragments = s.pending_flush_fragments
          ∧ sa.total_media_size = s.total_media_size ∧ sa.r.events = s.r.events
          ∧ sa.r.current_seg_number = s.r.current_seg_number
          ∧ sa.r.current_subseg_number = s.r.current_subseg_number
          ∧ sa.r.subseg_per_seg = s.r.subseg_per_seg := by
        rcases fetch_sample_sample E s sa t ta p hf with
          ⟨h, _, _⟩ | ⟨_, _, _, _, _, _, _, _, _, _, h⟩
        · rw [h]
          exact ⟨rfl, rfl, rfl, rfl, rfl, rfl, rfl⟩
        · rw [h]
          exact ⟨rfl, rfl, rfl, rfl, rfl, rfl, rfl⟩
      obtain ⟨ha1, ha2, ha3, ha4, _, _, _⟩ := hsa
      have hnev : no_append sa.r.events := by rw [ha4]; exact hb.2.2.2.1
      have hflush_na : ∀ l : List Event, no_append l →
          no_append (Event.flush_movie_fragment :: l) := by
        intro l hl e he k1 q hc
        simp only [List.mem_cons] at he
        rcases he with he | he
        · rw [he] at hc; cases hc
        · exact hl e he k1 q hc
      unfold handle_pending_sample
      rcases fragment_control_first_flush E sa ta p (by rw [ha1]; exact hb.1)
          (by rw [ha2]; exact hb.2.1) (by rw [ha3]; exact hb.2.2.1) with
        hu | ⟨fl, seg, _, hnfl, _, ⟨sb, hn, hsb⟩ | ⟨sb, new, hbk, hsb, hnnew, _, _⟩⟩
      · rw [hu]
        exact ⟨fun s1 h => (by cases h), fun s1 h => (by cases h)⟩
      · rw [hn]
        simp only []
        have hsbev : sb.r.events = sa.r.events ++ (Event.flush_movie_fragment :: fl
            ++ Event.handle_segmentation :: segmentation_calls sa.r true
            ++ [Event.create_fragment_movie true]) := by
          rw [hsb]
          simp
        have hmid : no_append (Event.flush_movie_fragment :: fl
            ++ Event.handle_segmentation :: segmentation_calls sa.r true
            ++ [Event.create_fragment_movie true]) := by
          intro e he k1 q hc
          simp only [List.mem_append, List.mem_cons, List.mem_singleton,
            List.not_mem_nil, or_false] at he
          rcases he with (he | he) | he
          · rcases he with he | he
            · rw [he] at hc; cases hc
            · exact hnfl e he k1 q hc
          · rcases he with he | he
            · rw [he] at hc; cases hc
            · rcases segmentation_calls_mem sa.r true e he with h | ⟨n, c, h⟩
              · rw [h] at hc; cases hc
              · rw [h] at hc; cases hc
          · rw [he] at hc; cases hc
        have hcreated : Event.create_fragment_movie true ∈ sb.r.events := by
          rw [hsbev]
          simp
        have hordb : fragment_created_before_appends sb.r.events := by
          rw [hsbev]
          exact created_before_of_no_append _ (no_append_append hnev hmid)
        constructor
        · intro s1 h
          obtain ⟨_, _, new3, hev3, _⟩ := append_or_skip_frame E sb s1 ta p h
          rw [hev3]
          exact created_before_append_of_created _ _ hordb hcreated
        · intro s1 h
          obtain ⟨_, _, new3, hev3, _⟩ := append_or_skip_frame E sb s1 ta p (by rw [h]; rfl)
          rw [hev3]
          exact Or.inl (List.mem_append_left _ hcreated)
      · rw [hbk]
        simp only []
        constructor
        · intro s1 h
          simp only [Outcome.state?, Option.some.injEq] at h
          rw [← h]
          have : sb.r.events = sa.r.events ++ Event.flush_movie_fragment :: new := by
            rw [hsb]
          rw [this]
          exact created_before_of_no_append _ (no_append_append hnev (hflush_na new hnnew))
        · intro s1 h
          cases h
    · intro m t o _ _ _ _ hf
      rcases fetch_sample_no_sample E s t o hf with h1 | ⟨h1, _⟩ |
        ⟨_, _, _, _, ⟨_, h1⟩ | ⟨_, h1⟩⟩
      · rw [h1]
        exact ⟨fun s1 h => (by cases h), fun s1 h => (by cases h)⟩
      · rw [h1]
        constructor
        · intro s1 h
          simp only [Outcome.state?, Option.some.injEq] at h
          rw [← h]
          exact created_before_append_of_no_append _ _ hord hnerr
        · intro s1 h
          cases h
      · rw [h1]
        constructor
        · intro s1 h
          simp only [Outcome.state?, Option.some.injEq] at h
          rw [← h]
          exact hord
        · intro s1 h
          cases h
      · rw [h1]
        constructor
        · intro s1 h
          simp only [Outcome.state?, Option.some.injEq] at h
          rw [← h]
          exact hord
        · intro s1 h
          simp only [Outcome.next.injEq] at h
          rw [← h]
          exact Or.inr (hkeep _ rfl rfl rfl rfl rfl rfl rfl)

end FirstFragmentInvariant

section FirstFragmentTheorem

variable {D : Type}

/-- C26. In `do_remux` with a fragment base track and an empty record at the
start: (1) after any number of passes, however the last one ended, every
successful `lsmash_append_sample` in the record comes after a successful
`lsmash_create_fragment_movie`; (2) as long as the loop goes on and no fragment
has been created, the flush is still pending, `total_media_size` is 0, nothing
has been appended and the segment counters are as at the start, and fetching a
sample changes none of these; (3) in such a state the fragment control of a
pass that holds a pending sample calls `flush_movie_fragment` (which records
only calls of `lsmash_flush_pooled_samples`), then `handle_segmentation`, then
`lsmash_create_fragment_movie`, and only then clears `pending_flush_fragments`
and goes on to the append decision; if one of the three fails the loop is left
with the flag still set and no fragment created; (4) with segmentation and
`current_seg_number = 1`, as `prepare_output` leaves it, that call of
`handle_segmentation` switches to a new segment file. -/
theorem first_fragment_before_first_sample [C_double D] (E : Engine) :
    (∀ (r : remuxer_t D) (n : Nat) (s : State D), r.frag_base_track ≠ 0 → r.events = [] →
        (run E n (initial_state r)).state? = some s →
        fragment_created_before_appends s.r.events)
    ∧ (∀ (r : remuxer_t D) (n : Nat) (s : State D), r.frag_base_track ≠ 0 → r.events = [] →
        run E n (initial_state r) = Outcome.next s →
        Event.create_fragment_movie true ∈ s.r.events
        ∨ ((s.r.frag_base_track ≠ 0 ∧ s.pending_flush_fragments ≠ 0
            ∧ s.total_media_size = 0 ∧ no_append s.r.events
            ∧ s.r.current_seg_number = r.current_seg_number
            ∧ s.r.current_subseg_number = r.current_subseg_number
            ∧ s.r.subseg_per_seg = r.subseg_per_seg)
          ∧ ∀ t0 s1 t1 p, fetch_sample E s t0 = Fetched.sample s1 t1 p →
              s1.r.frag_base_track = s.r.frag_base_track
              ∧ s1.pending_flush_fragments = s.pending_flush_fragments
              ∧ s1.total_media_size = s.total_media_size
              ∧ s1.r.events = s.r.events
              ∧ s1.r.current_seg_number = s.r.current_seg_number
              ∧ s1.r.current_subseg_number = s.r.current_subseg_number
              ∧ s1.r.subseg_per_seg = s.r.subseg_per_seg))
    ∧ (∀ (s : State D) (t : input_track_t D) (p : lsmash_sample_t),
        s.r.frag_base_track ≠ 0 → s.pending_flush_fragments ≠ 0 →
        s.total_media_size = 0 →
        (∀ s1, fragment_control E s t p = Outcome.next s1 →
          s1.pending_flush_fragments = 0
          ∧ handle_pending_sample E s t p = append_or_skip E s1 t p
          ∧ ∃ fl, (∀ e ∈ fl, e.is_fragment_call = false) ∧ no_append fl
              ∧ s1.r.events = s.r.events ++ Event.flush_movie_fragment :: fl
                  ++ Event.handle_segmentation :: segmentation_calls s.r true
                  ++ [Event.create_fragment_movie true])
        ∧ (∀ s1, fragment_control E s t p = Outcome.brk s1 →
            handle_pending_sample E s t p = Outcome.brk s1
            ∧ s1.pending_flush_fragments = s.pending_flush_fragments
            ∧ ∃ new, s1.r.events = s.r.events ++ Event.flush_movie_fragment :: new
                ∧ no_append new
                ∧ Event.create_fragment_movie true ∉ new
                ∧ Event.error_message ∈ new)
        ∧ (∀ v s1, fragment_control E s t p ≠ Outcome.ret v s1))
    ∧ (∀ r : remuxer_t D, r.subseg_per_seg ≠ 0 → r.current_seg_number = 1 →
        segmentation_calls r true = [Event.switch_segment 1 true]) := by
  have hinit : ∀ r : remuxer_t D, r.frag_base_track ≠ 0 → r.events = [] →
      fragment_created_before_appends (initial_state r).r.events
      ∧ (Event.create_fragment_movie true ∈ (initial_state r).r.events
        ∨ ((initial_state r).r.frag_base_track ≠ 0
          ∧ (initial_state r).pending_flush_fragments ≠ 0
          ∧ (initial_state r).total_media_size = 0 ∧ no_append (initial_state r).r.events
          ∧ (initial_state r).r.current_seg_number = r.current_seg_number
          ∧ (initial_state r).r.current_subseg_number = r.current_subseg_number
          ∧ (initial_state r).r.subseg_per_seg = r.subseg_per_seg)) := by
    intro r hfb hev
    have hna : no_append (initial_state r).r.events := by
      show no_append r.events
      rw [hev]
      exact no_append_nil
    refine ⟨created_before_of_no_append _ hna, Or.inr ⟨hfb, ?_, rfl, hna, rfl, rfl, rfl⟩⟩
    show (if r.frag_base_track ≠ 0 then 1 else 0) ≠ 0
    rw [if_pos hfb]
    decide
  have hloop : ∀ (r : remuxer_t D) (n : Nat) (s : State D), r.frag_base_track ≠ 0 →
      r.events = [] → run E n (initial_state r) = Outcome.next s →
      fragment_created_before_appends s.r.events
      ∧ (Event.create_fragment_movie true ∈ s.r.events
        ∨ (s.r.frag_base_track ≠ 0 ∧ s.pending_flush_fragments ≠ 0
          ∧ s.total_media_size = 0 ∧ no_append s.r.events
          ∧ s.r.current_seg_number = r.current_seg_number
          ∧ s.r.current_subseg_number = r.current_subseg_number
          ∧ s.r.subseg_per_seg = r.subseg_per_seg)) := by
    intro r n s hfb hev hrun
    exact run_next_invariant E
      (fun s => fragment_created_before_appends s.r.events
        ∧ (Event.create_fragment_movie true ∈ s.r.events
          ∨ (s.r.frag_base_track ≠ 0 ∧ s.pending_flush_fragments ≠ 0
            ∧ s.total_media_size = 0 ∧ no_append s.r.events
            ∧ s.r.current_seg_number = r.current_seg_number
            ∧ s.r.current_subseg_number = r.current_subseg_number
            ∧ s.r.subseg_per_seg = r.subseg_per_seg)))
      (fun s s1 h1 h2 =>
        ⟨(first_fragment_step E r s h1.1 h1.2).1 s1 (by rw [h2]; rfl),
         (first_fragment_step E r s h1.1 h1.2).2 s1 h2⟩)
      n (initial_state r) s (hinit r hfb hev) hrun
  refine ⟨?_, ?_, ?_, ?_⟩
  · intro r n s hfb hev hs
    rcases run_state_cases E n (initial_state r) s hs with h | ⟨k, s1, h1, h2⟩
    · exact (hloop r n s hfb hev h).1
    · obtain ⟨ho, hp⟩ := hloop r k s1 hfb hev h1
      exact (first_fragment_step E r s1 ho hp).1 s h2
  · intro r n s hfb hev hrun
    rcases (hloop r n s hfb hev hrun).2 with h | h
    · exact Or.inl h
    · refine Or.inr ⟨h, ?_⟩
      intro t0 s1 t1 p hf
      rcases fetch_sample_sample E s s1 t0 t1 p hf with
        ⟨h, _, _⟩ | ⟨_, _, _, _, _, _, _, _, _, _, h⟩
      · rw [h]
        exact ⟨rfl, rfl, rfl, rfl, rfl, rfl, rfl⟩
      · rw [h]
        exact ⟨rfl, rfl, rfl, rfl, rfl, rfl, rfl⟩
  · intro s t p hfb hpend htotal
    rcases fragment_control_first_flush E s t p hfb hpend htotal with
      hu | ⟨fl, seg, hfl, hnfl, _, ⟨sb, hn, hsb⟩ | ⟨sb, new, hbk, hsb, hnnew, hnc, herr⟩⟩
    · rw [hu]
      exact ⟨fun s1 h => (by cases h), fun s1 h => (by cases h), fun v s1 h => (by cases h)⟩
    · refine ⟨?_, ?_, ?_⟩
      · intro s1 h
        rw [hn] at h
        simp only [Outcome.next.injEq] at h
        rw [← h]
        refine ⟨by rw [hsb], ?_, fl, hfl, hnfl, by rw [hsb]⟩
        unfold handle_pending_sample
        rw [hn]
      · intro s1 h
        rw [hn] at h
        cases h
      · intro v s1 h
        rw [hn] at h
        cases h
    · refine ⟨?_, ?_, ?_⟩
      · intro s1 h
        rw [hbk] at h
        cases h
      · intro s1 h
        rw [hbk] at h
        simp only [Outcome.brk.injEq] at h
        rw [← h]
        refine ⟨?_, by rw [hsb], new, by rw [hsb], hnnew, hnc, herr⟩
        unfold handle_pending_sample
        rw [hbk]
      · intro v s1 h
        rw [hbk] at h
        cases h
  · intro r h0 h1
    unfold segmentation_calls
    rw [if_neg h0, if_pos (Or.inr h1), h1]
    rfl

end FirstFragmentTheorem

theorem first_fragment_before_first_sample_witness :
    (dash3_remuxer.frag_base_track ≠ 0 ∧ dash3_remuxer.events = []
      ∧ (run dash3_engine 1 (initial_state dash3_remuxer)).state? = some (dash3_state 1)
      ∧ (dash3_state 1).r.events
          = [Event.flush_movie_fragment, Event.flush_pooled_samples 1 0 true,
              Event.handle_segmentation, Event.switch_segment 1 true,
              Event.create_fragment_movie true, Event.append_sample 1 (mk_sample 0 1 1)]
      ∧ fragment_created_before_appends (dash3_state 1).r.events)
    ∧ (run dash3_engine 0 (initial_state dash3_remuxer)
          = Outcome.next (initial_state dash3_remuxer)
      ∧ (Event.create_fragment_movie true ∈ (initial_state dash3_remuxer).r.events
        ∨ (((initial_state dash3_remuxer).r.frag_base_track ≠ 0
            ∧ (initial_state dash3_remuxer).pending_flush_fragments ≠ 0
            ∧ (initial_state dash3_remuxer).total_media_size = 0
            ∧ no_append (initial_state dash3_remuxer).r.events
            ∧ (initial_state dash3_remuxer).r.current_seg_number
                = dash3_remuxer.current_seg_number
            ∧ (initial_state dash3_remuxer).r.current_subseg_number
                = dash3_remuxer.current_subseg_number
            ∧ (initial_state dash3_remuxer).r.subseg_per_seg = dash3_remuxer.subseg_per_seg)
          ∧ ∀ t0 s1 t1 p,
              fetch_sample dash3_engine (initial_state dash3_remuxer) t0
                = Fetched.sample s1 t1 p →
              s1.r.frag_base_track = (initial_state dash3_remuxer).r.frag_base_track
              ∧ s1.pending_flush_fragments
                  = (initial_state dash3_remuxer).pending_flush_fragments
              ∧ s1.total_media_size = (initial_state dash3_remuxer).total_media_size
              ∧ s1.r.events = (initial_state dash3_remuxer).r.events
              ∧ s1.r.current_seg_number = (initial_state dash3_remuxer).r.current_seg_number
              ∧ s1.r.current_subseg_number
                  = (initial_state dash3_remuxer).r.current_subseg_number
              ∧ s1.r.subseg_per_seg = (initial_state dash3_remuxer).r.subseg_per_seg)))
    ∧ (dash3_decision_state.r.frag_base_track ≠ 0
      ∧ dash3_decision_state.pending_flush_fragments ≠ 0
      ∧ dash3_decision_state.total_media_size = 0
      ∧ (∃ s1, fragment_control dash3_engine dash3_decision_state dash3_holding
            (mk_sample 0 1 1) = Outcome.next s1
          ∧ s1.r.events = [Event.flush_movie_fragment, Event.flush_pooled_samples 1 0 true,
              Event.handle_segmentation, Event.switch_segment 1 true,
              Event.create_fragment_movie true])
      ∧ (∀ s1, fragment_control dash3_engine dash3_decision_state dash3_holding
            (mk_sample 0 1 1) = Outcome.next s1 →
          s1.pending_flush_fragments = 0
          ∧ handle_pending_sample dash3_engine dash3_decision_state dash3_holding
                (mk_sample 0 1 1)
              = append_or_skip dash3_engine s1 dash3_holding (mk_sample 0 1 1)
          ∧ ∃ fl, (∀ e ∈ fl, e.is_fragment_call = false) ∧ no_append fl
              ∧ s1.r.events = dash3_decision_state.r.events
                  ++ Event.flush_movie_fragment :: fl
                  ++ Event.handle_segmentation
                    :: segmentation_calls dash3_decision_state.r true
                  ++ [Event.create_fragment_movie true]))
    ∧ (dash3_remuxer.subseg_per_seg ≠ 0 ∧ dash3_remuxer.current_seg_number = 1
      ∧ segmentation_calls dash3_remuxer true = [Event.switch_segment 1 true]) :=
  ⟨⟨by decide, rfl, by decide, by decide,
    (first_fragment_before_first_sample dash3_engine).1 dash3_remuxer 1 (dash3_state 1)
      (by decide) rfl (by decide)⟩,
   ⟨rfl,
    (first_fragment_before_first_sample dash3_engine).2.1 dash3_remuxer 0
      (initial_state dash3_remuxer) (by decide) rfl rfl⟩,
   ⟨by decide, by decide, rfl, ⟨_, rfl, rfl⟩,
    ((first_fragment_before_first_sample dash3_engine).2.2.1 dash3_decision_state
      dash3_holding (mk_sample 0 1 1) (by decide) (by decide) rfl).1⟩,
   ⟨by decide, rfl,
    (first_fragment_before_first_sample dash3_engine).2.2.2 dash3_remuxer (by decide) rfl⟩⟩

/-! ## Theorem: the DTS values regenerated through the rotating buffer -/

/-- The second DTS loop run for the passes `D + 1`, ..., `D + m`, without DTS
compression. -/
theorem dts_second_loop_prefix (D sdt m : Nat) (ts : List Nat) (base : List lsmash_media_ts_t)
    (st1 : DtsLoop) (hD : D ≠ 0) (hm : D + 1 + m ≤ base.length)
    (hlen : base.length ≤ ts.length)
    (hinv : dts_loop_inv ts sdt D base (D + 1) st1) :
    ∃ st2, for_loop (dts_second_step D sdt ts) (List.range' (D + 1) m) st1 = Ret.ok st2
      ∧ dts_loop_inv ts sdt D base (D + 1 + m) st2 :=
  for_loop_range' (dts_second_step D sdt ts)
    (fun i st => dts_loop_inv ts sdt D base i st) m (D + 1) st1 hinv
    (by
      intro i st hi1 hi2 hinv1
      obtain ⟨x, hx⟩ := getElem?_of_lt ts i (by omega)
      obtain ⟨y, hy⟩ := getElem?_of_lt ts (i - D) (by omega)
      obtain ⟨t, ht⟩ := getElem?_of_lt st.timestamp i (by rw [hinv1.1]; omega)
      have hp := hinv1.2.2.2.2 (i - D) y (by omega) (by omega) hy
      refine ⟨_, ?_, dts_loop_inv_step ts sdt D base i st t (add64 y sdt) x hD hinv1 ht hx
        (fun hle => absurd hle (by omega)) (fun _ => ⟨y, hy, rfl⟩)⟩
      unfold dts_second_step
      rw [if_neg hD, hp, ht, hx])

/-- C29. With a maximum sample delay `D > 0`, DTS compression disabled and more
than `D` samples, lines 777-826 of `edit_media_timeline` succeed and the decode
timestamps they regenerate through the rotating buffer `prev_reordered_cts` of
length `D` are `dts[i] = ts[i]` for `0 <= i <= D` and `dts[i] = ts[i - D] +
ts[D]` for `D < i < sample_count`.  In the pass `i > D` both buffer indices,
`(i - D) % D` for the read and `i % D` for the write, are below `D`, and the
slot read holds `ts[i - D] + ts[D]`, the value stored `D` passes earlier
(the state `st` is the one the loops of lines 795-814 have reached when pass
`i` starts).  The
DTS values are strictly increasing whenever `ts` is.  The sums `ts[i] + ts[j]`
are taken to stay below 2^64. -/
theorem rotating_buffer_dts_closed_form (opt : opt_t) (D timescale cd : Nat)
    (ts : List Nat) (T : List lsmash_media_ts_t)
    (hdc : opt.dts_compression = 0) (hD : 0 < D) (hDn : D < T.length)
    (hlen : ts.length = T.length)
    (hsum : ∀ x ∈ ts, ∀ y ∈ ts, x + y < U64) :
    ∃ r sdt, ts[D]? = some sdt
      ∧ edit_media_timeline_generate opt D timescale cd ts T = Ret.ok r
      ∧ r.timestamp.length = T.length
      ∧ (∀ i, i ≤ D → ∃ t, r.timestamp[i]? = some t ∧ ts[i]? = some t.dts)
      ∧ (∀ i, D < i → i < T.length →
          ∃ t y, r.timestamp[i]? = some t ∧ ts[i - D]? = some y ∧ t.dts = y + sdt)
      ∧ (∀ i, D < i → i < T.length →
          (i - D) % D < D ∧ i % D < D
          ∧ ∃ delta st1 st y, ts[1]? = some delta
              ∧ for_loop (dts_first_step opt D delta sdt ts) (List.range (D + 1))
                  { timestamp := lsmash_sort_timestamps_decoding_order (generate_cts T ts sdt),
                    prev_reordered_cts := List.replicate D 0 } = Ret.ok st1
              ∧ for_loop (dts_second_step D sdt ts) (List.range' (D + 1) (i - (D + 1))) st1
                  = Ret.ok st
              ∧ st.prev_reordered_cts.length = D
              ∧ ts[i - D]? = some y
              ∧ st.prev_reordered_cts[(i - D) % D]? = some (y + sdt))
      ∧ (ts.Pairwise (fun a b => a < b) →
          (r.timestamp.map (fun t => t.dts)).Pairwise (fun a b => a < b)) := by
  obtain ⟨r, sdt, pr, hsdt, hr, _, _, _, hinv⟩ :=
    generate_without_compression opt hdc D timescale cd ts T (by omega) hDn hlen
  obtain ⟨hl, _, _, hdts, _⟩ := hinv
  have hsdtmem := mem_of_getElem?_some hsdt
  have hbase : (lsmash_sort_timestamps_decoding_order (generate_cts T ts sdt)).length
      = T.length := by
    unfold lsmash_sort_timestamps_decoding_order generate_cts
    rw [List.length_insertionSort, List.length_zipWith, hlen, Nat.min_self]
  simp only [] at hl hdts
  rw [hbase] at hl
  have hlow : ∀ i, i ≤ D → ∃ t, r.timestamp[i]? = some t ∧ ts[i]? = some t.dts := by
    intro i hi
    obtain ⟨t, ht⟩ := getElem?_of_lt r.timestamp i (by rw [hl]; omega)
    exact ⟨t, ht, (hdts i t (by omega) ht).1 hi⟩
  have hhigh : ∀ i, D < i → i < T.length →
      ∃ t y, r.timestamp[i]? = some t ∧ ts[i - D]? = some y ∧ t.dts = y + sdt := by
    intro i hi hin
    obtain ⟨t, ht⟩ := getElem?_of_lt r.timestamp i (by rw [hl]; exact hin)
    obtain ⟨y, hy, hty⟩ := (hdts i t hin ht).2 hi
    exact ⟨t, y, ht, hy, by
      rw [hty]; exact add64_of_lt (hsum y (mem_of_getElem?_some hy) sdt hsdtmem)⟩
  refine ⟨r, sdt, hsdt, hr, hl, hlow, hhigh, ?_, ?_⟩
  · intro i hi hin
    refine ⟨Nat.mod_lt _ hD, Nat.mod_lt _ hD, ?_⟩
    obtain ⟨delta, hdelta⟩ := getElem?_of_lt ts 1 (by omega)
    obtain ⟨st1, hl1, hinv1⟩ := dts_first_loop_ok opt hdc D delta sdt ts
      (lsmash_sort_timestamps_decoding_order (generate_cts T ts sdt)) (by omega)
      (by rw [hbase]; exact hDn) (by rw [hbase, hlen])
    obtain ⟨st, hl2, hinv2⟩ := dts_second_loop_prefix D sdt (i - (D + 1)) ts _ st1 (by omega)
      (by rw [hbase]; omega) (by rw [hbase, hlen]) hinv1
    obtain ⟨y, hy⟩ := getElem?_of_lt ts (i - D) (by omega)
    refine ⟨delta, st1, st, y, hdelta, hl1, hl2, hinv2.2.1, hy, ?_⟩
    have := hinv2.2.2.2.2 (i - D) y (by omega) (by omega) hy
    rw [this, add64_of_lt (hsum y (mem_of_getElem?_some hy) sdt hsdtmem)]
  · intro hinc
    rw [List.pairwise_iff_getElem]
    intro a b ha hb hab
    rw [List.length_map, hl] at ha hb
    simp only [List.getElem_map]
    have hta : r.timestamp[a]? = some r.timestamp[a] := List.getElem?_eq_getElem _
    have htb : r.timestamp[b]? = some r.timestamp[b] := List.getElem?_eq_getElem _
    obtain ⟨x1, hx1⟩ := getElem?_of_lt ts 1 (by omega)
    obtain ⟨x0, hx0⟩ := getElem?_of_lt ts 0 (by omega)
    have hpos : x0 < x1 := by
      obtain ⟨h0, h0e⟩ := List.getElem?_eq_some_iff.1 hx0
      obtain ⟨h1, h1e⟩ := List.getElem?_eq_some_iff.1 hx1
      have := List.pairwise_iff_getElem.1 hinc 0 1 h0 h1 (by omega)
      rw [h0e, h1e] at this
      exact this
    have hlt : ∀ {i j x y : Nat}, i < j → ts[i]? = some x → ts[j]? = some y → x < y := by
      intro i j x y hij hx hy
      obtain ⟨h0, h0e⟩ := List.getElem?_eq_some_iff.1 hx
      obtain ⟨h1, h1e⟩ := List.getElem?_eq_some_iff.1 hy
      have := List.pairwise_iff_getElem.1 hinc i j h0 h1 hij
      rw [h0e, h1e] at this
      exact this
    by_cases hbD : b ≤ D
    · have h1 := (hdts a _ ha hta).1 (by omega)
      have h2 := (hdts b _ hb htb).1 hbD
      exact hlt hab h1 h2
    · obtain ⟨t2, y2, ht2, hy2, hd2⟩ := hhigh b (by omega) hb
      rw [htb] at ht2
      cases ht2
      rw [hd2]
      by_cases haD : a ≤ D
      · have h1 := (hdts a _ ha hta).1 haD
        have hle := pairwise_lt_getElem?_le hinc haD h1 hsdt
        have hy1 := pairwise_lt_getElem?_le hinc (show 1 ≤ b - D by omega) hx1 hy2
        omega
      · obtain ⟨t1, y1, ht1, hy1, hd1⟩ := hhigh a (by omega) ha
        rw [hta] at ht1
        cases ht1
        rw [hd1]
        have := hlt (show a - D < b - D by omega) hy1 hy2
        omega

theorem rotating_buffer_dts_closed_form_witness :
    default_opt.dts_compression = 0 ∧ 0 < 1 ∧ 1 < ipbb_timestamps.length
    ∧ [0, 10, 20, 30].length = ipbb_timestamps.length
    ∧ (∀ x ∈ [0, 10, 20, 30], ∀ y ∈ [0, 10, 20, 30], x + y < U64)
    ∧ ∃ r sdt, [0, 10, 20, 30][1]? = some sdt
      ∧ edit_media_timeline_generate default_opt 1 24 0 [0, 10, 20, 30] ipbb_timestamps
          = Ret.ok r
      ∧ r.timestamp.length = ipbb_timestamps.length
      ∧ (∀ i, i ≤ 1 → ∃ t, r.timestamp[i]? = some t ∧ [0, 10, 20, 30][i]? = some t.dts)
      ∧ (∀ i, 1 < i → i < ipbb_timestamps.length →
          ∃ t y, r.timestamp[i]? = some t ∧ [0, 10, 20, 30][i - 1]? = some y
            ∧ t.dts = y + sdt)
      ∧ (∀ i, 1 < i → i < ipbb_timestamps.length →
          (i - 1) % 1 < 1 ∧ i % 1 < 1
          ∧ ∃ delta st1 st y, [0, 10, 20, 30][1]? = some delta
              ∧ for_loop (dts_first_step default_opt 1 delta sdt [0, 10, 20, 30])
                  (List.range (1 + 1))
                  { timestamp := lsmash_sort_timestamps_decoding_order
                      (generate_cts ipbb_timestamps [0, 10, 20, 30] sdt),
                    prev_reordered_cts := List.replicate 1 0 } = Ret.ok st1
              ∧ for_loop (dts_second_step 1 sdt [0, 10, 20, 30])
                  (List.range' (1 + 1) (i - (1 + 1))) st1 = Ret.ok st
              ∧ st.prev_reordered_cts.length = 1
              ∧ [0, 10, 20, 30][i - 1]? = some y
              ∧ st.prev_reordered_cts[(i - 1) % 1]? = some (y + sdt))
      ∧ ([0, 10, 20, 30].Pairwise (fun a b => a < b) →
          (r.timestamp.map (fun t => t.dts)).Pairwise (fun a b => a < b)) :=
  ⟨rfl, by decide, by decide, rfl, by decide,
   rotating_buffer_dts_closed_form default_opt 1 24 0 [0, 10, 20, 30] ipbb_timestamps
     rfl (by decide) (by decide) rfl (by decide)⟩

/-! ## Theorem: the DTS values under DTS compression -/

theorem for_loop_range'_error {σ : Type} (step : σ → Nat → Ret σ) (P : Nat → σ → Prop) :
    ∀ (m a : Nat) (st : σ), P a st →
      (∀ i s s1, a ≤ i → i < a + m → P i s → step s i = Ret.ok s1 → P (i + 1) s1) →
      for_loop step (List.range' a m) st = Ret.error →
      ∃ i s, a ≤ i ∧ i < a + m ∧ P i s ∧ step s i = Ret.error := by
  intro m
  induction m with
  | zero =>
    intro a st _ _ h
    simp only [List.range'_zero, for_loop] at h
    cases h
  | succ m ih =>
    intro a st hp hstep h
    rw [List.range'_succ] at h
    simp only [for_loop] at h
    cases hs : step st a with
    | ok st2 =>
      rw [hs] at h
      simp only [] at h
      obtain ⟨i, s, h1, h2, h3, h4⟩ := ih (a + 1) st2
        (hstep a st st2 (Nat.le_refl a) (by omega) hp hs)
        (fun i s s1 hi hlt hq hs1 => hstep i s s1 (by omega) (by omega) hq hs1) h
      exact ⟨i, s, by omega, by omega, h3, h4⟩
    | error => exact ⟨a, st, Nat.le_refl a, by omega, hp, hs⟩
    | undef => rw [hs] at h; cases h

theorem for_loop_no_error {σ : Type} (step : σ → Nat → Ret σ)
    (hstep : ∀ s i, step s i ≠ Ret.error) :
    ∀ (l : List Nat) (st : σ), for_loop step l st ≠ Ret.error := by
  intro l
  induction l with
  | nil => intro st h; simp only [for_loop] at h; cases h
  | cons i l ih =>
    intro st h
    simp only [for_loop] at h
    cases hs : step st i with
    | ok st2 => rw [hs] at h; exact ih st2 h
    | error => exact hstep st i hs
    | undef => rw [hs] at h; cases h

theorem dts_second_step_no_error (D sdt : Nat) (ts : List Nat) (st : DtsLoop) (i : Nat) :
    dts_second_step D sdt ts st i ≠ Ret.error := by
  unfold dts_second_step
  split
  · intro h; cases h
  · split
    · intro h; cases h
    · intro h; cases h

/-- A pass of the first DTS loop that returns normally has written the value of
`first_loop_dts` at its index and kept the DTS of the other positions. -/
theorem dts_first_step_ok_dts (opt : opt_t) (D delta sdt : Nat) (ts : List Nat)
    (st st1 : DtsLoop) (i : Nat) (h : dts_first_step opt D delta sdt ts st i = Ret.ok st1) :
    ∃ d t, first_loop_dts opt D delta ts i = some d ∧ st.timestamp[i]? = some t
      ∧ st1.timestamp = st.timestamp.set i { t with dts := d } := by
  unfold dts_first_step at h
  split at h
  · rename_i d t x hd ht hx
    split at h
    · cases h
    · split at h
      · cases h
      · simp only [Ret.ok.injEq] at h
        subst h
        exact ⟨d, t, hd, ht, rfl⟩
  · cases h

/-- A pass of the first DTS loop that returns the error has found a DTS value
not above the DTS of the position before. -/
theorem dts_first_step_error (opt : opt_t) (D delta sdt : Nat) (ts : List Nat)
    (st : DtsLoop) (i : Nat) (h : dts_first_step opt D delta sdt ts st i = Ret.error) :
    opt.dts_compression ≠ 0 ∧ i ≠ 0
      ∧ ∃ d p, first_loop_dts opt D delta ts i = some d ∧ st.timestamp[i - 1]? = some p
          ∧ d ≤ p.dts := by
  unfold dts_first_step at h
  split at h
  · rename_i d t x hd ht hx
    split at h
    · rename_i hc
      obtain ⟨h1, h2, h3⟩ := hc
      refine ⟨h1, h2, ?_⟩
      cases hp : st.timestamp[i - 1]? with
      | none => rw [hp] at h3; cases h3
      | some p =>
        rw [hp] at h3
        exact ⟨d, p, hd, rfl, of_decide_eq_true h3⟩
    · split at h
      · cases h
      · cases h
  · cases h

/-- Lines 777-826 return the error of the DTS compression only with DTS
compression enabled and only when the ramp of the first loop,
`(i * initial_delta) / (!!opt->media_timescale * sample_delay + 1)`, fails to
increase at some index `0 < i <= sample_delay`. -/
theorem generate_error_ramp (opt : opt_t) (D timescale cd : Nat) (ts : List Nat)
    (T : List lsmash_media_ts_t)
    (h : edit_media_timeline_generate opt D timescale cd ts T = Ret.error) :
    opt.dts_compression ≠ 0
      ∧ ∃ delta i a b, ts[1]? = some delta ∧ 0 < i ∧ i ≤ D
          ∧ first_loop_dts opt D delta (scale_ts (dts_compression_multiplier opt D) ts) i
              = some a
          ∧ first_loop_dts opt D delta (scale_ts (dts_compression_multiplier opt D) ts)
              (i - 1) = some b
          ∧ a ≤ b := by
  unfold edit_media_timeline_generate at h
  simp only [] at h
  by_cases hD : D ≠ 0
  · rw [if_pos hD] at h
    cases hdelta : ts[1]? with
    | none => rw [hdelta] at h; cases h
    | some delta =>
      rw [hdelta] at h
      simp only [] at h
      cases hsdt : (if opt.dts_compression ≠ 0 then some 0
          else (scale_ts (dts_compression_multiplier opt D) ts)[D]?) with
      | none => rw [hsdt] at h; cases h
      | some sdt =>
        rw [hsdt] at h
        simp only [] at h
        by_cases hlen : (scale_ts (dts_compression_multiplier opt D) ts).length < T.length
        · rw [if_pos hlen] at h; cases h
        · rw [if_neg hlen] at h
          cases hl1 : for_loop (dts_first_step opt D delta sdt
              (scale_ts (dts_compression_multiplier opt D) ts)) (List.range (D + 1))
              { timestamp := lsmash_sort_timestamps_decoding_order
                  (generate_cts T (scale_ts (dts_compression_multiplier opt D) ts) sdt),
                prev_reordered_cts := List.replicate D 0 } with
          | error =>
            rw [List.range_eq_range'] at hl1
            obtain ⟨i, s, _, hi, hp, hs⟩ := for_loop_range'_error
              (dts_first_step opt D delta sdt (scale_ts (dts_compression_multiplier opt D) ts))
              (fun i st => ∀ k t, k < i → st.timestamp[k]? = some t →
                first_loop_dts opt D delta (scale_ts (dts_compression_multiplier opt D) ts) k
                  = some t.dts)
              (D + 1) 0 _ (fun k t hk _ => absurd hk (Nat.not_lt_zero k))
              (by
                intro i s s1 _ _ hq hs1 k t hk ht
                obtain ⟨d, u, hd, hu, hset⟩ := dts_first_step_ok_dts _ _ _ _ _ _ _ _ hs1
                rw [hset, List.getElem?_set] at ht
                by_cases hik : i = k
                · subst hik
                  rw [if_pos rfl, if_pos (List.getElem?_eq_some_iff.1 hu).1] at ht
                  cases ht
                  exact hd
                · rw [if_neg hik] at ht
                  exact hq k t (by omega) ht)
              hl1
            obtain ⟨hdc, hi0, d, p, hd, hpp, hle⟩ := dts_first_step_error _ _ _ _ _ _ _ hs
            exact ⟨hdc, delta, i, d, p.dts, rfl, by omega, by omega, hd,
              hp (i - 1) p (by omega) hpp, hle⟩
          | undef => rw [hl1] at h; cases h
          | ok st1 =>
            rw [hl1] at h
            simp only [] at h
            cases hl2 : for_loop (dts_second_step D sdt
                (scale_ts (dts_compression_multiplier opt D) ts))
                (List.range' (D + 1) (T.length - (D + 1))) st1 with
            | error =>
              exact absurd hl2 (for_loop_no_error _
                (fun s i => dts_second_step_no_error D sdt _ s i) _ st1)
            | undef => rw [hl2] at h; cases h
            | ok st2 =>
              rw [hl2] at h
              simp only [] at h
              cases hld : last_sample_delta_and_duration T.length
                  (scale_ts (dts_compression_multiplier opt D) ts) with
              | none => rw [hld] at h; cases h
              | some p => rw [hld] at h; cases h
  · rw [if_neg hD] at h
    split at h
    · cases h
    · split at h
      · cases h
      · cases h

theorem mod64_of_lt {a : Nat} (h : a < U64) : a % U64 = a := Nat.mod_eq_of_lt h

/-- The first DTS loop under DTS compression without a pinned timescale. -/
theorem dts_ramp_first_loop (opt : opt_t) (hdc : opt.dts_compression = 1)
    (hmt : opt.media_timescale = 0) (D delta : Nat) (ts1 : List Nat)
    (base : List lsmash_media_ts_t) (hD : D ≠ 0) (hDn : D < base.length)
    (hlen : base.length ≤ ts1.length) (hdelta : 0 < delta) (hdb : D * delta < U64)
    (hb : ∀ x ∈ ts1, x < U64) :
    ∃ st1, for_loop (dts_first_step opt D delta 0 ts1) (List.range (D + 1))
        { timestamp := base, prev_reordered_cts := List.replicate D 0 } = Ret.ok st1
      ∧ dts_ramp_inv ts1 delta D base.length (D + 1) st1 := by
  rw [List.range_eq_range']
  have hDpos : 0 < D := Nat.pos_of_ne_zero hD
  have h := for_loop_range' (dts_first_step opt D delta 0 ts1)
    (fun i st => dts_ramp_inv ts1 delta D base.length i st) (D + 1) 0
    { timestamp := base, prev_reordered_cts := List.replicate D 0 }
    ⟨rfl, List.length_replicate _ _, fun k t hk _ => absurd hk (Nat.not_lt_zero k),
      fun j x hj _ _ => absurd hj (Nat.not_lt_zero j)⟩
    (by
      intro i st _ hi hinv
      obtain ⟨h1, h2, h3, h4⟩ := hinv
      obtain ⟨x, hx⟩ := getElem?_of_lt ts1 i (by omega)
      obtain ⟨t, ht⟩ := getElem?_of_lt st.timestamp i (by rw [h1]; omega)
      have hlt : i * delta < U64 :=
        Nat.lt_of_le_of_lt (Nat.mul_le_mul_right delta (show i ≤ D by omega)) hdb
      have hfirst : first_loop_dts opt D delta ts1 i = some (i * delta) := by
        unfold first_loop_dts
        rw [if_neg (by rw [hdc]; decide)]
        simp only [hmt, ne_eq, not_true_eq_false, if_false, Nat.zero_mul, Nat.zero_add]
        rw [if_neg (by decide), mod64_of_lt hlt]
        simp [U32]
      refine ⟨{ timestamp := st.timestamp.set i { t with dts := i * delta },
                prev_reordered_cts := st.prev_reordered_cts.set (i % D) (add64 x 0) }, ?_, ?_⟩
      · unfold dts_first_step
        rw [hfirst, ht, hx]
        simp only []
        split
        · rename_i hc
          exfalso
          obtain ⟨_, hi0, hc⟩ := hc
          obtain ⟨p, hp⟩ := getElem?_of_lt st.timestamp (i - 1) (by rw [h1]; omega)
          rw [hp] at hc
          have hle := of_decide_eq_true hc
          rw [(h3 (i - 1) p (by omega) hp).1 (by omega)] at hle
          have : (i - 1) * delta < i * delta :=
            Nat.mul_lt_mul_of_pos_right (by omega) hdelta
          omega
        · rfl
      · refine ⟨?_, ?_, ?_, ?_⟩
        · simp only [List.length_set]; exact h1
        · simp only [List.length_set]; exact h2
        · intro k u hk hu
          simp only [] at hu
          rw [List.getElem?_set] at hu
          by_cases hik : i = k
          · subst hik
            rw [if_pos rfl, if_pos (List.getElem?_eq_some_iff.1 ht).1] at hu
            cases hu
            exact ⟨fun _ => rfl, fun hlt => absurd hlt (by omega)⟩
          · rw [if_neg hik] at hu
            exact h3 k u (by omega) hu
        · intro j y hj hle hy
          simp only []
          rw [List.getElem?_set]
          by_cases hij : j = i
          · subst hij
            rw [if_pos rfl, if_pos (by rw [h2]; exact Nat.mod_lt _ hDpos)]
            rw [hx] at hy
            cases hy
            unfold add64
            rw [Nat.add_zero, mod64_of_lt (hb x (mem_of_getElem?_some hx))]
          · rw [if_neg (fun h => (mod_ne_of_lt (show j < i by omega) (by omega)) h.symm)]
            exact h4 j y (by omega) (by omega) hy)
  simpa using h

/-- The second DTS loop under DTS compression. -/
theorem dts_ramp_second_loop (D delta : Nat) (ts1 : List Nat) (n : Nat)
    (st1 : DtsLoop) (hD : D ≠ 0) (hDn : D < n) (hlen : n ≤ ts1.length)
    (hb : ∀ x ∈ ts1, x < U64)
    (hinv : dts_ramp_inv ts1 delta D n (D + 1) st1) :
    ∃ st2, for_loop (dts_second_step D 0 ts1) (List.range' (D + 1) (n - (D + 1))) st1
        = Ret.ok st2
      ∧ dts_ramp_inv ts1 delta D n n st2 := by
  have hDpos : 0 < D := Nat.pos_of_ne_zero hD
  have h := for_loop_range' (dts_second_step D 0 ts1)
    (fun i st => dts_ramp_inv ts1 delta D n i st) (n - (D + 1)) (D + 1) st1 hinv
    (by
      intro i st hi1 hi2 hinv1
      obtain ⟨h1, h2, h3, h4⟩ := hinv1
      obtain ⟨x, hx⟩ := getElem?_of_lt ts1 i (by omega)
      obtain ⟨y, hy⟩ := getElem?_of_lt ts1 (i - D) (by omega)
      obtain ⟨t, ht⟩ := getElem?_of_lt st.timestamp i (by rw [h1]; omega)
      have hp := h4 (i - D) y (by omega) (by omega) hy
      refine ⟨{ timestamp := st.timestamp.set i { t with dts := y },
                prev_reordered_cts := st.prev_reordered_cts.set (i % D) (add64 x 0) }, ?_, ?_⟩
      · unfold dts_second_step
        rw [if_neg hD, hp, ht, hx]
      · refine ⟨?_, ?_, ?_, ?_⟩
        · simp only [List.length_set]; exact h1
        · simp only [List.length_set]; exact h2
        · intro k u hk hu
          simp only [] at hu
          rw [List.getElem?_set] at hu
          by_cases hik : i = k
          · subst hik
            rw [if_pos rfl, if_pos (List.getElem?_eq_some_iff.1 ht).1] at hu
            cases hu
            exact ⟨fun hle => absurd hle (by omega), fun _ => hy⟩
          · rw [if_neg hik] at hu
            exact h3 k u (by omega) hu
        · intro j z hj hle hz
          simp only []
          rw [List.getElem?_set]
          by_cases hij : j = i
          · subst hij
            rw [if_pos rfl, if_pos (by rw [h2]; exact Nat.mod_lt _ hDpos)]
            rw [hx] at hz
            cases hz
            unfold add64
            rw [Nat.add_zero, mod64_of_lt (hb x (mem_of_getElem?_some hx))]
          · rw [if_neg (fun h => (mod_ne_of_lt (show j < i by omega) (by omega)) h.symm)]
            exact h4 j z (by omega) (by omega) hz)
  rw [show D + 1 + (n - (D + 1)) = n by omega] at h
  exact h

/-- With DTS compression, no pinned timescale and a strictly increasing series
that starts at 0, lines 777-826 succeed, multiply the series by `D + 1` and
leave the DTS values described by `dts_ramp_inv`. -/
theorem generate_with_compression (opt : opt_t) (D timescale cd : Nat)
    (ts : List Nat) (T : List lsmash_media_ts_t)
    (hdc : opt.dts_compression = 1) (hmt : opt.media_timescale = 0)
    (hD : 0 < D) (hD32 : D + 1 < U32) (hDn : D < T.length) (hlen : ts.length = T.length)
    (h0 : ts[0]? = some 0) (hinc : ts.Pairwise (fun a b => a < b))
    (hbound : ∀ x ∈ ts, x * (D + 1) < U64) :
    ∃ r delta pr, ts[1]? = some delta ∧ 0 < delta
      ∧ edit_media_timeline_generate opt D timescale cd ts T = Ret.ok r
      ∧ r.ts = ts.map (fun x => x * (D + 1))
      ∧ dts_ramp_inv (ts.map (fun x => x * (D + 1))) delta D T.length T.length
          { timestamp := r.timestamp, prev_reordered_cts := pr } := by
  obtain ⟨delta, hdelta⟩ := getElem?_of_lt ts 1 (by omega)
  have hpos : 0 < delta := by
    obtain ⟨h0l, h0e⟩ := List.getElem?_eq_some_iff.1 h0
    obtain ⟨h1l, h1e⟩ := List.getElem?_eq_some_iff.1 hdelta
    have := List.pairwise_iff_getElem.1 hinc 0 1 h0l h1l (by omega)
    rw [h0e, h1e] at this
    exact this
  have hmul : dts_compression_multiplier opt D = D + 1 := by
    unfold dts_compression_multiplier
    rw [hdc, hmt, if_pos rfl, Nat.mul_one, Nat.one_mul]
    exact Nat.mod_eq_of_lt hD32
  have hscale : scale_ts (D + 1) ts = ts.map (fun x => x * (D + 1)) := by
    unfold scale_ts
    rw [if_pos (by omega)]
    exact List.map_congr_left (fun x hx => Nat.mod_eq_of_lt (hbound x hx))
  have hlen1 : (ts.map (fun x => x * (D + 1))).length = T.length := by
    rw [List.length_map, hlen]
  have hb : ∀ x ∈ ts.map (fun x => x * (D + 1)), x < U64 := by
    intro x hx
    obtain ⟨y, hy, hxy⟩ := List.mem_map.1 hx
    rw [← hxy]
    exact hbound y hy
  have hdb : D * delta < U64 := by
    have h1 := hbound delta (mem_of_getElem?_some hdelta)
    have h2 : D * delta ≤ delta * (D + 1) := by
      rw [Nat.mul_comm D delta]
      exact Nat.mul_le_mul_left delta (by omega)
    omega
  have hbase : (lsmash_sort_timestamps_decoding_order
      (generate_cts T (ts.map (fun x => x * (D + 1))) 0)).length = T.length := by
    unfold lsmash_sort_timestamps_decoding_order generate_cts
    rw [List.length_insertionSort, List.length_zipWith, hlen1, Nat.min_self]
  obtain ⟨st1, hl1, hinv1⟩ := dts_ramp_first_loop opt hdc hmt D delta
    (ts.map (fun x => x * (D + 1)))
    (lsmash_sort_timestamps_decoding_order (generate_cts T (ts.map (fun x => x * (D + 1))) 0))
    (by omega) (by rw [hbase]; exact hDn) (by rw [hbase, hlen1]) hpos hdb hb
  rw [hbase] at hinv1
  obtain ⟨st2, hl2, hinv2⟩ := dts_ramp_second_loop D delta (ts.map (fun x => x * (D + 1)))
    T.length st1 (by omega) hDn (by rw [hlen1]) hb hinv1
  obtain ⟨a, ha⟩ := getElem?_of_lt (ts.map (fun x => x * (D + 1))) (T.length - 1)
    (by rw [hlen1]; omega)
  obtain ⟨b, hb2⟩ := getElem?_of_lt (ts.map (fun x => x * (D + 1))) (T.length - 2)
    (by rw [hlen1]; omega)
  have heq : edit_media_timeline_generate opt D timescale cd ts T
      = Ret.ok { timestamp := st2.timestamp, ts := ts.map (fun x => x * (D + 1)),
                 timescale := (timescale * (D + 1)) % U32,
                 composition_delay := 0, last_sample_delta := (sub64 a b) % U32,
                 duration := add64 a ((sub64 a b) % U32) } := by
    unfold edit_media_timeline_generate
    simp only []
    rw [if_pos (by omega), hmul, hscale, hdelta]
    simp only []
    rw [if_pos (by rw [hdc]; decide)]
    simp only []
    rw [if_neg (by rw [hlen1]; omega), hl1]
    simp only []
    rw [hl2]
    simp only []
    unfold last_sample_delta_and_duration
    rw [if_pos (by omega), ha, hb2]
  exact ⟨_, delta, st2.prev_reordered_cts, hdelta, hpos, heq, rfl, hinv2⟩

/-- C27. With DTS compression enabled, no pinned media timescale, a maximum
sample delay `D > 0` (below the sample count, `D + 1` a `uint32_t`) and a
strictly increasing reconciled series `ts` with `ts[0] = 0` whose products
`ts[i] * (D + 1)` stay below 2^64, lines 777-826 of `edit_media_timeline` return
normally, multiply every `ts[i]` by `D + 1`, set `dts[i] = i * delta` for
`0 <= i <= D` (`delta` is the original `ts[1]`) and `dts[i] = (D + 1) * ts[i - D]`
for `i > D`; the DTS sequence is strictly increasing and the error of the DTS
compression is not returned.  For any input, that error is returned only when
DTS compression is enabled and the ramp `(i * initial_delta) /
(!!opt->media_timescale * sample_delay + 1)` fails to increase at some index
`0 < i <= sample_delay`. -/
theorem dts_compression_ramp_is_strictly_increasing (opt : opt_t) (D timescale cd : Nat)
    (ts : List Nat) (T : List lsmash_media_ts_t)
    (hdc : opt.dts_compression = 1) (hmt : opt.media_timescale = 0)
    (hD : 0 < D) (hD32 : D + 1 < U32) (hDn : D < T.length) (hlen : ts.length = T.length)
    (h0 : ts[0]? = some 0) (hinc : ts.Pairwise (fun a b => a < b))
    (hbound : ∀ x ∈ ts, x * (D + 1) < U64) :
    (∃ r delta, ts[1]? = some delta
      ∧ edit_media_timeline_generate opt D timescale cd ts T = Ret.ok r
      ∧ r.ts = ts.map (fun x => x * (D + 1))
      ∧ r.timestamp.length = T.length
      ∧ (∀ i, i ≤ D → ∃ t, r.timestamp[i]? = some t ∧ t.dts = i * delta)
      ∧ (∀ i, D < i → i < T.length →
          ∃ t y, r.timestamp[i]? = some t ∧ ts[i - D]? = some y ∧ t.dts = (D + 1) * y)
      ∧ (r.timestamp.map (fun t => t.dts)).Pairwise (fun a b => a < b))
    ∧ edit_media_timeline_generate opt D timescale cd ts T ≠ Ret.error
    ∧ (∀ (opt2 : opt_t) (D2 timescale2 cd2 : Nat) (ts2 : List Nat)
        (T2 : List lsmash_media_ts_t),
        edit_media_timeline_generate opt2 D2 timescale2 cd2 ts2 T2 = Ret.error →
        opt2.dts_compression ≠ 0
        ∧ ∃ delta i a b, ts2[1]? = some delta ∧ 0 < i ∧ i ≤ D2
            ∧ first_loop_dts opt2 D2 delta
                (scale_ts (dts_compression_multiplier opt2 D2) ts2) i = some a
            ∧ first_loop_dts opt2 D2 delta
                (scale_ts (dts_compression_multiplier opt2 D2) ts2) (i - 1) = some b
            ∧ a ≤ b) := by
  obtain ⟨r, delta, pr, hdelta, hpos, hr, hts, hl, _, hdts, _⟩ :=
    generate_with_compression opt D timescale cd ts T hdc hmt hD hD32 hDn hlen h0 hinc hbound
  simp only [] at hl hdts
  have hlow : ∀ i, i ≤ D → ∃ t, r.timestamp[i]? = some t ∧ t.dts = i * delta := by
    intro i hi
    obtain ⟨t, ht⟩ := getElem?_of_lt r.timestamp i (by rw [hl]; omega)
    exact ⟨t, ht, (hdts i t (by omega) ht).1 hi⟩
  have hhigh : ∀ i, D < i → i < T.length →
      ∃ t y, r.timestamp[i]? = some t ∧ ts[i - D]? = some y ∧ t.dts = (D + 1) * y := by
    intro i hi hin
    obtain ⟨t, ht⟩ := getElem?_of_lt r.timestamp i (by rw [hl]; exact hin)
    obtain ⟨y, hy⟩ := getElem?_of_lt ts (i - D) (by omega)
    have h1 := (hdts i t hin ht).2 hi
    rw [List.getElem?_map, hy] at h1
    simp only [Option.map_some', Option.some.injEq] at h1
    exact ⟨t, y, ht, hy, by rw [← h1, Nat.mul_comm]⟩
  refine ⟨⟨r, delta, hdelta, hr, hts, hl, hlow, hhigh, ?_⟩, ?_, ?_⟩
  · rw [List.pairwise_iff_getElem]
    intro a b ha hb hab
    rw [List.length_map, hl] at ha hb
    simp only [List.getElem_map]
    have hta : r.timestamp[a]? = some r.timestamp[a] := List.getElem?_eq_getElem _
    have htb : r.timestamp[b]? = some r.timestamp[b] := List.getElem?_eq_getElem _
    have hlt : ∀ {i j x y : Nat}, i < j → ts[i]? = some x → ts[j]? = some y → x < y := by
      intro i j x y hij hx hy
      obtain ⟨h0l, h0e⟩ := List.getElem?_eq_some_iff.1 hx
      obtain ⟨h1l, h1e⟩ := List.getElem?_eq_some_iff.1 hy
      have := List.pairwise_iff_getElem.1 hinc i j h0l h1l hij
      rw [h0e, h1e] at this
      exact this
    by_cases hbD : b ≤ D
    · obtain ⟨t1, ht1, hd1⟩ := hlow a (by omega)
      obtain ⟨t2, ht2, hd2⟩ := hlow b hbD
      rw [hta] at ht1
      rw [htb] at ht2
      cases ht1
      cases ht2
      rw [hd1, hd2]
      exact Nat.mul_lt_mul_of_pos_right hab hpos
    · obtain ⟨t2, y2, ht2, hy2, hd2⟩ := hhigh b (by omega) hb
      rw [htb] at ht2
      cases ht2
      rw [hd2]
      by_cases haD : a ≤ D
      · obtain ⟨t1, ht1, hd1⟩ := hlow a haD
        rw [hta] at ht1
        cases ht1
        rw [hd1]
        have hy1 : delta ≤ y2 :=
          pairwise_lt_getElem?_le hinc (show 1 ≤ b - D by omega) hdelta hy2
        calc a * delta ≤ D * delta := Nat.mul_le_mul_right delta haD
          _ < (D + 1) * delta := Nat.mul_lt_mul_of_pos_right (by omega) hpos
          _ ≤ (D + 1) * y2 := Nat.mul_le_mul_left (D + 1) hy1
      · obtain ⟨t1, y1, ht1, hy1, hd1⟩ := hhigh a (by omega) ha
        rw [hta] at ht1
        cases ht1
        rw [hd1]
        exact Nat.mul_lt_mul_of_pos_left (hlt (show a - D < b - D by omega) hy1 hy2)
          (by omega)
  · rw [hr]
    intro h
    cases h
  · intro opt2 D2 timescale2 cd2 ts2 T2 h
    exact generate_error_ramp opt2 D2 timescale2 cd2 ts2 T2 h

theorem dts_compression_ramp_is_strictly_increasing_witness :
    compression_opt.dts_compression = 1 ∧ compression_opt.media_timescale = 0
    ∧ 0 < 1 ∧ 1 + 1 < U32 ∧ 1 < ipbb_timestamps.length
    ∧ [0, 10, 20, 30].length = ipbb_timestamps.length
    ∧ [0, 10, 20, 30][0]? = some 0
    ∧ [0, 10, 20, 30].Pairwise (fun a b => a < b)
    ∧ (∀ x ∈ [0, 10, 20, 30], x * (1 + 1) < U64)
    ∧ (edit_media_timeline_generate compression_opt 1 24 0 [0, 10, 20, 30] ipbb_timestamps
        = Ret.ok { timestamp := [⟨0, 0⟩, ⟨10, 60⟩, ⟨20, 20⟩, ⟨40, 40⟩],
                   ts := [0, 20, 40, 60], timescale := 48, composition_delay := 0,
                   last_sample_delta := 20, duration := 80 })
    ∧ (∃ r delta, [0, 10, 20, 30][1]? = some delta
      ∧ edit_media_timeline_generate compression_opt 1 24 0 [0, 10, 20, 30] ipbb_timestamps
          = Ret.ok r
      ∧ r.ts = [0, 10, 20, 30].map (fun x => x * (1 + 1))
      ∧ r.timestamp.length = ipbb_timestamps.length
      ∧ (∀ i, i ≤ 1 → ∃ t, r.timestamp[i]? = some t ∧ t.dts = i * delta)
      ∧ (∀ i, 1 < i → i < ipbb_timestamps.length →
          ∃ t y, r.timestamp[i]? = some t ∧ [0, 10, 20, 30][i - 1]? = some y
            ∧ t.dts = (1 + 1) * y)
      ∧ (r.timestamp.map (fun t => t.dts)).Pairwise (fun a b => a < b)) :=
  ⟨rfl, rfl, by decide, by decide, by decide, rfl, rfl, by decide, by decide, by decide,
   (dts_compression_ramp_is_strictly_increasing compression_opt 1 24 0 [0, 10, 20, 30]
     ipbb_timestamps rfl rfl (by decide) (by decide) (by decide) rfl rfl (by decide)
     (by decide)).1⟩

/-! ## Theorem: the reconciled series starts at 0 and increases -/

section

variable {D : Type}

end

section

variable {D : Type}

end

/-- C22, evaluated: an input track with two sample descriptions of which the
second could not be read gets the remap table `[1, 0]`; the mux loop writes the
first sample and, from its third pass on, fetches the second sample, maps its
index to 0 and leaves everything as it is: `current_sample_number` stays 2, the
loop is still running after any number of passes and the third sample, which
exists, is never fetched. -/
theorem timelineeditor_zero_index_sample_stalls :
    create_tracks willing_track_engine unread_summary_movie [unread_track 0]
        = Ret.ok unread_summary_movies
    ∧ mux_run unread_summary_engine 2 (start_muxing unread_summary_movies)
        = Outcome.next unread_summary_stall
    ∧ mux_step unread_summary_engine unread_summary_stall = Outcome.next unread_summary_stall
    ∧ (∀ n, mux_run unread_summary_engine (n + 2) (start_muxing unread_summary_movies)
        = Outcome.next unread_summary_stall)
    ∧ unread_summary_stall.events = [MuxEvent.append_sample 1 (mux_sample 0 1)]
    ∧ (at1 unread_summary_stall.in_movie.track
          unread_summary_stall.in_movie.current_track_number).map
        (fun t => (t.current_sample_number, t.reach_end_of_media_timeline))
        = some (2, false)
    ∧ unread_summary_engine.get_sample_from_media_timeline 1 2 = some (mux_sample 1 2)
    ∧ timelineeditor_description_index 2 [1, 0] 2 = some 0
    ∧ unread_summary_engine.check_sample_existence_in_media_timeline 1 3 = true := by
  have hstep : mux_step unread_summary_engine unread_summary_stall
      = Outcome.next unread_summary_stall := rfl
  have hstall : ∀ n, mux_run unread_summary_engine n unread_summary_stall
      = Outcome.next unread_summary_stall := by
    intro n
    induction n with
    | zero => rfl
    | succ n ih =>
      simp only [mux_run, hstep]
      exact ih
  have h2 : ∀ n s, mux_run unread_summary_engine 2 s = Outcome.next unread_summary_stall →
      mux_run unread_summary_engine (n + 2) s = Outcome.next unread_summary_stall := by
    intro n s h
    simp only [mux_run] at h ⊢
    cases h1 : mux_step unread_summary_engine s with
    | next s1 =>
      rw [h1] at h
      simp only [] at h ⊢
      cases h3 : mux_step unread_summary_engine s1 with
      | next s2 =>
        rw [h3] at h
        simp only [] at h ⊢
        cases h
        exact hstall n
      | brk s2 => rw [h3] at h; cases h
      | ret v s2 => rw [h3] at h; cases h
      | undef => rw [h3] at h; cases h
    | brk s1 => rw [h1] at h; cases h
    | ret v s1 => rw [h1] at h; cases h
    | undef => rw [h1] at h; cases h
  exact ⟨by decide, rfl, hstep, fun n => h2 n _ rfl, rfl, rfl, rfl, rfl, rfl⟩

/-- C30, evaluated: for an input movie whose second track could not be read,
the output movie counts one track; after the first pass of the mux loop the
input cursor is 2 and the output cursor is 1; the second pass reads the unread
track, counts it as ended and leaves the loop, although the first track has not
reached its end and its second sample exists. -/
theorem timelineeditor_unread_track_ends_mux_loop :
    create_tracks willing_track_engine unread_track_movie [unread_track 0, unread_track 0]
        = Ret.ok unread_track_movies
    ∧ mux_run unread_track_engine 1 (start_muxing unread_track_movies)
        = Outcome.next unread_track_second_pass
    ∧ unread_track_second_pass.in_movie.current_track_number = 2
    ∧ unread_track_second_pass.out_movie.current_track_number = 1
    ∧ mux_run unread_track_engine 2 (start_muxing unread_track_movies)
        = Outcome.brk unread_track_end
    ∧ (∀ n, mux_run unread_track_engine (n + 2) (start_muxing unread_track_movies)
        = Outcome.brk unread_track_end)
    ∧ unread_track_end.events = [MuxEvent.append_sample 1 (mux_sample 0 1)]
    ∧ (at1 unread_track_end.in_movie.track 1).map
        (fun t => (t.active, t.current_sample_number, t.reach_end_of_media_timeline))
        = some (true, 2, false)
    ∧ unread_track_engine.check_sample_existence_in_media_timeline 1 2 = true := by
  have h1 : mux_step unread_track_engine (start_muxing unread_track_movies)
      = Outcome.next unread_track_second_pass := rfl
  have h2 : mux_step unread_track_engine unread_track_second_pass
      = Outcome.brk unread_track_end := rfl
  refine ⟨by decide, rfl, rfl, rfl, rfl, ?_, rfl, rfl, rfl⟩
  intro n
  simp only [mux_run, h1, h2]

end LSmash
